import Mathlib

/-! SPPARKS `app_ald_TMA`: shallow embedding of the KMC site-event engine

Source: `src/src/app_ald_TMA.cpp` (class `AppAldTMA`).

Modelling conventions

* C `int` values are `Int` (no overflow is modelled; every quantity here is a
  site index, a reaction index, a species code or a small counter).
* C `double` values are exact rationals `ℚ`; `+`, `*`, `<`, `<=`, `==` are the
  exact operations.  The constant `0.1` is `1/10`.
* C arrays are total functions `Int → α`; a write `a[i] = v` is `upd a i v`.
  An out-of-range read returns whatever the function holds there.
* `for (x = 0; x < n; x++)` runs over `irange n`.
* `error->all` aborts the run: the operation returns `Except.error Fault.fatal`.
* `while` loops take a fuel argument; running out of it is `Fault.fuel`.
-/

namespace AppAldTMA

/-! ## Species (line 14) -/

def VACANCY : Int := 0
def O : Int := 1
def OH : Int := 2
def Ala : Int := 3
def OHAlaX3 : Int := 4
def OAlaX2 : Int := 5
def OAlaX2H2O : Int := 6
def OAlaXOH : Int := 7
def OAlaX : Int := 8
def OAlaOH : Int := 9
def OAlaOH2 : Int := 10
def AlaOH : Int := 11
def AlaOH2 : Int := 12
def Alb : Int := 13
def OHAlbX3 : Int := 14
def OAlbX2 : Int := 15
def OAlbX2H2O : Int := 16
def OAlbXOH : Int := 17
def OAlbX : Int := 18
def OAlbOH : Int := 19
def OAlbOH2 : Int := 20
def AlbOH : Int := 21
def AlbOH2 : Int := 22
def OAla : Int := 23
def OAlb : Int := 24
def H2O : Int := 25

/-- The `#define DELTAEVENT 100000` of line 17. -/
def DELTAEVENT : Int := 100000

/-- The sentinel `COORD_ALL`; its value `-999` is the one documented at
`parse_coord_value` (line 139). -/
def COORD_ALL : Int := -999

/-! ## Basic helpers -/

/-- Ways an operation can fail to return: `fatal` is `error->all`, `fuel` is a
`while` loop that did not finish within the given fuel. -/
inductive Fault where
  | fatal : Fault
  | fuel : Fault
  deriving DecidableEq, Repr

/-- Index range of `for (x = 0; x < n; x++)`. -/
def irange (n : Int) : List Int :=
  (List.range n.toNat).map Int.ofNat

/-- Array write `a[i] = v`. -/
def upd {α : Type} (a : Int → α) (i : Int) (v : α) : Int → α :=
  fun x => if x = i then v else a x

/-- C truth value of an `int` used as a condition. -/
def cTrue (n : Int) : Bool := n != 0

/-! ## Data model (`app_ald_TMA.h`) -/

/-- Record `struct Event` (header lines 83-89). -/
structure Event where
  style : Int
  which : Int
  jpartner : Int
  kpartner : Int
  gpartner : Int
  next : Int
  propensity : ℚ
  deriving DecidableEq

/-- The event arena members `events, nevents, maxevent, firstevent, freeevent`
(header lines 91-95). -/
structure EventStore where
  events : Int → Event
  nevents : Int
  maxevent : Int
  firstevent : Int → Int
  freeevent : Int

/-- Data that is fixed during a run: the host lattice (`nlocal`, `numneigh`,
`neighbor`, `i2site`), the same-z table, the declared reactions with their
propensity tables, the pulse durations, and the rate parameters `A`, `n`, `Ea` of the
declared reactions as the `event` command stored them (`sA`, `sexpon`, `srate`, ...),
from which `setup_app` fills the propensity tables. -/
structure App where
  nlocal : Int
  numneigh : Int → Int
  neighbor : Int → Int → Int
  i2site : Int → Int
  num_same_z_neighbors : Int → Int
  same_z_neighbors : Int → Int → Int
  none : Int
  ntwo : Int
  nthree : Int
  nfour : Int
  sinput : Int → Int
  soutput : Int → Int
  scoord : Int → Int
  spresson : Int → Int
  spropensity : Int → ℚ
  dinput : Int → Int → Int
  doutput : Int → Int → Int
  dcoord : Int → Int
  dcoord2 : Int → Int
  dpresson : Int → Int
  dpropensity : Int → ℚ
  vinput : Int → Int → Int
  voutput : Int → Int → Int
  vcoord : Int → Int
  vcoord2 : Int → Int
  vpresson : Int → Int
  vpropensity : Int → ℚ
  finput : Int → Int → Int
  foutput : Int → Int → Int
  fcoord : Int → Int
  fcoord2 : Int → Int
  fpresson : Int → Int
  fpropensity : Int → ℚ
  T1 : ℚ
  T2 : ℚ
  T3 : ℚ
  T4 : ℚ
  sA : Int → ℚ := fun _ => 0
  sexpon : Int → Int := fun _ => 0
  srate : Int → ℚ := fun _ => 0
  dA : Int → ℚ := fun _ => 0
  dexpon : Int → Int := fun _ => 0
  drate : Int → ℚ := fun _ => 0
  vA : Int → ℚ := fun _ => 0
  vexpon : Int → Int := fun _ => 0
  vrate : Int → ℚ := fun _ => 0
  fA : Int → ℚ := fun _ => 0
  fexpon : Int → Int := fun _ => 0
  frate : Int → ℚ := fun _ => 0

/-- Mutable members of `AppAldTMA` together with the host array `propensity`. -/
structure State where
  element : Int → Int
  coord : Int → Int
  pressureOn : Int
  cycle : ℚ
  es : EventStore
  comneigh : Int → Int → ℚ
  comevent : Int
  echeck : Int → Int
  esites : Int → Int
  propensity : Int → ℚ
  scount : Int → Int
  dcount : Int → Int
  vcount : Int → Int
  fcount : Int → Int

/-! ## Event store (lines 842-886) -/

/-- The `while (index >= 0)` loop of `clear_events`. -/
def clear_loop : Nat → EventStore → Int → Except Fault EventStore
  | 0, es, index => if 0 ≤ index then .error Fault.fuel else .ok es
  | fuel + 1, es, index =>
    if 0 ≤ index then
      let next := (es.events index).next
      clear_loop fuel
        { es with
          events := upd es.events index { es.events index with next := es.freeevent }
          freeevent := index
          nevents := es.nevents - 1 }
        next
    else .ok es

/-- Function `clear_events(i)` (lines 842-854). -/
def clear_events (fuel : Nat) (es : EventStore) (i : Int) : Except Fault EventStore :=
  match clear_loop fuel es (es.firstevent i) with
  | .ok es1 => .ok { es1 with firstevent := upd es1.firstevent i (-1) }
  | .error e => .error e

/-- The arena growth at the top of `add_event` (lines 864-870). -/
def grow_events (es : EventStore) : EventStore :=
  if es.nevents = es.maxevent then
    let maxevent1 := es.maxevent + DELTAEVENT
    { es with
      maxevent := maxevent1
      events := fun m =>
        if es.nevents ≤ m ∧ m < maxevent1 then { es.events m with next := m + 1 }
        else es.events m
      freeevent := es.nevents }
  else es

/-- Function `add_event(i, rstyle, which, propensity, jpartner, kpartner, gpartner)`
(lines 861-886). -/
def add_event (es0 : EventStore) (i rstyle which : Int) (propensity : ℚ)
    (jpartner kpartner gpartner : Int) : Except Fault EventStore :=
  let es := grow_events es0
  let next := (es.events es.freeevent).next
  if propensity = 0 then .error Fault.fatal
  else
    .ok { es with
      events := upd es.events es.freeevent
        { style := rstyle, which := which, jpartner := jpartner, kpartner := kpartner,
          gpartner := gpartner, next := es.firstevent i, propensity := propensity }
      firstevent := upd es.firstevent i es.freeevent
      freeevent := next
      nevents := es.nevents + 1 }

/-! ## Event enumerator `site_propensity` (lines 478-579) -/

/-- Function `coord_matches` (lines 129-136). -/
def coord_matches (site_coord required_coord : Int) : Bool :=
  if required_coord = COORD_ALL then true else decide (site_coord = required_coord)

/-- The expression `coord[x] < 0 ? (coord[x] % 10 + 10) : (coord[x] % 10)` with the
truncating `%` of C (lines 487, 508, 509, 538, 539, 558, 559). -/
def coordmod (c : Int) : Int :=
  if c < 0 then Int.tmod c 10 + 10 else Int.tmod c 10

/-- The event fields passed to `add_event`: an `Event` without its `next` link. -/
structure EvData where
  style : Int
  which : Int
  jpartner : Int
  kpartner : Int
  gpartner : Int
  propensity : ℚ
  deriving DecidableEq

/-- Local variables and scratch members threaded through the loops of
`site_propensity`: the event store (of type `σ`), `comneigh`, `comevent`,
`proball` and `nextneib`. -/
structure Enum (σ : Type) where
  store : σ
  comneigh : Int → Int → ℚ
  comevent : Int
  proball : ℚ
  nextneib : Int

section Enumerator

variable {σ : Type}
variable (add : σ → Int → Int → Int → ℚ → Int → Int → Int → Except Fault σ)

/-- Body of the Type I loop (lines 486-498). -/
def type1_m (app : App) (st : State) (i : Int) (e : Enum σ) (m : Int) :
    Except Fault (Enum σ) :=
  let coordi := coordmod (st.coord i)
  if st.element i = app.sinput m ∧
      coord_matches (st.coord i) (app.scoord m) = true ∧
      (app.spresson m = st.pressureOn ∨ app.spresson m = 0) ∧
      coordi ≤ app.numneigh i then
    match add e.store i 1 m (app.spropensity m) (-1) (-1) (-1) with
    | .ok s => .ok { e with store := s, proball := e.proball + app.spropensity m }
    | .error err => .error err
  else .ok e

/-- Body of the innermost Type II loop over reactions (lines 507-530). -/
def type2_m (app : App) (st : State) (i k : Int) (e : Enum σ) (m : Int) :
    Except Fault (Enum σ) :=
  let coordi := coordmod (st.coord i)
  let coordk := coordmod (st.coord k)
  if (st.element i = app.dinput m 0 ∧ st.element k = app.dinput m 1) ∧
      (app.dpresson m = st.pressureOn ∨ app.dpresson m = 0) ∧
      coord_matches (st.coord i) (app.dcoord m) = true ∧
      coord_matches (st.coord k) (app.dcoord2 m) = true ∧
      coordi ≤ app.numneigh i ∧ coordk < app.numneigh k then
    let comevent : Int :=
      (irange e.nextneib).foldl
        (fun ce ii =>
          if e.comneigh ii 0 = (k : ℚ) ∧ e.comneigh ii 1 = app.dpropensity m then 0 else ce)
        1
    if comevent ≠ 0 then
      match add e.store i 2 m (app.dpropensity m) (-1) k (-1) with
      | .ok s =>
        .ok { store := s
              comneigh := upd e.comneigh e.nextneib
                (upd (upd (e.comneigh e.nextneib) 0 (k : ℚ)) 1 (app.dpropensity m))
              comevent := comevent
              proball := e.proball + app.dpropensity m
              nextneib := e.nextneib + 1 }
      | .error err => .error err
    else .ok { e with comevent := comevent }
  else .ok e

/-- Body of the Type II loop over `kk` (lines 504-531). -/
def type2_kk (app : App) (st : State) (i j : Int) (e : Enum σ) (kk : Int) :
    Except Fault (Enum σ) :=
  let k := app.neighbor j kk
  if i = k then .ok e
  else (irange app.ntwo).foldlM (type2_m add app st i k) e

/-- Body of the Type II loop over `jj` (lines 502-532). -/
def type2_jj (app : App) (st : State) (i : Int) (e : Enum σ) (jj : Int) :
    Except Fault (Enum σ) :=
  let j := app.neighbor i jj
  (irange (app.numneigh j)).foldlM (type2_kk add app st i j) e

/-- Body of the inner Type III loop over reactions (lines 537-551). -/
def type3_m (app : App) (st : State) (i j : Int) (e : Enum σ) (m : Int) :
    Except Fault (Enum σ) :=
  let coordi := coordmod (st.coord i)
  let coordj := coordmod (st.coord j)
  if st.element i = app.vinput m 0 ∧ st.element j = app.vinput m 1 ∧
      coord_matches (st.coord i) (app.vcoord m) = true ∧
      coord_matches (st.coord j) (app.vcoord2 m) = true ∧
      (app.vpresson m = st.pressureOn ∨ app.vpresson m = 0) ∧
      coordi ≤ app.numneigh i ∧ coordj < app.numneigh j then
    match add e.store i 3 m (app.vpropensity m) j (-1) (-1) with
    | .ok s => .ok { e with store := s, proball := e.proball + app.vpropensity m }
    | .error err => .error err
  else .ok e

/-- Body of the Type III loop over `jj` (lines 535-552). -/
def type3_jj (app : App) (st : State) (i : Int) (e : Enum σ) (jj : Int) :
    Except Fault (Enum σ) :=
  let j := app.neighbor i jj
  (irange app.nthree).foldlM (type3_m add app st i j) e

/-- Body of the inner Type IV loop over reactions (lines 557-571). -/
def type4_m (app : App) (st : State) (i g : Int) (e : Enum σ) (m : Int) :
    Except Fault (Enum σ) :=
  let coordi := coordmod (st.coord i)
  let coordg := coordmod (st.coord g)
  if st.element i = app.finput m 0 ∧ st.element g = app.finput m 1 ∧
      coord_matches (st.coord i) (app.fcoord m) = true ∧
      coord_matches (st.coord g) (app.fcoord2 m) = true ∧
      (app.fpresson m = st.pressureOn ∨ app.fpresson m = 0) ∧
      coordi ≤ app.numneigh i ∧ coordg < app.numneigh g then
    match add e.store i 4 m (app.fpropensity m) (-1) (-1) g with
    | .ok s => .ok { e with store := s, proball := e.proball + app.fpropensity m }
    | .error err => .error err
  else .ok e

/-- Body of the Type IV loop over `p` (lines 555-572). -/
def type4_p (app : App) (st : State) (i : Int) (e : Enum σ) (p : Int) :
    Except Fault (Enum σ) :=
  let g := app.same_z_neighbors i p
  (irange app.nfour).foldlM (type4_m add app st i g) e

/-- The null event (lines 574-576). -/
def type5 (i : Int) (e : Enum σ) : Except Fault (Enum σ) :=
  match add e.store i 5 0 (1 / 10) (-1) (-1) (-1) with
  | .ok s => .ok { e with store := s, proball := e.proball + 1 / 10 }
  | .error err => .error err

/-- Everything `site_propensity(i)` does after `clear_events(i)` (lines 483-578),
written over the operation `add` that stands for `add_event`; `site_propensity`
below instantiates it with `add_event` itself. -/
def enumerate (app : App) (st : State) (i : Int) (s0 : σ) : Except Fault (Enum σ) := do
  let e0 : Enum σ :=
    { store := s0, comneigh := st.comneigh, comevent := st.comevent, proball := 0,
      nextneib := 0 }
  let e1 ← (irange app.none).foldlM (type1_m add app st i) e0
  let e2 ← (irange (app.numneigh i)).foldlM (type2_jj add app st i) { e1 with nextneib := 1 }
  let e3 ← (irange (app.numneigh i)).foldlM (type3_jj add app st i) e2
  let e4 ← (irange (app.num_same_z_neighbors i)).foldlM (type4_p add app st i) e3
  type5 add i e4

end Enumerator

/-- Function `site_propensity(i)` (lines 478-579): the new state and the returned
total. -/
def site_propensity (app : App) (fuel : Nat) (st : State) (i : Int) :
    Except Fault (State × ℚ) := do
  let es0 ← clear_events fuel st.es i
  let e ← enumerate add_event app st i es0
  pure ({ st with es := e.store, comneigh := e.comneigh, comevent := e.comevent }, e.proball)

/-- An event store that is just the list of the events added, newest first; it
fails on a zero propensity exactly as `add_event` does (line 881). -/
def list_add (l : List EvData) (_i rstyle which : Int) (propensity : ℚ)
    (jpartner kpartner gpartner : Int) : Except Fault (List EvData) :=
  if propensity = 0 then .error Fault.fatal
  else .ok (⟨rstyle, which, jpartner, kpartner, gpartner, propensity⟩ :: l)

/-- The events one call `site_propensity(i)` adds, newest first. -/
def added_events (app : App) (st : State) (i : Int) : Except Fault (Enum (List EvData)) :=
  enumerate list_add app st i []

/-! ## Coordination and mask field (lines 983-1167) -/

/-- Function `count_coord(i)` (lines 983-996). -/
def count_coord (app : App) (st : State) (i : Int) : State :=
  let c := st.coord i
  let c0 : Int :=
    if 0 ≤ c then 0
    else if -10 < c ∧ c < 0 then -10
    else if -20 < c ∧ c < -10 then -20
    else if -30 < c ∧ c < -20 then -30
    else if -40 < c ∧ c < -30 then -40
    else if -50 < c ∧ c < -40 then -50
    else c
  (irange (app.numneigh i)).foldl
    (fun s ss =>
      let nn := app.neighbor i ss
      if s.element nn ≠ VACANCY then { s with coord := upd s.coord i (s.coord i + 1) } else s)
    { st with coord := upd st.coord i c0 }

/-- The closing loop `for (m = 0; m < nsites; m++) {echeck[esites[m]] = 0; esites[m]=0;}`
shared by the mask functions and `site_event` (lines 833, 1064, 1097, 1134, 1163). -/
def clear_echeck (st : State) (nsites : Int) : State :=
  (irange nsites).foldl
    (fun s m => { s with echeck := upd s.echeck (s.esites m) 0, esites := upd s.esites m 0 })
    st

/-- The marking block `if (isite >= 0 && echeck[isite] == 0) { echeck[isite] = 1;
esites[nsites++] = isite; coord[x] += d; }` of the mask functions. -/
def mask_mark (app : App) (d : Int) (acc : State × Int) (x : Int) : State × Int :=
  let st := acc.1
  let nsites := acc.2
  let isite := app.i2site x
  if 0 ≤ isite ∧ st.echeck isite = 0 then
    ({ st with
        echeck := upd st.echeck isite 1
        esites := upd st.esites nsites isite
        coord := upd st.coord x (st.coord x + d) },
      nsites + 1)
  else acc

/-- The common shape of `put_mask` and `remove_mask` (lines 1033-1066 and
1103-1136): `d1` is added to `coord` on the first shell and `d2` on the second. -/
def mask_shells (app : App) (d1 d2 : Int) (st : State) (i : Int) : State :=
  let isite := app.i2site i
  let st0 := { st with echeck := upd st.echeck isite 1, esites := upd st.esites 0 isite }
  let r := (irange (app.numneigh i)).foldl
    (fun acc s =>
      let nn := app.neighbor i s
      let acc1 := mask_mark app d1 acc nn
      (irange (app.numneigh nn)).foldl
        (fun acc2 ss => mask_mark app d2 acc2 (app.neighbor nn ss))
        acc1)
    (st0, 1)
  clear_echeck r.1 r.2

/-- Function `put_mask(i)` (lines 1033-1066): `coord -= 0` on the first shell,
`coord -= 50` on the second. -/
def put_mask (app : App) (st : State) (i : Int) : State :=
  mask_shells app (-0) (-50) st i

/-- Function `remove_mask(i)` (lines 1103-1136): `coord += 0` on the first shell,
`coord += 50` on the second. -/
def remove_mask (app : App) (st : State) (i : Int) : State :=
  mask_shells app 0 50 st i

/-- The common shape of `put_mask_2` and `remove_mask_2` (lines 1072-1101 and
1138-1167). -/
def mask_same_z (app : App) (d : Int) (st : State) (i : Int) : State :=
  let isite := app.i2site i
  let st0 := { st with echeck := upd st.echeck isite 1, esites := upd st.esites 0 isite }
  let r := (irange (app.num_same_z_neighbors i)).foldl
    (fun acc j => mask_mark app d acc (app.same_z_neighbors i j))
    (st0, 1)
  clear_echeck r.1 r.2

/-- Function `put_mask_2(i)` (lines 1072-1101). -/
def put_mask_2 (app : App) (st : State) (i : Int) : State :=
  mask_same_z app (-10) st i

/-- Function `remove_mask_2(i)` (lines 1138-1167). -/
def remove_mask_2 (app : App) (st : State) (i : Int) : State :=
  mask_same_z app 10 st i

/-! ## Event executor `site_event` (lines 686-835) -/

/-- The event walk `while (1) { proball += events[ievent].propensity; if (proball >=
threshhold) break; ievent = events[ievent].next; }` (lines 694-699). -/
def event_walk (events : Int → Event) (threshhold : ℚ) : Nat → ℚ → Int → Except Fault Int
  | 0, _, _ => .error Fault.fuel
  | fuel + 1, proball, ievent =>
    let proball1 := proball + (events ievent).propensity
    if proball1 ≥ threshhold then .ok ievent
    else event_walk events threshhold fuel proball1 (events ievent).next

/-- The event chosen by `site_event(i)` for the uniform draw `uniform`
(lines 691-699). -/
def select_event (app : App) (fuel : Nat) (st : State) (i : Int) (uniform : ℚ) :
    Except Fault Int :=
  event_walk st.es.events (uniform * st.propensity (app.i2site i)) fuel 0 (st.es.firstevent i)

/-- The species mutation and counter increment per style (lines 713-734). -/
def apply_event (app : App) (st : State) (i rstyle which j k g : Int) : Except Fault State :=
  if rstyle = 1 then
    .ok { st with
      element := upd st.element i (app.soutput which)
      scount := upd st.scount which (st.scount which + 1) }
  else if rstyle = 2 ∧ j = -1 then
    .ok { st with
      element := upd (upd st.element i (app.doutput which 0)) k (app.doutput which 1)
      dcount := upd st.dcount which (st.dcount which + 1) }
  else if rstyle = 3 ∧ k = -1 then
    .ok { st with
      element := upd (upd st.element i (app.voutput which 0)) j (app.voutput which 1)
      vcount := upd st.vcount which (st.vcount which + 1) }
  else if rstyle = 4 then
    .ok { st with
      element := upd (upd st.element i (app.foutput which 0)) g (app.foutput which 1)
      fcount := upd st.fcount which (st.fcount which + 1) }
  else if rstyle = 5 then .ok st
  else .error Fault.fatal

/-- The pulse schedule (lines 738-744) at simulation time `time`. -/
def pulse_update (app : App) (st : State) (time : ℚ) : State :=
  if st.cycle + app.T1 > time then { st with pressureOn := 1 }
  else if st.cycle + app.T1 ≤ time ∧ time < st.cycle + app.T1 + app.T2 then
    { st with pressureOn := 3 }
  else if st.cycle + app.T1 + app.T2 ≤ time ∧
      time < st.cycle + app.T1 + app.T2 + app.T3 then
    { st with pressureOn := 2 }
  else if st.cycle + app.T1 + app.T2 + app.T3 ≤ time ∧
      time < st.cycle + app.T1 + app.T2 + app.T3 + app.T4 then
    { st with pressureOn := 3 }
  else { st with cycle := st.cycle + (app.T1 + app.T2 + app.T3 + app.T4) }

/-- Which mask functions the block of lines 752-777 calls. -/
inductive MaskAction where
  | noMask : MaskAction
  | removeAt : Int → MaskAction
  | putAt : Int → MaskAction
  deriving DecidableEq

/-- The conditions of the mask block (lines 752-777), transcribed with the C reading
of `a == B || C` as `(a == B) || (C != 0)`. `elcoord_i`, `elcoord_g` are the species
before the event; `st` is the state after the mutation. -/
def mask_action (st : State) (i g rstyle elcoord_i elcoord_g : Int) : MaskAction :=
  if rstyle = 1 then
    if (elcoord_i = OHAlaX3 ∨ elcoord_i = OHAlbX3) ∧ st.element i = OH then
      MaskAction.removeAt i
    else if (decide (elcoord_i = OAlaX2H2O) || cTrue OAlbX2H2O) &&
        (decide (st.element i = OAlaXOH) || cTrue OAlbXOH) then
      MaskAction.removeAt i
    else MaskAction.noMask
  else if rstyle = 3 then
    if elcoord_i = OH ∧ (st.element i = OHAlaX3 ∨ st.element i = OHAlbX3) then
      MaskAction.putAt i
    else MaskAction.noMask
  else if rstyle = 4 then
    if (decide (elcoord_g = OAlaX2) || cTrue OAlbX2) &&
        (decide (st.element g = OAlaX) || cTrue OAlbX) then
      MaskAction.removeAt g
    else MaskAction.noMask
  else MaskAction.noMask

/-- The calls made for a mask action: `remove_mask(x); remove_mask_2(x)` or
`put_mask(x); put_mask_2(x)`. -/
def run_mask (app : App) (st : State) : MaskAction → State
  | MaskAction.noMask => st
  | MaskAction.removeAt x => remove_mask_2 app (remove_mask app st x) x
  | MaskAction.putAt x => put_mask_2 app (put_mask app st x) x

/-- The block `count_coord(s); propensity[isite] = site_propensity(s);
esites[nsites++] = isite; echeck[isite] = 1;` (lines 779-782 and the bodies of the
four guarded copies). -/
def refresh_site (app : App) (fuel : Nat) (acc : State × Int) (s : Int) :
    Except Fault (State × Int) :=
  let isite := app.i2site s
  match site_propensity app fuel (count_coord app acc.1 s) s with
  | .ok (st1, p) =>
    .ok ({ st1 with
            propensity := upd st1.propensity isite p
            esites := upd st1.esites acc.2 isite
            echeck := upd st1.echeck isite 1 },
          acc.2 + 1)
  | .error err => .error err

/-- The guarded copy `if (isite >= 0 && echeck[isite] == 0) { ... }`
(lines 786-792, 796-802, 806-812, 816-822). -/
def refresh_guarded (app : App) (fuel : Nat) (acc : State × Int) (s : Int) :
    Except Fault (State × Int) :=
  if 0 ≤ app.i2site s ∧ acc.1.echeck (app.i2site s) = 0 then refresh_site app fuel acc s
  else .ok acc

/-- Loop over `gg` (lines 813-823). -/
def refresh_l4 (app : App) (fuel : Nat) (s : Int) (acc : State × Int) :
    Except Fault (State × Int) :=
  (irange (app.numneigh s)).foldlM
    (fun a gg => refresh_guarded app fuel a (app.neighbor s gg)) acc

/-- Loop over `ss` (lines 803-824). -/
def refresh_l3 (app : App) (fuel : Nat) (mm : Int) (acc : State × Int) :
    Except Fault (State × Int) :=
  (irange (app.numneigh mm)).foldlM
    (fun a ss =>
      match refresh_guarded app fuel a (app.neighbor mm ss) with
      | .ok a1 => refresh_l4 app fuel (app.neighbor mm ss) a1
      | .error err => .error err)
    acc

/-- Loop over `jj` (lines 793-825). -/
def refresh_l2 (app : App) (fuel : Nat) (m : Int) (acc : State × Int) :
    Except Fault (State × Int) :=
  (irange (app.numneigh m)).foldlM
    (fun a jj =>
      match refresh_guarded app fuel a (app.neighbor m jj) with
      | .ok a1 => refresh_l3 app fuel (app.neighbor m jj) a1
      | .error err => .error err)
    acc

/-- Loop over `n` (lines 783-826). -/
def refresh_l1 (app : App) (fuel : Nat) (i : Int) (acc : State × Int) :
    Except Fault (State × Int) :=
  (irange (app.numneigh i)).foldlM
    (fun a n =>
      match refresh_guarded app fuel a (app.neighbor i n) with
      | .ok a1 => refresh_l2 app fuel (app.neighbor i n) a1
      | .error err => .error err)
    acc

/-- Everything `site_event` does once the event `ievent` is chosen
(lines 701-835). The second component of the result is the site list
`esites[0..nsites)` handed to `solve->update`. The reads `elcoord_j` and `elcoord_k`
(lines 707-708) are never used afterwards and are left out. -/
def execute_event (app : App) (fuel : Nat) (st : State) (i ievent : Int) (time : ℚ) :
    Except Fault (State × List Int) := do
  let rstyle := (st.es.events ievent).style
  let which := (st.es.events ievent).which
  let j := (st.es.events ievent).jpartner
  let k := (st.es.events ievent).kpartner
  let g := (st.es.events ievent).gpartner
  let elcoord_i := st.element i
  let elcoord_g := st.element g
  let st1 ← apply_event app st i rstyle which j k g
  let st2 := pulse_update app st1 time
  let st3 := run_mask app st2 (mask_action st2 i g rstyle elcoord_i elcoord_g)
  let a0 ← refresh_site app fuel (st3, 0) i
  let a1 ← refresh_l1 app fuel i a0
  let touched := (irange a1.2).map a1.1.esites
  pure (clear_echeck a1.1 a1.2, touched)

/-- Function `site_event(i, random)` (lines 686-835); `uniform` is the value of
`random->uniform()` and `time` the host's simulation time. -/
def site_event (app : App) (fuel : Nat) (st : State) (i : Int) (uniform time : ℚ) :
    Except Fault (State × List Int) := do
  let ievent ← select_event app fuel st i uniform
  execute_event app fuel st i ievent time

/-- The resets `setup_app` performs on the scratch marker, the event arena and the
counters (lines 427-433, 441, 446, 451, 456). -/
def setup_app (app : App) (st : State) : State :=
  { st with
    echeck := fun i => if 0 ≤ i ∧ i < app.nlocal then 0 else st.echeck i
    es :=
      { events := fun i =>
          if 0 ≤ i ∧ i < st.es.maxevent then { st.es.events i with next := i + 1 }
          else st.es.events i
        nevents := 0
        maxevent := st.es.maxevent
        firstevent := fun i => if 0 ≤ i ∧ i < app.nlocal then -1 else st.es.firstevent i
        freeevent := 0 }
    scount := fun m => if 0 ≤ m ∧ m < app.none then 0 else st.scount m
    dcount := fun m => if 0 ≤ m ∧ m < app.ntwo then 0 else st.dcount m
    vcount := fun m => if 0 ≤ m ∧ m < app.nthree then 0 else st.vcount m
    fcount := fun m => if 0 ≤ m ∧ m < app.nfour then 0 else st.fcount m }

/-! ## Reading the event store -/

/-- The `next` link of arena node `a`. -/
def nextOf (es : EventStore) (a : Int) : Int := (es.events a).next

/-- The fields of an event other than its link. -/
def dataOf (e : Event) : EvData :=
  ⟨e.style, e.which, e.jpartner, e.kpartner, e.gpartner, e.propensity⟩

/-- Following `next` from `s` visits exactly the nodes `l`, in order, and then
reaches `t`. -/
def Chain (next : Int → Int) : Int → List Int → Int → Prop
  | s, [], t => s = t
  | s, a :: l, t => s = a ∧ Chain next (next a) l t

/-- Well-formed arena: `L i` are the nodes linked from `firstevent[i]` up to the
terminator `-1` for every owned site, `F` are the nodes of the free chain up to the
terminator `maxevent`; all these lists are duplicate free and pairwise disjoint, their
nodes are indices in `[0, maxevent)`, and the free chain has `maxevent - nevents`
nodes. -/
structure Arena (nlocal : Int) (es : EventStore) (L : Int → List Int) (F : List Int) :
    Prop where
  site : ∀ i, 0 ≤ i → i < nlocal → Chain (nextOf es) (es.firstevent i) (L i) (-1)
  free : Chain (nextOf es) es.freeevent F es.maxevent
  nodupF : F.Nodup
  nodupL : ∀ i, 0 ≤ i → i < nlocal → (L i).Nodup
  disjLF : ∀ i, 0 ≤ i → i < nlocal → ∀ x ∈ L i, x ∉ F
  disjLL : ∀ i j, 0 ≤ i → i < nlocal → 0 ≤ j → j < nlocal → i ≠ j → ∀ x ∈ L i, x ∉ L j
  rangeF : ∀ x ∈ F, 0 ≤ x ∧ x < es.maxevent
  rangeL : ∀ i, 0 ≤ i → i < nlocal → ∀ x ∈ L i, 0 ≤ x ∧ x < es.maxevent
  count : (F.length : Int) = es.maxevent - es.nevents
  maxpos : 0 ≤ es.maxevent

/-- The event store is well formed and, for every owned site `i`, the events linked
from `firstevent[i]` are, in chain order, the records `A i`. -/
def EventLists (nlocal : Int) (es : EventStore) (A : Int → List EvData) : Prop :=
  ∃ L F, Arena nlocal es L F ∧
    ∀ i, 0 ≤ i → i < nlocal → (L i).map (fun a => dataOf (es.events a)) = A i

/-- No declared reaction has propensity exactly 0. -/
def NonzeroProps (app : App) : Prop :=
  (∀ m, 0 ≤ m → m < app.none → app.spropensity m ≠ 0) ∧
  (∀ m, 0 ≤ m → m < app.ntwo → app.dpropensity m ≠ 0) ∧
  (∀ m, 0 ≤ m → m < app.nthree → app.vpropensity m ≠ 0) ∧
  (∀ m, 0 ≤ m → m < app.nfour → app.fpropensity m ≠ 0)

/-- Two runs end alike: both return, with results related by `R`, or both fail with
the same fault. -/
def RelE {α β : Type} (R : α → β → Prop) : Except Fault α → Except Fault β → Prop
  | .ok a, .ok b => R a b
  | .error e1, .error e2 => e1 = e2
  | _, _ => False

/-- Two loop states of the enumerator agree on everything but the store, and their
stores are related by `R`. -/
def RelEnum {σ τ : Type} (R : σ → τ → Prop) (e1 : Enum σ) (e2 : Enum τ) : Prop :=
  R e1.store e2.store ∧ e1.comneigh = e2.comneigh ∧ e1.comevent = e2.comevent ∧
    e1.proball = e2.proball ∧ e1.nextneib = e2.nextneib

/-- Every declared reaction that the pulse phase `phase` lets through has a
propensity other than 0. -/
def NonzeroActive (app : App) (phase : Int) : Prop :=
  (∀ m, 0 ≤ m → m < app.none → (app.spresson m = phase ∨ app.spresson m = 0) →
    app.spropensity m ≠ 0) ∧
  (∀ m, 0 ≤ m → m < app.ntwo → (app.dpresson m = phase ∨ app.dpresson m = 0) →
    app.dpropensity m ≠ 0) ∧
  (∀ m, 0 ≤ m → m < app.nthree → (app.vpresson m = phase ∨ app.vpresson m = 0) →
    app.vpropensity m ≠ 0) ∧
  (∀ m, 0 ≤ m → m < app.nfour → (app.fpresson m = phase ∨ app.fpresson m = 0) →
    app.fpropensity m ≠ 0)

/-- The admission test of the Type I loop (lines 490-493). -/
def sAdmits (app : App) (st : State) (i m : Int) : Prop :=
  st.element i = app.sinput m ∧
    coord_matches (st.coord i) (app.scoord m) = true ∧
    (app.spresson m = st.pressureOn ∨ app.spresson m = 0) ∧
    coordmod (st.coord i) ≤ app.numneigh i

instance (app : App) (st : State) (i m : Int) : Decidable (sAdmits app st i m) := by
  unfold sAdmits
  infer_instance

/-- The record the Type I loop adds for reaction `m` (line 495). -/
def sEvent (app : App) (m : Int) : EvData :=
  ⟨1, m, -1, -1, -1, app.spropensity m⟩

/-- The null event record (line 575). -/
def nullEvent : EvData := ⟨5, 0, -1, -1, -1, 1 / 10⟩

/-- Shape of a record added by the Type II loop at site `i`. -/
def IsDEvent (app : App) (st : State) (i : Int) (r : EvData) : Prop :=
  r.style = 2 ∧ r.jpartner = -1 ∧ r.gpartner = -1 ∧ r.kpartner ≠ i ∧
    0 ≤ r.which ∧ r.which < app.ntwo ∧ r.propensity = app.dpropensity r.which ∧
    (app.dpresson r.which = st.pressureOn ∨ app.dpresson r.which = 0)

/-- Shape of a record added by the Type III loop. -/
def IsVEvent (app : App) (st : State) (r : EvData) : Prop :=
  r.style = 3 ∧ r.kpartner = -1 ∧ r.gpartner = -1 ∧
    0 ≤ r.which ∧ r.which < app.nthree ∧ r.propensity = app.vpropensity r.which ∧
    (app.vpresson r.which = st.pressureOn ∨ app.vpresson r.which = 0)

/-- Shape of a record added by the Type IV loop. -/
def IsFEvent (app : App) (st : State) (r : EvData) : Prop :=
  r.style = 4 ∧ r.jpartner = -1 ∧ r.kpartner = -1 ∧
    0 ≤ r.which ∧ r.which < app.nfour ∧ r.propensity = app.fpropensity r.which ∧
    (app.fpresson r.which = st.pressureOn ∨ app.fpresson r.which = 0)

/-- The loop state `e1` extends `e` by records that all satisfy `P`, and `proball`
grew by the sum of their propensities. -/
def Ext (P : EvData → Prop) (e e1 : Enum (List EvData)) : Prop :=
  ∃ new : List EvData, e1.store = new ++ e.store ∧ (∀ r ∈ new, P r) ∧
    e1.proball = e.proball + (new.map (fun r => r.propensity)).sum

/-- No declared reaction of any class is let through by the pulse phase `phase`:
none has `press_on` equal to 0 or to `phase`. -/
def NoneActive (app : App) (phase : Int) : Prop :=
  (∀ m, 0 ≤ m → m < app.none → ¬ (app.spresson m = phase ∨ app.spresson m = 0)) ∧
  (∀ m, 0 ≤ m → m < app.ntwo → ¬ (app.dpresson m = phase ∨ app.dpresson m = 0)) ∧
  (∀ m, 0 ≤ m → m < app.nthree → ¬ (app.vpresson m = phase ∨ app.vpresson m = 0)) ∧
  (∀ m, 0 ≤ m → m < app.nfour → ¬ (app.fpresson m = phase ∨ app.fpresson m = 0))

/-! ## Concrete lattices and states of the end-to-end scenarios -/

/-- One isolated site, no declared reaction, all pulse durations 1. -/
def appNull : App :=
  { nlocal := 1, numneigh := fun _ => 0, neighbor := fun _ _ => 0,
    i2site := fun x => if x = 0 then 0 else -1,
    num_same_z_neighbors := fun _ => 0, same_z_neighbors := fun _ _ => 0,
    none := 0, ntwo := 0, nthree := 0, nfour := 0,
    sinput := fun _ => 0, soutput := fun _ => 0, scoord := fun _ => 0,
    spresson := fun _ => 0, spropensity := fun _ => 0,
    dinput := fun _ _ => 0, doutput := fun _ _ => 0, dcoord := fun _ => 0,
    dcoord2 := fun _ => 0, dpresson := fun _ => 0, dpropensity := fun _ => 0,
    vinput := fun _ _ => 0, voutput := fun _ _ => 0, vcoord := fun _ => 0,
    vcoord2 := fun _ => 0, vpresson := fun _ => 0, vpropensity := fun _ => 0,
    finput := fun _ _ => 0, foutput := fun _ _ => 0, fcoord := fun _ => 0,
    fcoord2 := fun _ => 0, fpresson := fun _ => 0, fpropensity := fun _ => 0,
    T1 := 1, T2 := 1, T3 := 1, T4 := 1 }

/-- One isolated site and the single S reaction `O -> OH` with propensity 1,
`req_coord = ALL` and the given `press_on`. -/
def appS (press_on : Int) : App :=
  { appNull with
    none := 1
    sinput := fun _ => O
    soutput := fun _ => OH
    scoord := fun _ => COORD_ALL
    spresson := fun _ => press_on
    spropensity := fun _ => 1 }

/-- The members as the constructor leaves them (lines 37-45: `cycle = 0`,
`pressureOn = 1`, `maxevent = 0`), every site holding species `el` with `coord` 0. -/
def stInit (el : Int) : State :=
  { element := fun _ => el, coord := fun _ => 0, pressureOn := 1, cycle := 0,
    es := { events := fun _ => ⟨0, 0, 0, 0, 0, 0, 0⟩, nevents := 0, maxevent := 0,
            firstevent := fun _ => -1, freeevent := 0 },
    comneigh := fun _ _ => 0, comevent := 0, echeck := fun _ => 0, esites := fun _ => 0,
    propensity := fun _ => 0, scount := fun _ => 0, dcount := fun _ => 0,
    vcount := fun _ => 0, fcount := fun _ => 0 }

/-- The physical coordination `cphys` as the specification defines it:
`((coord mod 10) + 10) mod 10`. -/
def cphys (c : Int) : Int := ((c % 10) + 10) % 10

/-- The admission test for S reaction `m` at site `i` in the words of the
specification: species match, `req_coord` is ALL or equals `coord[i]`, the pulse
matches, and `cphys(i) <= numneigh[i]`. -/
def sAdmitsSpec (app : App) (st : State) (i m : Int) : Prop :=
  st.element i = app.sinput m ∧
    (app.scoord m = COORD_ALL ∨ st.coord i = app.scoord m) ∧
    (app.spresson m = 0 ∨ app.spresson m = st.pressureOn) ∧
    cphys (st.coord i) ≤ app.numneigh i

instance (app : App) (st : State) (i m : Int) : Decidable (sAdmitsSpec app st i m) := by
  unfold sAdmitsSpec
  infer_instance

/-- One owned site 0 with four ghost neighbours 1..4 (all vacant), and the single S
reaction `O -> OH` with propensity 1, `req_coord = ALL`, `press_on = 0`. -/
def appMasked : App :=
  { appS 0 with
    numneigh := fun x => if x = 0 then 4 else 0
    neighbor := fun _ jj => jj + 1
    i2site := fun x => if x = 0 then 0 else -1 }

/-- Site 0 holds `O` and has `coord = -10`: no occupied neighbour and one same-z mask
(as `put_mask_2` of a neighbouring site leaves it); the store is as after `setup_app`. -/
def stMasked : State :=
  setup_app appMasked
    { stInit VACANCY with
      element := fun x => if x = 0 then O else VACANCY
      coord := fun x => if x = 0 then -10 else 0 }

/-- Running sum of the propensities of the first `k` nodes of the chain `l`: the value
of `proball` in the event walk after `k` iterations. -/
def runningSum (events : Int → Event) (l : List Int) (k : Nat) : ℚ :=
  ((l.take k).map (fun a => (events a).propensity)).sum

/-- Everything but `coord`, `echeck` and `esites` is the same in `st` and `st1`. -/
structure MaskFrame (st st1 : State) : Prop where
  element : st1.element = st.element
  pressureOn : st1.pressureOn = st.pressureOn
  cycle : st1.cycle = st.cycle
  es : st1.es = st.es
  comneigh : st1.comneigh = st.comneigh
  comevent : st1.comevent = st.comevent
  propensity : st1.propensity = st.propensity
  scount : st1.scount = st.scount
  dcount : st1.dcount = st.dcount
  vcount : st1.vcount = st.vcount
  fcount : st1.fcount = st.fcount

/-- Species, pulse state and the four counters are the same in `st` and `st1`. -/
structure CoreFrame (st st1 : State) : Prop where
  element : st1.element = st.element
  pressureOn : st1.pressureOn = st.pressureOn
  cycle : st1.cycle = st.cycle
  scount : st1.scount = st.scount
  dcount : st1.dcount = st.dcount
  vcount : st1.vcount = st.vcount
  fcount : st1.fcount = st.fcount

/-- Host convention for `i2site`: only owned sites (indices in `[0, nlocal)`) have a
nonnegative solver index; ghost sites carry `-1`. -/
def OwnedInRange (app : App) : Prop :=
  ∀ m, 0 ≤ app.i2site m → 0 ≤ m ∧ m < app.nlocal

/-- Invariant of the refresh loops of `site_event`: the store is well formed, every
owned site not yet marked in `echeck` has a list no longer than the fuel, and the
species, pulse state and counters are those of `st0`. -/
def RefreshInv (app : App) (fuel : Nat) (st0 : State) (acc : State × Int) : Prop :=
  (∃ A, EventLists app.nlocal acc.1.es A ∧
    ∀ m, 0 ≤ m → m < app.nlocal → acc.1.echeck (app.i2site m) = 0 →
      (A m).length ≤ fuel) ∧
  CoreFrame st0 acc.1

/-- Partner site of a two-site event: `kpartner` for class D (style 2), `jpartner`
for class V (style 3), `gpartner` for class F (style 4). -/
def pairPartner (e : Event) : Int :=
  if e.style = 2 then e.kpartner else if e.style = 3 then e.jpartner else e.gpartner

/-- Output species number `slot` (0 or 1) of reaction `w` of the two-site class with
style `style`. -/
def pairOutput (app : App) (style w slot : Int) : Int :=
  if style = 2 then app.doutput w slot
  else if style = 3 then app.voutput w slot
  else app.foutput w slot

/-- Counter array of the two-site class with style `style`. -/
def pairCount (st : State) (style : Int) : Int → Int :=
  if style = 2 then st.dcount else if style = 3 then st.vcount else st.fcount

/-- Scenario S2: the one-site lattice with `O -> OH`, after `setup_app` and the host's
first `propensity[i2site[0]] = site_propensity(0)`. -/
def stS2 : State :=
  match site_propensity (appS 0) 0 (setup_app (appS 0) (stInit O)) 0 with
  | .ok (s, p) => { s with propensity := upd s.propensity 0 p }
  | .error _ => stInit O

/-- Two owned sites 0 and 1 that are each other's only neighbour, and the single V
reaction `(OH, O) -> (OHAlaX3, O)` with propensity 1, both `req_coord = ALL`,
`press_on = 0`. -/
def appV : App :=
  { appNull with
    nlocal := 2
    numneigh := fun _ => 1
    neighbor := fun x _ => if x = 0 then 1 else 0
    i2site := fun x => if x = 0 ∨ x = 1 then x else -1
    nthree := 1
    vinput := fun _ slot => if slot = 0 then OH else O
    voutput := fun _ slot => if slot = 0 then OHAlaX3 else O
    vcoord := fun _ => COORD_ALL
    vcoord2 := fun _ => COORD_ALL
    vpresson := fun _ => 0
    vpropensity := fun _ => 1 }

/-- The two-site lattice with `OH` on site 0 and `O` on site 1, after `setup_app` and
the host's first `propensity[i2site[0]] = site_propensity(0)`. -/
def stV : State :=
  match site_propensity appV 0
      (setup_app appV { stInit O with element := fun x => if x = 0 then OH else O }) 0 with
  | .ok (s, p) => { s with propensity := upd s.propensity 0 p }
  | .error _ => stInit O

deriving instance DecidableEq for Except

/-- Value of `coord[x]` after a `site_event` call, if the call returned. -/
def coordAfter (r : Except Fault (State × List Int)) (x : Int) : Option Int :=
  match r with
  | .ok (s, _) => some (s.coord x)
  | .error _ => none

/-- Two owned, isolated sites 0 and 1 in the same z-plane (`same_z_neighbors[0] = {1}`,
`same_z_neighbors[1] = {0}`), and the single S reaction `O -> OH` with propensity 1,
`req_coord = ALL`, `press_on = 0`. -/
def appSZ : App :=
  { appS 0 with
    nlocal := 2
    i2site := fun x => if x = 0 ∨ x = 1 then x else -1
    num_same_z_neighbors := fun x => if x = 0 ∨ x = 1 then 1 else 0
    same_z_neighbors := fun x _ => if x = 0 then 1 else 0 }

/-- Both sites of `appSZ` hold `O` with `coord = 0`; the state is the one after
`setup_app` and the host's first `propensity[i2site[0]] = site_propensity(0)`. -/
def stSZ : State :=
  match site_propensity appSZ 0 (setup_app appSZ (stInit O)) 0 with
  | .ok (s, p) => { s with propensity := upd s.propensity 0 p }
  | .error _ => stInit O

/-- Three owned sites 0, 1, 2 in one z-plane with `same_z_neighbors[0] = {1}` and
`same_z_neighbors[1] = {0, 2}`; site 1 has one lattice neighbour, the vacant ghost
site 3; the single F reaction is `(O, O) -> (OH, OH)` with propensity 1, both
`req_coord = ALL`, `press_on = 0`. -/
def appF : App :=
  { appNull with
    nlocal := 3
    i2site := fun x => if x = 0 ∨ x = 1 ∨ x = 2 then x else -1
    numneigh := fun x => if x = 1 then 1 else 0
    neighbor := fun _ _ => 3
    num_same_z_neighbors := fun x => if x = 0 then 1 else if x = 1 then 2 else 0
    same_z_neighbors := fun x p => if x = 0 then 1 else if p = 0 then 0 else 2
    nfour := 1
    finput := fun _ _ => O
    foutput := fun _ _ => OH
    fcoord := fun _ => COORD_ALL
    fcoord2 := fun _ => COORD_ALL
    fpresson := fun _ => 0
    fpropensity := fun _ => 1 }

/-- Sites 0, 1, 2 of `appF` hold `O`, the ghost site 3 is vacant, every `coord` is 0;
the state is the one after `setup_app` and the host's first
`propensity[i2site[0]] = site_propensity(0)`. -/
def stF : State :=
  match site_propensity appF 0
      (setup_app appF
        { stInit O with element := fun x => if x = 3 then VACANCY else O }) 0 with
  | .ok (s, p) => { s with propensity := upd s.propensity 0 p }
  | .error _ => stInit O

/-- States the host can reach after `setup_app`: the host's setup stores
`propensity[i2site[i]] = site_propensity(i)` for owned sites, and its KMC loop calls
`site_event(i, random)` for owned sites; only calls that return are steps. -/
inductive Reachable (app : App) : State → Prop
  | setup (st : State) : 0 ≤ st.es.maxevent → Reachable app (setup_app app st)
  | propensity (st st1 : State) (fuel : Nat) (i : Int) (p : ℚ) :
      Reachable app st → 0 ≤ i → i < app.nlocal →
      site_propensity app fuel st i = .ok (st1, p) →
      Reachable app { st1 with propensity := upd st1.propensity (app.i2site i) p }
  | event (st st1 : State) (fuel : Nat) (i : Int) (uniform time : ℚ) (touched : List Int) :
      Reachable app st → 0 ≤ i → i < app.nlocal →
      site_event app fuel st i uniform time = .ok (st1, touched) →
      Reachable app st1

/-! ## Reading `coord` -/

/-- The reset value of the if-chain of `count_coord` (lines 985-990): 0 for
`coord >= 0`, the next lower multiple of ten for `-50 < coord < 0`, and `coord` itself
when no branch applies. -/
def coord_reset (c : Int) : Int :=
  if 0 ≤ c then 0
  else if -10 < c ∧ c < 0 then -10
  else if -20 < c ∧ c < -10 then -20
  else if -30 < c ∧ c < -20 then -30
  else if -40 < c ∧ c < -30 then -40
  else if -50 < c ∧ c < -40 then -50
  else c

/-- Number of entries of `neighbor[i][0..numneigh[i])` whose element is not VACANCY. -/
def nocc (app : App) (st : State) (i : Int) : Int :=
  (((irange (app.numneigh i)).filter
    (fun s => decide (st.element (app.neighbor i s) ≠ VACANCY))).length : Int)

/-- Mask decade of a `coord` value: the value floored to a multiple of ten, in tens. -/
def maskDecade (c : Int) : Int := c / 10

/-- The site 0 of `appMasked` with the given `coord[0]`; all neighbours vacant. -/
def stCoord (c : Int) : State :=
  { stInit VACANCY with
    element := fun x => if x = 0 then O else VACANCY
    coord := fun x => if x = 0 then c else 0 }

/-- Site 0 of `appMasked` with three occupied neighbours (1, 2, 3 hold `O`, 4 is vacant)
and `coord[0] = -57`: the count 3 under one `put_mask` (-50) and one `put_mask_2` (-10). -/
def stDrift : State :=
  { stInit O with
    element := fun x => if x = 4 then VACANCY else O
    coord := fun x => if x = 0 then -57 else 0 }

/-- Scenario S1: one isolated site, no declared reaction, after `setup_app` and the
host's first `propensity[i2site[0]] = site_propensity(0)`. -/
def stS1 : State :=
  match site_propensity appNull 0 (setup_app appNull (stInit O)) 0 with
  | .ok (s, p) => { s with propensity := upd s.propensity 0 p }
  | .error _ => stInit O

/-- Value of `pressureOn` after a `site_event` call, if the call returned. -/
def pressureAfter (r : Except Fault (State × List Int)) : Option Int :=
  match r with
  | .ok (s, _) => some s.pressureOn
  | .error _ => none

/-- The admission test of the Type II loop for partner `k` (lines 511-516). -/
def dAdmits (app : App) (st : State) (i k m : Int) : Prop :=
  (st.element i = app.dinput m 0 ∧ st.element k = app.dinput m 1) ∧
    (app.dpresson m = st.pressureOn ∨ app.dpresson m = 0) ∧
    coord_matches (st.coord i) (app.dcoord m) = true ∧
    coord_matches (st.coord k) (app.dcoord2 m) = true ∧
    coordmod (st.coord i) ≤ app.numneigh i ∧ coordmod (st.coord k) < app.numneigh k

instance (app : App) (st : State) (i k m : Int) : Decidable (dAdmits app st i k m) := by
  unfold dAdmits
  infer_instance

/-- The admission test of the Type III loop for partner `j` (lines 541-546). -/
def vAdmits (app : App) (st : State) (i j m : Int) : Prop :=
  st.element i = app.vinput m 0 ∧ st.element j = app.vinput m 1 ∧
    coord_matches (st.coord i) (app.vcoord m) = true ∧
    coord_matches (st.coord j) (app.vcoord2 m) = true ∧
    (app.vpresson m = st.pressureOn ∨ app.vpresson m = 0) ∧
    coordmod (st.coord i) ≤ app.numneigh i ∧ coordmod (st.coord j) < app.numneigh j

instance (app : App) (st : State) (i j m : Int) : Decidable (vAdmits app st i j m) := by
  unfold vAdmits
  infer_instance

/-- The admission test of the Type IV loop for partner `g` (lines 561-566). -/
def fAdmits (app : App) (st : State) (i g m : Int) : Prop :=
  st.element i = app.finput m 0 ∧ st.element g = app.finput m 1 ∧
    coord_matches (st.coord i) (app.fcoord m) = true ∧
    coord_matches (st.coord g) (app.fcoord2 m) = true ∧
    (app.fpresson m = st.pressureOn ∨ app.fpresson m = 0) ∧
    coordmod (st.coord i) ≤ app.numneigh i ∧ coordmod (st.coord g) < app.numneigh g

instance (app : App) (st : State) (i g m : Int) : Decidable (fAdmits app st i g m) := by
  unfold fAdmits
  infer_instance

/-- Some declared S, V or F reaction with propensity exactly 0 passes its admission
test at site `i` (for V with a first-shell neighbour, for F with a same-z neighbour). -/
def ZeroAdmitted (app : App) (st : State) (i : Int) : Prop :=
  (∃ m, 0 ≤ m ∧ m < app.none ∧ sAdmits app st i m ∧ app.spropensity m = 0) ∨
  (∃ jj m, 0 ≤ jj ∧ jj < app.numneigh i ∧ 0 ≤ m ∧ m < app.nthree ∧
    vAdmits app st i (app.neighbor i jj) m ∧ app.vpropensity m = 0) ∨
  (∃ p m, 0 ≤ p ∧ p < app.num_same_z_neighbors i ∧ 0 ≤ m ∧ m < app.nfour ∧
    fAdmits app st i (app.same_z_neighbors i p) m ∧ app.fpropensity m = 0)

/-- The one-site lattice with the S reaction `O -> OH` declared with propensity 0
(`req_coord = ALL`, `press_on = 0`). -/
def appZero : App :=
  { appS 0 with spropensity := fun _ => 0 }

/-- The site of `appZero` holds `O`; the state is the one after `setup_app`. -/
def stZero : State := setup_app appZero (stInit O)

/-- What `precompute_same_z_neighbors` (lines 316-380) and the host's `i2site`
guarantee for the same-z table of site `i`: the entries are owned sites other than
`i`, and no site is listed twice. -/
def SameZTable (app : App) (i : Int) : Prop :=
  (∀ p, 0 ≤ p → p < app.num_same_z_neighbors i →
    0 ≤ app.i2site (app.same_z_neighbors i p) ∧
    app.i2site (app.same_z_neighbors i p) ≠ app.i2site i) ∧
  (∀ p q, 0 ≤ p → p < app.num_same_z_neighbors i → 0 ≤ q → q < app.num_same_z_neighbors i →
    app.i2site (app.same_z_neighbors i p) = app.i2site (app.same_z_neighbors i q) → p = q)

/-- Scenario S4: the centre 0 with six first-shell neighbours 1..6; neighbour `j` has
the neighbours 0 and `j + 6`, so the second shell is 7..12. All thirteen sites are
owned. -/
def appS4 : App :=
  { appNull with
    nlocal := 13
    i2site := fun x => if 0 ≤ x ∧ x < 13 then x else -1
    numneigh := fun x => if x = 0 then 6 else if 1 ≤ x ∧ x ≤ 6 then 2 else 1
    neighbor := fun x jj =>
      if x = 0 then jj + 1
      else if 1 ≤ x ∧ x ≤ 6 then (if jj = 0 then 0 else x + 6)
      else x - 6 }

/-- Every site of `appS4` vacant with `coord = 0` and the scratch arrays zero. -/
def stS4 : State := stInit VACANCY

/-- Site `k` is visited by the Type II loops of site `i` (lines 502-505):
`k = neighbor[neighbor[i][jj]][kk]` for some in-range `jj` and `kk`. -/
def DReached (app : App) (i k : Int) : Prop :=
  ∃ jj kk, 0 ≤ jj ∧ jj < app.numneigh i ∧ 0 ≤ kk ∧ kk < app.numneigh (app.neighbor i jj) ∧
    app.neighbor (app.neighbor i jj) kk = k

/-- The duplicate test of lines 519-521 finds the pair `(k, p)`: some row
`comneigh[ii]` with `0 <= ii < nextneib` holds it. -/
def DSeen (e : Enum (List EvData)) (k : Int) (p : ℚ) : Prop :=
  ∃ ii, 0 ≤ ii ∧ ii < e.nextneib ∧ e.comneigh ii 0 = (k : ℚ) ∧ e.comneigh ii 1 = p

/-- Reaction `m` is admissible for the pair `(i, k)` and no admissible D reaction of
lower index has the same propensity. -/
def dFirst (app : App) (st : State) (i k m : Int) : Prop :=
  dAdmits app st i k m ∧
    ∀ m1, 0 ≤ m1 → m1 < m → dAdmits app st i k m1 → app.dpropensity m1 ≠ app.dpropensity m

/-- Every admissible D reaction of the pair `(i, k)` is found by the duplicate test. -/
def DCovered (app : App) (st : State) (i : Int) (e : Enum (List EvData)) (k : Int) : Prop :=
  ∀ m, 0 ≤ m → m < app.ntwo → dAdmits app st i k m → DSeen e k (app.dpropensity m)

/-- Invariant of the Type II loops over the list of added events: `new` are the D
records added so far on top of `S0`; rows `1 .. nextneib-1` of `comneigh` hold exactly
their `(kpartner, propensity)` pairs, row 0 is as the call found it; no two records
share a pair; every record is a D event of a visited partner for the lowest-indexed
admissible reaction of its propensity. -/
structure DInv (app : App) (st : State) (i : Int) (S0 : List EvData)
    (e : Enum (List EvData)) (new : List EvData) : Prop where
  store : e.store = new ++ S0
  next1 : 1 ≤ e.nextneib
  row0 : e.comneigh 0 = st.comneigh 0
  rows : ∀ ii, 1 ≤ ii → ii < e.nextneib →
    ∃ r ∈ new, e.comneigh ii 0 = (r.kpartner : ℚ) ∧ e.comneigh ii 1 = r.propensity
  recs : ∀ r ∈ new, DSeen e r.kpartner r.propensity
  keys : new.Pairwise
    (fun r r1 => ¬ (r.kpartner = r1.kpartner ∧ r.propensity = r1.propensity))
  shape : ∀ r ∈ new, IsDEvent app st i r ∧ dFirst app st i r.kpartner r.which ∧
    DReached app i r.kpartner

/-- The list of events one call `site_propensity(i)` adds, newest first, if the call
does not stop in an error. -/
def addedList (app : App) (st : State) (i : Int) : Option (List EvData) :=
  match added_events app st i with
  | .ok e => some e.store
  | .error _ => none

/-- Scenario S5: four owned sites; site 0 has the first-shell neighbours 1 and 2, and
both of them have the neighbours 0 and 3, so site 3 is reached from 0 through two
intermediates. The single D reaction is `(O, OH) -> (OH, O)` with propensity 1, both
`req_coord = ALL`, `press_on = 0`. -/
def appD : App :=
  { appNull with
    nlocal := 4
    i2site := fun x => if 0 ≤ x ∧ x < 4 then x else -1
    numneigh := fun _ => 2
    neighbor := fun x jj =>
      if x = 0 then jj + 1
      else if x = 3 then jj + 1
      else if jj = 0 then 0 else 3
    ntwo := 1
    dinput := fun _ slot => if slot = 0 then O else OH
    doutput := fun _ slot => if slot = 0 then OH else O
    dcoord := fun _ => COORD_ALL
    dcoord2 := fun _ => COORD_ALL
    dpresson := fun _ => 0
    dpropensity := fun _ => 1 }

/-- Site 0 of `appD` holds `O`, site 3 holds `OH`, sites 1 and 2 are vacant, every
`coord` is 0 and `comneigh` is all zero; the state is the one after `setup_app`. -/
def stD : State :=
  setup_app appD
    { stInit VACANCY with
      element := fun x => if x = 0 then O else if x = 3 then OH else VACANCY }

/-- The state `stD` with the pair `(3, 1.0)` in the row `comneigh[0]`, a row that no
statement of the program writes. -/
def stDStale : State :=
  { stD with comneigh := fun ii c => if ii = 0 then (if c = 0 then 3 else 1) else 0 }

/-- The lattice of `appD` with two declared D reactions of equal propensity 1 for the
same species pair: `(O, OH) -> (OH, O)` and `(O, OH) -> (OH, OH)`. -/
def appD2 : App :=
  { appD with
    ntwo := 2
    doutput := fun m slot => if slot = 0 then OH else if m = 0 then O else OH }

/-- The state `stD` on the lattice `appD2`. -/
def stD2 : State :=
  setup_app appD2
    { stInit VACANCY with
      element := fun x => if x = 0 then O else if x = 3 then OH else VACANCY }

/-- Site `s` is within `n` hops of site `t` in the neighbour graph: some walk
`t, neighbor[t][j1], neighbor[..][j2], ...` of at most `n` in-range steps ends in `s`. -/
def withinHops (app : App) : Nat → Int → Int → Bool
  | 0, t, s => decide (s = t)
  | n + 1, t, s =>
    decide (s = t) ||
      (irange (app.numneigh t)).any (fun jj => withinHops app n (app.neighbor t jj) s)

/-- A lattice all of whose sites are owned: every site of `[0, nlocal)` has a solver
index `i2site >= 0`, distinct sites have distinct solver indices, and every neighbour
entry is a site of `[0, nlocal)`. -/
def ClosedOwnedGraph (app : App) : Prop :=
  (∀ s, 0 ≤ s → s < app.nlocal → 0 ≤ app.i2site s) ∧
  (∀ s t, 0 ≤ s → s < app.nlocal → 0 ≤ t → t < app.nlocal →
    app.i2site s = app.i2site t → s = t) ∧
  (∀ t jj, 0 ≤ t → t < app.nlocal → 0 ≤ jj → jj < app.numneigh t →
    0 ≤ app.neighbor t jj ∧ app.neighbor t jj < app.nlocal)

/-- The refresh phase so far was exactly the block `count_coord(s);
propensity[i2site[s]] = site_propensity(s); esites[nsites++] = i2site[s];
echeck[i2site[s]] = 1` run at the sites `T`, in this order, starting from `(st3, 0)`:
`acc` is the resulting state and `nsites`; the sites of `T` are distinct owned sites,
`echeck` marks exactly their solver indices, and `esites[0..nsites)` lists them. -/
def RefreshTrace (app : App) (fuel : Nat) (st3 : State) (acc : State × Int)
    (T : List Int) : Prop :=
  T.foldlM (refresh_site app fuel) (st3, 0) = .ok acc ∧
  RefreshInv app fuel st3 acc ∧ T.Nodup ∧
  (∀ s ∈ T, 0 ≤ s ∧ s < app.nlocal) ∧
  (∀ y, acc.1.echeck y ≠ 0 ↔ ∃ s ∈ T, app.i2site s = y) ∧
  (irange acc.2).map acc.1.esites = T.map app.i2site ∧
  acc.2 = (T.length : Int)

/-- Specification of a refresh loop `f t acc` that sweeps the sites within `k` hops of
an already refreshed site `t`: it returns, extends the trace only by sites within 4
hops of `i`, and afterwards every site within `k` hops of `t` is in the trace. -/
def TraceStep (app : App) (fuel : Nat) (st3 : State) (i : Int) (k : Nat)
    (f : Int → State × Int → Except Fault (State × Int)) : Prop :=
  ∀ (t : Int) (acc : State × Int) (T : List Int), 0 ≤ t → t < app.nlocal →
    RefreshTrace app fuel st3 acc T → (∀ x ∈ T, withinHops app 4 i x = true) → t ∈ T →
    (∀ x, withinHops app k t x = true → withinHops app 4 i x = true) →
    ∃ a1 T1, f t acc = .ok a1 ∧ RefreshTrace app fuel st3 a1 T1 ∧ (∀ x ∈ T, x ∈ T1) ∧
      (∀ x ∈ T1, withinHops app 4 i x = true) ∧
      (∀ x, withinHops app k t x = true → x ∈ T1)

/-- The path lattice 0 - 1 - 2 - 3 - 4 - 5 of six owned sites, no declared reaction. -/
def appPath : App :=
  { appNull with
    nlocal := 6
    i2site := fun x => if 0 ≤ x ∧ x < 6 then x else -1
    numneigh := fun x => if x = 0 ∨ x = 5 then 1 else 2
    neighbor := fun x jj => if x = 0 then 1 else if jj = 0 then x - 1 else x + 1 }

/-- The path lattice with `O` on every site, after `setup_app` and the host's first
`propensity[i2site[0]] = site_propensity(0)`. -/
def stPath : State :=
  match site_propensity appPath 0 (setup_app appPath (stInit O)) 0 with
  | .ok (s, p) => { s with propensity := upd s.propensity 0 p }
  | .error _ => stInit O

/-! ## Input commands (`input_app`, lines 141-303) -/

/-- Function `species_to_enum` (lines 149-178). -/
def species_to_enum (species_name : String) : Int :=
  if species_name = "VAC" then VACANCY
  else if species_name = "O" then O
  else if species_name = "OH" then OH
  else if species_name = "Ala" then Ala
  else if species_name = "OHAlaX3" then OHAlaX3
  else if species_name = "OAlaX2" then OAlaX2
  else if species_name = "OAlaX2H2O" then OAlaX2H2O
  else if species_name = "OAlaXOH" then OAlaXOH
  else if species_name = "OAlaX" then OAlaX
  else if species_name = "OAlaOH" then OAlaOH
  else if species_name = "OAlaOH2" then OAlaOH2
  else if species_name = "AlaOH" then AlaOH
  else if species_name = "AlaOH2" then AlaOH2
  else if species_name = "Alb" then Alb
  else if species_name = "OHAlbX3" then OHAlbX3
  else if species_name = "OAlbX2" then OAlbX2
  else if species_name = "OAlbX2H2O" then OAlbX2H2O
  else if species_name = "OAlbXOH" then OAlbXOH
  else if species_name = "OAlbX" then OAlbX
  else if species_name = "OAlbOH" then OAlbOH
  else if species_name = "OAlbOH2" then OAlbOH2
  else if species_name = "AlbOH" then AlbOH
  else if species_name = "AlbOH2" then AlbOH2
  else if species_name = "OAla" then OAla
  else if species_name = "OAlb" then OAlb
  else if species_name = "H2O" then H2O
  else -1

/-- The 26 names `species_to_enum` compares against, in the order of the species
enumeration (line 14). -/
def speciesNames : List String :=
  ["VAC", "O", "OH", "Ala", "OHAlaX3", "OAlaX2", "OAlaX2H2O", "OAlaXOH", "OAlaX",
   "OAlaOH", "OAlaOH2", "AlaOH", "AlaOH2", "Alb", "OHAlbX3", "OAlbX2", "OAlbX2H2O",
   "OAlbXOH", "OAlbX", "OAlbOH", "OAlbOH2", "AlbOH", "AlbOH2", "OAla", "OAlb", "H2O"]

/-- Position of `s` in the list `names`, counted from `k`; -1 if `s` is not listed. -/
def nameIndex : List String → String → Int → Int
  | [], _, _ => -1
  | n :: t, s, k => if s = n then k else nameIndex t s (k + 1)

/-- The C library predicate `isspace` in the "C" locale: space, `\t`, `\n`, `\v`, `\f`,
`\r` (codes 32 and 9..13). -/
def isspace (c : Char) : Bool := c.toNat = 32 || (9 ≤ c.toNat && c.toNat ≤ 13)

/-- The digit loop of the C library function `atoi`: the value of the longest prefix of
decimal digits, continuing from `acc`. -/
def atoi_digits : List Char → Int → Int
  | [], acc => acc
  | c :: cs, acc =>
    if c.isDigit then atoi_digits cs (acc * 10 + ((c.toNat : Int) - 48)) else acc

/-- The number a decimal literal denotes, as the C library reads it: skip leading white
space, read an optional sign and the longest run of decimal digits; 0 when no digit
follows. -/
def atoi_value (s : String) : Int :=
  match s.toList.dropWhile isspace with
  | [] => 0
  | c :: cs =>
    if c = '-' then -(atoi_digits cs 0)
    else if c = '+' then atoi_digits cs 0
    else atoi_digits (c :: cs) 0

/-- The C library function `atoi`. For a value that fits an `int` the result is that
value; these are the only inputs for which the C standard defines the result. Beyond
that range the result is the one of the GNU C library on a 64-bit platform, where
`atoi(s)` is `(int) strtol(s, NULL, 10)`: `strtol` saturates at `LONG_MIN` and
`LONG_MAX`, and the conversion to `int` keeps the low 32 bits. -/
def atoi (s : String) : Int :=
  let v := max (-9223372036854775808) (min (atoi_value s) 9223372036854775807)
  (v + 2147483648) % 4294967296 - 2147483648

/-- Function `parse_coord_value` (lines 141-147). -/
def parse_coord_value (coord_str : String) : Int :=
  if coord_str = "all" ∨ coord_str = "ALL" then COORD_ALL else atoi coord_str

/-- Function `input_app(command, narg, arg)` (lines 180-303). `atof` is the C library
function of that name; `grow_reactions` only enlarges the tables and is left out. -/
def input_app (atof : String → ℚ) (app : App) (command : String) (arg : List String) :
    Except Fault App :=
  let narg : Int := arg.length
  let a : Nat → String := fun k => arg.getD k ""
  if command = "event" then
    if narg < 1 then .error Fault.fatal
    else
      let rstyle := atoi (a 0)
      if rstyle = 1 then
        if narg ≠ 9 then .error Fault.fatal
        else if species_to_enum (a 1) < 0 then .error Fault.fatal
        else if species_to_enum (a 2) < 0 then .error Fault.fatal
        else
          .ok { app with
            sinput := upd app.sinput app.none (species_to_enum (a 1))
            soutput := upd app.soutput app.none (species_to_enum (a 2))
            sA := upd app.sA app.none (atof (a 3))
            sexpon := upd app.sexpon app.none (atoi (a 4))
            srate := upd app.srate app.none (atof (a 5))
            scoord := upd app.scoord app.none (parse_coord_value (a 6))
            spresson := upd app.spresson app.none (atoi (a 7))
            none := app.none + 1 }
      else if rstyle = 2 then
        if narg ≠ 12 then .error Fault.fatal
        else if species_to_enum (a 1) < 0 then .error Fault.fatal
        else if species_to_enum (a 2) < 0 then .error Fault.fatal
        else if species_to_enum (a 3) < 0 then .error Fault.fatal
        else if species_to_enum (a 4) < 0 then .error Fault.fatal
        else
          .ok { app with
            dinput := upd app.dinput app.ntwo
              (upd (upd (app.dinput app.ntwo) 0 (species_to_enum (a 1))) 1
                (species_to_enum (a 3)))
            doutput := upd app.doutput app.ntwo
              (upd (upd (app.doutput app.ntwo) 0 (species_to_enum (a 2))) 1
                (species_to_enum (a 4)))
            dA := upd app.dA app.ntwo (atof (a 5))
            dexpon := upd app.dexpon app.ntwo (atoi (a 6))
            drate := upd app.drate app.ntwo (atof (a 7))
            dcoord := upd app.dcoord app.ntwo (parse_coord_value (a 8))
            dcoord2 := upd app.dcoord2 app.ntwo (parse_coord_value (a 9))
            dpresson := upd app.dpresson app.ntwo (atoi (a 10))
            ntwo := app.ntwo + 1 }
      else if rstyle = 3 then
        if narg ≠ 12 then .error Fault.fatal
        else if species_to_enum (a 1) < 0 then .error Fault.fatal
        else if species_to_enum (a 2) < 0 then .error Fault.fatal
        else if species_to_enum (a 3) < 0 then .error Fault.fatal
        else if species_to_enum (a 4) < 0 then .error Fault.fatal
        else
          .ok { app with
            vinput := upd app.vinput app.nthree
              (upd (upd (app.vinput app.nthree) 0 (species_to_enum (a 1))) 1
                (species_to_enum (a 3)))
            voutput := upd app.voutput app.nthree
              (upd (upd (app.voutput app.nthree) 0 (species_to_enum (a 2))) 1
                (species_to_enum (a 4)))
            vA := upd app.vA app.nthree (atof (a 5))
            vexpon := upd app.vexpon app.nthree (atoi (a 6))
            vrate := upd app.vrate app.nthree (atof (a 7))
            vcoord := upd app.vcoord app.nthree (parse_coord_value (a 8))
            vcoord2 := upd app.vcoord2 app.nthree (parse_coord_value (a 9))
            vpresson := upd app.vpresson app.nthree (atoi (a 10))
            nthree := app.nthree + 1 }
      else if rstyle = 4 then
        if narg ≠ 12 then .error Fault.fatal
        else if species_to_enum (a 1) < 0 then .error Fault.fatal
        else if species_to_enum (a 2) < 0 then .error Fault.fatal
        else if species_to_enum (a 3) < 0 then .error Fault.fatal
        else if species_to_enum (a 4) < 0 then .error Fault.fatal
        else
          .ok { app with
            finput := upd app.finput app.nfour
              (upd (upd (app.finput app.nfour) 0 (species_to_enum (a 1))) 1
                (species_to_enum (a 3)))
            foutput := upd app.foutput app.nfour
              (upd (upd (app.foutput app.nfour) 0 (species_to_enum (a 2))) 1
                (species_to_enum (a 4)))
            fA := upd app.fA app.nfour (atof (a 5))
            fexpon := upd app.fexpon app.nfour (atoi (a 6))
            frate := upd app.frate app.nfour (atof (a 7))
            fcoord := upd app.fcoord app.nfour (parse_coord_value (a 8))
            fcoord2 := upd app.fcoord2 app.nfour (parse_coord_value (a 9))
            fpresson := upd app.fpresson app.nfour (atoi (a 10))
            nfour := app.nfour + 1 }
      else .ok app
  else if command = "pulse_time" then
    if narg ≠ 2 then .error Fault.fatal
    else .ok { app with T1 := atof (a 0), T3 := atof (a 1) }
  else if command = "purge_time" then
    if narg ≠ 2 then .error Fault.fatal
    else .ok { app with T2 := atof (a 0), T4 := atof (a 1) }
  else .error Fault.fatal

/-- The declared S reaction count and the `req_coord` of S reaction 0 after an input
command, if the command was accepted. -/
def declaredS (r : Except Fault App) : Option (Int × Int) :=
  match r with
  | .ok app => some (app.none, app.scoord 0)
  | .error _ => none

/-! ## The pulse schedule over several calls -/

/-- The phase update of lines 740-744 takes its last branch, the one that advances
`cycle`. -/
def pulse_wraps (app : App) (st : State) (time : ℚ) : Prop :=
  ¬ (st.cycle + app.T1 > time) ∧
  ¬ (st.cycle + app.T1 ≤ time ∧ time < st.cycle + app.T1 + app.T2) ∧
  ¬ (st.cycle + app.T1 + app.T2 ≤ time ∧ time < st.cycle + app.T1 + app.T2 + app.T3) ∧
  ¬ (st.cycle + app.T1 + app.T2 + app.T3 ≤ time ∧
      time < st.cycle + app.T1 + app.T2 + app.T3 + app.T4)

instance (app : App) (st : State) (time : ℚ) : Decidable (pulse_wraps app st time) := by
  unfold pulse_wraps
  infer_instance

/-- The phase update applied repeatedly at the same time `time` until it no longer
takes the branch that advances `cycle`: the final state and the number of advances. -/
def pulse_settle (app : App) : Nat → State → ℚ → Option (State × Nat)
  | 0, _, _ => none
  | fuel + 1, st, time =>
    if pulse_wraps app st time then
      (pulse_settle app fuel (pulse_update app st time) time).map (fun r => (r.1, r.2 + 1))
    else some (pulse_update app st time, 0)

/-- Durations `T1 = 0.5`, `T2 = 5`, `T3 = -2.5`, `T4 = -2` (as `pulse_time 0.5 -2.5` and
`purge_time 5 -2` set them): their sum is 1. -/
def appNegT : App :=
  { appNull with T1 := 1 / 2, T2 := 5, T3 := -5 / 2, T4 := -2 }

/-! ## Diagnostic `diag_style ald/TMA` (`diag_ald_TMA.cpp`) -/

namespace Diag

/-! The enumeration of `diag_ald_TMA.cpp` line 28. -/

def VACANCY : Int := 0
def O : Int := 1
def OH : Int := 2
def Ala : Int := 3
def OHAlaX3 : Int := 4
def OAlaX2 : Int := 5
def OAlaX2H2O : Int := 6
def OAlaXOH : Int := 7
def OAlaXOHH2O : Int := 8
def OAlaX : Int := 9
def OAlaXH2O : Int := 10
def OAlaOH : Int := 11
def OAlaOH2 : Int := 12
def AlaOH : Int := 13
def AlaOH2 : Int := 14
def Alb : Int := 15
def OHAlbX3 : Int := 16
def OAlbX2 : Int := 17
def OAlbX2H2O : Int := 18
def OAlbXOH : Int := 19
def OAlbXOHH2O : Int := 20
def OAlbX : Int := 21
def OAlbXH2O : Int := 22
def OAlbOH : Int := 23
def OAlbOH2 : Int := 24
def AlbOH : Int := 25
def AlbOH2 : Int := 26
def H2O : Int := 27
def QCM : Int := 28
def EVENTS : Int := 29
def ONE : Int := 30
def TWO : Int := 31
def THREE : Int := 32
def FOUR : Int := 33
def OHG : Int := 34
def XG : Int := 35
def TYPE1_TOTAL : Int := 36
def TYPE2_TOTAL : Int := 37
def TYPE3_TOTAL : Int := 38
def TYPE4_TOTAL : Int := 39
def ALL_EVENTS_TOTAL : Int := 40
def OAla : Int := 41
def OAlb : Int := 42
def ALA_TOTAL : Int := 43
def ALB_TOTAL : Int := 44

end Diag

/-- The body of the loop of `DiagAldTMA::init` (lines 79-149) for one list entry
`name`: the values stored in `which[i]` and `index[i]` (`index0` is what `index[i]`
held before; it is written only for the entries `s<n>`, `d<n>`, `v<n>`, `f<n>`). -/
def diag_init_entry (app : App) (name : String) (index0 : Int) : Except Fault (Int × Int) :=
  if name = "VAC" then .ok (Diag.VACANCY, index0)
  else if name = "O" then .ok (Diag.O, index0)
  else if name = "OH" then .ok (Diag.OH, index0)
  else if name = "Ala" then .ok (Diag.Ala, index0)
  else if name = "OHAlaX3" then .ok (Diag.OHAlaX3, index0)
  else if name = "OAlaX2" then .ok (Diag.OAlaX2, index0)
  else if name = "OAlaX2H2O" then .ok (Diag.OAlaX2H2O, index0)
  else if name = "OAlaXOH" then .ok (Diag.OAlaXOH, index0)
  else if name = "OAlaX" then .ok (Diag.OAlaX, index0)
  else if name = "OAlaOH" then .ok (Diag.OAlaOH, index0)
  else if name = "OAlaOH2" then .ok (Diag.OAlaOH2, index0)
  else if name = "AlaOH" then .ok (Diag.AlaOH, index0)
  else if name = "AlaOH2" then .ok (Diag.AlaOH2, index0)
  else if name = "Alb" then .ok (Diag.Alb, index0)
  else if name = "OHAlbX3" then .ok (Diag.OHAlbX3, index0)
  else if name = "OAlbX2" then .ok (Diag.OAlbX2, index0)
  else if name = "OAlbX2H2O" then .ok (Diag.OAlbX2H2O, index0)
  else if name = "OAlbXOH" then .ok (Diag.OAlbXOH, index0)
  else if name = "OAlbX" then .ok (Diag.OAlbX, index0)
  else if name = "OAlbOH" then .ok (Diag.OAlbOH, index0)
  else if name = "OAlbOH2" then .ok (Diag.OAlbOH2, index0)
  else if name = "AlbOH" then .ok (Diag.AlbOH, index0)
  else if name = "AlbOH2" then .ok (Diag.AlbOH2, index0)
  else if name = "OAla" then .ok (Diag.OAla, index0)
  else if name = "OAlb" then .ok (Diag.OAlb, index0)
  else if name = "H2O" then .ok (Diag.H2O, index0)
  else if name = "OAlaXOHH2O" then .ok (Diag.OAlaXOHH2O, index0)
  else if name = "OAlaXH2O" then .ok (Diag.OAlaXH2O, index0)
  else if name = "OAlbXOHH2O" then .ok (Diag.OAlbXOHH2O, index0)
  else if name = "OAlbXH2O" then .ok (Diag.OAlbXH2O, index0)
  else if name = "events" then .ok (Diag.EVENTS, index0)
  else if name = "QCM" then .ok (Diag.QCM, index0)
  else if name = "OHG" then .ok (Diag.OHG, index0)
  else if name = "XG" then .ok (Diag.XG, index0)
  else if name = "type1_total" then .ok (Diag.TYPE1_TOTAL, index0)
  else if name = "type2_total" then .ok (Diag.TYPE2_TOTAL, index0)
  else if name = "type3_total" then .ok (Diag.TYPE3_TOTAL, index0)
  else if name = "type4_total" then .ok (Diag.TYPE4_TOTAL, index0)
  else if name = "all_events" then .ok (Diag.ALL_EVENTS_TOTAL, index0)
  else if name = "ala_total" then .ok (Diag.ALA_TOTAL, index0)
  else if name = "alb_total" then .ok (Diag.ALB_TOTAL, index0)
  else if name.toList.head? = some 'f' then
    let n := atoi (String.mk name.toList.tail)
    if n < 1 ∨ n > app.nfour then .error Fault.fatal else .ok (Diag.FOUR, n - 1)
  else if name.toList.head? = some 's' then
    let n := atoi (String.mk name.toList.tail)
    if n < 1 ∨ n > app.none then .error Fault.fatal else .ok (Diag.ONE, n - 1)
  else if name.toList.head? = some 'd' then
    let n := atoi (String.mk name.toList.tail)
    if n < 1 ∨ n > app.ntwo then .error Fault.fatal else .ok (Diag.TWO, n - 1)
  else if name.toList.head? = some 'v' then
    let n := atoi (String.mk name.toList.tail)
    if n < 1 ∨ n > app.nthree then .error Fault.fatal else .ok (Diag.THREE, n - 1)
  else .error Fault.fatal

/-- The assignments `sites[X] = 0` of `DiagAldTMA::compute` (lines 166-175), applied
to the uninitialised local array `int sites[800]`, whose prior content is `garbage`. -/
def diag_sites_init (garbage : Int → Int) : Int → Int :=
  [Diag.VACANCY, Diag.O, Diag.OH, Diag.Ala, Diag.OHAlaX3,
   Diag.OAlaX2, Diag.OAlaX2H2O, Diag.OAlaXOH, Diag.OAlaXOHH2O, Diag.OAlaX,
   Diag.OAlaXH2O, Diag.OAlaOH, Diag.OAlaOH2, Diag.AlaOH, Diag.AlaOH2,
   Diag.Alb, Diag.OHAlbX3, Diag.OAlbX2, Diag.OAlbX2H2O, Diag.OAlbXOH,
   Diag.OAlbXOHH2O, Diag.OAlbX, Diag.OAlbXH2O, Diag.OAlbOH, Diag.OAlbOH2,
   Diag.AlbOH, Diag.AlbOH2, Diag.OAla, Diag.OAlb, Diag.H2O].foldl
    (fun sites x => upd sites x 0) garbage

/-- The histogram loop `for (i = 0; i < nlocal; i++) sites[element[i]]++` (line 179)
after the initialisation. -/
def diag_sites (app : App) (st : State) (garbage : Int → Int) : Int → Int :=
  (irange app.nlocal).foldl
    (fun sites i => upd sites (st.element i) (sites (st.element i) + 1))
    (diag_sites_init garbage)

/-- The value `ivalue` that the second loop of `DiagAldTMA::compute` (lines 182-290)
computes for a list entry with the given `which` and `index`, before the
`MPI_Allreduce`; `ivalue0` is what the uninitialised local `ivalue` held. -/
def diag_value (app : App) (st : State) (sites : Int → Int) (which index ivalue0 : Int) :
    Int :=
  if which = Diag.VACANCY then sites Diag.VACANCY
  else if which = Diag.O then sites Diag.O
  else if which = Diag.OH then sites Diag.OH
  else if which = Diag.Ala then sites Diag.Ala
  else if which = Diag.OHAlaX3 then sites Diag.OHAlaX3
  else if which = Diag.OAlaX2 then sites Diag.OAlaX2
  else if which = Diag.OAlaX2H2O then sites Diag.OAlaX2H2O
  else if which = Diag.OAlaXOH then sites Diag.OAlaXOH
  else if which = Diag.OAlaX then sites Diag.OAlaX
  else if which = Diag.OAlaOH then sites Diag.OAlaOH
  else if which = Diag.OAlaOH2 then sites Diag.OAlaOH2
  else if which = Diag.AlaOH then sites Diag.AlaOH
  else if which = Diag.AlaOH2 then sites Diag.AlaOH2
  else if which = Diag.Alb then sites Diag.Alb
  else if which = Diag.OHAlbX3 then sites Diag.OHAlbX3
  else if which = Diag.OAlbX2 then sites Diag.OAlbX2
  else if which = Diag.OAlbX2H2O then sites Diag.OAlbX2H2O
  else if which = Diag.OAlbXOH then sites Diag.OAlbXOH
  else if which = Diag.OAlbX then sites Diag.OAlbX
  else if which = Diag.OAlbOH then sites Diag.OAlbOH
  else if which = Diag.OAlbOH2 then sites Diag.OAlbOH2
  else if which = Diag.AlbOH then sites Diag.AlbOH
  else if which = Diag.AlbOH2 then sites Diag.AlbOH2
  else if which = Diag.OAla then sites Diag.OAla
  else if which = Diag.OAlb then sites Diag.OAlb
  else if which = Diag.H2O then sites Diag.H2O
  else if which = Diag.OAlaXOHH2O then sites Diag.OAlaXOHH2O
  else if which = Diag.OAlaXH2O then sites Diag.OAlaXH2O
  else if which = Diag.OAlbXOHH2O then sites Diag.OAlbXOHH2O
  else if which = Diag.OAlbXH2O then sites Diag.OAlbXH2O
  else if which = Diag.EVENTS then st.es.nevents
  else if which = Diag.ONE then st.scount index
  else if which = Diag.TWO then st.dcount index
  else if which = Diag.THREE then st.vcount index
  else if which = Diag.FOUR then st.fcount index
  else if which = Diag.QCM then
    0 * sites Diag.VACANCY + 16 * sites Diag.O + 17 * sites Diag.OH + 27 * sites Diag.Ala +
    89 * sites Diag.OHAlaX3 + 73 * sites Diag.OAlaX2 + 91 * sites Diag.OAlaX2H2O +
    75 * sites Diag.OAlaXOH + 93 * sites Diag.OAlaXOHH2O +
    58 * sites Diag.OAlaX + 76 * sites Diag.OAlaXH2O +
    60 * sites Diag.OAlaOH + 77 * sites Diag.OAlaOH2 + 44 * sites Diag.AlaOH +
    61 * sites Diag.AlaOH2 +
    27 * sites Diag.Alb + 89 * sites Diag.OHAlbX3 + 73 * sites Diag.OAlbX2 +
    91 * sites Diag.OAlbX2H2O +
    75 * sites Diag.OAlbXOH + 93 * sites Diag.OAlbXOHH2O +
    58 * sites Diag.OAlbX + 76 * sites Diag.OAlbXH2O +
    60 * sites Diag.OAlbOH + 77 * sites Diag.OAlbOH2 + 44 * sites Diag.AlbOH +
    61 * sites Diag.AlbOH2 +
    43 * sites Diag.OAla + 43 * sites Diag.OAlb + 18 * sites Diag.H2O
  else if which = Diag.OHG then
    sites Diag.OH + sites Diag.OHAlaX3 + sites Diag.OAlaXOH + sites Diag.OAlaOH +
    2 * sites Diag.OAlaOH2 + sites Diag.AlaOH + 2 * sites Diag.AlaOH2 +
    sites Diag.OHAlbX3 + sites Diag.OAlbXOH + sites Diag.OAlbOH + 2 * sites Diag.OAlbOH2 +
    sites Diag.AlbOH + 2 * sites Diag.AlbOH2
  else if which = Diag.XG then
    3 * sites Diag.OHAlaX3 + 2 * sites Diag.OAlaX2 + 2 * sites Diag.OAlaX2H2O +
    sites Diag.OAlaXOH + sites Diag.OAlaX + 3 * sites Diag.OHAlbX3 + 2 * sites Diag.OAlbX2 +
    2 * sites Diag.OAlbX2H2O + sites Diag.OAlbXOH + sites Diag.OAlbX +
    sites Diag.OAlaXOHH2O + sites Diag.OAlaXH2O + sites Diag.OAlbXOHH2O +
    sites Diag.OAlbXH2O
  else if which = Diag.TYPE1_TOTAL then
    (irange app.none).foldl (fun iv j => iv + st.scount j) 0
  else if which = Diag.TYPE2_TOTAL then
    (irange app.ntwo).foldl (fun iv j => iv + st.dcount j) 0
  else if which = Diag.TYPE3_TOTAL then
    (irange app.nthree).foldl (fun iv j => iv + st.vcount j) 0
  else if which = Diag.TYPE4_TOTAL then
    (irange app.nfour).foldl (fun iv j => iv + st.fcount j) 0
  else if which = Diag.ALL_EVENTS_TOTAL then
    (irange app.nfour).foldl (fun iv j => iv + st.fcount j)
      ((irange app.nthree).foldl (fun iv j => iv + st.vcount j)
        ((irange app.ntwo).foldl (fun iv j => iv + st.dcount j)
          ((irange app.none).foldl (fun iv j => iv + st.scount j) 0)))
  else if which = Diag.ALA_TOTAL then
    sites Diag.Ala + sites Diag.OHAlaX3 + sites Diag.OAlaX2 + sites Diag.OAlaX2H2O +
    sites Diag.OAlaXOH + sites Diag.OAlaXOHH2O +
    sites Diag.OAlaX + sites Diag.OAlaXH2O +
    sites Diag.OAlaOH + sites Diag.OAlaOH2 +
    sites Diag.AlaOH + sites Diag.AlaOH2 + sites Diag.OAla
  else if which = Diag.ALB_TOTAL then
    sites Diag.Alb + sites Diag.OHAlbX3 + sites Diag.OAlbX2 + sites Diag.OAlbX2H2O +
    sites Diag.OAlbXOH + sites Diag.OAlbXOHH2O +
    sites Diag.OAlbX + sites Diag.OAlbXH2O +
    sites Diag.OAlbOH + sites Diag.OAlbOH2 +
    sites Diag.AlbOH + sites Diag.AlbOH2 + sites Diag.OAlb
  else ivalue0

/-- The local value that `DiagAldTMA::init` followed by `DiagAldTMA::compute` produces
for the list entry `name` (`none` if `init` stops in its fatal error). -/
def diag_local_value (app : App) (st : State) (garbage : Int → Int) (name : String) :
    Option Int :=
  match diag_init_entry app name 0 with
  | .ok (which, index) => some (diag_value app st (diag_sites app st garbage) which index 0)
  | .error _ => none

/-- Number of owned sites `i` (in `[0, nlocal)`) with `element[i] = v`. -/
def species_count (app : App) (st : State) (v : Int) : Int :=
  (((irange app.nlocal).filter (fun i => decide (st.element i = v))).length : Int)

/-- Three owned sites, each the neighbour of the other two: `neighbor[x] =
{x + 1, x + 2}` modulo 3, so the two first-shell neighbours of a site are adjacent to
each other. No reactions. -/
def appTri : App :=
  { appNull with
    nlocal := 3
    i2site := fun x => if 0 ≤ x ∧ x < 3 then x else -1
    numneigh := fun _ => 2
    neighbor := fun x jj => (x + 1 + jj) % 3 }

/-- The number of nodes on the per-site chains `L` of the owned sites. -/
def nodeTotal (n : Int) (L : Int → List Int) : Nat :=
  ((irange n).map (fun i => (L i).length)).sum

/-- Event stores reached from `setup_app` by calls `add_event(i, ...)` and
`clear_events(i)` at owned sites; only calls that return are steps. -/
inductive ArenaReach (app : App) : EventStore → Prop
  | setup (st : State) : 0 ≤ st.es.maxevent → ArenaReach app (setup_app app st).es
  | add (es es1 : EventStore) (i rstyle which : Int) (p : ℚ) (j k g : Int) :
      ArenaReach app es → 0 ≤ i → i < app.nlocal →
      add_event es i rstyle which p j k g = .ok es1 → ArenaReach app es1
  | clear (es es1 : EventStore) (fuel : Nat) (i : Int) :
      ArenaReach app es → 0 ≤ i → i < app.nlocal →
      clear_events fuel es i = .ok es1 → ArenaReach app es1

/-! ## Rate tables, well-formed events and counted runs -/

/-- The C library functions `pow` (with the `int` exponent of `sexpon[m]` converted)
and `exp`, with the two values the C standard fixes exactly: `pow(x, 0) = 1` and
`exp(0) = 1`. -/
structure Libm where
  pow : ℚ → Int → ℚ
  exp : ℚ → ℚ
  pow_zero : ∀ x, pow x 0 = 1
  exp_zero : exp 0 = 1

/-- The expression `A*pow(temperature,n)*exp(-Ea/(temperature*8.617333262e-5))`
(lines 440, 445, 450, 455). -/
def rate_propensity (lm : Libm) (temperature A : ℚ) (expon : Int) (rate : ℚ) : ℚ :=
  A * lm.pow temperature expon *
    lm.exp (-rate / (temperature * (8617333262 / 100000000000000)))

/-- The part of `setup_app` that fills the propensity tables (lines 437-457): fatal for
temperature 0, else every declared reaction gets its `rate_propensity`; a zero value
only raises a warning. -/
def setup_propensities (lm : Libm) (temperature : ℚ) (app : App) : Except Fault App :=
  if temperature = 0 then .error Fault.fatal
  else
    .ok { app with
      spropensity := fun m =>
        if 0 ≤ m ∧ m < app.none then
          rate_propensity lm temperature (app.sA m) (app.sexpon m) (app.srate m)
        else app.spropensity m
      dpropensity := fun m =>
        if 0 ≤ m ∧ m < app.ntwo then
          rate_propensity lm temperature (app.dA m) (app.dexpon m) (app.drate m)
        else app.dpropensity m
      vpropensity := fun m =>
        if 0 ≤ m ∧ m < app.nthree then
          rate_propensity lm temperature (app.vA m) (app.vexpon m) (app.vrate m)
        else app.vpropensity m
      fpropensity := fun m =>
        if 0 ≤ m ∧ m < app.nfour then
          rate_propensity lm temperature (app.fA m) (app.fexpon m) (app.frate m)
        else app.fpropensity m }

/-- A sequence of input commands `(command, arguments)` read in order by
`input_app`. -/
def declare (atof : String → ℚ) (app : App) (cmds : List (String × List String)) :
    Except Fault App :=
  cmds.foldlM (fun a c => input_app atof a c.1 c.2) app

/-- The reaction counts as the constructor leaves them (lines 47-48): no reaction
declared. -/
def NoReactions (app : App) : Prop :=
  app.none = 0 ∧ app.ntwo = 0 ∧ app.nthree = 0 ∧ app.nfour = 0

/-- Every declared reaction has a strictly positive propensity. -/
def PositiveProps (app : App) : Prop :=
  (∀ m, 0 ≤ m → m < app.none → 0 < app.spropensity m) ∧
  (∀ m, 0 ≤ m → m < app.ntwo → 0 < app.dpropensity m) ∧
  (∀ m, 0 ≤ m → m < app.nthree → 0 < app.vpropensity m) ∧
  (∀ m, 0 ≤ m → m < app.nfour → 0 < app.fpropensity m)

/-- The record `r` is one `site_propensity` can link: its propensity is not 0 and it is
the null event, or an event of style 1..4 whose `which` indexes a declared reaction of
that style, whose propensity is that reaction's table entry and whose unused partner
fields are -1. -/
def WellFormedEvent (app : App) (r : EvData) : Prop :=
  r.propensity ≠ 0 ∧
  ((r.style = 1 ∧ 0 ≤ r.which ∧ r.which < app.none ∧ r.jpartner = -1 ∧ r.kpartner = -1 ∧
      r.gpartner = -1 ∧ r.propensity = app.spropensity r.which) ∨
   (r.style = 2 ∧ 0 ≤ r.which ∧ r.which < app.ntwo ∧ r.jpartner = -1 ∧ r.gpartner = -1 ∧
      r.propensity = app.dpropensity r.which) ∨
   (r.style = 3 ∧ 0 ≤ r.which ∧ r.which < app.nthree ∧ r.kpartner = -1 ∧ r.gpartner = -1 ∧
      r.propensity = app.vpropensity r.which) ∨
   (r.style = 4 ∧ 0 ≤ r.which ∧ r.which < app.nfour ∧ r.jpartner = -1 ∧ r.kpartner = -1 ∧
      r.propensity = app.fpropensity r.which) ∨
   r = nullEvent)

/-- The partner field in use of a record on the list of site `i` is a site the loops
of `site_propensity(i)` visit: for a D event `k = neighbor[neighbor[i][jj]][kk]` with
`k != i` (lines 503-506), for a V event `j = neighbor[i][jj]` (line 536), for an F event
`g = same_z_neighbors[i][p]` (line 556), for in-range loop indices. -/
def PartnerReached (app : App) (i : Int) (r : EvData) : Prop :=
  (r.style = 2 → DReached app i r.kpartner ∧ r.kpartner ≠ i) ∧
  (r.style = 3 → ∃ jj, 0 ≤ jj ∧ jj < app.numneigh i ∧ app.neighbor i jj = r.jpartner) ∧
  (r.style = 4 → ∃ p, 0 ≤ p ∧ p < app.num_same_z_neighbors i ∧
    app.same_z_neighbors i p = r.gpartner)

/-- The record `r` is a well-formed event of the list of site `i`. -/
def WellFormedAt (app : App) (i : Int) (r : EvData) : Prop :=
  WellFormedEvent app r ∧ PartnerReached app i r

/-- The event store is well formed and every record on the list of an owned site is a
well-formed event of that site. -/
def WfLists (app : App) (es : EventStore) : Prop :=
  ∃ A, EventLists app.nlocal es A ∧
    ∀ i, 0 ≤ i → i < app.nlocal → ∀ r ∈ A i, WellFormedAt app i r

/-- The event with index `ievent` is a node of the chain linked from `firstevent[i]`. -/
def OnChain (es : EventStore) (i ievent : Int) : Prop :=
  ∃ L, Chain (nextOf es) (es.firstevent i) L (-1) ∧ (∀ x ∈ L, 0 ≤ x) ∧ ievent ∈ L

/-- A property of states that every step of the refresh phase of `site_event` keeps:
`site_propensity` at an owned site, `count_coord`, writes to the scratch members
`propensity`, `esites`, `echeck`, the pulse update and the mask functions. -/
def RefreshClosed (app : App) (J : State → Prop) : Prop :=
  (∀ (st st1 : State) (fuel : Nat) (s : Int) (p : ℚ), 0 ≤ s → s < app.nlocal → J st →
    site_propensity app fuel st s = .ok (st1, p) → J st1) ∧
  (∀ (st : State) (s : Int), J st → J (count_coord app st s)) ∧
  (∀ (st : State) (p : Int → ℚ) (e c : Int → Int), J st →
    J { st with propensity := p, esites := e, echeck := c }) ∧
  (∀ (st : State) (time : ℚ), J st → J (pulse_update app st time)) ∧
  (∀ (st : State) (a : MaskAction), J st → J (run_mask app st a))

/-- The sum of all entries of `scount`, `dcount`, `vcount` and `fcount`. -/
def counter_total (app : App) (st : State) : Int :=
  ((irange app.none).map st.scount).sum + ((irange app.ntwo).map st.dcount).sum +
  ((irange app.nthree).map st.vcount).sum + ((irange app.nfour).map st.fcount).sum

/-- Runs of the host from the state `st0` handed to `setup_app`, with the number of
non-NULL events executed so far: `setup_app`, then calls
`propensity[i2site[i]] = site_propensity(i)` and `site_event(i, random)` at owned sites.
Only calls that return are steps, and the event a `site_event` call selects lies on the
list of its site (as it does when `0 <= uniform < 1` and `propensity[i2site[i]]` holds
the total of that list). -/
inductive RunFrom (app : App) (st0 : State) : State → Int → Prop
  | setup : 0 ≤ st0.es.maxevent → RunFrom app st0 (setup_app app st0) 0
  | propensity (st st1 : State) (n : Int) (fuel : Nat) (i : Int) (p : ℚ) :
      RunFrom app st0 st n → 0 ≤ i → i < app.nlocal →
      site_propensity app fuel st i = .ok (st1, p) →
      RunFrom app st0 { st1 with propensity := upd st1.propensity (app.i2site i) p } n
  | event (st st1 : State) (n : Int) (fuel : Nat) (i : Int) (uniform time : ℚ)
      (touched : List Int) (ievent : Int) :
      RunFrom app st0 st n → 0 ≤ i → i < app.nlocal →
      select_event app fuel st i uniform = .ok ievent → OnChain st.es i ievent →
      site_event app fuel st i uniform time = .ok (st1, touched) →
      RunFrom app st0 st1 (n + (if (st.es.events ievent).style = 5 then 0 else 1))

/-- One counter entry of `st1` is one above its value in `st`, every other entry of the
four counters is the same: entry `m` of the table `style` (1 = `scount`, 2 = `dcount`,
3 = `vcount`, 4 = `fcount`). -/
def CounterRaised (app : App) (st st1 : State) (style m : Int) : Prop :=
  (style = 1 ∧ 0 ≤ m ∧ m < app.none ∧ st1.scount = upd st.scount m (st.scount m + 1) ∧
    st1.dcount = st.dcount ∧ st1.vcount = st.vcount ∧ st1.fcount = st.fcount) ∨
  (style = 2 ∧ 0 ≤ m ∧ m < app.ntwo ∧ st1.dcount = upd st.dcount m (st.dcount m + 1) ∧
    st1.scount = st.scount ∧ st1.vcount = st.vcount ∧ st1.fcount = st.fcount) ∨
  (style = 3 ∧ 0 ≤ m ∧ m < app.nthree ∧ st1.vcount = upd st.vcount m (st.vcount m + 1) ∧
    st1.scount = st.scount ∧ st1.dcount = st.dcount ∧ st1.fcount = st.fcount) ∨
  (style = 4 ∧ 0 ≤ m ∧ m < app.nfour ∧ st1.fcount = upd st.fcount m (st.fcount m + 1) ∧
    st1.scount = st.scount ∧ st1.dcount = st.dcount ∧ st1.vcount = st.vcount)

/-- All four counters are the same in `st` and `st1`. -/
def CountersSame (st st1 : State) : Prop :=
  st1.scount = st.scount ∧ st1.dcount = st.dcount ∧ st1.vcount = st.vcount ∧
  st1.fcount = st.fcount

/-- No entry of the four counters is lower in `st1` than in `st`. -/
def CountersMono (st st1 : State) : Prop :=
  (∀ m, st.scount m ≤ st1.scount m) ∧ (∀ m, st.dcount m ≤ st1.dcount m) ∧
  (∀ m, st.vcount m ≤ st1.vcount m) ∧ (∀ m, st.fcount m ≤ st1.fcount m)

/-- The site validity check of `init_app` (lines 412-421) on one rank: fatal when some
owned site has `coord < -1`, `coord > 8` or `element < VACANCY`. -/
def init_app_check (app : App) (st : State) : Except Fault Unit :=
  let flag : Int := (irange app.nlocal).foldl
    (fun flag i =>
      let flag1 := if st.coord i < -1 ∨ st.coord i > 8 then 1 else flag
      if st.element i < VACANCY then 1 else flag1)
    0
  if flag ≠ 0 then .error Fault.fatal else .ok ()

/-- Every owned site holds one of the 26 species `VACANCY = 0, ..., H2O = 25`. -/
def SpeciesValid (app : App) (st : State) : Prop :=
  ∀ i, 0 ≤ i → i < app.nlocal → 0 ≤ st.element i ∧ st.element i ≤ 25

/-- Every output species of a declared reaction is one of the 26 species. -/
def DeclaredOutputs (app : App) : Prop :=
  (∀ m, 0 ≤ m → m < app.none → 0 ≤ app.soutput m ∧ app.soutput m ≤ 25) ∧
  (∀ m, 0 ≤ m → m < app.ntwo → (0 ≤ app.doutput m 0 ∧ app.doutput m 0 ≤ 25) ∧
    (0 ≤ app.doutput m 1 ∧ app.doutput m 1 ≤ 25)) ∧
  (∀ m, 0 ≤ m → m < app.nthree → (0 ≤ app.voutput m 0 ∧ app.voutput m 0 ≤ 25) ∧
    (0 ≤ app.voutput m 1 ∧ app.voutput m 1 ≤ 25)) ∧
  (∀ m, 0 ≤ m → m < app.nfour → (0 ≤ app.foutput m 0 ∧ app.foutput m 0 ≤ 25) ∧
    (0 ≤ app.foutput m 1 ∧ app.foutput m 1 ≤ 25))

/-- The events one call `site_propensity(i)` adds, newest first, and the total it
returns, if the call does not stop in an error. -/
def addedTotal (app : App) (st : State) (i : Int) : Option (List EvData × ℚ) :=
  match added_events app st i with
  | .ok e => some (e.store, e.proball)
  | .error _ => none

/-- A stand-in for `atof` with its values on the two numerals used in the scenario
below: -1 for `-1.0`, and 0 for `0.0` (and for every other string). -/
def atofSample (s : String) : ℚ := if s = "-1.0" then -1 else 0

/-- The application data (one owned site, no neighbours) after the input command
`event 1 O OH -1.0 0 0.0 all 0 0` and the table setup of `setup_app`: one S reaction
`O -> OH` with `A = -1`, `n = 0`, `Ea = 0`, `req_coord = ALL`, `press_on = 0`, and
propensity `-1 * pow(T, 0) * exp(0) = -1`. -/
def appNegA : App :=
  { appNull with
    none := 1
    sinput := upd appNull.sinput 0 O
    soutput := upd appNull.soutput 0 OH
    sA := upd appNull.sA 0 (-1)
    sexpon := upd appNull.sexpon 0 0
    srate := upd appNull.srate 0 0
    scoord := upd appNull.scoord 0 COORD_ALL
    spresson := upd appNull.spresson 0 0
    spropensity := fun m => if 0 ≤ m ∧ m < 1 then -1 else 0 }

/-- Every entry of the four counters that belongs to a declared reaction is
nonnegative. -/
def CountersNonneg (app : App) (st : State) : Prop :=
  (∀ m, 0 ≤ m → m < app.none → 0 ≤ st.scount m) ∧
  (∀ m, 0 ≤ m → m < app.ntwo → 0 ≤ st.dcount m) ∧
  (∀ m, 0 ≤ m → m < app.nthree → 0 ≤ st.vcount m) ∧
  (∀ m, 0 ≤ m → m < app.nfour → 0 ≤ st.fcount m)

/-- The application data after the input command `event 1 O OH -1.0 0 0.0 all 0 0`
read on `appNull`, before `setup_app`. -/
def appDeclA : App :=
  { appNull with
    none := 1
    sinput := upd appNull.sinput 0 O
    soutput := upd appNull.soutput 0 OH
    sA := upd appNull.sA 0 (-1)
    sexpon := upd appNull.sexpon 0 0
    srate := upd appNull.srate 0 0
    scoord := upd appNull.scoord 0 COORD_ALL
    spresson := upd appNull.spresson 0 0 }

/-- A stand-in for the C library: `pow` on nonnegative exponents and the constant 1
for `exp`; it has the two exactly fixed values. -/
def libmSample : Libm :=
  { pow := fun x n => x ^ n.toNat
    exp := fun _ => 1
    pow_zero := fun x => by simp
    exp_zero := rfl }

/-- Site `y` is one of the first `j` entries of the neighbour list of `t`. -/
def NbrBelow (app : App) (t j y : Int) : Prop :=
  ∃ ss, 0 ≤ ss ∧ ss < j ∧ app.neighbor t ss = y

/-- Site `y` carries the scratch mark after `k` iterations of the outer loop of
`put_mask(i)` (lines 1038-1058): it is `i`, or one of the first `k` neighbours of `i`,
or a neighbour of one of these. -/
def MaskMarked (app : App) (i k y : Int) : Prop :=
  y = i ∨ ∃ s, 0 ≤ s ∧ s < k ∧
    (app.neighbor i s = y ∨ NbrBelow app (app.neighbor i s) (app.numneigh (app.neighbor i s)) y)

/-- The second-shell branch of `put_mask(i)` has changed `coord[x]` within the first `k`
iterations of the outer loop: `x` is not `i`, it is a neighbour of `neighbor[i][s]` for
some `s < k`, and it is none of `neighbor[i][0..s]`. -/
def MaskLowered (app : App) (i k x : Int) : Prop :=
  x ≠ i ∧ ∃ s, 0 ≤ s ∧ s < k ∧
    NbrBelow app (app.neighbor i s) (app.numneigh (app.neighbor i s)) x ∧
    ∀ s1, 0 ≤ s1 → s1 ≤ s → app.neighbor i s1 ≠ x

/-- Loop invariant of the mask functions: the owned sites marked in `echeck` are those
satisfying `M`, and `coord` is `st.coord` with `d2` added at the sites satisfying `L`. -/
def MaskInv (app : App) (st : State) (d2 : Int) (M L : Int → Prop) (acc : State × Int) :
    Prop :=
  (∀ y, 0 ≤ y → y < app.nlocal →
    (M y → acc.1.echeck (app.i2site y) = 1) ∧ (¬ M y → acc.1.echeck (app.i2site y) = 0)) ∧
  (∀ x, (L x → acc.1.coord x = st.coord x + d2) ∧ (¬ L x → acc.1.coord x = st.coord x))

/-- No first-shell neighbour of `i` is a neighbour of a first-shell neighbour of `i`. -/
def NoAdjacentFirstShell (app : App) (i : Int) : Prop :=
  ∀ s t, 0 ≤ s → s < app.numneigh i → 0 ≤ t → t < app.numneigh i →
    ¬ NbrBelow app (app.neighbor i s) (app.numneigh (app.neighbor i s)) (app.neighbor i t)

/-- Every solver index marked in `echeck` is recorded in `esites[0..nsites)`. -/
def MarksRecorded (acc : State × Int) : Prop :=
  0 ≤ acc.2 ∧ ∀ y, acc.1.echeck y ≠ 0 → ∃ m, 0 ≤ m ∧ m < acc.2 ∧ acc.1.esites m = y

/-- Two owned sites 0 and 1 that are each other's only neighbour, with the S reaction
`VACANCY -> O` and the V reaction `(O, O) -> (OH, O)`, both with propensity 1, every
`req_coord = ALL` and `press_on = 0`. -/
def appStale : App :=
  { appNull with
    nlocal := 2
    numneigh := fun _ => 1
    neighbor := fun x _ => if x = 0 then 1 else 0
    i2site := fun x => if x = 0 ∨ x = 1 then x else -1
    none := 1
    sinput := fun _ => VACANCY
    soutput := fun _ => O
    scoord := fun _ => COORD_ALL
    spresson := fun _ => 0
    spropensity := fun _ => 1
    nthree := 1
    vinput := fun _ _ => O
    voutput := fun _ slot => if slot = 0 then OH else O
    vcoord := fun _ => COORD_ALL
    vcoord2 := fun _ => COORD_ALL
    vpresson := fun _ => 0
    vpropensity := fun _ => 1 }

/-- The state of `appStale` with site 0 vacant and site 1 holding `O`, `coord` holding
the numbers of occupied neighbours (`coord[0] = 1`, `coord[1] = 0`), after `setup_app`
and the host's first `propensity[i2site[s]] = site_propensity(s)` for `s = 0, 1`. -/
def stStale : State :=
  match site_propensity appStale 0
      (setup_app appStale
        { stInit O with
          element := fun x => if x = 0 then VACANCY else O
          coord := fun x => if x = 0 then 1 else 0 }) 0 with
  | .ok (s0, p0) =>
    match site_propensity appStale 100000 { s0 with propensity := upd s0.propensity 0 p0 } 1 with
    | .ok (s1, p1) => { s1 with propensity := upd s1.propensity 1 p1 }
    | .error _ => stInit O
  | .error _ => stInit O

/-- The result of a `site_event` call, if the call returned. -/
def returned (r : Except Fault (State × List Int)) : Option (State × List Int) :=
  match r with
  | .ok x => some x
  | .error _ => none

/-- The rooted tree with 46 owned sites in which the root 0 and the sites 1..21 have
three neighbours and the sites 22..45 are leaves: the root has the children 1, 2, 3,
and a site `x` in 1..21 has its parent as neighbour 0 and the children `2x + 2`,
`2x + 3`. No declared reaction. -/
def appTree : App :=
  { appNull with
    nlocal := 46
    i2site := fun x => if 0 ≤ x ∧ x < 46 then x else -1
    numneigh := fun x => if 0 ≤ x ∧ x ≤ 21 then 3 else 1
    neighbor := fun x jj =>
      if x = 0 then jj + 1
      else if jj = 0 then (if x ≤ 3 then 0 else (x - 2) / 2)
      else 2 * x + 1 + jj }

/-- The tree lattice with `O` on every site, after `setup_app` and the host's first
`propensity[i2site[0]] = site_propensity(0)`. -/
def stTree : State :=
  match site_propensity appTree 0 (setup_app appTree (stInit O)) 0 with
  | .ok (s, p) => { s with propensity := upd s.propensity 0 p }
  | .error _ => stInit O

/-! ## The same-z table (`precompute_same_z_neighbors`, lines 316-395) -/

/-- The tolerance `z_tolerance = 1e-6` set in the constructor (line 67). -/
def z_tolerance : ℚ := 1 / 1000000

/-- The table width `max_same_z_neighbors = 6` set in the constructor (line 68). -/
def max_same_z_neighbors : Int := 6

/-- Function `horizontal_distance(i, j)` (lines 390-395); `sqrt` is the C library
function and `xyz` the host's site coordinates. -/
def horizontal_distance (sqrt : ℚ → ℚ) (xyz : Int → Int → ℚ) (i j : Int) : ℚ :=
  let dx := xyz i 0 - xyz j 0
  let dy := xyz i 1 - xyz j 1
  sqrt (dx * dx + dy * dy)

/-- The temporary arrays `temp_neighbors`, `temp_distances` and the counter `num_temp`
of one iteration of the site loop (lines 333-335). -/
structure SameZTemp where
  temp_neighbors : Int → Int
  temp_distances : Int → ℚ
  num_temp : Int

/-- The body of the collecting loop over `j` (lines 339-353). -/
def same_z_collect_step (sqrt : ℚ → ℚ) (xyz : Int → Int → ℚ) (i : Int) (t : SameZTemp)
    (j : Int) : SameZTemp :=
  if i = j then t
  else if abs (xyz i 2 - xyz j 2) ≤ z_tolerance then
    { temp_neighbors := upd t.temp_neighbors t.num_temp j
      temp_distances := upd t.temp_distances t.num_temp (horizontal_distance sqrt xyz i j)
      num_temp := t.num_temp + 1 }
  else t

/-- The collecting loop over `j` (lines 338-354), starting from freshly allocated
arrays with the contents of `fresh`. -/
def same_z_collect (sqrt : ℚ → ℚ) (xyz : Int → Int → ℚ) (nlocal i : Int)
    (fresh : SameZTemp) : SameZTemp :=
  (irange nlocal).foldl (same_z_collect_step sqrt xyz i) { fresh with num_temp := 0 }

/-- The body of the inner sorting loop (lines 359-369): exchange the entries `j` and `k`
of both arrays when `temp_distances[j] > temp_distances[k]`. -/
def same_z_swap (t : SameZTemp) (j k : Int) : SameZTemp :=
  if t.temp_distances j > t.temp_distances k then
    { t with
      temp_distances :=
        upd (upd t.temp_distances j (t.temp_distances k)) k (t.temp_distances j)
      temp_neighbors :=
        upd (upd t.temp_neighbors j (t.temp_neighbors k)) k (t.temp_neighbors j) }
  else t

/-- The sorting loops `for (j = 0; j < num_temp; j++) for (k = j + 1; k < num_temp; k++)`
(lines 357-371); the inner index is written `k = j + 1 + d` with `d` counting from 0. -/
def same_z_sort (t : SameZTemp) : SameZTemp :=
  (irange t.num_temp).foldl
    (fun t1 j =>
      (irange (t.num_temp - (j + 1))).foldl (fun t2 d => same_z_swap t2 j (j + 1 + d)) t1)
    t

/-- The selection loop `for (j = 0; j < num_temp && j < max_same_z_neighbors; j++)`
(lines 374-377): the new `num_same_z_neighbors[i]` and the row `same_z_neighbors[i]`,
starting from a freshly allocated row with the contents `row`. -/
def same_z_select (t : SameZTemp) (row : Int → Int) : Int × (Int → Int) :=
  (irange (min t.num_temp max_same_z_neighbors)).foldl
    (fun r j => (r.1 + 1, upd r.2 j (t.temp_neighbors j)))
    (0, row)

/-- One iteration of the site loop of `precompute_same_z_neighbors` (lines 322-382):
the count and the row it stores for site `i`. -/
def same_z_row (sqrt : ℚ → ℚ) (xyz : Int → Int → ℚ) (nlocal i : Int) (fresh : SameZTemp)
    (row : Int → Int) : Int × (Int → Int) :=
  same_z_select (same_z_sort (same_z_collect sqrt xyz nlocal i fresh)) row

/-- Function `precompute_same_z_neighbors` (lines 316-389). `fresh i` and `rows i` are
the contents of the arrays the iteration for site `i` allocates. -/
def precompute_same_z_neighbors (sqrt : ℚ → ℚ) (xyz : Int → Int → ℚ)
    (fresh : Int → SameZTemp) (rows : Int → Int → Int) (app : App) : App :=
  (irange app.nlocal).foldl
    (fun a i =>
      { a with
        num_same_z_neighbors := upd a.num_same_z_neighbors i
          (same_z_row sqrt xyz app.nlocal i (fresh i) (rows i)).1
        same_z_neighbors := upd a.same_z_neighbors i
          (same_z_row sqrt xyz app.nlocal i (fresh i) (rows i)).2 })
    app

/-- The same-plane sites of `i` in the words of the specification: the sites `j != i`
of `[0, nlocal)` with `|z_j - z_i| <= z_tol`, in index order. -/
def samePlane (xyz : Int → Int → ℚ) (nlocal i : Int) : List Int :=
  (irange nlocal).filter (fun j => decide (j ≠ i ∧ abs (xyz j 2 - xyz i 2) ≤ z_tolerance))

/-- The list `same_z_neighbors[i][0..num_same_z_neighbors[i])`. -/
def sameZList (app : App) (i : Int) : List Int :=
  (irange (app.num_same_z_neighbors i)).map (app.same_z_neighbors i)

/-- The entries `temp_neighbors[0..num_temp)`. -/
def tempList (t : SameZTemp) : List Int :=
  (irange t.num_temp).map t.temp_neighbors

/-- Invariant of the sorting loops: `num_temp` is `n`, the entries of `temp_neighbors`
are a rearrangement of the list `N`, and `temp_distances[m]` is the key `D` of
`temp_neighbors[m]`. -/
def SortInv (D : Int → ℚ) (n : Int) (N : List Int) (t : SameZTemp) : Prop :=
  t.num_temp = n ∧ List.Perm (tempList t) N ∧
  ∀ m, 0 ≤ m → m < n → t.temp_distances m = D (t.temp_neighbors m)

/-- A stand-in for `sqrt` with its values on the arguments used in the scenarios below:
1 for 1, 2 for 4, 3 for 9, 5 for 25 (and 0 for every other argument). -/
def sqrtSample (q : ℚ) : ℚ :=
  if q = 1 then 1 else if q = 4 then 2 else if q = 9 then 3 else if q = 25 then 5 else 0

/-- Freshly allocated temporary arrays holding zeros. -/
def freshZero : SameZTemp := ⟨fun _ => 0, fun _ => 0, 0⟩

/-- Three sites on a line in the plane `z = 0`: site `j` at `(j, 0, 0)`. -/
def xyzLine : Int → Int → ℚ := fun j c => if c = 0 then (j : ℚ) else 0

/-- Four sites in the plane `z = 0`: site 0 at the origin, sites 1 and 2 at distance 2
(`(2, 0)` and `(-2, 0)`), site 3 at distance 1 (`(1, 0)`). -/
def xyzTie : Int → Int → ℚ := fun j c =>
  if c = 0 then (if j = 1 then 2 else if j = 2 then -2 else if j = 3 then 1 else 0) else 0

/-- Eight sites in the plane `z = 0`: site 0 at the origin, sites 1 and 2 at distance 3
(`(3, 0)` and `(-3, 0)`), sites 3..6 at distance 1 (`(1, 0)`, `(-1, 0)`, `(0, 1)`,
`(0, -1)`), site 7 at distance 2 (`(2, 0)`). -/
def xyzTie7 : Int → Int → ℚ := fun j c =>
  if c = 0 then
    (if j = 1 then 3 else if j = 2 then -3 else if j = 3 then 1 else if j = 4 then -1
     else if j = 7 then 2 else 0)
  else if c = 1 then
    (if j = 5 then 1 else if j = 6 then -1 else 0)
  else 0

/-- A lattice of `n` owned sites without neighbours and reactions, used where only the
same-z table matters. -/
def appPlane (n : Int) : App := { appNull with nlocal := n }

/-- The tail of `site_event` from `count_coord(i)` on (lines 779-833): the refresh of
`i`, the four nested refresh loops, the list handed to `solve->update` and the closing
loop; `st3` is the state the mask block leaves. -/
def site_event_refresh (app : App) (fuel : Nat) (i : Int) (st3 : State) :
    Except Fault (State × List Int) := do
  let a0 ← refresh_site app fuel (st3, 0) i
  let a1 ← refresh_l1 app fuel i a0
  let touched := (irange a1.2).map a1.1.esites
  pure (clear_echeck a1.1 a1.2, touched)

/-- Four owned sites: the path 0 - 1 - 2 (site 2 is a second-shell neighbour of site 0)
and the isolated site 3, the only same-z neighbour of site 0; the single V reaction is
`(OH, O) -> (OHAlaX3, O)` with propensity 1, both `req_coord = ALL`, `press_on = 0`. -/
def appPut : App :=
  { appV with
    nlocal := 4
    i2site := fun x => if 0 ≤ x ∧ x < 4 then x else -1
    numneigh := fun x => if x = 0 ∨ x = 2 then 1 else if x = 1 then 2 else 0
    neighbor := fun x jj => if x = 1 then (if jj = 0 then 0 else 2) else 1
    num_same_z_neighbors := fun x => if x = 0 then 1 else 0
    same_z_neighbors := fun _ _ => 3 }

/-- The lattice of `appPut` with `OH` on site 0 and `O` on the sites 1, 2, 3, every
`coord` 0, after `setup_app` and the host's first
`propensity[i2site[0]] = site_propensity(0)`. -/
def stPut : State :=
  match site_propensity appPut 0
      (setup_app appPut { stInit O with element := fun x => if x = 0 then OH else O }) 0 with
  | .ok (s, p) => { s with propensity := upd s.propensity 0 p }
  | .error _ => stInit O

/-- The state `stPut` after the mutation of the V event of site 0 with partner 1. -/
def stPut1 : State :=
  { stPut with
    element := upd (upd stPut.element 0 OHAlaX3) 1 O
    vcount := upd stPut.vcount 0 (stPut.vcount 0 + 1) }

/-- Site `x` is at the smallest key `D` among the sites of `N`: with `D` the horizontal
distance to `i` and `N` the same-plane sites of `i`, a nearest same-plane site. -/
def Nearest (D : Int → ℚ) (N : List Int) (x : Int) : Prop := ∀ z ∈ N, D x ≤ D z

/-- Among the entries `temp_neighbors[0..n)`, those at the smallest distance stand in
increasing index order. -/
def NearestOrdered (D : Int → ℚ) (n : Int) (N : List Int) (t : SameZTemp) : Prop :=
  ∀ a b, 0 ≤ a → a < b → b < n →
    Nearest D N (t.temp_neighbors a) → Nearest D N (t.temp_neighbors b) →
    t.temp_neighbors a < t.temp_neighbors b

/-- Eight sites in the plane `z = 0`: site 0 at the origin and the sites 1..7 on the
circle of radius 5 around it, at `(5, 0)`, `(-5, 0)`, `(0, 5)`, `(0, -5)`, `(3, 4)`,
`(4, 3)`, `(-3, 4)`. -/
def xyzRing : Int → Int → ℚ := fun j c =>
  if c = 0 then
    (if j = 1 then 5 else if j = 2 then -5 else if j = 5 then 3 else if j = 6 then 4
     else if j = 7 then -3 else 0)
  else if c = 1 then
    (if j = 3 then 5 else if j = 4 then -5 else if j = 5 then 4 else if j = 6 then 3
     else if j = 7 then 4 else 0)
  else 0

/-! ## The arithmetic of `double`

Elsewhere in this development a `double` is a rational number and `+`, `*` are exact.
Where the rounding of the sums matters (the event walk and the pulse schedule compare
sums formed in different orders) the operations are the IEEE 754 binary64 ones: the exact
result rounded to the nearest number with a 53-bit significand, ties to even. The
exponent range is not modelled (no overflow, no subnormal numbers). -/

/-- The power `2^e` for an integer exponent. -/
def pow2 (e : Int) : ℚ :=
  if 0 ≤ e then ((2 ^ e.toNat : Nat) : ℚ) else 1 / ((2 ^ (-e).toNat : Nat) : ℚ)

/-- Search for the exponent `e` with `2^52 <= a / 2^e < 2^53`, starting from `e`, one
step up or down at a time. -/
def double_exponent : Nat → ℚ → Int → Int
  | 0, _, e => e
  | fuel + 1, a, e =>
    if 9007199254740992 ≤ a / pow2 e then double_exponent fuel a (e + 1)
    else if a / pow2 e < 4503599627370496 then double_exponent fuel a (e - 1)
    else e

/-- The integer nearest to `s`, the even one of the two when `s` lies half way. -/
def roundHalfEven (s : ℚ) : Int :=
  let f := ⌊s⌋
  if s - f < 1 / 2 then f
  else if 1 / 2 < s - f then f + 1
  else if f % 2 = 0 then f else f + 1

/-- The `double` nearest to the rational number `q` (round to nearest, ties to even):
`q` is scaled to `q / 2^e` with `2^52 <= |q / 2^e| < 2^53`, rounded to an integer and
scaled back. The search for `e` covers the exponents from -2200 to 2200, more than the
range of `double`; outside it `q` is returned as it is. -/
def roundDouble (q : ℚ) : ℚ :=
  if q = 0 then 0
  else
    let c := pow2 (double_exponent 2200 (abs q) 0)
    if 4503599627370496 ≤ abs (q / c) ∧ abs (q / c) < 9007199254740992 then
      (roundHalfEven (q / c) : ℚ) * c
    else q

/-- The sum `a + b` of two `double`s as the machine computes it. -/
def dadd (a b : ℚ) : ℚ := roundDouble (a + b)

/-- The product `a * b` of two `double`s as the machine computes it. -/
def dmul (a b : ℚ) : ℚ := roundDouble (a * b)

/-- The unit roundoff `2^-53` of `double`. -/
def unitRoundoff : ℚ := 1 / 9007199254740992

/-! ## The event walk and the pulse schedule in rounded arithmetic -/

/-- The event walk (lines 694-699) with the sum `proball += events[ievent].propensity`
computed by `fadd`. -/
def event_walk_rounded (fadd : ℚ → ℚ → ℚ) (events : Int → Event) (threshhold : ℚ) :
    Nat → ℚ → Int → Except Fault Int
  | 0, _, _ => .error Fault.fuel
  | fuel + 1, proball, ievent =>
    let proball1 := fadd proball (events ievent).propensity
    if proball1 ≥ threshhold then .ok ievent
    else event_walk_rounded fadd events threshhold fuel proball1 (events ievent).next

/-- The event chosen by `site_event(i)` (lines 691-699) with the product
`random->uniform() * propensity[i2site[i]]` computed by `fmul` and the sums of the walk
by `fadd`. -/
def select_event_rounded (fadd fmul : ℚ → ℚ → ℚ) (app : App) (fuel : Nat) (st : State)
    (i : Int) (uniform : ℚ) : Except Fault Int :=
  event_walk_rounded fadd st.es.events (fmul uniform (st.propensity (app.i2site i))) fuel 0
    (st.es.firstevent i)

/-- The value of `proball` in the rounded event walk after `k` iterations along the
chain `l`. -/
def roundedRunningSum (fadd : ℚ → ℚ → ℚ) (events : Int → Event) (l : List Int) (k : Nat) :
    ℚ :=
  ((l.take k).map (fun a => (events a).propensity)).foldl fadd 0

/-- The value `site_propensity` returns for a site whose list, read from `firstevent`,
is `l`: `add_event` links every new event at the head of the list, so the sum
`proball += propensity` of lines 495-577 runs over `l` backwards. -/
def insertionSum (fadd : ℚ → ℚ → ℚ) (events : Int → Event) (l : List Int) : ℚ :=
  (l.reverse.map (fun a => (events a).propensity)).foldl fadd 0

/-- The pulse schedule (lines 738-744) with every sum computed by `fadd`:
`cycle+T1+T2` is `(cycle+T1)+T2`, and `cycle += T1+T2+T3+T4` adds `((T1+T2)+T3)+T4`. -/
def pulse_update_rounded (fadd : ℚ → ℚ → ℚ) (app : App) (st : State) (time : ℚ) : State :=
  if fadd st.cycle app.T1 > time then { st with pressureOn := 1 }
  else if fadd st.cycle app.T1 ≤ time ∧ time < fadd (fadd st.cycle app.T1) app.T2 then
    { st with pressureOn := 3 }
  else if fadd (fadd st.cycle app.T1) app.T2 ≤ time ∧
      time < fadd (fadd (fadd st.cycle app.T1) app.T2) app.T3 then
    { st with pressureOn := 2 }
  else if fadd (fadd (fadd st.cycle app.T1) app.T2) app.T3 ≤ time ∧
      time < fadd (fadd (fadd (fadd st.cycle app.T1) app.T2) app.T3) app.T4 then
    { st with pressureOn := 3 }
  else { st with cycle := fadd st.cycle (fadd (fadd (fadd app.T1 app.T2) app.T3) app.T4) }

/-- The rounded phase update takes its last branch, the one that advances `cycle`. -/
def pulse_wraps_rounded (fadd : ℚ → ℚ → ℚ) (app : App) (st : State) (time : ℚ) : Prop :=
  ¬ (fadd st.cycle app.T1 > time) ∧
  ¬ (fadd st.cycle app.T1 ≤ time ∧ time < fadd (fadd st.cycle app.T1) app.T2) ∧
  ¬ (fadd (fadd st.cycle app.T1) app.T2 ≤ time ∧
      time < fadd (fadd (fadd st.cycle app.T1) app.T2) app.T3) ∧
  ¬ (fadd (fadd (fadd st.cycle app.T1) app.T2) app.T3 ≤ time ∧
      time < fadd (fadd (fadd (fadd st.cycle app.T1) app.T2) app.T3) app.T4)

instance (fadd : ℚ → ℚ → ℚ) (app : App) (st : State) (time : ℚ) :
    Decidable (pulse_wraps_rounded fadd app st time) := by
  unfold pulse_wraps_rounded
  infer_instance

/-- The rounded phase update applied repeatedly at the same time `time` until it no
longer takes the branch that advances `cycle`: the final state and the number of
advances. -/
def pulse_settle_rounded (fadd : ℚ → ℚ → ℚ) (app : App) :
    Nat → State → ℚ → Option (State × Nat)
  | 0, _, _ => none
  | fuel + 1, st, time =>
    if pulse_wraps_rounded fadd app st time then
      (pulse_settle_rounded fadd app fuel (pulse_update_rounded fadd app st time) time).map
        (fun r => (r.1, r.2 + 1))
    else some (pulse_update_rounded fadd app st time, 0)

/-- The four boundary sums of the phase update at cycle start `c` are computed without
rounding error. -/
def PulseSumsExact (fadd : ℚ → ℚ → ℚ) (app : App) (c : ℚ) : Prop :=
  fadd c app.T1 = c + app.T1 ∧
  fadd (c + app.T1) app.T2 = c + app.T1 + app.T2 ∧
  fadd (c + app.T1 + app.T2) app.T3 = c + app.T1 + app.T2 + app.T3 ∧
  fadd (c + app.T1 + app.T2 + app.T3) app.T4 = c + app.T1 + app.T2 + app.T3 + app.T4

/-- The period `T1+T2+T3+T4` and the advance of the cycle start `c` by it are computed
without rounding error. -/
def PeriodExact (fadd : ℚ → ℚ → ℚ) (app : App) (c : ℚ) : Prop :=
  fadd app.T1 app.T2 = app.T1 + app.T2 ∧
  fadd (app.T1 + app.T2) app.T3 = app.T1 + app.T2 + app.T3 ∧
  fadd (app.T1 + app.T2 + app.T3) app.T4 = app.T1 + app.T2 + app.T3 + app.T4 ∧
  fadd c (app.T1 + app.T2 + app.T3 + app.T4) = c + (app.T1 + app.T2 + app.T3 + app.T4)

/-- Durations `T1 = 2.5`, `T2 = 0.4`, `T3 = T4 = 0.5` as `double`s (as `pulse_time 2.5 0.5`
and `purge_time 0.4 0.5` set them). -/
def appDoubleT : App :=
  { appNull with T1 := 5 / 2, T2 := roundDouble (2 / 5), T3 := 1 / 2, T4 := 1 / 2 }

/-- One site holding `O` and three S reactions `O -> OH` with the propensities 0.5, 0.6
and 0.6 as `double`s. -/
def appRound : App :=
  { appS 0 with
    none := 3
    spropensity := fun m => if m = 0 then 1 / 2 else roundDouble (3 / 5) }

/-- The state of `appRound` after `propensity[0] = site_propensity(0)` in `double`
arithmetic: the S events of the reactions 0, 1, 2 are the nodes 0, 1, 2 and the null
event, with propensity 0.1, is node 3; the list of site 0 is 3, 2, 1, 0; and
`propensity[0]` is the returned sum `((0.5 + 0.6) + 0.6) + 0.1`, each addition
rounded. -/
def stRound : State :=
  { stInit O with
    es :=
      { events := fun a =>
          if a = 0 then ⟨1, 0, -1, -1, -1, -1, 1 / 2⟩
          else if a = 1 then ⟨1, 1, -1, -1, -1, 0, roundDouble (3 / 5)⟩
          else if a = 2 then ⟨1, 2, -1, -1, -1, 1, roundDouble (3 / 5)⟩
          else if a = 3 then ⟨5, 0, -1, -1, -1, 2, roundDouble (1 / 10)⟩
          else ⟨0, 0, 0, 0, 0, a + 1, 0⟩
        nevents := 4
        maxevent := 100
        firstevent := fun x => if x = 0 then 3 else -1
        freeevent := 4 }
    propensity := fun _ =>
      dadd (dadd (dadd (dadd 0 (1 / 2)) (roundDouble (3 / 5))) (roundDouble (3 / 5)))
        (roundDouble (1 / 10)) }

/-- Durations `T1 = 1`, `T2 = 0.5`, `T3 = 0.25`, `T4 = 0.5`: multiples of a power of
two, whose sums `double` arithmetic forms without rounding. -/
def appDyadicT : App :=
  { appNull with T1 := 1, T2 := 1 / 2, T3 := 1 / 4, T4 := 1 / 2 }

/-- The state of `appRound` after `setup_app` and the host's first
`propensity[i2site[0]] = site_propensity(0)`, computed by the model with exact sums. -/
def stRoundExact : State :=
  match site_propensity appRound 0 (setup_app appRound (stInit O)) 0 with
  | .ok (s, p) => { s with propensity := upd s.propensity 0 p }
  | .error _ => stInit O

/-- The fields of an event record other than its propensity. -/
def linkOf (e : Event) : Int × Int × Int × Int × Int × Int :=
  (e.style, e.which, e.jpartner, e.kpartner, e.gpartner, e.next)

/-! ## Basic lemmas -/

theorem mem_irange (n x : Int) : x ∈ irange n ↔ 0 ≤ x ∧ x < n := by
  unfold irange
  constructor
  · intro h
    obtain ⟨k, hk, rfl⟩ := List.mem_map.1 h
    have := List.mem_range.1 hk
    constructor
    · exact Int.ofNat_nonneg k
    · show (k : Int) < n
      omega
  · rintro ⟨h0, h1⟩
    refine List.mem_map.2 ⟨x.toNat, List.mem_range.2 (by omega), ?_⟩
    show ((x.toNat : Nat) : Int) = x
    omega

theorem nodup_irange (n : Int) : (irange n).Nodup := by
  unfold irange
  exact (List.nodup_range _).map (fun a b h => by
    have : (a : Int) = (b : Int) := h
    exact_mod_cast this)

theorem upd_same {α : Type} (a : Int → α) (i : Int) (v : α) : upd a i v i = v := by
  simp [upd]

theorem upd_ne {α : Type} (a : Int → α) (i x : Int) (v : α) (h : x ≠ i) :
    upd a i v x = a x := by
  simp [upd, h]

theorem Chain.congr {nx nx2 : Int → Int} :
    ∀ (l : List Int) (s t : Int), (∀ a ∈ l, nx a = nx2 a) → Chain nx s l t → Chain nx2 s l t
  | [], _, _, _, h => h
  | a :: l, s, t, hag, h => by
    obtain ⟨h1, h2⟩ := h
    refine ⟨h1, ?_⟩
    rw [← hag a (List.mem_cons_self _ _)]
    exact Chain.congr l _ _ (fun b hb => hag b (List.mem_cons_of_mem _ hb)) h2

theorem Chain.append {nx : Int → Int} :
    ∀ (l1 l2 : List Int) (s m t : Int), Chain nx s l1 m → Chain nx m l2 t →
      Chain nx s (l1 ++ l2) t
  | [], _, _, _, _, h1, h2 => by
    have : _ = _ := h1
    subst this
    simpa using h2
  | a :: l, l2, s, m, t, h1, h2 => by
    obtain ⟨ha, hl⟩ := h1
    exact ⟨ha, Chain.append l l2 _ m t hl h2⟩

/-! ## The event store keeps its lists -/

theorem clear_loop_spec :
    ∀ (l : List Int) (fuel : Nat) (es : EventStore) (index : Int),
      Chain (nextOf es) index l (-1) → (∀ x ∈ l, 0 ≤ x) → l.Nodup → l.length ≤ fuel →
      ∃ es1, clear_loop fuel es index = .ok es1 ∧
        es1.firstevent = es.firstevent ∧ es1.maxevent = es.maxevent ∧
        es1.nevents = es.nevents - l.length ∧
        (∀ x, x ∉ l → es1.events x = es.events x) ∧
        (∀ x, dataOf (es1.events x) = dataOf (es.events x)) ∧
        (∀ F stop, Chain (nextOf es) es.freeevent F stop → (∀ x ∈ l, x ∉ F) →
          Chain (nextOf es1) es1.freeevent (l.reverse ++ F) stop) := by
  intro l
  induction l with
  | nil =>
    intro fuel es index hc _ _ _
    have hidx : index = -1 := hc
    subst hidx
    refine ⟨es, ?_, rfl, rfl, by simp, fun _ _ => rfl, fun _ => rfl, ?_⟩
    · cases fuel <;> simp [clear_loop]
    · intro F stop hF _
      simpa using hF
  | cons a l ih =>
    intro fuel es index hc hpos hnd hlen
    obtain ⟨hidx, hrest⟩ := hc
    subst hidx
    have ha0 : 0 ≤ index := hpos index (List.mem_cons_self _ _)
    have hnotin : index ∉ l := (List.nodup_cons.1 hnd).1
    have hndl : l.Nodup := (List.nodup_cons.1 hnd).2
    cases fuel with
    | zero => simp at hlen
    | succ fuel =>
      let es0 : EventStore :=
        { es with
          events := upd es.events index { es.events index with next := es.freeevent }
          freeevent := index
          nevents := es.nevents - 1 }
      have hnx : ∀ x, x ≠ index → nextOf es x = nextOf es0 x := by
        intro x hx
        simp [nextOf, es0, upd, hx]
      have hc0 : Chain (nextOf es0) (nextOf es index) l (-1) :=
        Chain.congr l _ _ (fun b hb => hnx b (fun h => hnotin (h ▸ hb))) hrest
      obtain ⟨es1, h1, h2, h3, h4, h5, h6, h7⟩ :=
        ih fuel es0 (nextOf es index) hc0
          (fun x hx => hpos x (List.mem_cons_of_mem _ hx)) hndl
          (by simp at hlen; omega)
      refine ⟨es1, ?_, ?_, ?_, ?_, ?_, ?_, ?_⟩
      · simp only [clear_loop, ha0, if_true]
        exact h1
      · rw [h2]
      · rw [h3]
      · rw [h4]
        simp [es0]
        omega
      · intro x hx
        have hx1 : x ≠ index := fun h => hx (h ▸ List.mem_cons_self _ _)
        have hx2 : x ∉ l := fun h => hx (List.mem_cons_of_mem _ h)
        rw [h5 x hx2]
        simp [es0, upd, hx1]
      · intro x
        rw [h6 x]
        by_cases hx : x = index
        · subst hx
          simp [es0, upd, dataOf]
        · simp [es0, upd, hx]
      · intro F stop hF hdis
        have hFa : index ∉ F := hdis index (List.mem_cons_self _ _)
        have hF0 : Chain (nextOf es0) es0.freeevent (index :: F) stop := by
          refine ⟨rfl, ?_⟩
          have : nextOf es0 index = es.freeevent := by simp [nextOf, es0, upd]
          rw [this]
          exact Chain.congr F _ _ (fun b hb => hnx b (fun h => hFa (h ▸ hb))) hF
        have := h7 (index :: F) stop hF0 (by
          intro x hx hmem
          rcases List.mem_cons.1 hmem with h | h
          · exact hnotin (h ▸ hx)
          · exact hdis x (List.mem_cons_of_mem _ hx) h)
        simpa using this

theorem arena_clear {n : Int} {es : EventStore} {L : Int → List Int} {F : List Int}
    (h : Arena n es L F) {i : Int} (hi0 : 0 ≤ i) (hin : i < n) {fuel : Nat}
    (hl : (L i).length ≤ fuel) :
    ∃ es1, clear_events fuel es i = .ok es1 ∧
      Arena n es1 (upd L i []) ((L i).reverse ++ F) ∧
      (∀ x, x ∉ L i → es1.events x = es.events x) ∧
      (∀ x, dataOf (es1.events x) = dataOf (es.events x)) ∧
      es1.maxevent = es.maxevent := by
  obtain ⟨es1, h1, h2, h3, h4, h5, h6, h7⟩ :=
    clear_loop_spec (L i) fuel es (es.firstevent i) (h.site i hi0 hin)
      (fun x hx => (h.rangeL i hi0 hin x hx).1) (h.nodupL i hi0 hin) hl
  have hnx : ∀ x, x ∉ L i → nextOf es x = nextOf es1 x := by
    intro x hx
    simp [nextOf, h5 x hx]
  refine ⟨{ es1 with firstevent := upd es1.firstevent i (-1) }, ?_, ?_, h5, h6, h3⟩
  · simp [clear_events, h1]
  · constructor
    · intro j hj0 hjn
      by_cases hji : j = i
      · subst hji
        simp [upd, Chain]
      · simp only [upd, hji, if_false]
        rw [h2]
        exact Chain.congr _ _ _
          (fun b hb => hnx b (fun hb2 => h.disjLL i j hi0 hin hj0 hjn (Ne.symm hji) b hb2 hb))
          (h.site j hj0 hjn)
    · have := h7 F es.maxevent h.free (h.disjLF i hi0 hin)
      simpa [nextOf, h3] using this
    · refine List.Nodup.append (List.nodup_reverse.2 (h.nodupL i hi0 hin)) h.nodupF ?_
      intro x hx hxF
      exact h.disjLF i hi0 hin x (List.mem_reverse.1 hx) hxF
    · intro j hj0 hjn
      by_cases hji : j = i
      · subst hji
        simp [upd]
      · simp only [upd, hji, if_false]
        exact h.nodupL j hj0 hjn
    · intro j hj0 hjn x hx
      by_cases hji : j = i
      · subst hji
        simp [upd] at hx
      · simp only [upd, hji, if_false] at hx
        intro hmem
        rcases List.mem_append.1 hmem with hm | hm
        · exact h.disjLL j i hj0 hjn hi0 hin hji x hx (List.mem_reverse.1 hm)
        · exact h.disjLF j hj0 hjn x hx hm
    · intro j k hj0 hjn hk0 hkn hjk x hx
      by_cases hji : j = i
      · subst hji
        simp [upd] at hx
      · simp only [upd, hji, if_false] at hx
        by_cases hki : k = i
        · subst hki
          simp [upd]
        · simp only [upd, hki, if_false]
          exact h.disjLL j k hj0 hjn hk0 hkn hjk x hx
    · intro x hx
      show 0 ≤ x ∧ x < es1.maxevent
      rw [h3]
      rcases List.mem_append.1 hx with hm | hm
      · exact h.rangeL i hi0 hin x (List.mem_reverse.1 hm)
      · exact h.rangeF x hm
    · intro j hj0 hjn x hx
      show 0 ≤ x ∧ x < es1.maxevent
      rw [h3]
      by_cases hji : j = i
      · subst hji
        simp [upd] at hx
      · simp only [upd, hji, if_false] at hx
        exact h.rangeL j hj0 hjn x hx
    · show (((L i).reverse ++ F).length : Int) = es1.maxevent - es1.nevents
      rw [h3, h4]
      have := h.count
      simp
      omega
    · show 0 ≤ es1.maxevent
      rw [h3]
      exact h.maxpos

theorem chain_consecutive (nx : Int → Int) :
    ∀ (k : Nat) (a : Int), (∀ m, a ≤ m → m < a + k → nx m = m + 1) →
      Chain nx a ((List.range k).map (fun t : Nat => a + (t : Int))) (a + k)
  | 0, a, _ => by simp [Chain]
  | k + 1, a, h => by
    rw [List.range_succ_eq_map]
    simp only [List.map_cons, List.map_map]
    refine ⟨by simp, ?_⟩
    have h1 : nx (a + ((0 : Nat) : Int)) = a + 1 := by
      simpa using h a (le_refl _) (by push_cast; omega)
    rw [h1]
    have h2 := chain_consecutive nx k (a + 1) (fun m hm1 hm2 => h m (by omega) (by push_cast; omega))
    have h3 : (fun t : Nat => a + 1 + (t : Int)) = ((fun t : Nat => a + (t : Int)) ∘ Nat.succ) := by
      funext t
      simp
      omega
    rw [h3] at h2
    have h4 : a + 1 + (k : Int) = a + ((k + 1 : Nat) : Int) := by push_cast; omega
    rw [h4] at h2
    exact h2

theorem arena_grow {n : Int} {es : EventStore} {L : Int → List Int} {F : List Int}
    (h : Arena n es L F) :
    ∃ F1, Arena n (grow_events es) L F1 ∧ F1 ≠ [] ∧
      (grow_events es).firstevent = es.firstevent ∧
      (∀ j, 0 ≤ j → j < n → ∀ x ∈ L j, (grow_events es).events x = es.events x) ∧
      es.maxevent ≤ (grow_events es).maxevent := by
  by_cases hfull : es.nevents = es.maxevent
  · obtain ⟨k, hk⟩ : ∃ k : Nat, (k : Int) = DELTAEVENT := ⟨100000, by simp [DELTAEVENT]⟩
    have hkpos : 0 < k := by
      have : (0 : Int) < DELTAEVENT := by simp [DELTAEVENT]
      omega
    have hev : ∀ x, x < es.maxevent → (grow_events es).events x = es.events x := by
      intro x hx
      have : ¬ (es.maxevent ≤ x ∧ x < es.maxevent + DELTAEVENT) := by omega
      simp [grow_events, hfull, this]
    have hmax : (grow_events es).maxevent = es.maxevent + k := by
      simp [grow_events, hfull, hk]
    have hfe : (grow_events es).firstevent = es.firstevent := by
      simp [grow_events, hfull]
    have hfr : (grow_events es).freeevent = es.maxevent := by
      simp [grow_events, hfull]
    have hmem : ∀ x, x ∈ (List.range k).map (fun t : Nat => es.maxevent + (t : Int)) →
        es.maxevent ≤ x ∧ x < es.maxevent + k := by
      intro x hx
      obtain ⟨t, ht, rfl⟩ := List.mem_map.1 hx
      have := List.mem_range.1 ht
      constructor <;> omega
    refine ⟨(List.range k).map (fun t : Nat => es.maxevent + (t : Int)), ?_, ?_, hfe, ?_, ?_⟩
    · constructor
      · intro j hj0 hjn
        rw [hfe]
        refine Chain.congr _ _ _ ?_ (h.site j hj0 hjn)
        intro b hb
        simp [nextOf, hev b (h.rangeL j hj0 hjn b hb).2]
      · rw [hfr, hmax]
        apply chain_consecutive
        intro m hm1 hm2
        have : es.maxevent ≤ m ∧ m < es.maxevent + DELTAEVENT := by constructor <;> omega
        simp [nextOf, grow_events, hfull, this]
      · refine (List.nodup_range k).map ?_
        intro a b hab
        have : es.maxevent + (a : Int) = es.maxevent + (b : Int) := hab
        omega
      · exact h.nodupL
      · intro j hj0 hjn x hx hxF
        have h1 := (h.rangeL j hj0 hjn x hx).2
        have h2 := (hmem x hxF).1
        omega
      · exact h.disjLL
      · intro x hx
        rw [hmax]
        have := hmem x hx
        have := h.maxpos
        constructor <;> omega
      · intro j hj0 hjn x hx
        rw [hmax]
        have := h.rangeL j hj0 hjn x hx
        constructor <;> omega
      · rw [hmax]
        have hne : (grow_events es).nevents = es.nevents := by simp [grow_events, hfull]
        rw [hne, hfull]
        simp
      · rw [hmax]
        have := h.maxpos
        omega
    · intro hnil
      have := congrArg List.length hnil
      simp at this
      omega
    · intro j hj0 hjn x hx
      exact hev x (h.rangeL j hj0 hjn x hx).2
    · rw [hmax]
      omega
  · have hg : grow_events es = es := by simp [grow_events, hfull]
    rw [hg]
    refine ⟨F, h, ?_, rfl, fun _ _ _ _ _ => rfl, le_refl _⟩
    intro hnil
    have := h.count
    rw [hnil] at this
    simp at this
    omega

theorem arena_pop {n : Int} {eg : EventStore} {L : Int → List Int} {F : List Int}
    (h : Arena n eg L F) (hne : F ≠ []) {i : Int} (hi0 : 0 ≤ i) (hin : i < n)
    (d : EvData) :
    ∃ F1, Arena n
        { eg with
          events := upd eg.events eg.freeevent
            { style := d.style, which := d.which, jpartner := d.jpartner,
              kpartner := d.kpartner, gpartner := d.gpartner,
              next := eg.firstevent i, propensity := d.propensity }
          firstevent := upd eg.firstevent i eg.freeevent
          freeevent := (eg.events eg.freeevent).next
          nevents := eg.nevents + 1 }
        (upd L i (eg.freeevent :: L i)) F1 ∧
      (∀ j, 0 ≤ j → j < n → ∀ x ∈ L j, x ≠ eg.freeevent) := by
  obtain ⟨f, F1, rfl⟩ := List.exists_cons_of_ne_nil hne
  obtain ⟨hf, hF1⟩ := h.free
  have hfF1 : eg.freeevent ∉ F1 := by
    rw [hf]
    exact (List.nodup_cons.1 h.nodupF).1
  have hfL : ∀ j, 0 ≤ j → j < n → ∀ x ∈ L j, x ≠ eg.freeevent := by
    intro j hj0 hjn x hx hxf
    rw [hf] at hxf
    exact h.disjLF j hj0 hjn x hx (hxf ▸ List.mem_cons_self _ _)
  refine ⟨F1, ?_, hfL⟩
  have hnx : ∀ x, x ≠ eg.freeevent →
      nextOf eg x = nextOf
        { eg with
          events := upd eg.events eg.freeevent
            { style := d.style, which := d.which, jpartner := d.jpartner,
              kpartner := d.kpartner, gpartner := d.gpartner,
              next := eg.firstevent i, propensity := d.propensity }
          firstevent := upd eg.firstevent i eg.freeevent
          freeevent := (eg.events eg.freeevent).next
          nevents := eg.nevents + 1 } x := by
    intro x hx
    simp [nextOf, upd, hx]
  constructor
  · intro j hj0 hjn
    by_cases hji : j = i
    · subst hji
      simp only [upd, if_true]
      refine ⟨rfl, ?_⟩
      have : nextOf
        { eg with
          events := upd eg.events eg.freeevent
            { style := d.style, which := d.which, jpartner := d.jpartner,
              kpartner := d.kpartner, gpartner := d.gpartner,
              next := eg.firstevent j, propensity := d.propensity }
          firstevent := upd eg.firstevent j eg.freeevent
          freeevent := (eg.events eg.freeevent).next
          nevents := eg.nevents + 1 } eg.freeevent = eg.firstevent j := by
        simp [nextOf, upd]
      rw [this]
      exact Chain.congr _ _ _ (fun b hb => hnx b (hfL j hj0 hjn b hb)) (h.site j hj0 hjn)
    · simp only [upd, hji, if_false]
      exact Chain.congr _ _ _ (fun b hb => hnx b (hfL j hj0 hjn b hb)) (h.site j hj0 hjn)
  · show Chain _ ((eg.events eg.freeevent).next) F1 eg.maxevent
    have : (eg.events eg.freeevent).next = nextOf eg f := by rw [hf]; rfl
    rw [this]
    exact Chain.congr _ _ _ (fun b hb => hnx b (fun hbf => hfF1 (hbf ▸ hb))) hF1
  · exact (List.nodup_cons.1 h.nodupF).2
  · intro j hj0 hjn
    by_cases hji : j = i
    · subst hji
      simp only [upd, if_true]
      refine List.nodup_cons.2 ⟨?_, h.nodupL j hj0 hjn⟩
      intro hmem
      exact hfL j hj0 hjn _ hmem rfl
    · simp only [upd, hji, if_false]
      exact h.nodupL j hj0 hjn
  · intro j hj0 hjn x hx hxF
    by_cases hji : j = i
    · subst hji
      simp only [upd, if_true] at hx
      rcases List.mem_cons.1 hx with hx1 | hx1
      · exact hfF1 (hx1 ▸ hxF)
      · exact h.disjLF j hj0 hjn x hx1 (List.mem_cons_of_mem _ hxF)
    · simp only [upd, hji, if_false] at hx
      exact h.disjLF j hj0 hjn x hx (List.mem_cons_of_mem _ hxF)
  · intro j k hj0 hjn hk0 hkn hjk x hx hxk
    by_cases hji : j = i
    · subst hji
      have hkj : k ≠ j := Ne.symm hjk
      simp only [upd, if_true] at hx
      simp only [upd, hkj, if_false] at hxk
      rcases List.mem_cons.1 hx with hx1 | hx1
      · exact hfL k hk0 hkn x hxk hx1
      · exact h.disjLL j k hj0 hjn hk0 hkn hjk x hx1 hxk
    · simp only [upd, hji, if_false] at hx
      by_cases hki : k = i
      · subst hki
        simp only [upd, if_true] at hxk
        rcases List.mem_cons.1 hxk with hx1 | hx1
        · exact hfL j hj0 hjn x hx hx1
        · exact h.disjLL j k hj0 hjn hk0 hkn hjk x hx hx1
      · simp only [upd, hki, if_false] at hxk
        exact h.disjLL j k hj0 hjn hk0 hkn hjk x hx hxk
  · intro x hx
    exact h.rangeF x (List.mem_cons_of_mem _ hx)
  · intro j hj0 hjn x hx
    by_cases hji : j = i
    · subst hji
      simp only [upd, if_true] at hx
      rcases List.mem_cons.1 hx with hx1 | hx1
      · rw [hx1, hf]
        exact h.rangeF f (List.mem_cons_self _ _)
      · exact h.rangeL j hj0 hjn x hx1
    · simp only [upd, hji, if_false] at hx
      exact h.rangeL j hj0 hjn x hx
  · have := h.count
    simp at this
    show (F1.length : Int) = eg.maxevent - (eg.nevents + 1)
    omega
  · exact h.maxpos

theorem arena_add {n : Int} {es : EventStore} {L : Int → List Int} {F : List Int}
    (h : Arena n es L F) {i : Int} (hi0 : 0 ≤ i) (hin : i < n)
    (rstyle which : Int) {p : ℚ} (hp : p ≠ 0) (jp kp gp : Int) :
    ∃ es1 f F1, add_event es i rstyle which p jp kp gp = .ok es1 ∧
      Arena n es1 (upd L i (f :: L i)) F1 ∧
      dataOf (es1.events f) = ⟨rstyle, which, jp, kp, gp, p⟩ ∧
      (∀ j, 0 ≤ j → j < n → ∀ x ∈ L j, es1.events x = es.events x) ∧
      es.maxevent ≤ es1.maxevent := by
  obtain ⟨F0, hA, hne, _, hev, hmax⟩ := arena_grow h
  obtain ⟨F1, hA1, hfL⟩ := arena_pop hA hne hi0 hin ⟨rstyle, which, jp, kp, gp, p⟩
  refine ⟨_, (grow_events es).freeevent, F1, ?_, hA1, ?_, ?_, hmax⟩
  · simp [add_event, hp]
  · simp [dataOf, upd]
  · intro j hj0 hjn x hx
    have := hfL j hj0 hjn x hx
    simp only [upd, this, if_false]
    exact hev j hj0 hjn x hx

theorem upd_upd {α : Type} (a : Int → α) (i : Int) (v w : α) :
    upd (upd a i v) i w = upd a i w := by
  funext x
  by_cases h : x = i <;> simp [upd, h]

theorem lists_length_le {n : Int} {es : EventStore} {A : Int → List EvData}
    (h : EventLists n es A) {i : Int} (hi0 : 0 ≤ i) (hin : i < n) :
    (A i).length ≤ es.maxevent.toNat := by
  obtain ⟨L, F, hA, hL⟩ := h
  rw [← hL i hi0 hin, List.length_map]
  have hsub : L i ⊆ irange es.maxevent := fun x hx =>
    (mem_irange _ _).2 (hA.rangeL i hi0 hin x hx)
  have := ((hA.nodupL i hi0 hin).subperm hsub).length_le
  simpa [irange] using this

theorem lists_clear {n : Int} {es : EventStore} {A : Int → List EvData}
    (h : EventLists n es A) {i : Int} (hi0 : 0 ≤ i) (hin : i < n) {fuel : Nat}
    (hl : (A i).length ≤ fuel) :
    ∃ es1, clear_events fuel es i = .ok es1 ∧ EventLists n es1 (upd A i []) ∧
      es1.maxevent = es.maxevent := by
  obtain ⟨L, F, hA, hL⟩ := h
  have hl2 : (L i).length ≤ fuel := by
    rw [← hL i hi0 hin, List.length_map] at hl
    exact hl
  obtain ⟨es1, h1, h2, _, h4, h5⟩ := arena_clear hA hi0 hin hl2
  refine ⟨es1, h1, ⟨upd L i [], _, h2, ?_⟩, h5⟩
  intro j hj0 hjn
  by_cases hji : j = i
  · subst hji
    simp [upd]
  · simp only [upd, hji, if_false]
    rw [← hL j hj0 hjn]
    exact List.map_congr_left (fun a _ => h4 a)

theorem lists_add {n : Int} {es : EventStore} {A : Int → List EvData}
    (h : EventLists n es A) {i : Int} (hi0 : 0 ≤ i) (hin : i < n)
    (rstyle which : Int) {p : ℚ} (hp : p ≠ 0) (jp kp gp : Int) :
    ∃ es1, add_event es i rstyle which p jp kp gp = .ok es1 ∧
      EventLists n es1 (upd A i (⟨rstyle, which, jp, kp, gp, p⟩ :: A i)) ∧
      es.maxevent ≤ es1.maxevent := by
  obtain ⟨L, F, hA, hL⟩ := h
  obtain ⟨es1, f, F1, h1, h2, h3, h4, h5⟩ := arena_add hA hi0 hin rstyle which hp jp kp gp
  refine ⟨es1, h1, ⟨_, F1, h2, ?_⟩, h5⟩
  intro j hj0 hjn
  have hmap : (L j).map (fun a => dataOf (es1.events a)) = A j := by
    rw [← hL j hj0 hjn]
    exact List.map_congr_left (fun a ha => by rw [h4 j hj0 hjn a ha])
  by_cases hji : j = i
  · subst hji
    simp only [upd, if_true, List.map_cons, h3, hmap]
  · simp only [upd, hji, if_false]
    exact hmap

theorem relE_bind {α β γ δ : Type} {R : α → β → Prop} {S : γ → δ → Prop}
    {x : Except Fault α} {y : Except Fault β}
    {f : α → Except Fault γ} {g : β → Except Fault δ}
    (hxy : RelE R x y) (hfg : ∀ a b, R a b → RelE S (f a) (g b)) :
    RelE S (x >>= f) (y >>= g) := by
  cases x with
  | error e1 =>
    cases y with
    | error e2 => exact hxy
    | ok b => exact hxy.elim
  | ok a =>
    cases y with
    | error e2 => exact hxy.elim
    | ok b => exact hfg a b hxy

theorem relE_foldlM {α β ι : Type} {R : α → β → Prop}
    {f : α → ι → Except Fault α} {g : β → ι → Except Fault β} :
    ∀ (l : List ι) (a : α) (b : β), R a b →
      (∀ a b x, x ∈ l → R a b → RelE R (f a x) (g b x)) →
      RelE R (l.foldlM f a) (l.foldlM g b)
  | [], _, _, hab, _ => hab
  | x :: l, a, b, hab, hstep => by
    rw [List.foldlM_cons, List.foldlM_cons]
    exact relE_bind (hstep a b x (List.mem_cons_self _ _) hab)
      (fun a1 b1 h1 => relE_foldlM l a1 b1 h1
        (fun a2 b2 y hy h2 => hstep a2 b2 y (List.mem_cons_of_mem _ hy) h2))

section Simulation

variable {σ τ : Type}
variable {add1 : σ → Int → Int → Int → ℚ → Int → Int → Int → Except Fault σ}
variable {add2 : τ → Int → Int → Int → ℚ → Int → Int → Int → Except Fault τ}
variable {R : σ → τ → Prop}

theorem type1_m_sim (app : App) (st : State) (i : Int)
    (hadd : ∀ s t rs w p j k g, R s t → RelE R (add1 s i rs w p j k g) (add2 t i rs w p j k g))
    (e1 : Enum σ) (e2 : Enum τ) (m : Int) (h : RelEnum R e1 e2) :
    RelE (RelEnum R) (type1_m add1 app st i e1 m) (type1_m add2 app st i e2 m) := by
  obtain ⟨h1, h2, h3, h4, h5⟩ := h
  simp only [type1_m]
  split_ifs with hc
  · have := hadd e1.store e2.store 1 m (app.spropensity m) (-1) (-1) (-1) h1
    revert this
    cases add1 e1.store i 1 m (app.spropensity m) (-1) (-1) (-1) <;>
      cases add2 e2.store i 1 m (app.spropensity m) (-1) (-1) (-1) <;>
      simp [RelE, RelEnum, h2, h3, h4, h5]
  · exact ⟨h1, h2, h3, h4, h5⟩

theorem type2_m_sim (app : App) (st : State) (i k : Int)
    (hadd : ∀ s t rs w p j k g, R s t → RelE R (add1 s i rs w p j k g) (add2 t i rs w p j k g))
    (e1 : Enum σ) (e2 : Enum τ) (m : Int) (h : RelEnum R e1 e2) :
    RelE (RelEnum R) (type2_m add1 app st i k e1 m) (type2_m add2 app st i k e2 m) := by
  obtain ⟨h1, h2, h3, h4, h5⟩ := h
  simp only [type2_m, ← h2, ← h5]
  split_ifs with hc hd
  · have := hadd e1.store e2.store 2 m (app.dpropensity m) (-1) k (-1) h1
    revert this
    cases add1 e1.store i 2 m (app.dpropensity m) (-1) k (-1) <;>
      cases add2 e2.store i 2 m (app.dpropensity m) (-1) k (-1) <;>
      simp [RelE, RelEnum, h4]
  · exact ⟨h1, rfl, rfl, h4, rfl⟩
  · exact ⟨h1, h2, h3, h4, h5⟩

theorem type3_m_sim (app : App) (st : State) (i j : Int)
    (hadd : ∀ s t rs w p j k g, R s t → RelE R (add1 s i rs w p j k g) (add2 t i rs w p j k g))
    (e1 : Enum σ) (e2 : Enum τ) (m : Int) (h : RelEnum R e1 e2) :
    RelE (RelEnum R) (type3_m add1 app st i j e1 m) (type3_m add2 app st i j e2 m) := by
  obtain ⟨h1, h2, h3, h4, h5⟩ := h
  simp only [type3_m]
  split_ifs with hc
  · have := hadd e1.store e2.store 3 m (app.vpropensity m) j (-1) (-1) h1
    revert this
    cases add1 e1.store i 3 m (app.vpropensity m) j (-1) (-1) <;>
      cases add2 e2.store i 3 m (app.vpropensity m) j (-1) (-1) <;>
      simp [RelE, RelEnum, h2, h3, h4, h5]
  · exact ⟨h1, h2, h3, h4, h5⟩

theorem type4_m_sim (app : App) (st : State) (i g : Int)
    (hadd : ∀ s t rs w p j k g, R s t → RelE R (add1 s i rs w p j k g) (add2 t i rs w p j k g))
    (e1 : Enum σ) (e2 : Enum τ) (m : Int) (h : RelEnum R e1 e2) :
    RelE (RelEnum R) (type4_m add1 app st i g e1 m) (type4_m add2 app st i g e2 m) := by
  obtain ⟨h1, h2, h3, h4, h5⟩ := h
  simp only [type4_m]
  split_ifs with hc
  · have := hadd e1.store e2.store 4 m (app.fpropensity m) (-1) (-1) g h1
    revert this
    cases add1 e1.store i 4 m (app.fpropensity m) (-1) (-1) g <;>
      cases add2 e2.store i 4 m (app.fpropensity m) (-1) (-1) g <;>
      simp [RelE, RelEnum, h2, h3, h4, h5]
  · exact ⟨h1, h2, h3, h4, h5⟩

theorem type5_sim (i : Int)
    (hadd : ∀ s t rs w p j k g, R s t → RelE R (add1 s i rs w p j k g) (add2 t i rs w p j k g))
    (e1 : Enum σ) (e2 : Enum τ) (h : RelEnum R e1 e2) :
    RelE (RelEnum R) (type5 add1 i e1) (type5 add2 i e2) := by
  obtain ⟨h1, h2, h3, h4, h5⟩ := h
  unfold type5
  have := hadd e1.store e2.store 5 0 (1 / 10) (-1) (-1) (-1) h1
  revert this
  cases add1 e1.store i 5 0 (1 / 10) (-1) (-1) (-1) <;>
    cases add2 e2.store i 5 0 (1 / 10) (-1) (-1) (-1) <;>
    simp [RelE, RelEnum, h2, h3, h4, h5]

theorem enumerate_sim (app : App) (st : State) (i : Int)
    (hadd : ∀ s t rs w p j k g, R s t → RelE R (add1 s i rs w p j k g) (add2 t i rs w p j k g))
    (s : σ) (t : τ) (h : R s t) :
    RelE (RelEnum R) (enumerate add1 app st i s) (enumerate add2 app st i t) := by
  unfold enumerate
  refine relE_bind (R := RelEnum R) ?_ (fun e1 f1 h1 => ?_)
  · exact relE_foldlM _ _ _ ⟨h, rfl, rfl, rfl, rfl⟩
      (fun a b m _ hab => type1_m_sim app st i hadd a b m hab)
  refine relE_bind (R := RelEnum R) ?_ (fun e2 f2 h2 => ?_)
  · refine relE_foldlM _ _ _ ⟨h1.1, h1.2.1, h1.2.2.1, h1.2.2.2.1, rfl⟩ ?_
    intro a b jj _ hab
    unfold type2_jj
    refine relE_foldlM _ _ _ hab ?_
    intro a b kk _ hab
    simp only [type2_kk]
    split_ifs with hik
    · exact hab
    · exact relE_foldlM _ _ _ hab
        (fun a b m _ hab => type2_m_sim app st i _ hadd a b m hab)
  refine relE_bind (R := RelEnum R) ?_ (fun e3 f3 h3 => ?_)
  · refine relE_foldlM _ _ _ h2 ?_
    intro a b jj _ hab
    unfold type3_jj
    exact relE_foldlM _ _ _ hab
      (fun a b m _ hab => type3_m_sim app st i _ hadd a b m hab)
  refine relE_bind (R := RelEnum R) ?_ (fun e4 f4 h4 => ?_)
  · refine relE_foldlM _ _ _ h3 ?_
    intro a b p _ hab
    unfold type4_p
    exact relE_foldlM _ _ _ hab
      (fun a b m _ hab => type4_m_sim app st i _ hadd a b m hab)
  exact type5_sim i hadd e4 f4 h4

end Simulation

/-! ## `site_propensity` against the list of added events -/

theorem list_add_sim {n : Int} {A : Int → List EvData} {i : Int} (hi0 : 0 ≤ i)
    (hin : i < n) (m0 : Int) (s : EventStore) (t : List EvData) (rs w : Int) (p : ℚ)
    (j k g : Int)
    (h : EventLists n s (upd A i t) ∧ m0 ≤ s.maxevent) :
    RelE (fun s t => EventLists n s (upd A i t) ∧ m0 ≤ s.maxevent)
      (add_event s i rs w p j k g) (list_add t i rs w p j k g) := by
  by_cases hp : p = 0
  · simp [add_event, list_add, hp, RelE]
  · obtain ⟨es1, h1, h2, h3⟩ := lists_add h.1 hi0 hin rs w hp j k g
    rw [h1]
    simp only [list_add, hp, if_false, RelE]
    rw [upd_same, upd_upd] at h2
    exact ⟨h2, le_trans h.2 h3⟩

theorem site_propensity_sim (app : App) {n : Int} {st : State} {A : Int → List EvData}
    (h : EventLists n st.es A) {i : Int} (hi0 : 0 ≤ i) (hin : i < n) {fuel : Nat}
    (hl : (A i).length ≤ fuel) :
    RelE
      (fun (r : State × ℚ) (e : Enum (List EvData)) =>
        EventLists n r.1.es (upd A i e.store) ∧ st.es.maxevent ≤ r.1.es.maxevent ∧
        r.2 = e.proball ∧
        r.1 = { st with es := r.1.es, comneigh := e.comneigh, comevent := e.comevent })
      (site_propensity app fuel st i) (added_events app st i) := by
  obtain ⟨es1, h1, h2, h3⟩ := lists_clear h hi0 hin hl
  have hsim := @enumerate_sim _ _ add_event list_add
    (fun s t => EventLists n s (upd A i t) ∧ st.es.maxevent ≤ s.maxevent)
    app st i (fun s t rs w p j k g hR => list_add_sim hi0 hin _ s t rs w p j k g hR)
    es1 [] ⟨h2, le_of_eq h3.symm⟩
  unfold site_propensity added_events
  rw [h1]
  simp only [bind, Except.bind, pure, Except.pure]
  revert hsim
  generalize enumerate add_event app st i es1 = x
  generalize enumerate list_add app st i [] = y
  intro hsim
  cases x with
  | error e1 =>
    cases y with
    | error e2 => exact hsim
    | ok b => exact hsim.elim
  | ok a =>
    cases y with
    | error e2 => exact hsim.elim
    | ok b =>
      obtain ⟨⟨hr1, hr2⟩, hr3, hr4, hr5, _⟩ := hsim
      refine ⟨hr1, hr2, hr5, ?_⟩
      show ({ st with es := a.store, comneigh := a.comneigh, comevent := a.comevent } : State) = _
      rw [hr3, hr4]

/-! ## The list of added events -/

theorem ext_refl (P : EvData → Prop) (e : Enum (List EvData)) : Ext P e e :=
  ⟨[], by simp, by simp, by simp⟩

theorem ext_trans {P : EvData → Prop} {e1 e2 e3 : Enum (List EvData)}
    (h12 : Ext P e1 e2) (h23 : Ext P e2 e3) : Ext P e1 e3 := by
  obtain ⟨n1, a1, b1, c1⟩ := h12
  obtain ⟨n2, a2, b2, c2⟩ := h23
  refine ⟨n2 ++ n1, by rw [a2, a1, List.append_assoc], ?_, ?_⟩
  · intro r hr
    rcases List.mem_append.1 hr with h | h
    · exact b2 r h
    · exact b1 r h
  · rw [c2, c1]
    simp
    ring

theorem ext_mono {P Q : EvData → Prop} {e1 e2 : Enum (List EvData)}
    (hPQ : ∀ r, P r → Q r) (h : Ext P e1 e2) : Ext Q e1 e2 := by
  obtain ⟨n1, a1, b1, c1⟩ := h
  exact ⟨n1, a1, fun r hr => hPQ r (b1 r hr), c1⟩

theorem foldlM_ext {ι : Type} (P : EvData → Prop)
    (step : Enum (List EvData) → ι → Except Fault (Enum (List EvData))) :
    ∀ (l : List ι), (∀ e x, x ∈ l → ∃ e1, step e x = .ok e1 ∧ Ext P e e1) →
      ∀ e, ∃ e1, l.foldlM step e = .ok e1 ∧ Ext P e e1
  | [], _, e => ⟨e, rfl, ext_refl P e⟩
  | x :: l, hstep, e => by
    obtain ⟨e1, h1, h2⟩ := hstep e x (List.mem_cons_self _ _)
    obtain ⟨e2, h3, h4⟩ := foldlM_ext P step l
      (fun e y hy => hstep e y (List.mem_cons_of_mem _ hy)) e1
    refine ⟨e2, ?_, ext_trans h2 h4⟩
    rw [List.foldlM_cons, h1]
    exact h3

theorem type1_loop_exact (app : App) (st : State) (i : Int) :
    ∀ (l : List Int) (e : Enum (List EvData)),
      (∀ m ∈ l, sAdmits app st i m → app.spropensity m ≠ 0) →
      l.foldlM (type1_m list_add app st i) e =
        .ok { e with
          store := ((l.filter (fun m => decide (sAdmits app st i m))).map (sEvent app)).reverse
            ++ e.store
          proball := e.proball +
            (((l.filter (fun m => decide (sAdmits app st i m))).map (sEvent app)).map
              (fun r => r.propensity)).sum }
  | [], e, _ => by
    simp
    rfl
  | m :: l, e, hnz => by
    rw [List.foldlM_cons]
    by_cases hc : sAdmits app st i m
    · have hp := hnz m (List.mem_cons_self _ _) hc
      have h1 : type1_m list_add app st i e m =
          .ok { e with store := sEvent app m :: e.store,
                       proball := e.proball + app.spropensity m } := by
        have hc2 := hc
        unfold sAdmits at hc2
        simp only [type1_m, list_add, hp, if_false]
        rw [if_pos hc2]
        rfl
      rw [h1]
      show List.foldlM _ _ l = _
      rw [type1_loop_exact app st i l _ (fun x hx => hnz x (List.mem_cons_of_mem _ hx))]
      simp [List.filter_cons, hc, sEvent]
      ring
    · have h1 : type1_m list_add app st i e m = .ok e := by
        have hc2 := hc
        unfold sAdmits at hc2
        simp only [type1_m]
        rw [if_neg hc2]
      rw [h1]
      show List.foldlM _ _ l = _
      rw [type1_loop_exact app st i l _ (fun x hx => hnz x (List.mem_cons_of_mem _ hx))]
      simp [List.filter_cons, hc]

theorem type2_m_ext (app : App) (st : State) (i k : Int) (hk : i ≠ k)
    (H : NonzeroActive app st.pressureOn) (e : Enum (List EvData)) (m : Int)
    (hm : m ∈ irange app.ntwo) :
    ∃ e1, type2_m list_add app st i k e m = .ok e1 ∧ Ext (IsDEvent app st i) e e1 := by
  have hm2 := (mem_irange _ _).1 hm
  simp only [type2_m]
  split_ifs with hc hd
  · have hp : app.dpropensity m ≠ 0 := H.2.1 m hm2.1 hm2.2 hc.2.1
    simp only [list_add, hp, if_false]
    refine ⟨_, rfl, [⟨2, m, -1, k, -1, app.dpropensity m⟩], rfl, ?_, by simp⟩
    intro r hr
    rw [List.mem_singleton] at hr
    subst hr
    exact ⟨rfl, rfl, rfl, fun h => hk h.symm, hm2.1, hm2.2, rfl, hc.2.1⟩
  · exact ⟨_, rfl, [], rfl, by simp, by simp⟩
  · exact ⟨e, rfl, ext_refl _ e⟩

theorem type3_m_ext (app : App) (st : State) (i j : Int)
    (H : NonzeroActive app st.pressureOn) (e : Enum (List EvData)) (m : Int)
    (hm : m ∈ irange app.nthree) :
    ∃ e1, type3_m list_add app st i j e m = .ok e1 ∧ Ext (IsVEvent app st) e e1 := by
  have hm2 := (mem_irange _ _).1 hm
  simp only [type3_m]
  split_ifs with hc
  · have hp : app.vpropensity m ≠ 0 := H.2.2.1 m hm2.1 hm2.2 hc.2.2.2.2.1
    simp only [list_add, hp, if_false]
    refine ⟨_, rfl, [⟨3, m, j, -1, -1, app.vpropensity m⟩], rfl, ?_, by simp⟩
    intro r hr
    rw [List.mem_singleton] at hr
    subst hr
    exact ⟨rfl, rfl, rfl, hm2.1, hm2.2, rfl, hc.2.2.2.2.1⟩
  · exact ⟨e, rfl, ext_refl _ e⟩

theorem type4_m_ext (app : App) (st : State) (i g : Int)
    (H : NonzeroActive app st.pressureOn) (e : Enum (List EvData)) (m : Int)
    (hm : m ∈ irange app.nfour) :
    ∃ e1, type4_m list_add app st i g e m = .ok e1 ∧ Ext (IsFEvent app st) e e1 := by
  have hm2 := (mem_irange _ _).1 hm
  simp only [type4_m]
  split_ifs with hc
  · have hp : app.fpropensity m ≠ 0 := H.2.2.2 m hm2.1 hm2.2 hc.2.2.2.2.1
    simp only [list_add, hp, if_false]
    refine ⟨_, rfl, [⟨4, m, -1, -1, g, app.fpropensity m⟩], rfl, ?_, by simp⟩
    intro r hr
    rw [List.mem_singleton] at hr
    subst hr
    exact ⟨rfl, rfl, rfl, hm2.1, hm2.2, rfl, hc.2.2.2.2.1⟩
  · exact ⟨e, rfl, ext_refl _ e⟩

theorem type2_loop_ext (app : App) (st : State) (i : Int)
    (H : NonzeroActive app st.pressureOn) (e : Enum (List EvData)) :
    ∃ e1, (irange (app.numneigh i)).foldlM (type2_jj list_add app st i) e = .ok e1 ∧
      Ext (IsDEvent app st i) e e1 := by
  refine foldlM_ext _ _ _ (fun e jj _ => ?_) e
  unfold type2_jj
  refine foldlM_ext _ _ _ (fun e kk _ => ?_) e
  simp only [type2_kk]
  split_ifs with hik
  · exact ⟨e, rfl, ext_refl _ e⟩
  · exact foldlM_ext _ _ _ (fun e m hm => type2_m_ext app st i _ hik H e m hm) e

theorem type3_loop_ext (app : App) (st : State) (i : Int)
    (H : NonzeroActive app st.pressureOn) (e : Enum (List EvData)) :
    ∃ e1, (irange (app.numneigh i)).foldlM (type3_jj list_add app st i) e = .ok e1 ∧
      Ext (IsVEvent app st) e e1 := by
  refine foldlM_ext _ _ _ (fun e jj _ => ?_) e
  unfold type3_jj
  exact foldlM_ext _ _ _ (fun e m hm => type3_m_ext app st i _ H e m hm) e

theorem type4_loop_ext (app : App) (st : State) (i : Int)
    (H : NonzeroActive app st.pressureOn) (e : Enum (List EvData)) :
    ∃ e1, (irange (app.num_same_z_neighbors i)).foldlM (type4_p list_add app st i) e = .ok e1 ∧
      Ext (IsFEvent app st) e e1 := by
  refine foldlM_ext _ _ _ (fun e p _ => ?_) e
  unfold type4_p
  exact foldlM_ext _ _ _ (fun e m hm => type4_m_ext app st i _ H e m hm) e

theorem added_events_spec (app : App) (st : State) (i : Int)
    (H : NonzeroActive app st.pressureOn) :
    ∃ (e : Enum (List EvData)) (fs vs ds : List EvData),
      added_events app st i = .ok e ∧
      e.store = nullEvent :: (fs ++ (vs ++ (ds ++
        (((irange app.none).filter (fun m => decide (sAdmits app st i m))).map
          (sEvent app)).reverse))) ∧
      (∀ r ∈ fs, IsFEvent app st r) ∧ (∀ r ∈ vs, IsVEvent app st r) ∧
      (∀ r ∈ ds, IsDEvent app st i r) ∧
      e.proball = (e.store.map (fun r => r.propensity)).sum := by
  have h1 := type1_loop_exact app st i (irange app.none)
    { store := [], comneigh := st.comneigh, comevent := st.comevent, proball := 0,
      nextneib := 0 }
    (fun m hm hadm => H.1 m ((mem_irange _ _).1 hm).1 ((mem_irange _ _).1 hm).2 hadm.2.2.1)
  obtain ⟨e2, h2, ds, hd1, hd2, hd3⟩ := type2_loop_ext app st i H
    { store := ((((irange app.none).filter (fun m => decide (sAdmits app st i m))).map
          (sEvent app)).reverse ++ [])
      comneigh := st.comneigh, comevent := st.comevent
      proball := 0 + ((((irange app.none).filter
        (fun m => decide (sAdmits app st i m))).map (sEvent app)).map
          (fun r => r.propensity)).sum
      nextneib := 1 }
  obtain ⟨e3, h3, vs, hv1, hv2, hv3⟩ := type3_loop_ext app st i H e2
  obtain ⟨e4, h4, fs, hf1, hf2, hf3⟩ := type4_loop_ext app st i H e3
  refine ⟨{ e4 with store := nullEvent :: e4.store, proball := e4.proball + 1 / 10 },
    fs, vs, ds, ?_, ?_, hf2, hv2, hd2, ?_⟩
  · unfold added_events enumerate
    simp only [bind, Except.bind]
    rw [h1]
    simp only []
    rw [h2]
    simp only []
    rw [h3]
    simp only []
    rw [h4]
    simp [type5, list_add, nullEvent]
  · simp only [hf1, hv1, hd1, List.append_nil]
  · simp only [hf3, hv3, hd3, hf1, hv1, hd1]
    simp [nullEvent, List.sum_reverse]
    ring

theorem added_events_store_indep (app : App) (st : State) (i : Int) (es0 : EventStore) :
    added_events app { st with es := es0 } i = added_events app st i := rfl

theorem site_propensity_spec (app : App) {st : State} {A : Int → List EvData}
    (hA : EventLists app.nlocal st.es A) {i : Int} (hi0 : 0 ≤ i) (hin : i < app.nlocal)
    {fuel : Nat} (hfuel : (A i).length ≤ fuel) (H : NonzeroActive app st.pressureOn) :
    ∃ (st1 : State) (e : Enum (List EvData)) (fs vs ds : List EvData),
      site_propensity app fuel st i = .ok (st1, e.proball) ∧
      added_events app st i = .ok e ∧
      EventLists app.nlocal st1.es (upd A i e.store) ∧
      st.es.maxevent ≤ st1.es.maxevent ∧
      st1 = { st with es := st1.es, comneigh := e.comneigh, comevent := e.comevent } ∧
      e.store = nullEvent :: (fs ++ (vs ++ (ds ++
        (((irange app.none).filter (fun m => decide (sAdmits app st i m))).map
          (sEvent app)).reverse))) ∧
      (∀ r ∈ fs, IsFEvent app st r) ∧ (∀ r ∈ vs, IsVEvent app st r) ∧
      (∀ r ∈ ds, IsDEvent app st i r) ∧
      e.proball = (e.store.map (fun r => r.propensity)).sum := by
  obtain ⟨e, fs, vs, ds, h1, h2, h3, h4, h5, h6⟩ := added_events_spec app st i H
  have hsim := site_propensity_sim app hA hi0 hin hfuel
  rw [h1] at hsim
  cases hres : site_propensity app fuel st i with
  | error err =>
    rw [hres] at hsim
    exact hsim.elim
  | ok r =>
    rw [hres] at hsim
    obtain ⟨r1, r2, r3, r4⟩ := hsim
    refine ⟨r.1, e, fs, vs, ds, ?_, h1, r1, r2, r4, h2, h3, h4, h5, h6⟩
    rw [← r3]

/-! ## States after `setup_app` -/

theorem setup_app_lists (app : App) (st : State) (hmax : 0 ≤ st.es.maxevent) :
    EventLists app.nlocal (setup_app app st).es (fun _ => []) := by
  obtain ⟨k, hk⟩ : ∃ k : Nat, (k : Int) = st.es.maxevent := ⟨st.es.maxevent.toNat, by omega⟩
  have hmem : ∀ x, x ∈ (List.range k).map (fun t : Nat => (0 : Int) + (t : Int)) →
      0 ≤ x ∧ x < st.es.maxevent := by
    intro x hx
    obtain ⟨t, ht, rfl⟩ := List.mem_map.1 hx
    have := List.mem_range.1 ht
    constructor <;> omega
  refine ⟨fun _ => [], (List.range k).map (fun t : Nat => (0 : Int) + (t : Int)), ?_, ?_⟩
  · constructor
    · intro i hi0 hin
      simp [setup_app, Chain, hi0, hin]
    · have h := chain_consecutive (nextOf (setup_app app st).es) k 0 (by
        intro m hm1 hm2
        have : 0 ≤ m ∧ m < st.es.maxevent := by constructor <;> omega
        simp [nextOf, setup_app, this])
      have h2 : (setup_app app st).es.freeevent = 0 := rfl
      have h3 : (setup_app app st).es.maxevent = 0 + (k : Int) := by
        show st.es.maxevent = _
        omega
      rw [h2, h3]
      exact h
    · refine (List.nodup_range k).map ?_
      intro a b hab
      have : (0 : Int) + (a : Int) = 0 + (b : Int) := hab
      omega
    · intro i _ _
      exact List.nodup_nil
    · intro i _ _ x hx
      simp at hx
    · intro i j _ _ _ _ _ x hx
      simp at hx
    · intro x hx
      exact hmem x hx
    · intro i _ _ x hx
      simp at hx
    · show ((List.map _ (List.range k)).length : Int) = st.es.maxevent - 0
      simp
      omega
    · exact hmax
  · intro i _ _
    rfl

theorem nonzeroActive_of_nonzeroProps {app : App} (h : NonzeroProps app) (phase : Int) :
    NonzeroActive app phase :=
  ⟨fun m a b _ => h.1 m a b, fun m a b _ => h.2.1 m a b, fun m a b _ => h.2.2.1 m a b,
    fun m a b _ => h.2.2.2 m a b⟩

theorem nonzeroActive_of_noneActive {app : App} {phase : Int} (h : NoneActive app phase) :
    NonzeroActive app phase :=
  ⟨fun m a b c => (h.1 m a b c).elim, fun m a b c => (h.2.1 m a b c).elim,
    fun m a b c => (h.2.2.1 m a b c).elim, fun m a b c => (h.2.2.2 m a b c).elim⟩

theorem appS_nonzero (press_on : Int) : NonzeroProps (appS press_on) := by
  refine ⟨?_, ?_, ?_, ?_⟩
  · intro m _ _
    simp [appS]
  · intro m h0 h1
    simp [appS, appNull] at h1
    omega
  · intro m h0 h1
    simp [appS, appNull] at h1
    omega
  · intro m h0 h1
    simp [appS, appNull] at h1
    omega

/-! ## Claims about `site_propensity` -/

theorem site_propensity_only_null (app : App) {st : State} {A : Int → List EvData}
    (hA : EventLists app.nlocal st.es A) {i : Int} (hi0 : 0 ≤ i) (hin : i < app.nlocal)
    {fuel : Nat} (hfuel : (A i).length ≤ fuel) (H : NonzeroActive app st.pressureOn)
    (hS : ∀ m, 0 ≤ m → m < app.none → ¬ sAdmits app st i m)
    (hD : ∀ r, ¬ IsDEvent app st i r) (hV : ∀ r, ¬ IsVEvent app st r)
    (hF : ∀ r, ¬ IsFEvent app st r) :
    ∃ st1, site_propensity app fuel st i = .ok (st1, 1 / 10) ∧
      EventLists app.nlocal st1.es (upd A i [nullEvent]) := by
  obtain ⟨st1, e, fs, vs, ds, h1, _, h3, _, _, h6, h7, h8, h9, h10⟩ :=
    site_propensity_spec app hA hi0 hin hfuel H
  have hfs : fs = [] := List.eq_nil_iff_forall_not_mem.2 (fun r hr => hF r (h7 r hr))
  have hvs : vs = [] := List.eq_nil_iff_forall_not_mem.2 (fun r hr => hV r (h8 r hr))
  have hds : ds = [] := List.eq_nil_iff_forall_not_mem.2 (fun r hr => hD r (h9 r hr))
  have hss : (irange app.none).filter (fun m => decide (sAdmits app st i m)) = [] := by
    apply List.filter_eq_nil_iff.2
    intro m hm
    have := (mem_irange _ _).1 hm
    simpa using hS m this.1 this.2
  have hstore : e.store = [nullEvent] := by
    rw [h6, hfs, hvs, hds, hss]
    rfl
  have hp : e.proball = 1 / 10 := by
    rw [h10, hstore]
    simp [nullEvent]
  rw [hp] at h1
  rw [hstore] at h3
  exact ⟨st1, h1, h3⟩

/-- C10. If no declared reaction of any class has `press_on` equal to 0 or to the
current `pressureOn` (in particular if none is declared), then in every well-formed
state and for every owned site `i`, `site_propensity(i)` returns exactly `0.1` and the
list of site `i` is the single event `(NULL, which = 0, 0.1, j = k = g = -1)`. -/
theorem site_propensity_null_when_none_active (app : App) (st : State)
    (A : Int → List EvData) (i : Int) (fuel : Nat)
    (hA : EventLists app.nlocal st.es A) (hi0 : 0 ≤ i) (hin : i < app.nlocal)
    (hfuel : st.es.maxevent.toNat ≤ fuel) (H : NoneActive app st.pressureOn) :
    ∃ st1, site_propensity app fuel st i = .ok (st1, 1 / 10) ∧
      EventLists app.nlocal st1.es (upd A i [⟨5, 0, -1, -1, -1, 1 / 10⟩]) := by
  have hlen := le_trans (lists_length_le hA hi0 hin) hfuel
  exact site_propensity_only_null app hA hi0 hin hlen (nonzeroActive_of_noneActive H)
    (fun m h0 h1 hadm => H.1 m h0 h1 hadm.2.2.1)
    (fun r hr => H.2.1 r.which hr.2.2.2.2.1 hr.2.2.2.2.2.1 hr.2.2.2.2.2.2.2)
    (fun r hr => H.2.2.1 r.which hr.2.2.2.1 hr.2.2.2.2.1 hr.2.2.2.2.2.2)
    (fun r hr => H.2.2.2 r.which hr.2.2.2.1 hr.2.2.2.2.1 hr.2.2.2.2.2.2)

theorem appS_one_noneActive_three : NoneActive (appS 1) 3 := by
  refine ⟨?_, ?_, ?_, ?_⟩
  · intro m _ _
    simp [appS]
  · intro m h0 h1
    simp [appS, appNull] at h1
    omega
  · intro m h0 h1
    simp [appS, appNull] at h1
    omega
  · intro m h0 h1
    simp [appS, appNull] at h1
    omega

/-- Witness for C10 (scenario S3 at `t = 1.5`): the reaction `O -> OH` with
`press_on = 1` while `pressureOn = 3`. -/
theorem site_propensity_null_when_none_active_witness :
    NoneActive (appS 1) 3 ∧
    ∃ st1, site_propensity (appS 1) 0
        { setup_app (appS 1) (stInit O) with pressureOn := 3 } 0 = .ok (st1, 1 / 10) ∧
      EventLists (appS 1).nlocal st1.es (upd (fun _ => []) 0 [⟨5, 0, -1, -1, -1, 1 / 10⟩]) :=
  ⟨appS_one_noneActive_three,
    site_propensity_null_when_none_active (appS 1)
      { setup_app (appS 1) (stInit O) with pressureOn := 3 } (fun _ => []) 0 0
      (setup_app_lists (appS 1) (stInit O) (le_refl _)) (by decide) (by decide) (by decide)
      appS_one_noneActive_three⟩

/-- The Type I enumeration as the code performs it: after `site_propensity(i)` the list
of site `i` holds, for every declared S reaction `m`, exactly one event
`(S, m, prop_m, -1, -1, -1)` if the test of lines 490-493 (`sAdmits`, with
`coordi = coord[i] < 0 ? coord[i] % 10 + 10 : coord[i] % 10`) passes, and no S event with
`which = m` otherwise. -/
theorem site_propensity_S_events (app : App) (st : State) (A : Int → List EvData)
    (i : Int) (fuel : Nat)
    (hA : EventLists app.nlocal st.es A) (hi0 : 0 ≤ i) (hin : i < app.nlocal)
    (hfuel : st.es.maxevent.toNat ≤ fuel) (H : NonzeroActive app st.pressureOn) :
    ∃ (st1 : State) (p : ℚ) (l : List EvData),
      site_propensity app fuel st i = .ok (st1, p) ∧
      EventLists app.nlocal st1.es (upd A i l) ∧
      ∀ m, 0 ≤ m → m < app.none →
        (sAdmits app st i m → l.count (sEvent app m) = 1) ∧
        (¬ sAdmits app st i m → ∀ r ∈ l, ¬ (r.style = 1 ∧ r.which = m)) ∧
        (∀ r ∈ l, r.style = 1 → r.which = m → r = sEvent app m) := by
  have hlen := le_trans (lists_length_le hA hi0 hin) hfuel
  obtain ⟨st1, e, fs, vs, ds, h1, _, h3, _, _, h6, h7, h8, h9, _⟩ :=
    site_propensity_spec app hA hi0 hin hlen H
  refine ⟨st1, e.proball, e.store, h1, h3, ?_⟩
  have hstyle : ∀ r ∈ e.store, r.style = 1 →
      ∃ m, m ∈ irange app.none ∧ sAdmits app st i m ∧ r = sEvent app m := by
    intro r hr hs
    rw [h6] at hr
    rcases List.mem_cons.1 hr with h | h
    · rw [h] at hs
      exact absurd hs (by decide)
    rcases List.mem_append.1 h with h | h
    · rw [(h7 r h).1] at hs
      exact absurd hs (by decide)
    rcases List.mem_append.1 h with h | h
    · rw [(h8 r h).1] at hs
      exact absurd hs (by decide)
    rcases List.mem_append.1 h with h | h
    · rw [(h9 r h).1] at hs
      exact absurd hs (by decide)
    rw [List.mem_reverse, List.mem_map] at h
    obtain ⟨m, hm, rfl⟩ := h
    rw [List.mem_filter] at hm
    exact ⟨m, hm.1, by simpa using hm.2, rfl⟩
  intro m hm0 hmn
  refine ⟨?_, ?_, ?_⟩
  · intro hadm
    have hnotS : ∀ l : List EvData, (∀ r ∈ l, r.style ≠ 1) → l.count (sEvent app m) = 0 := by
      intro l hl
      apply List.count_eq_zero_of_not_mem
      intro hmem
      exact hl _ hmem rfl
    have hnd : ((List.filter (fun m => decide (sAdmits app st i m)) (irange app.none)).map
        (sEvent app)).Nodup := by
      refine ((nodup_irange _).filter _).map ?_
      intro a b hab
      have : (sEvent app a).which = (sEvent app b).which := by rw [hab]
      exact this
    have hmemS : sEvent app m ∈ (List.filter (fun m => decide (sAdmits app st i m))
        (irange app.none)).map (sEvent app) :=
      List.mem_map.2 ⟨m, List.mem_filter.2 ⟨(mem_irange _ _).2 ⟨hm0, hmn⟩, by simpa using hadm⟩,
        rfl⟩
    rw [h6, List.count_cons, List.count_append, List.count_append, List.count_append,
      List.count_reverse, List.count_eq_one_of_mem hnd hmemS,
      hnotS fs (fun r hr => by rw [(h7 r hr).1]; decide),
      hnotS vs (fun r hr => by rw [(h8 r hr).1]; decide),
      hnotS ds (fun r hr => by rw [(h9 r hr).1]; decide)]
    simp [nullEvent, sEvent]
  · intro hnadm r hr hsw
    obtain ⟨m2, _, hadm2, rfl⟩ := hstyle r hr hsw.1
    have : m2 = m := hsw.2
    subst this
    exact hnadm hadm2
  · intro r hr hs hw
    obtain ⟨m2, _, _, rfl⟩ := hstyle r hr hs
    have : m2 = m := hw
    subst this
    rfl

theorem appMasked_nonzero : NonzeroProps appMasked := by
  refine ⟨?_, ?_, ?_, ?_⟩
  · intro m _ _
    simp [appMasked, appS]
  · intro m h0 h1
    simp [appMasked, appS, appNull] at h1
    omega
  · intro m h0 h1
    simp [appMasked, appS, appNull] at h1
    omega
  · intro m h0 h1
    simp [appMasked, appS, appNull] at h1
    omega

/-- C2 at a failing input. Site 0 holds `O`, has four vacant neighbours and
`coord = -10`; the S reaction `O -> OH` has `req_coord = ALL` and `press_on = 0`.
The admission test in the words of the claim holds (`cphys(0) = 0 <= 4`), yet
`site_propensity(0)` returns `0.1` and links the null event only: the code computes
`coordi = -10 % 10 + 10 = 10 > 4` and adds no S event. -/
theorem site_propensity_masked_site_drops_S_event :
    sAdmitsSpec appMasked stMasked 0 0 ∧
    ∃ st1, site_propensity appMasked 0 stMasked 0 = .ok (st1, 1 / 10) ∧
      EventLists appMasked.nlocal st1.es (upd (fun _ => []) 0 [nullEvent]) := by
  refine ⟨by decide, ?_⟩
  refine site_propensity_only_null appMasked
    (setup_app_lists appMasked _ (le_refl _)) (le_refl _) (by decide) (by simp)
    (nonzeroActive_of_nonzeroProps appMasked_nonzero _) ?_ ?_ ?_ ?_
  · intro m _ _ hadm
    have h := hadm.2.2.2
    revert h
    decide
  · intro r hr
    have h1 := hr.2.2.2.2.1
    have h2 := hr.2.2.2.2.2.1
    simp [appMasked, appS, appNull] at h2
    omega
  · intro r hr
    have h1 := hr.2.2.2.1
    have h2 := hr.2.2.2.2.1
    simp [appMasked, appS, appNull] at h2
    omega
  · intro r hr
    have h1 := hr.2.2.2.1
    have h2 := hr.2.2.2.2.1
    simp [appMasked, appS, appNull] at h2
    omega

/-! ## Claims about `site_event` -/

theorem event_walk_spec (events : Int → Event) (thr : ℚ) :
    ∀ (l : List Int) (s t : Int) (acc : ℚ) (n : Nat) (hn : n < l.length) (fuel : Nat),
      Chain (fun a => (events a).next) s l t →
      (∀ k, k < n → acc + runningSum events l (k + 1) < thr) →
      thr ≤ acc + runningSum events l (n + 1) →
      n < fuel →
      event_walk events thr fuel acc s = .ok (l.get ⟨n, hn⟩)
  | [], _, _, _, n, hn, _, _, _, _, _ => by simp at hn
  | a :: l, s, t, acc, n, hn, fuel, hc, hlt, hge, hfuel => by
    obtain ⟨hs, hrest⟩ := hc
    subst hs
    cases fuel with
    | zero => omega
    | succ fuel =>
      cases n with
      | zero =>
        have : thr ≤ acc + (events s).propensity := by
          simpa [runningSum] using hge
        simp [event_walk, this]
      | succ n =>
        have h0 : acc + (events s).propensity < thr := by
          simpa [runningSum] using hlt 0 (Nat.succ_pos n)
        have hn2 : n < l.length := by simpa using hn
        have ih := event_walk_spec events thr l ((events s).next) t
          (acc + (events s).propensity) n hn2 fuel hrest
          (by
            intro k hk
            have := hlt (k + 1) (by omega)
            simp only [runningSum, List.take_succ_cons, List.map_cons, List.sum_cons] at this ⊢
            linarith)
          (by
            simp only [runningSum, List.take_succ_cons, List.map_cons, List.sum_cons] at hge ⊢
            linarith)
          (by omega)
        simp only [event_walk, ge_iff_le, not_le.2 h0, if_false]
        rw [ih]
        rfl

theorem select_event_first (app : App) (fuel : Nat) (st : State)
    (i : Int) (uniform : ℚ) (l : List Int) (t : Int) (n : Nat) (hn : n < l.length)
    (hchain : Chain (nextOf st.es) (st.es.firstevent i) l t)
    (hlt : ∀ k, k < n →
      runningSum st.es.events l (k + 1) < uniform * st.propensity (app.i2site i))
    (hge : uniform * st.propensity (app.i2site i) ≤ runningSum st.es.events l (n + 1))
    (hfuel : n < fuel) :
    select_event app fuel st i uniform = .ok (l.get ⟨n, hn⟩) := by
  unfold select_event
  exact event_walk_spec st.es.events _ l _ t 0 n hn fuel hchain
    (fun k hk => by simpa using hlt k hk) (by simpa using hge) hfuel

/-- C3. Let `l` be the chain of site `i` (the nodes reached from `firstevent[i]` by
`next` links) and `u = uniform * propensity[i2site[i]]`. If node number `n` of the chain
is the first whose inclusive running sum of propensities is `>= u` (every earlier node
has running sum `< u`), then the event walk stops at that node, and `site_event`
executes exactly that event. -/
theorem site_event_selects_first_reaching_threshold (app : App) (fuel : Nat) (st : State)
    (i : Int) (uniform time : ℚ) (l : List Int) (t : Int) (n : Nat) (hn : n < l.length)
    (hchain : Chain (nextOf st.es) (st.es.firstevent i) l t)
    (hlt : ∀ k, k < n →
      runningSum st.es.events l (k + 1) < uniform * st.propensity (app.i2site i))
    (hge : uniform * st.propensity (app.i2site i) ≤ runningSum st.es.events l (n + 1))
    (hfuel : n < fuel) :
    select_event app fuel st i uniform = .ok (l.get ⟨n, hn⟩) ∧
    site_event app fuel st i uniform time =
      execute_event app fuel st i (l.get ⟨n, hn⟩) time := by
  have h : select_event app fuel st i uniform = .ok (l.get ⟨n, hn⟩) :=
    select_event_first app fuel st i uniform l t n hn hchain hlt hge hfuel
  refine ⟨h, ?_⟩
  unfold site_event
  rw [h]
  rfl

/-! ## Frames of the mask functions and of the refresh -/

theorem foldl_inv {α ι : Type} (I : α → Prop) (f : α → ι → α) :
    ∀ (l : List ι), (∀ a x, x ∈ l → I a → I (f a x)) → ∀ a, I a → I (l.foldl f a)
  | [], _, _, ha => ha
  | x :: l, h, a, ha =>
    foldl_inv I f l (fun b y hy hb => h b y (List.mem_cons_of_mem _ hy) hb) (f a x)
      (h a x (List.mem_cons_self _ _) ha)

theorem foldlM_inv {α ι : Type} (I : α → Prop) (f : α → ι → Except Fault α) :
    ∀ (l : List ι), (∀ a x, x ∈ l → I a → ∃ a1, f a x = .ok a1 ∧ I a1) →
      ∀ a, I a → ∃ a1, l.foldlM f a = .ok a1 ∧ I a1
  | [], _, a, ha => ⟨a, rfl, ha⟩
  | x :: l, h, a, ha => by
    obtain ⟨a1, h1, h2⟩ := h a x (List.mem_cons_self _ _) ha
    obtain ⟨a2, h3, h4⟩ := foldlM_inv I f l
      (fun b y hy hb => h b y (List.mem_cons_of_mem _ hy) hb) a1 h2
    refine ⟨a2, ?_, h4⟩
    rw [List.foldlM_cons, h1]
    exact h3

theorem maskFrame_refl (st : State) : MaskFrame st st :=
  ⟨rfl, rfl, rfl, rfl, rfl, rfl, rfl, rfl, rfl, rfl, rfl⟩

theorem maskFrame_trans {a b c : State} (h1 : MaskFrame a b) (h2 : MaskFrame b c) :
    MaskFrame a c :=
  ⟨h2.element.trans h1.element, h2.pressureOn.trans h1.pressureOn,
    h2.cycle.trans h1.cycle, h2.es.trans h1.es, h2.comneigh.trans h1.comneigh,
    h2.comevent.trans h1.comevent, h2.propensity.trans h1.propensity,
    h2.scount.trans h1.scount, h2.dcount.trans h1.dcount, h2.vcount.trans h1.vcount,
    h2.fcount.trans h1.fcount⟩

theorem maskFrame_core {a b : State} (h : MaskFrame a b) : CoreFrame a b :=
  ⟨h.element, h.pressureOn, h.cycle, h.scount, h.dcount, h.vcount, h.fcount⟩

theorem coreFrame_refl (st : State) : CoreFrame st st :=
  ⟨rfl, rfl, rfl, rfl, rfl, rfl, rfl⟩

theorem coreFrame_trans {a b c : State} (h1 : CoreFrame a b) (h2 : CoreFrame b c) :
    CoreFrame a c :=
  ⟨h2.element.trans h1.element, h2.pressureOn.trans h1.pressureOn,
    h2.cycle.trans h1.cycle, h2.scount.trans h1.scount, h2.dcount.trans h1.dcount,
    h2.vcount.trans h1.vcount, h2.fcount.trans h1.fcount⟩

theorem mask_mark_frame (app : App) (d : Int) (st0 : State) (acc : State × Int) (x : Int)
    (h : MaskFrame st0 acc.1) : MaskFrame st0 (mask_mark app d acc x).1 := by
  unfold mask_mark
  simp only []
  split_ifs
  · exact ⟨h.element, h.pressureOn, h.cycle, h.es, h.comneigh, h.comevent, h.propensity,
      h.scount, h.dcount, h.vcount, h.fcount⟩
  · exact h

theorem clear_echeck_frame (st : State) (nsites : Int) :
    MaskFrame st (clear_echeck st nsites) := by
  unfold clear_echeck
  refine foldl_inv (fun s => MaskFrame st s) _ _ ?_ st (maskFrame_refl st)
  intro a x _ ha
  exact ⟨ha.element, ha.pressureOn, ha.cycle, ha.es, ha.comneigh, ha.comevent,
    ha.propensity, ha.scount, ha.dcount, ha.vcount, ha.fcount⟩

theorem mask_shells_frame (app : App) (d1 d2 : Int) (st : State) (i : Int) :
    MaskFrame st (mask_shells app d1 d2 st i) := by
  unfold mask_shells
  simp only []
  refine maskFrame_trans ?_ (clear_echeck_frame _ _)
  refine foldl_inv (fun acc : State × Int => MaskFrame st acc.1) _ _ ?_ _
    ⟨rfl, rfl, rfl, rfl, rfl, rfl, rfl, rfl, rfl, rfl, rfl⟩
  intro a s _ ha
  refine foldl_inv (fun acc : State × Int => MaskFrame st acc.1) _ _ ?_ _
    (mask_mark_frame app d1 st a _ ha)
  intro b ss _ hb
  exact mask_mark_frame app d2 st b _ hb

theorem mask_same_z_frame (app : App) (d : Int) (st : State) (i : Int) :
    MaskFrame st (mask_same_z app d st i) := by
  unfold mask_same_z
  simp only []
  refine maskFrame_trans ?_ (clear_echeck_frame _ _)
  refine foldl_inv (fun acc : State × Int => MaskFrame st acc.1) _ _ ?_ _
    ⟨rfl, rfl, rfl, rfl, rfl, rfl, rfl, rfl, rfl, rfl, rfl⟩
  intro a s _ ha
  exact mask_mark_frame app d st a _ ha

theorem run_mask_frame (app : App) (st : State) (a : MaskAction) :
    MaskFrame st (run_mask app st a) := by
  cases a with
  | noMask => exact maskFrame_refl st
  | removeAt x =>
    exact maskFrame_trans (mask_shells_frame app 0 50 st x) (mask_same_z_frame app 10 _ x)
  | putAt x =>
    exact maskFrame_trans (mask_shells_frame app (-0) (-50) st x)
      (mask_same_z_frame app (-10) _ x)

theorem count_coord_frame (app : App) (st : State) (i : Int) :
    MaskFrame st (count_coord app st i) ∧ (count_coord app st i).echeck = st.echeck := by
  unfold count_coord
  simp only []
  refine foldl_inv (fun s : State => MaskFrame st s ∧ s.echeck = st.echeck) _ _ ?_ _
    ⟨⟨rfl, rfl, rfl, rfl, rfl, rfl, rfl, rfl, rfl, rfl, rfl⟩, rfl⟩
  intro a s _ ha
  split_ifs
  · exact ⟨⟨ha.1.element, ha.1.pressureOn, ha.1.cycle, ha.1.es, ha.1.comneigh,
      ha.1.comevent, ha.1.propensity, ha.1.scount, ha.1.dcount, ha.1.vcount,
      ha.1.fcount⟩, ha.2⟩
  · exact ha

theorem refresh_site_spec (app : App) (fuel : Nat) (st0 : State) (hnz : NonzeroProps app)
    (st : State) (ns : Int) (A : Int → List EvData)
    (hA : EventLists app.nlocal st.es A)
    (hb : ∀ m, 0 ≤ m → m < app.nlocal → st.echeck (app.i2site m) = 0 →
      (A m).length ≤ fuel)
    (s : Int) (hs0 : 0 ≤ s) (hsn : s < app.nlocal) (hlen : (A s).length ≤ fuel)
    (hcore : CoreFrame st0 st) :
    ∃ a1, refresh_site app fuel (st, ns) s = .ok a1 ∧ RefreshInv app fuel st0 a1 := by
  obtain ⟨hcf, hce⟩ := count_coord_frame app st s
  have hA2 : EventLists app.nlocal (count_coord app st s).es A := by
    rw [hcf.es]
    exact hA
  obtain ⟨st1, e, fs, vs, ds, h1, _, h3, _, h5, _⟩ :=
    site_propensity_spec app hA2 hs0 hsn hlen
      (nonzeroActive_of_nonzeroProps hnz _)
  refine ⟨({ st1 with
      propensity := upd st1.propensity (app.i2site s) e.proball
      esites := upd st1.esites ns (app.i2site s)
      echeck := upd st1.echeck (app.i2site s) 1 }, ns + 1), ?_, ?_⟩
  · simp only [refresh_site, h1]
  · have hel : st1.element = st.element := by rw [h5]; exact hcf.element
    have hpr : st1.pressureOn = st.pressureOn := by rw [h5]; exact hcf.pressureOn
    have hcy : st1.cycle = st.cycle := by rw [h5]; exact hcf.cycle
    have hsc : st1.scount = st.scount := by rw [h5]; exact hcf.scount
    have hdc : st1.dcount = st.dcount := by rw [h5]; exact hcf.dcount
    have hvc : st1.vcount = st.vcount := by rw [h5]; exact hcf.vcount
    have hfc : st1.fcount = st.fcount := by rw [h5]; exact hcf.fcount
    have hec : st1.echeck = st.echeck := by rw [h5]; exact hce
    refine ⟨⟨upd A s e.store, h3, ?_⟩, ?_⟩
    · intro m hm0 hmn hm
      have hm2 : upd st1.echeck (app.i2site s) 1 (app.i2site m) = 0 := hm
      by_cases hms : app.i2site m = app.i2site s
      · rw [hms, upd_same] at hm2
        exact absurd hm2 (by decide)
      · rw [upd_ne _ _ _ _ hms, hec] at hm2
        have hne : m ≠ s := fun h => hms (by rw [h])
        rw [upd_ne _ _ _ _ hne]
        exact hb m hm0 hmn hm2
    · exact coreFrame_trans hcore ⟨hel, hpr, hcy, hsc, hdc, hvc, hfc⟩

theorem refresh_guarded_inv (app : App) (fuel : Nat) (st0 : State)
    (hnz : NonzeroProps app) (hown : OwnedInRange app) (acc : State × Int) (s : Int)
    (hinv : RefreshInv app fuel st0 acc) :
    ∃ a1, refresh_guarded app fuel acc s = .ok a1 ∧ RefreshInv app fuel st0 a1 := by
  unfold refresh_guarded
  split_ifs with hg
  · obtain ⟨⟨A, hA, hb⟩, hcore⟩ := hinv
    have hs := hown s hg.1
    exact refresh_site_spec app fuel st0 hnz acc.1 acc.2 A hA hb s hs.1 hs.2
      (hb s hs.1 hs.2 hg.2) hcore
  · exact ⟨acc, rfl, hinv⟩

theorem refresh_l4_inv (app : App) (fuel : Nat) (st0 : State)
    (hnz : NonzeroProps app) (hown : OwnedInRange app) (s : Int) (acc : State × Int)
    (hinv : RefreshInv app fuel st0 acc) :
    ∃ a1, refresh_l4 app fuel s acc = .ok a1 ∧ RefreshInv app fuel st0 a1 := by
  unfold refresh_l4
  exact foldlM_inv _ _ _
    (fun a gg _ ha => refresh_guarded_inv app fuel st0 hnz hown a _ ha) acc hinv

theorem refresh_l3_inv (app : App) (fuel : Nat) (st0 : State)
    (hnz : NonzeroProps app) (hown : OwnedInRange app) (mm : Int) (acc : State × Int)
    (hinv : RefreshInv app fuel st0 acc) :
    ∃ a1, refresh_l3 app fuel mm acc = .ok a1 ∧ RefreshInv app fuel st0 a1 := by
  unfold refresh_l3
  refine foldlM_inv _ _ _ (fun a ss _ ha => ?_) acc hinv
  obtain ⟨a1, h1, h2⟩ := refresh_guarded_inv app fuel st0 hnz hown a (app.neighbor mm ss) ha
  rw [h1]
  exact refresh_l4_inv app fuel st0 hnz hown _ a1 h2

theorem refresh_l2_inv (app : App) (fuel : Nat) (st0 : State)
    (hnz : NonzeroProps app) (hown : OwnedInRange app) (m : Int) (acc : State × Int)
    (hinv : RefreshInv app fuel st0 acc) :
    ∃ a1, refresh_l2 app fuel m acc = .ok a1 ∧ RefreshInv app fuel st0 a1 := by
  unfold refresh_l2
  refine foldlM_inv _ _ _ (fun a jj _ ha => ?_) acc hinv
  obtain ⟨a1, h1, h2⟩ := refresh_guarded_inv app fuel st0 hnz hown a (app.neighbor m jj) ha
  rw [h1]
  exact refresh_l3_inv app fuel st0 hnz hown _ a1 h2

theorem refresh_l1_inv (app : App) (fuel : Nat) (st0 : State)
    (hnz : NonzeroProps app) (hown : OwnedInRange app) (i : Int) (acc : State × Int)
    (hinv : RefreshInv app fuel st0 acc) :
    ∃ a1, refresh_l1 app fuel i acc = .ok a1 ∧ RefreshInv app fuel st0 a1 := by
  unfold refresh_l1
  refine foldlM_inv _ _ _ (fun a n _ ha => ?_) acc hinv
  obtain ⟨a1, h1, h2⟩ := refresh_guarded_inv app fuel st0 hnz hown a (app.neighbor i n) ha
  rw [h1]
  exact refresh_l2_inv app fuel st0 hnz hown _ a1 h2

theorem pulse_update_frame (app : App) (st : State) (time : ℚ) :
    (pulse_update app st time).element = st.element ∧
    (pulse_update app st time).es = st.es ∧
    (pulse_update app st time).scount = st.scount ∧
    (pulse_update app st time).dcount = st.dcount ∧
    (pulse_update app st time).vcount = st.vcount ∧
    (pulse_update app st time).fcount = st.fcount := by
  unfold pulse_update
  split_ifs <;> exact ⟨rfl, rfl, rfl, rfl, rfl, rfl⟩

/-- Once the mutation of the chosen event succeeded (`apply_event` returned `st1`), the
rest of `site_event` returns, and the final state has the species and counters of
`st1` and a well-formed event store. -/
theorem execute_event_spec (app : App) (fuel : Nat) (st : State) (A : Int → List EvData)
    (i ievent : Int) (time : ℚ)
    (hA : EventLists app.nlocal st.es A) (hi0 : 0 ≤ i) (hin : i < app.nlocal)
    (hown : OwnedInRange app) (hnz : NonzeroProps app)
    (hfuel : st.es.maxevent.toNat ≤ fuel) (st1 : State)
    (happly : apply_event app st i (st.es.events ievent).style (st.es.events ievent).which
      (st.es.events ievent).jpartner (st.es.events ievent).kpartner
      (st.es.events ievent).gpartner = .ok st1)
    (hes : st1.es = st.es) :
    ∃ (st2 : State) (touched : List Int),
      execute_event app fuel st i ievent time = .ok (st2, touched) ∧
      st2.element = st1.element ∧ st2.scount = st1.scount ∧ st2.dcount = st1.dcount ∧
      st2.vcount = st1.vcount ∧ st2.fcount = st1.fcount ∧
      (∃ A1, EventLists app.nlocal st2.es A1) ∧
      st2.pressureOn = (pulse_update app st1 time).pressureOn ∧
      st2.cycle = (pulse_update app st1 time).cycle := by
  obtain ⟨hp1, hp2, hp3, hp4, hp5, hp6⟩ := pulse_update_frame app st1 time
  obtain ⟨st3, hst3⟩ : ∃ st3, st3 = run_mask app (pulse_update app st1 time)
      (mask_action (pulse_update app st1 time) i (st.es.events ievent).gpartner
        (st.es.events ievent).style (st.element i)
        (st.element (st.es.events ievent).gpartner)) := ⟨_, rfl⟩
  have hm : MaskFrame (pulse_update app st1 time) st3 := by
    rw [hst3]
    exact run_mask_frame _ _ _
  have hA3 : EventLists app.nlocal st3.es A := by
    rw [hm.es, hp2, hes]
    exact hA
  have hlenall : ∀ m, 0 ≤ m → m < app.nlocal → (A m).length ≤ fuel := by
    intro m hm0 hmn
    exact le_trans (lists_length_le hA hm0 hmn) hfuel
  obtain ⟨a0, h0, hinv0⟩ := refresh_site_spec app fuel st3 hnz st3 0 A hA3
    (fun m hm0 hmn _ => hlenall m hm0 hmn) i hi0 hin (hlenall i hi0 hin) (coreFrame_refl _)
  obtain ⟨a1, h1, hinv1⟩ := refresh_l1_inv app fuel st3 hnz hown i a0 hinv0
  obtain ⟨⟨A1, hA1, _⟩, hcore⟩ := hinv1
  have hcl := clear_echeck_frame a1.1 a1.2
  refine ⟨clear_echeck a1.1 a1.2, (irange a1.2).map a1.1.esites, ?_, ?_, ?_, ?_, ?_, ?_, ?_,
    ?_, ?_⟩
  · unfold execute_event
    simp only [bind, Except.bind, happly]
    rw [← hst3, h0]
    simp only []
    rw [h1]
    rfl
  · rw [hcl.element, hcore.element, hm.element, hp1]
  · rw [hcl.scount, hcore.scount, hm.scount, hp3]
  · rw [hcl.dcount, hcore.dcount, hm.dcount, hp4]
  · rw [hcl.vcount, hcore.vcount, hm.vcount, hp5]
  · rw [hcl.fcount, hcore.fcount, hm.fcount, hp6]
  · exact ⟨A1, by rw [hcl.es]; exact hA1⟩
  · rw [hcl.pressureOn, hcore.pressureOn, hm.pressureOn]
  · rw [hcl.cycle, hcore.cycle, hm.cycle]

/-- C4. If the event chosen by `site_event(i)` is an S event with reaction index `w`,
then (in a well-formed state, with the host's `i2site` convention, no zero propensity
and enough fuel) the call returns and afterwards `element[i] = soutput[w]`, `scount[w]`
is one higher, `element[x]` is unchanged for every `x != i`, and every other entry of
`scount`, `dcount`, `vcount`, `fcount` is unchanged. -/
theorem site_event_S_mutation (app : App) (fuel : Nat) (st : State) (i ievent w : Int)
    (uniform time : ℚ)
    (hwf : ∃ A, EventLists app.nlocal st.es A) (hi0 : 0 ≤ i) (hin : i < app.nlocal)
    (hown : OwnedInRange app) (hnz : NonzeroProps app)
    (hfuel : st.es.maxevent.toNat ≤ fuel)
    (hsel : select_event app fuel st i uniform = .ok ievent)
    (hstyle : (st.es.events ievent).style = 1)
    (hw : (st.es.events ievent).which = w) :
    ∃ (st2 : State) (touched : List Int),
      site_event app fuel st i uniform time = .ok (st2, touched) ∧
      st2.element i = app.soutput w ∧
      st2.scount w = st.scount w + 1 ∧
      (∀ x, x ≠ i → st2.element x = st.element x) ∧
      (∀ m, m ≠ w → st2.scount m = st.scount m) ∧
      st2.dcount = st.dcount ∧ st2.vcount = st.vcount ∧ st2.fcount = st.fcount := by
  obtain ⟨A, hA⟩ := hwf
  obtain ⟨st2, touched, h1, h2, h3, h4, h5, h6, _⟩ :=
    execute_event_spec app fuel st A i ievent time hA hi0 hin hown hnz hfuel
      { st with
        element := upd st.element i (app.soutput w)
        scount := upd st.scount w (st.scount w + 1) }
      (by simp [apply_event, hstyle, hw]) rfl
  refine ⟨st2, touched, ?_, ?_, ?_, ?_, ?_, h4, h5, h6⟩
  · unfold site_event
    rw [hsel]
    exact h1
  · rw [h2]
    exact upd_same _ _ _
  · rw [h3]
    exact upd_same _ _ _
  · intro x hx
    rw [h2]
    exact upd_ne _ _ _ _ hx
  · intro m hm
    rw [h3]
    exact upd_ne _ _ _ _ hm

/-- C5. If the event chosen by `site_event(i)` is a two-site event of class D, V or F
(style 2, 3 or 4; a D event has `jpartner = -1` and a V event `kpartner = -1`, as
`site_propensity` creates them) with reaction index `w` and partner site `p != i`, then
the call returns and afterwards `element[i]` is the first and `element[p]` the second
output species of reaction `w` of that class, the counter of that class at `w` is one
higher, every other counter entry is unchanged, and `element[x]` is unchanged for
every `x` other than `i` and `p`. -/
theorem site_event_pair_mutation (app : App) (fuel : Nat) (st : State)
    (i ievent w p style : Int) (uniform time : ℚ)
    (hwf : ∃ A, EventLists app.nlocal st.es A) (hi0 : 0 ≤ i) (hin : i < app.nlocal)
    (hown : OwnedInRange app) (hnz : NonzeroProps app)
    (hfuel : st.es.maxevent.toNat ≤ fuel)
    (hsel : select_event app fuel st i uniform = .ok ievent)
    (hstyle : (st.es.events ievent).style = style)
    (hclass : style = 2 ∨ style = 3 ∨ style = 4)
    (hD : style = 2 → (st.es.events ievent).jpartner = -1)
    (hV : style = 3 → (st.es.events ievent).kpartner = -1)
    (hw : (st.es.events ievent).which = w)
    (hp : pairPartner (st.es.events ievent) = p) (hpi : p ≠ i) :
    ∃ (st2 : State) (touched : List Int),
      site_event app fuel st i uniform time = .ok (st2, touched) ∧
      st2.element i = pairOutput app style w 0 ∧
      st2.element p = pairOutput app style w 1 ∧
      (∀ x, x ≠ i → x ≠ p → st2.element x = st.element x) ∧
      pairCount st2 style w = pairCount st style w + 1 ∧
      (∀ m, m ≠ w → pairCount st2 style m = pairCount st style m) ∧
      st2.scount = st.scount ∧
      (style ≠ 2 → st2.dcount = st.dcount) ∧
      (style ≠ 3 → st2.vcount = st.vcount) ∧
      (style ≠ 4 → st2.fcount = st.fcount) := by
  obtain ⟨A, hA⟩ := hwf
  have hsite : ∀ r, execute_event app fuel st i ievent time = .ok r →
      site_event app fuel st i uniform time = .ok r := by
    intro r hr
    unfold site_event
    rw [hsel]
    exact hr
  rcases hclass with h2 | h3 | h4
  · subst h2
    have hj := hD rfl
    have hk : (st.es.events ievent).kpartner = p := by
      simpa [pairPartner, hstyle] using hp
    obtain ⟨st2, touched, h1, e2, e3, e4, e5, e6, _⟩ :=
      execute_event_spec app fuel st A i ievent time hA hi0 hin hown hnz hfuel
        { st with
          element := upd (upd st.element i (app.doutput w 0)) p (app.doutput w 1)
          dcount := upd st.dcount w (st.dcount w + 1) }
        (by simp [apply_event, hstyle, hw, hj, hk]) rfl
    refine ⟨st2, touched, hsite _ h1, ?_, ?_, ?_, ?_, ?_, e3, ?_, ?_, ?_⟩
    · rw [e2]
      simp [upd, pairOutput, Ne.symm hpi]
    · rw [e2]
      simp [upd, pairOutput]
    · intro x hx1 hx2
      rw [e2]
      simp [upd, hx1, hx2]
    · simp only [pairCount, if_true]
      rw [e4]
      exact upd_same _ _ _
    · intro m hm
      simp only [pairCount, if_true]
      rw [e4]
      exact upd_ne _ _ _ _ hm
    · intro h
      exact absurd rfl h
    · intro _
      exact e5
    · intro _
      exact e6
  · subst h3
    have hk := hV rfl
    have hj : (st.es.events ievent).jpartner = p := by
      simpa [pairPartner, hstyle] using hp
    obtain ⟨st2, touched, h1, e2, e3, e4, e5, e6, _⟩ :=
      execute_event_spec app fuel st A i ievent time hA hi0 hin hown hnz hfuel
        { st with
          element := upd (upd st.element i (app.voutput w 0)) p (app.voutput w 1)
          vcount := upd st.vcount w (st.vcount w + 1) }
        (by simp [apply_event, hstyle, hw, hj, hk]) rfl
    refine ⟨st2, touched, hsite _ h1, ?_, ?_, ?_, ?_, ?_, e3, ?_, ?_, ?_⟩
    · rw [e2]
      simp [upd, pairOutput, Ne.symm hpi]
    · rw [e2]
      simp [upd, pairOutput]
    · intro x hx1 hx2
      rw [e2]
      simp [upd, hx1, hx2]
    · simp [pairCount]
      rw [e5]
      exact upd_same _ _ _
    · intro m hm
      simp [pairCount]
      rw [e5]
      exact upd_ne _ _ _ _ hm
    · intro _
      exact e4
    · intro h
      exact absurd rfl h
    · intro _
      exact e6
  · subst h4
    have hg : (st.es.events ievent).gpartner = p := by
      simpa [pairPartner, hstyle] using hp
    obtain ⟨st2, touched, h1, e2, e3, e4, e5, e6, _⟩ :=
      execute_event_spec app fuel st A i ievent time hA hi0 hin hown hnz hfuel
        { st with
          element := upd (upd st.element i (app.foutput w 0)) p (app.foutput w 1)
          fcount := upd st.fcount w (st.fcount w + 1) }
        (by simp [apply_event, hstyle, hw, hg]) rfl
    refine ⟨st2, touched, hsite _ h1, ?_, ?_, ?_, ?_, ?_, e3, ?_, ?_, ?_⟩
    · rw [e2]
      simp [upd, pairOutput, Ne.symm hpi]
    · rw [e2]
      simp [upd, pairOutput]
    · intro x hx1 hx2
      rw [e2]
      simp [upd, hx1, hx2]
    · simp [pairCount]
      rw [e6]
      exact upd_same _ _ _
    · intro m hm
      simp [pairCount]
      rw [e6]
      exact upd_ne _ _ _ _ hm
    · intro _
      exact e4
    · intro _
      exact e5
    · intro h
      exact absurd rfl h

/-! ## Reachable states have a well-formed event store -/

theorem clear_loop_ok_length :
    ∀ (l : List Int) (fuel : Nat) (es es1 : EventStore) (index : Int),
      Chain (nextOf es) index l (-1) → (∀ x ∈ l, 0 ≤ x) → l.Nodup →
      clear_loop fuel es index = .ok es1 → l.length ≤ fuel := by
  intro l
  induction l with
  | nil => intro fuel es es1 index _ _ _ _; simp
  | cons a l ih =>
    intro fuel es es1 index hc hpos hnd hok
    obtain ⟨hidx, hrest⟩ := hc
    subst hidx
    have ha0 : 0 ≤ index := hpos index (List.mem_cons_self _ _)
    have hnotin : index ∉ l := (List.nodup_cons.1 hnd).1
    cases fuel with
    | zero => simp [clear_loop, ha0] at hok
    | succ fuel =>
      simp only [clear_loop, ha0, if_true] at hok
      have hc0 : Chain
          (nextOf { es with
            events := upd es.events index { es.events index with next := es.freeevent }
            freeevent := index
            nevents := es.nevents - 1 })
          (es.events index).next l (-1) := by
        refine Chain.congr l _ _ (fun b hb => ?_) hrest
        have hb2 : b ≠ index := fun h => hnotin (h ▸ hb)
        simp [nextOf, upd, hb2]
      have := ih fuel _ es1 _ hc0 (fun x hx => hpos x (List.mem_cons_of_mem _ hx))
        (List.nodup_cons.1 hnd).2 hok
      simp
      omega

theorem site_propensity_ok_lists (app : App) {st st1 : State} {A : Int → List EvData}
    (hA : EventLists app.nlocal st.es A) {i : Int} (hi0 : 0 ≤ i) (hin : i < app.nlocal)
    {fuel : Nat} {p : ℚ} (hok : site_propensity app fuel st i = .ok (st1, p)) :
    ∃ A1, EventLists app.nlocal st1.es A1 := by
  have hlen : (A i).length ≤ fuel := by
    obtain ⟨L, F, hAr, hL⟩ := hA
    rw [← hL i hi0 hin, List.length_map]
    cases hcl : clear_loop fuel st.es (st.es.firstevent i) with
    | error err =>
      simp [site_propensity, clear_events, hcl, bind, Except.bind] at hok
    | ok es1 =>
      exact clear_loop_ok_length (L i) fuel st.es es1 _ (hAr.site i hi0 hin)
        (fun x hx => (hAr.rangeL i hi0 hin x hx).1) (hAr.nodupL i hi0 hin) hcl
  have hsim := site_propensity_sim app hA hi0 hin hlen
  rw [hok] at hsim
  cases hadd : added_events app st i with
  | error err =>
    rw [hadd] at hsim
    exact hsim.elim
  | ok e =>
    rw [hadd] at hsim
    exact ⟨_, hsim.1⟩

theorem foldlM_ok_inv {α ι : Type} (I : α → Prop) (f : α → ι → Except Fault α) :
    ∀ (l : List ι), (∀ a x a1, x ∈ l → I a → f a x = .ok a1 → I a1) →
      ∀ a a1, I a → l.foldlM f a = .ok a1 → I a1
  | [], _, a, a1, ha, hok => by
    have : a = a1 := by simpa [pure, Except.pure] using hok
    exact this ▸ ha
  | x :: l, h, a, a1, ha, hok => by
    rw [List.foldlM_cons] at hok
    cases hfx : f a x with
    | error err =>
      rw [hfx] at hok
      simp [bind, Except.bind] at hok
    | ok b =>
      rw [hfx] at hok
      exact foldlM_ok_inv I f l (fun c y c1 hy hc => h c y c1 (List.mem_cons_of_mem _ hy) hc)
        b a1 (h a x b (List.mem_cons_self _ _) ha hfx) hok

theorem refresh_site_ok (app : App) (fuel : Nat) (acc a1 : State × Int) (s : Int)
    (hs0 : 0 ≤ s) (hsn : s < app.nlocal)
    (hinv : ∃ A, EventLists app.nlocal acc.1.es A)
    (hok : refresh_site app fuel acc s = .ok a1) :
    ∃ A, EventLists app.nlocal a1.1.es A := by
  obtain ⟨A, hA⟩ := hinv
  have hA2 : EventLists app.nlocal (count_coord app acc.1 s).es A := by
    rw [(count_coord_frame app acc.1 s).1.es]
    exact hA
  unfold refresh_site at hok
  cases hsp : site_propensity app fuel (count_coord app acc.1 s) s with
  | error err =>
    rw [hsp] at hok
    simp at hok
  | ok r =>
    obtain ⟨st1, p⟩ := r
    rw [hsp] at hok
    obtain ⟨A1, hA1⟩ := site_propensity_ok_lists app hA2 hs0 hsn hsp
    simp only [Except.ok.injEq] at hok
    rw [← hok]
    exact ⟨A1, hA1⟩

theorem refresh_guarded_ok (app : App) (fuel : Nat) (hown : OwnedInRange app)
    (acc a1 : State × Int) (s : Int)
    (hinv : ∃ A, EventLists app.nlocal acc.1.es A)
    (hok : refresh_guarded app fuel acc s = .ok a1) :
    ∃ A, EventLists app.nlocal a1.1.es A := by
  unfold refresh_guarded at hok
  split_ifs at hok with hg
  · have hs := hown s hg.1
    exact refresh_site_ok app fuel acc a1 s hs.1 hs.2 hinv hok
  · simp only [Except.ok.injEq] at hok
    rw [← hok]
    exact hinv

theorem refresh_l4_ok (app : App) (fuel : Nat) (hown : OwnedInRange app) (s : Int)
    (acc a1 : State × Int) (hinv : ∃ A, EventLists app.nlocal acc.1.es A)
    (hok : refresh_l4 app fuel s acc = .ok a1) :
    ∃ A, EventLists app.nlocal a1.1.es A :=
  foldlM_ok_inv (fun a : State × Int => ∃ A, EventLists app.nlocal a.1.es A) _ _
    (fun a _ b _ ha hb => refresh_guarded_ok app fuel hown a b _ ha hb) acc a1 hinv hok

theorem refresh_step_ok (app : App) (fuel : Nat) (hown : OwnedInRange app)
    (inner : Int → State × Int → Except Fault (State × Int))
    (hinner : ∀ x a b, (∃ A, EventLists app.nlocal a.1.es A) → inner x a = .ok b →
      ∃ A, EventLists app.nlocal b.1.es A)
    (a b : State × Int) (x : Int) (ha : ∃ A, EventLists app.nlocal a.1.es A)
    (hok : (match refresh_guarded app fuel a x with
      | .ok a1 => inner x a1
      | .error err => .error err) = .ok b) :
    ∃ A, EventLists app.nlocal b.1.es A := by
  cases hg : refresh_guarded app fuel a x with
  | error err =>
    rw [hg] at hok
    simp at hok
  | ok a1 =>
    rw [hg] at hok
    exact hinner x a1 b (refresh_guarded_ok app fuel hown a a1 x ha hg) hok

theorem refresh_l3_ok (app : App) (fuel : Nat) (hown : OwnedInRange app) (mm : Int)
    (acc a1 : State × Int) (hinv : ∃ A, EventLists app.nlocal acc.1.es A)
    (hok : refresh_l3 app fuel mm acc = .ok a1) :
    ∃ A, EventLists app.nlocal a1.1.es A :=
  foldlM_ok_inv (fun a : State × Int => ∃ A, EventLists app.nlocal a.1.es A) _ _
    (fun a ss b _ ha hb => refresh_step_ok app fuel hown (refresh_l4 app fuel)
      (fun x c d hc hd => refresh_l4_ok app fuel hown x c d hc hd) a b
      (app.neighbor mm ss) ha hb) acc a1 hinv hok

theorem refresh_l2_ok (app : App) (fuel : Nat) (hown : OwnedInRange app) (m : Int)
    (acc a1 : State × Int) (hinv : ∃ A, EventLists app.nlocal acc.1.es A)
    (hok : refresh_l2 app fuel m acc = .ok a1) :
    ∃ A, EventLists app.nlocal a1.1.es A :=
  foldlM_ok_inv (fun a : State × Int => ∃ A, EventLists app.nlocal a.1.es A) _ _
    (fun a jj b _ ha hb => refresh_step_ok app fuel hown (refresh_l3 app fuel)
      (fun x c d hc hd => refresh_l3_ok app fuel hown x c d hc hd) a b
      (app.neighbor m jj) ha hb) acc a1 hinv hok

theorem refresh_l1_ok (app : App) (fuel : Nat) (hown : OwnedInRange app) (i : Int)
    (acc a1 : State × Int) (hinv : ∃ A, EventLists app.nlocal acc.1.es A)
    (hok : refresh_l1 app fuel i acc = .ok a1) :
    ∃ A, EventLists app.nlocal a1.1.es A :=
  foldlM_ok_inv (fun a : State × Int => ∃ A, EventLists app.nlocal a.1.es A) _ _
    (fun a n b _ ha hb => refresh_step_ok app fuel hown (refresh_l2 app fuel)
      (fun x c d hc hd => refresh_l2_ok app fuel hown x c d hc hd) a b
      (app.neighbor i n) ha hb) acc a1 hinv hok

theorem apply_event_es (app : App) (st st1 : State) (i rstyle which j k g : Int)
    (h : apply_event app st i rstyle which j k g = .ok st1) : st1.es = st.es := by
  unfold apply_event at h
  split_ifs at h <;> simp only [Except.ok.injEq] at h <;> rw [← h]

theorem execute_event_ok_lists (app : App) (fuel : Nat) (hown : OwnedInRange app)
    (st st2 : State) (i ievent : Int) (time : ℚ) (touched : List Int)
    (hi0 : 0 ≤ i) (hin : i < app.nlocal)
    (hinv : ∃ A, EventLists app.nlocal st.es A)
    (hok : execute_event app fuel st i ievent time = .ok (st2, touched)) :
    ∃ A, EventLists app.nlocal st2.es A := by
  unfold execute_event at hok
  simp only [bind, Except.bind, pure, Except.pure] at hok
  cases hap : apply_event app st i (st.es.events ievent).style (st.es.events ievent).which
      (st.es.events ievent).jpartner (st.es.events ievent).kpartner
      (st.es.events ievent).gpartner with
  | error err =>
    rw [hap] at hok
    simp at hok
  | ok st1 =>
    rw [hap] at hok
    simp only [] at hok
    have hes := apply_event_es app st st1 i _ _ _ _ _ hap
    have hp := (pulse_update_frame app st1 time).2.1
    have hm := run_mask_frame app (pulse_update app st1 time)
      (mask_action (pulse_update app st1 time) i (st.es.events ievent).gpartner
        (st.es.events ievent).style (st.element i)
        (st.element (st.es.events ievent).gpartner))
    have hinv3 : ∃ A, EventLists app.nlocal
        (run_mask app (pulse_update app st1 time)
          (mask_action (pulse_update app st1 time) i (st.es.events ievent).gpartner
            (st.es.events ievent).style (st.element i)
            (st.element (st.es.events ievent).gpartner)), (0 : Int)).1.es A := by
      show ∃ A, EventLists app.nlocal (run_mask _ _ _).es A
      rw [hm.es, hp, hes]
      exact hinv
    cases h0 : refresh_site app fuel
        (run_mask app (pulse_update app st1 time)
          (mask_action (pulse_update app st1 time) i (st.es.events ievent).gpartner
            (st.es.events ievent).style (st.element i)
            (st.element (st.es.events ievent).gpartner)), 0) i with
    | error err =>
      rw [h0] at hok
      simp at hok
    | ok a0 =>
      rw [h0] at hok
      simp only [] at hok
      have hinv0 := refresh_site_ok app fuel _ a0 i hi0 hin hinv3 h0
      cases h1 : refresh_l1 app fuel i a0 with
      | error err =>
        rw [h1] at hok
        simp at hok
      | ok a1 =>
        rw [h1] at hok
        simp only [Except.ok.injEq, Prod.mk.injEq] at hok
        obtain ⟨A1, hA1⟩ := refresh_l1_ok app fuel hown i a0 a1 hinv0 h1
        rw [← hok.1, (clear_echeck_frame a1.1 a1.2).es]
        exact ⟨A1, hA1⟩

theorem reachable_lists (app : App) (hown : OwnedInRange app) (st : State)
    (h : Reachable app st) : ∃ A, EventLists app.nlocal st.es A := by
  induction h with
  | setup st0 hmax => exact ⟨_, setup_app_lists app st0 hmax⟩
  | propensity st0 st1 fuel i p _ hi0 hin hok ih =>
    obtain ⟨A, hA⟩ := ih
    obtain ⟨A1, hA1⟩ := site_propensity_ok_lists app hA hi0 hin hok
    exact ⟨A1, hA1⟩
  | event st0 st1 fuel i uniform time touched _ hi0 hin hok ih =>
    unfold site_event at hok
    cases hsel : select_event app fuel st0 i uniform with
    | error err =>
      rw [hsel] at hok
      simp [bind, Except.bind] at hok
    | ok ievent =>
      rw [hsel] at hok
      exact execute_event_ok_lists app fuel hown st0 st1 i ievent time touched hi0 hin ih hok

/-! ## Witness states -/

theorem lists_after_first_propensity (app : App) (st0 : State) (hmax : 0 ≤ st0.es.maxevent)
    (i : Int) (hi0 : 0 ≤ i) (hin : i < app.nlocal) (hnz : NonzeroProps app) :
    ∃ (s : State) (p : ℚ), site_propensity app 0 (setup_app app st0) i = .ok (s, p) ∧
      ∃ A, EventLists app.nlocal s.es A := by
  obtain ⟨st1, e, fs, vs, ds, h1, _, h3, _⟩ :=
    site_propensity_spec app (setup_app_lists app st0 hmax) hi0 hin (le_refl _)
      (nonzeroActive_of_nonzeroProps hnz _)
  exact ⟨st1, e.proball, h1, _, h3⟩

theorem stS2_lists : ∃ A, EventLists (appS 0).nlocal stS2.es A := by
  obtain ⟨s, p, h1, A, hA⟩ := lists_after_first_propensity (appS 0) (stInit O) (le_refl _) 0
    (le_refl _) (by decide) (appS_nonzero 0)
  refine ⟨A, ?_⟩
  unfold stS2
  rw [h1]
  exact hA

theorem appS_owned (press_on : Int) : OwnedInRange (appS press_on) := by
  intro m hm
  by_cases h : m = 0
  · subst h
    exact ⟨le_refl _, by simp [appS, appNull]⟩
  · simp [appS, appNull, h] at hm

theorem appV_nonzero : NonzeroProps appV := by
  refine ⟨?_, ?_, ?_, ?_⟩
  · intro m h0 h1
    simp [appV, appNull] at h1
    omega
  · intro m h0 h1
    simp [appV, appNull] at h1
    omega
  · intro m _ _
    simp [appV]
  · intro m h0 h1
    simp [appV, appNull] at h1
    omega

theorem appV_owned : OwnedInRange appV := by
  intro m hm
  by_cases h : m = 0 ∨ m = 1
  · rcases h with h | h <;> subst h <;> decide
  · simp [appV, appNull, h] at hm

theorem stV_lists : ∃ A, EventLists appV.nlocal stV.es A := by
  obtain ⟨s, p, h1, A, hA⟩ := lists_after_first_propensity appV
    { stInit O with element := fun x => if x = 0 then OH else O } (le_refl _) 0
    (le_refl _) (by decide) appV_nonzero
  refine ⟨A, ?_⟩
  unfold stV
  rw [h1]
  exact hA

/-- C1. For every state reachable after `setup_app` and every owned site `i`, with
enough fuel for the loop of `clear_events` and no admitted reaction of propensity 0,
`site_propensity(i)` returns; the events then linked from `firstevent[i]` are exactly
the records `e.store` that this call passed to `add_event`, newest first (they do not
depend on what the store held before the call), the lists `A` of the other sites are
as before, and the returned value is the sum of the propensities of the events linked
from `firstevent[i]`. -/
theorem site_propensity_returns_sum_of_list (app : App) (st : State) (i : Int) (fuel : Nat)
    (hown : OwnedInRange app) (hreach : Reachable app st)
    (hi0 : 0 ≤ i) (hin : i < app.nlocal)
    (hfuel : st.es.maxevent.toNat ≤ fuel) (H : NonzeroActive app st.pressureOn) :
    ∃ (A : Int → List EvData) (st1 : State) (p : ℚ) (e : Enum (List EvData)),
      EventLists app.nlocal st.es A ∧
      site_propensity app fuel st i = .ok (st1, p) ∧
      (∀ es0, added_events app { st with es := es0 } i = .ok e) ∧
      EventLists app.nlocal st1.es (upd A i e.store) ∧
      p = (e.store.map (fun r => r.propensity)).sum := by
  obtain ⟨A, hA⟩ := reachable_lists app hown st hreach
  have hlen := le_trans (lists_length_le hA hi0 hin) hfuel
  obtain ⟨st1, e, fs, vs, ds, h1, h2, h3, _, _, _, _, _, _, h10⟩ :=
    site_propensity_spec app hA hi0 hin hlen H
  exact ⟨A, st1, e.proball, e, hA, h1, fun es0 => h2, h3, h10⟩

/-- Witness for C1: the one-site lattice with the reaction `O -> OH`, right after
`setup_app`. -/
theorem site_propensity_returns_sum_of_list_witness :
    OwnedInRange (appS 0) ∧
    Reachable (appS 0) (setup_app (appS 0) (stInit O)) ∧
    NonzeroActive (appS 0) (setup_app (appS 0) (stInit O)).pressureOn ∧
    ∃ (A : Int → List EvData) (st1 : State) (p : ℚ) (e : Enum (List EvData)),
      EventLists (appS 0).nlocal (setup_app (appS 0) (stInit O)).es A ∧
      site_propensity (appS 0) 0 (setup_app (appS 0) (stInit O)) 0 = .ok (st1, p) ∧
      (∀ es0, added_events (appS 0) { setup_app (appS 0) (stInit O) with es := es0 } 0
        = .ok e) ∧
      EventLists (appS 0).nlocal st1.es (upd A 0 e.store) ∧
      p = (e.store.map (fun r => r.propensity)).sum :=
  ⟨appS_owned 0, Reachable.setup (stInit O) (le_refl _),
    nonzeroActive_of_nonzeroProps (appS_nonzero 0) _,
    site_propensity_returns_sum_of_list (appS 0) (setup_app (appS 0) (stInit O)) 0 0
      (appS_owned 0) (Reachable.setup (stInit O) (le_refl _))
      (by decide) (by decide) (by decide)
      (nonzeroActive_of_nonzeroProps (appS_nonzero 0) _)⟩

theorem stS2_chain : Chain (nextOf stS2.es) (stS2.es.firstevent 0) [1, 0] (-1) :=
  ⟨by decide!, by decide!, (by decide! : nextOf stS2.es 0 = -1)⟩

/-- Witness for C3 (scenario S2): the chain of site 0 is the null event (node 1,
propensity 0.1) followed by the S event (node 0, propensity 1); with `uniform = 0.5` the
threshold is 0.55 and the walk stops at the S event. -/
theorem site_event_selects_first_reaching_threshold_witness :
    Chain (nextOf stS2.es) (stS2.es.firstevent 0) [1, 0] (-1) ∧
    select_event (appS 0) 2 stS2 0 (1 / 2) = .ok 0 ∧
    site_event (appS 0) 2 stS2 0 (1 / 2) (1 / 2) =
      execute_event (appS 0) 2 stS2 0 0 (1 / 2) :=
  ⟨stS2_chain,
    site_event_selects_first_reaching_threshold (appS 0) 2 stS2 0 (1 / 2) (1 / 2)
      [1, 0] (-1) 1 (by decide) stS2_chain
      (fun k hk => by
        have hk0 : k = 0 := by omega
        subst hk0
        decide!)
      (by decide!) (by decide)⟩

theorem stS2_select : select_event (appS 0) 100000 stS2 0 (1 / 2) = .ok 0 :=
  select_event_first (appS 0) 100000 stS2 0 (1 / 2) [1, 0] (-1) 1 (by decide) stS2_chain
    (fun k hk => by
      have hk0 : k = 0 := by omega
      subst hk0
      decide!)
    (by decide!) (by decide)

/-- Witness for C4 (scenario S2): `O -> OH` fires with `uniform = 0.5`; afterwards
`element[0] = OH` and `scount[0] = 1`. -/
theorem site_event_S_mutation_witness :
    select_event (appS 0) 100000 stS2 0 (1 / 2) = .ok 0 ∧
    (stS2.es.events 0).style = 1 ∧ (stS2.es.events 0).which = 0 ∧
    ∃ (st2 : State) (touched : List Int),
      site_event (appS 0) 100000 stS2 0 (1 / 2) (1 / 2) = .ok (st2, touched) ∧
      st2.element 0 = OH ∧
      st2.scount 0 = 1 ∧
      (∀ x, x ≠ 0 → st2.element x = stS2.element x) ∧
      (∀ m, m ≠ 0 → st2.scount m = stS2.scount m) ∧
      st2.dcount = stS2.dcount ∧ st2.vcount = stS2.vcount ∧ st2.fcount = stS2.fcount := by
  refine ⟨stS2_select, by decide!, by decide!, ?_⟩
  obtain ⟨st2, touched, h1, h2, h3, h4⟩ :=
    site_event_S_mutation (appS 0) 100000 stS2 0 0 0 (1 / 2) (1 / 2) stS2_lists
      (le_refl _) (by decide) (appS_owned 0) (appS_nonzero 0) (by decide!) stS2_select
      (by decide!) (by decide!)
  have h0 : stS2.scount 0 = 0 := by decide!
  refine ⟨st2, touched, h1, h2, ?_, h4⟩
  rw [h3, h0]
  rfl

theorem stV_chain : Chain (nextOf stV.es) (stV.es.firstevent 0) [1, 0] (-1) :=
  ⟨by decide!, by decide!, (by decide! : nextOf stV.es 0 = -1)⟩

theorem stV_select : select_event appV 100000 stV 0 (1 / 2) = .ok 0 :=
  select_event_first appV 100000 stV 0 (1 / 2) [1, 0] (-1) 1 (by decide) stV_chain
    (fun k hk => by
      have hk0 : k = 0 := by omega
      subst hk0
      decide!)
    (by decide!) (by decide)

/-- Witness for C5: on the two-site lattice the V event `(OH, O) -> (OHAlaX3, O)` of
site 0 with partner 1 fires; afterwards `element[0] = OHAlaX3`, `element[1] = O` and
`vcount[0] = 1`. -/
theorem site_event_pair_mutation_witness :
    select_event appV 100000 stV 0 (1 / 2) = .ok 0 ∧
    (stV.es.events 0).style = 3 ∧ (stV.es.events 0).kpartner = -1 ∧
    pairPartner (stV.es.events 0) = 1 ∧
    ∃ (st2 : State) (touched : List Int),
      site_event appV 100000 stV 0 (1 / 2) (1 / 2) = .ok (st2, touched) ∧
      st2.element 0 = OHAlaX3 ∧ st2.element 1 = O ∧
      (∀ x, x ≠ 0 → x ≠ 1 → st2.element x = stV.element x) ∧
      st2.vcount 0 = 1 ∧
      (∀ m, m ≠ 0 → st2.vcount m = stV.vcount m) ∧
      st2.scount = stV.scount ∧ st2.dcount = stV.dcount ∧ st2.fcount = stV.fcount := by
  refine ⟨stV_select, by decide!, by decide!, by decide!, ?_⟩
  obtain ⟨st2, touched, h1, h2, h3, h4, h5, h6, h7, h8, _, h10⟩ :=
    site_event_pair_mutation appV 100000 stV 0 0 0 1 3 (1 / 2) (1 / 2) stV_lists
      (le_refl _) (by decide) appV_owned appV_nonzero (by decide!) stV_select
      (by decide!) (by decide) (fun h => absurd h (by decide)) (fun _ => by decide!)
      (by decide!) (by decide!) (by decide)
  have h0 : stV.vcount 0 = 0 := by decide!
  refine ⟨st2, touched, h1, h2, h3, h4, ?_, h6, h7, h8 (by decide), h10 (by decide)⟩
  have h5b : st2.vcount 0 = stV.vcount 0 + 1 := h5
  rw [h5b, h0]
  rfl

/-! ## Mask side effects and the pulse schedule -/

/-- C6 on the code. On an S event the mask block always calls `remove_mask(i)` and
`remove_mask_2(i)`, whatever the species before and after: the second condition
`(elcoord_i == OAlaX2H2O || OAlbX2H2O) && (element[i] == OAlaXOH || OAlbXOH)` is true
for every input because the constants `OAlbX2H2O = 16` and `OAlbXOH = 17` are nonzero.
At the failing input (two isolated same-z sites holding `O`, the S event `O -> OH`
fires at site 0) the call ends with `coord[1] = 10` instead of 0. -/
theorem site_event_S_always_removes_mask :
    (∀ (st : State) (i g elcoord_i elcoord_g : Int),
      mask_action st i g 1 elcoord_i elcoord_g = MaskAction.removeAt i) ∧
    select_event appSZ 100000 stSZ 0 (1 / 2) = .ok 0 ∧
    (stSZ.es.events 0).style = 1 ∧ stSZ.element 0 = O ∧ (appSZ.soutput 0) = OH ∧
    stSZ.coord 1 = 0 ∧
    coordAfter (site_event appSZ 100000 stSZ 0 (1 / 2) (1 / 2)) 1 = some 10 := by
  refine ⟨?_, by decide!, by decide!, by decide!, by decide!, by decide!, by decide!⟩
  intro st i g elcoord_i elcoord_g
  simp only [mask_action, if_true]
  split_ifs <;> first | rfl | simp_all [cTrue, OAlbX2H2O, OAlbXOH]

/-- C7 on the code. On an F event the mask block always calls `remove_mask(g)` and
`remove_mask_2(g)`: the condition `(elcoord_g == OAlaX2 || OAlbX2) && (element[g] ==
OAlaX || OAlbX)` is true for every input because `OAlbX2 = 15` and `OAlbX = 18` are
nonzero. At the failing input (the F event `(O, O) -> (OH, OH)` of site 0 with partner
1 fires; site 2 is a same-z neighbour of site 1) the call ends with `coord[2] = 10`
instead of 0. -/
theorem site_event_F_always_removes_mask :
    (∀ (st : State) (i g elcoord_i elcoord_g : Int),
      mask_action st i g 4 elcoord_i elcoord_g = MaskAction.removeAt g) ∧
    select_event appF 100000 stF 0 (1 / 2) = .ok 0 ∧
    (stF.es.events 0).style = 4 ∧ (stF.es.events 0).gpartner = 1 ∧
    stF.element 1 = O ∧ appF.foutput 0 1 = OH ∧ stF.coord 2 = 0 ∧
    coordAfter (site_event appF 100000 stF 0 (1 / 2) (1 / 2)) 2 = some 10 := by
  refine ⟨?_, by decide!, by decide!, by decide!, by decide!, by decide!, by decide!,
    by decide!⟩
  intro st i g elcoord_i elcoord_g
  simp [mask_action, cTrue, OAlbX2, OAlbX]

/-- The conditions of the mask block select `put_mask(x); put_mask_2(x)` exactly for
style 3 with the species of `i` being `OH` before the event and `OHAlaX3` or `OHAlbX3`
after it, and then `x = i`. -/
theorem mask_put_iff (st : State) (i g rstyle elcoord_i elcoord_g x : Int) :
    mask_action st i g rstyle elcoord_i elcoord_g = MaskAction.putAt x ↔
      rstyle = 3 ∧ elcoord_i = OH ∧
        (st.element i = OHAlaX3 ∨ st.element i = OHAlbX3) ∧ x = i := by
  unfold mask_action
  constructor
  · intro h
    split_ifs at h with h1 h2 h3 h4 h5 h6 h7
    all_goals simp_all
  · rintro ⟨h1, h2, h3, h4⟩
    subst h1 h4
    simp [h2, h3]

/-- C9. The pulse schedule at simulation time `t` with durations `T1..T4 >= 0`:
`pressureOn` becomes 1 if `t < cycle+T1`; 3 if `cycle+T1 <= t < cycle+T1+T2`; 2 if
`cycle+T1+T2 <= t < cycle+T1+T2+T3`; 3 if `cycle+T1+T2+T3 <= t < cycle+T1+T2+T3+T4`,
with `cycle` unchanged in these four cases; otherwise (which is when
`cycle+T1+T2+T3+T4 <= t`) `cycle` increases by exactly `T1+T2+T3+T4` and `pressureOn`
keeps its value. -/
theorem pulse_update_phases (app : App) (st : State) (t : ℚ)
    (_h1 : 0 ≤ app.T1) (h2 : 0 ≤ app.T2) (h3 : 0 ≤ app.T3) (h4 : 0 ≤ app.T4) :
    (t < st.cycle + app.T1 →
      (pulse_update app st t).pressureOn = 1 ∧ (pulse_update app st t).cycle = st.cycle) ∧
    (st.cycle + app.T1 ≤ t ∧ t < st.cycle + app.T1 + app.T2 →
      (pulse_update app st t).pressureOn = 3 ∧ (pulse_update app st t).cycle = st.cycle) ∧
    (st.cycle + app.T1 + app.T2 ≤ t ∧ t < st.cycle + app.T1 + app.T2 + app.T3 →
      (pulse_update app st t).pressureOn = 2 ∧ (pulse_update app st t).cycle = st.cycle) ∧
    (st.cycle + app.T1 + app.T2 + app.T3 ≤ t ∧
        t < st.cycle + app.T1 + app.T2 + app.T3 + app.T4 →
      (pulse_update app st t).pressureOn = 3 ∧ (pulse_update app st t).cycle = st.cycle) ∧
    ((¬ t < st.cycle + app.T1 ∧
        ¬ (st.cycle + app.T1 ≤ t ∧ t < st.cycle + app.T1 + app.T2) ∧
        ¬ (st.cycle + app.T1 + app.T2 ≤ t ∧ t < st.cycle + app.T1 + app.T2 + app.T3) ∧
        ¬ (st.cycle + app.T1 + app.T2 + app.T3 ≤ t ∧
            t < st.cycle + app.T1 + app.T2 + app.T3 + app.T4)) →
      (pulse_update app st t).cycle = st.cycle + (app.T1 + app.T2 + app.T3 + app.T4) ∧
      (pulse_update app st t).pressureOn = st.pressureOn) ∧
    (st.cycle + app.T1 + app.T2 + app.T3 + app.T4 ≤ t →
      (pulse_update app st t).cycle = st.cycle + (app.T1 + app.T2 + app.T3 + app.T4) ∧
      (pulse_update app st t).pressureOn = st.pressureOn) := by
  refine ⟨?_, ?_, ?_, ?_, ?_, ?_⟩
  · intro h
    simp [pulse_update, h]
  · rintro ⟨ha, hb⟩
    have : ¬ t < st.cycle + app.T1 := not_lt.2 ha
    simp [pulse_update, ha, hb, this]
  · rintro ⟨ha, hb⟩
    have n1 : ¬ t < st.cycle + app.T1 := not_lt.2 (by linarith)
    have n2 : ¬ t < st.cycle + app.T1 + app.T2 := not_lt.2 ha
    simp [pulse_update, ha, hb, n1, n2]
  · rintro ⟨ha, hb⟩
    have n1 : ¬ t < st.cycle + app.T1 := not_lt.2 (by linarith)
    have n2 : ¬ t < st.cycle + app.T1 + app.T2 := not_lt.2 (by linarith)
    have n3 : ¬ t < st.cycle + app.T1 + app.T2 + app.T3 := not_lt.2 ha
    simp [pulse_update, ha, hb, n1, n2, n3]
  · rintro ⟨n1, n2, n3, n4⟩
    simp [pulse_update, n1, n2, n3, n4]
  · intro h
    have n1 : ¬ t < st.cycle + app.T1 := not_lt.2 (by linarith)
    have n2 : ¬ t < st.cycle + app.T1 + app.T2 := not_lt.2 (by linarith)
    have n3 : ¬ t < st.cycle + app.T1 + app.T2 + app.T3 := not_lt.2 (by linarith)
    have n4 : ¬ t < st.cycle + app.T1 + app.T2 + app.T3 + app.T4 := not_lt.2 h
    simp [pulse_update, n1, n2, n3, n4]

/-- Witness for C9 (scenario S3): `T1 = T2 = T3 = T4 = 1`, `cycle = 0` gives phase 1 at
`t = 0.5` and phase 3 at `t = 1.5`. -/
theorem pulse_update_phases_witness :
    (0 : ℚ) ≤ (appS 1).T1 ∧ (0 : ℚ) ≤ (appS 1).T2 ∧ (0 : ℚ) ≤ (appS 1).T3 ∧
    (0 : ℚ) ≤ (appS 1).T4 ∧
    (pulse_update (appS 1) (stInit O) (1 / 2)).pressureOn = 1 ∧
    (pulse_update (appS 1) (stInit O) (3 / 2)).pressureOn = 3 :=
  ⟨by decide!, by decide!, by decide!, by decide!,
    ((pulse_update_phases (appS 1) (stInit O) (1 / 2) (by decide!) (by decide!)
      (by decide!) (by decide!)).1 (by decide!)).1,
    ((pulse_update_phases (appS 1) (stInit O) (3 / 2) (by decide!) (by decide!)
      (by decide!) (by decide!)).2.1 ⟨by decide!, by decide!⟩).1⟩

/-! ## `count_coord` -/

theorem count_coord_loop (app : App) (i : Int) :
    ∀ (l : List Int) (s : State),
      (l.foldl
        (fun s ss =>
          let nn := app.neighbor i ss
          if s.element nn ≠ VACANCY then { s with coord := upd s.coord i (s.coord i + 1) }
          else s) s).coord =
        upd s.coord i (s.coord i +
          ((l.filter (fun ss => decide (s.element (app.neighbor i ss) ≠ VACANCY))).length : Int))
      ∧
      (l.foldl
        (fun s ss =>
          let nn := app.neighbor i ss
          if s.element nn ≠ VACANCY then { s with coord := upd s.coord i (s.coord i + 1) }
          else s) s).element = s.element
  | [], s => by
    refine ⟨?_, rfl⟩
    funext x
    by_cases hx : x = i <;> simp [upd, hx]
  | a :: l, s => by
    simp only [List.foldl_cons]
    by_cases ha : s.element (app.neighbor i a) ≠ VACANCY
    · have ih := count_coord_loop app i l { s with coord := upd s.coord i (s.coord i + 1) }
      simp only [ha, if_true, not_false_eq_true, ne_eq] at ih ⊢
      refine ⟨?_, ih.2⟩
      rw [ih.1]
      funext x
      by_cases hx : x = i
      · simp [upd, hx, List.filter_cons, ha]
        omega
      · simp [upd, hx]
    · have ih := count_coord_loop app i l s
      have ha2 : s.element (app.neighbor i a) = VACANCY := not_not.1 ha
      simp only [ne_eq, ha2, not_true_eq_false, if_false] at ih ⊢
      refine ⟨?_, ih.2⟩
      rw [ih.1]
      simp [List.filter_cons, ha2]

theorem count_coord_coord (app : App) (st : State) (i : Int) :
    (count_coord app st i).coord =
      upd st.coord i (coord_reset (st.coord i) + nocc app st i) := by
  unfold count_coord
  simp only []
  rw [(count_coord_loop app i _ _).1]
  funext x
  by_cases hx : x = i
  · simp [upd, hx, coord_reset, nocc]
  · simp [upd, hx]

theorem nocc_bounds (app : App) (st : State) (i : Int) :
    0 ≤ nocc app st i ∧ (nocc app st i ≤ app.numneigh i ∨ nocc app st i = 0) := by
  unfold nocc
  have h1 := List.length_filter_le
    (fun s => decide (st.element (app.neighbor i s) ≠ VACANCY)) (irange (app.numneigh i))
  have h2 : (irange (app.numneigh i)).length = (app.numneigh i).toNat := by simp [irange]
  rw [h2] at h1
  refine ⟨Int.natCast_nonneg _, ?_⟩
  by_cases h : 0 ≤ app.numneigh i
  · left
    omega
  · right
    have : (app.numneigh i).toNat = 0 := by omega
    omega

theorem coord_reset_floor (c : Int) (h : -50 ≤ c) :
    coord_reset c = if 0 ≤ c then 0 else c / 10 * 10 := by
  unfold coord_reset
  split_ifs <;> omega

/-- For `coord[i] >= -50` (and fewer than ten neighbours) the positive remainder of
`coord[i]` after `count_coord(i)` is the number of non-VACANCY neighbours. -/
theorem count_coord_cphys (app : App) (st : State) (i : Int) (h : -50 ≤ st.coord i)
    (hn : app.numneigh i < 10) :
    cphys ((count_coord app st i).coord i) = nocc app st i := by
  rw [count_coord_coord, upd_same, coord_reset_floor _ h]
  have hb := nocc_bounds app st i
  unfold cphys
  split_ifs <;> omega

/-- C13 at a failing input. Site 0 has `coord = -57` (three occupied neighbours under a
`put_mask` and a `put_mask_2`) and three of its four neighbours occupied. No branch of
the if-chain of `count_coord` applies to a value `<= -50`, so the units digit is not
reset: `count_coord(0)` leaves `coord[0] = -57 + 3 = -54`, whose positive remainder is 6,
not the count 3. -/
theorem count_coord_keeps_units_below_minus_fifty :
    appMasked.numneigh 0 < 10 ∧
    nocc appMasked stDrift 0 = 3 ∧
    (count_coord appMasked stDrift 0).coord 0 = -54 ∧
    cphys ((count_coord appMasked stDrift 0).coord 0) = 6 := by
  refine ⟨by decide, by decide, by decide, by decide⟩

/-- Counterexample to C14 as stated: with `coord[0] = 10` and no occupied neighbour,
`count_coord(0)` gives 0, not `10` floored to a multiple of ten plus the count. -/
theorem count_coord_drops_positive_decade :
    nocc appMasked (stCoord 10) 0 = 0 ∧
    (count_coord appMasked (stCoord 10) 0).coord 0 = 0 ∧
    (count_coord appMasked (stCoord 10) 0).coord 0 ≠
      (stCoord 10).coord 0 / 10 * 10 + nocc appMasked (stCoord 10) 0 := by
  refine ⟨by decide, by decide, by decide⟩

/-- C14, amended. For every value `c >= -50` of `coord[i]` before the call, the value
after `count_coord(i)` is the number of non-VACANCY neighbours of `i` plus 0 if `c >= 0`,
or plus `c` floored to a multiple of ten if `-50 <= c < 0`; and `coord[x]` is unchanged
for every `x != i`. -/
theorem count_coord_value (app : App) (st : State) (i : Int) (h : -50 ≤ st.coord i) :
    (count_coord app st i).coord i =
      (if 0 ≤ st.coord i then 0 else st.coord i / 10 * 10) + nocc app st i ∧
    ∀ x, x ≠ i → (count_coord app st i).coord x = st.coord x := by
  rw [count_coord_coord]
  refine ⟨?_, fun x hx => upd_ne _ _ _ _ hx⟩
  rw [upd_same, coord_reset_floor _ h]

/-- Witness for the amended C14: `coord[0] = -47` with no occupied neighbour becomes
`-50`. -/
theorem count_coord_value_witness :
    -50 ≤ (stCoord (-47)).coord 0 ∧
    (count_coord appMasked (stCoord (-47)) 0).coord 0 = -50 ∧
    ∀ x, x ≠ 0 → (count_coord appMasked (stCoord (-47)) 0).coord x = (stCoord (-47)).coord x :=
  ⟨by decide,
    (count_coord_value appMasked (stCoord (-47)) 0 (by decide)).1.trans (by decide),
    (count_coord_value appMasked (stCoord (-47)) 0 (by decide)).2⟩

theorem count_coord_eq (app : App) (st : State) (i : Int) :
    count_coord app st i =
      { st with coord := upd st.coord i (coord_reset (st.coord i) + nocc app st i) } := by
  have hc := count_coord_coord app st i
  have hf : count_coord app st i = { st with coord := (count_coord app st i).coord } := by
    unfold count_coord
    simp only []
    refine foldl_inv (fun s : State => s = { st with coord := s.coord }) _ _ ?_ _ rfl
    intro a s _ ha
    split_ifs
    · rw [ha]
    · exact ha
  rw [hf, hc]

/-! ## Generic rules for the refresh loops -/

theorem refresh_site_full (app : App) (fuel : Nat) (st0 : State) (hnz : NonzeroProps app)
    (st : State) (ns : Int) (A : Int → List EvData)
    (hA : EventLists app.nlocal st.es A)
    (hb : ∀ m, 0 ≤ m → m < app.nlocal → st.echeck (app.i2site m) = 0 →
      (A m).length ≤ fuel)
    (s : Int) (hs0 : 0 ≤ s) (hsn : s < app.nlocal) (hlen : (A s).length ≤ fuel)
    (hcore : CoreFrame st0 st) :
    ∃ a1, refresh_site app fuel (st, ns) s = .ok a1 ∧ RefreshInv app fuel st0 a1 ∧
      a1.1.coord = (count_coord app st s).coord ∧
      a1.1.echeck = upd st.echeck (app.i2site s) 1 ∧
      a1.1.esites = upd st.esites ns (app.i2site s) ∧
      a1.2 = ns + 1 := by
  obtain ⟨a1, h1, h2⟩ := refresh_site_spec app fuel st0 hnz st ns A hA hb s hs0 hsn hlen hcore
  refine ⟨a1, h1, h2, ?_⟩
  have hA2 : EventLists app.nlocal (count_coord app st s).es A := by
    rw [(count_coord_frame app st s).1.es]
    exact hA
  obtain ⟨st1, e, fs, vs, ds, h3, _, _, _, h5, _⟩ :=
    site_propensity_spec app hA2 hs0 hsn hlen (nonzeroActive_of_nonzeroProps hnz _)
  simp only [refresh_site, h3, Except.ok.injEq] at h1
  rw [← h1]
  refine ⟨?_, ?_, ?_, rfl⟩
  · show st1.coord = _
    rw [h5]
  · show upd st1.echeck _ _ = _
    rw [h5, count_coord_eq]
  · show upd st1.esites _ _ = _
    rw [h5, count_coord_eq]

theorem refresh_loops_hoare (app : App) (fuel : Nat) (I : State × Int → Prop)
    (hg : ∀ a s, I a → ∃ a1, refresh_guarded app fuel a s = .ok a1 ∧ I a1) :
    (∀ s acc, I acc → ∃ a1, refresh_l4 app fuel s acc = .ok a1 ∧ I a1) ∧
    (∀ s acc, I acc → ∃ a1, refresh_l3 app fuel s acc = .ok a1 ∧ I a1) ∧
    (∀ s acc, I acc → ∃ a1, refresh_l2 app fuel s acc = .ok a1 ∧ I a1) ∧
    (∀ s acc, I acc → ∃ a1, refresh_l1 app fuel s acc = .ok a1 ∧ I a1) := by
  have h4 : ∀ s acc, I acc → ∃ a1, refresh_l4 app fuel s acc = .ok a1 ∧ I a1 := by
    intro s acc hacc
    unfold refresh_l4
    exact foldlM_inv _ _ _ (fun a gg _ ha => hg a _ ha) acc hacc
  have h3 : ∀ s acc, I acc → ∃ a1, refresh_l3 app fuel s acc = .ok a1 ∧ I a1 := by
    intro s acc hacc
    unfold refresh_l3
    refine foldlM_inv _ _ _ (fun a ss _ ha => ?_) acc hacc
    obtain ⟨a1, e1, e2⟩ := hg a (app.neighbor s ss) ha
    rw [e1]
    exact h4 _ a1 e2
  have h2 : ∀ s acc, I acc → ∃ a1, refresh_l2 app fuel s acc = .ok a1 ∧ I a1 := by
    intro s acc hacc
    unfold refresh_l2
    refine foldlM_inv _ _ _ (fun a ss _ ha => ?_) acc hacc
    obtain ⟨a1, e1, e2⟩ := hg a (app.neighbor s ss) ha
    rw [e1]
    exact h3 _ a1 e2
  refine ⟨h4, h3, h2, ?_⟩
  intro s acc hacc
  unfold refresh_l1
  refine foldlM_inv _ _ _ (fun a ss _ ha => ?_) acc hacc
  obtain ⟨a1, e1, e2⟩ := hg a (app.neighbor s ss) ha
  rw [e1]
  exact h2 _ a1 e2

theorem refresh_all_hoare (app : App) (fuel : Nat) (st3 : State) (hnz : NonzeroProps app)
    (hown : OwnedInRange app) (A : Int → List EvData)
    (hA : EventLists app.nlocal st3.es A)
    (hlenall : ∀ m, 0 ≤ m → m < app.nlocal → (A m).length ≤ fuel)
    (i : Int) (hi0 : 0 ≤ i) (hin : i < app.nlocal)
    (I : State × Int → Prop)
    (hinit : ∀ a0 : State × Int, RefreshInv app fuel st3 a0 →
      a0.1.coord = (count_coord app st3 i).coord →
      a0.1.echeck = upd st3.echeck (app.i2site i) 1 →
      a0.1.esites = upd st3.esites 0 (app.i2site i) → a0.2 = 1 → I a0)
    (hstep : ∀ (a a1 : State × Int) (s : Int), I a → RefreshInv app fuel st3 a →
      0 ≤ s → s < app.nlocal → 0 ≤ app.i2site s → a.1.echeck (app.i2site s) = 0 →
      RefreshInv app fuel st3 a1 →
      a1.1.coord = (count_coord app a.1 s).coord →
      a1.1.echeck = upd a.1.echeck (app.i2site s) 1 →
      a1.1.esites = upd a.1.esites a.2 (app.i2site s) → a1.2 = a.2 + 1 → I a1) :
    ∃ a0 a1, refresh_site app fuel (st3, 0) i = .ok a0 ∧
      refresh_l1 app fuel i a0 = .ok a1 ∧ RefreshInv app fuel st3 a1 ∧ I a1 := by
  obtain ⟨a0, h0, hr0, c1, c2, c3, c4⟩ := refresh_site_full app fuel st3 hnz st3 0 A hA
    (fun m hm0 hmn _ => hlenall m hm0 hmn) i hi0 hin (hlenall i hi0 hin) (coreFrame_refl _)
  have hI0 : I a0 := hinit a0 hr0 c1 c2 c3 (by simpa using c4)
  have hg : ∀ (a : State × Int) (s : Int), (RefreshInv app fuel st3 a ∧ I a) →
      ∃ a1, refresh_guarded app fuel a s = .ok a1 ∧ (RefreshInv app fuel st3 a1 ∧ I a1) := by
    intro a s ha
    unfold refresh_guarded
    split_ifs with hgd
    · obtain ⟨⟨B, hB, hb⟩, hcore⟩ := ha.1
      have hs := hown s hgd.1
      obtain ⟨a1, e1, e2, d1, d2, d3, d4⟩ := refresh_site_full app fuel st3 hnz a.1 a.2 B hB hb
        s hs.1 hs.2 (hb s hs.1 hs.2 hgd.2) hcore
      exact ⟨a1, e1, e2, hstep a a1 s ha.2 ha.1 hs.1 hs.2 hgd.1 hgd.2 e2 d1 d2 d3 d4⟩
    · exact ⟨a, rfl, ha⟩
  obtain ⟨a1, h1, hr1, hI1⟩ :=
    (refresh_loops_hoare app fuel (fun a => RefreshInv app fuel st3 a ∧ I a) hg).2.2.2
      i a0 ⟨hr0, hI0⟩
  exact ⟨a0, a1, h0, h1, hr1, hI1⟩

theorem execute_event_eq (app : App) (fuel : Nat) (st st1 : State) (i ievent : Int)
    (time : ℚ) (a0 a1 : State × Int)
    (happly : apply_event app st i (st.es.events ievent).style (st.es.events ievent).which
      (st.es.events ievent).jpartner (st.es.events ievent).kpartner
      (st.es.events ievent).gpartner = .ok st1)
    (h0 : refresh_site app fuel
      (run_mask app (pulse_update app st1 time)
        (mask_action (pulse_update app st1 time) i (st.es.events ievent).gpartner
          (st.es.events ievent).style (st.element i)
          (st.element (st.es.events ievent).gpartner)), 0) i = .ok a0)
    (h1 : refresh_l1 app fuel i a0 = .ok a1) :
    execute_event app fuel st i ievent time =
      .ok (clear_echeck a1.1 a1.2, (irange a1.2).map a1.1.esites) := by
  unfold execute_event
  simp only [bind, Except.bind, happly]
  rw [h0]
  simp only []
  rw [h1]
  rfl

/-! ## NULL events -/

theorem clear_echeck_coord (st : State) (nsites : Int) :
    (clear_echeck st nsites).coord = st.coord := by
  unfold clear_echeck
  exact foldl_inv (fun s : State => s.coord = st.coord) _ _ (fun a x _ ha => by simpa using ha)
    st rfl

theorem appNull_nonzero : NonzeroProps appNull := by
  refine ⟨?_, ?_, ?_, ?_⟩ <;>
  · intro m h0 h1
    simp [appNull] at h1
    omega

theorem appNull_owned : OwnedInRange appNull := by
  intro m hm
  by_cases h : m = 0
  · subst h
    decide
  · simp [appNull, h] at hm

theorem stS1_lists : ∃ A, EventLists appNull.nlocal stS1.es A := by
  obtain ⟨s, p, h1, A, hA⟩ := lists_after_first_propensity appNull (stInit O) (le_refl _) 0
    (le_refl _) (by decide) appNull_nonzero
  refine ⟨A, ?_⟩
  unfold stS1
  rw [h1]
  exact hA

theorem stS1_chain : Chain (nextOf stS1.es) (stS1.es.firstevent 0) [0] (-1) :=
  ⟨by decide!, (by decide! : nextOf stS1.es 0 = -1)⟩

theorem stS1_select : select_event appNull 100000 stS1 0 (1 / 2) = .ok 0 :=
  select_event_first appNull 100000 stS1 0 (1 / 2) [0] (-1) 0 (by decide) stS1_chain
    (fun k hk => absurd hk (by omega)) (by decide!) (by decide)

/-- C12. If the event chosen by `site_event(i)` is a NULL event (style 5), the call
returns and leaves `element[x]` unchanged for every site `x` and every entry of
`scount`, `dcount`, `vcount` and `fcount` unchanged. -/
theorem site_event_null_keeps_species_and_counters (app : App) (fuel : Nat) (st : State)
    (i ievent : Int) (uniform time : ℚ)
    (hwf : ∃ A, EventLists app.nlocal st.es A) (hi0 : 0 ≤ i) (hin : i < app.nlocal)
    (hown : OwnedInRange app) (hnz : NonzeroProps app)
    (hfuel : st.es.maxevent.toNat ≤ fuel)
    (hsel : select_event app fuel st i uniform = .ok ievent)
    (hstyle : (st.es.events ievent).style = 5) :
    ∃ (st2 : State) (touched : List Int),
      site_event app fuel st i uniform time = .ok (st2, touched) ∧
      (∀ x, st2.element x = st.element x) ∧
      (∀ m, st2.scount m = st.scount m) ∧ (∀ m, st2.dcount m = st.dcount m) ∧
      (∀ m, st2.vcount m = st.vcount m) ∧ (∀ m, st2.fcount m = st.fcount m) := by
  obtain ⟨A, hA⟩ := hwf
  obtain ⟨st2, touched, h1, h2, h3, h4, h5, h6, _⟩ :=
    execute_event_spec app fuel st A i ievent time hA hi0 hin hown hnz hfuel st
      (by simp [apply_event, hstyle]) rfl
  refine ⟨st2, touched, ?_, fun x => by rw [h2], fun m => by rw [h3], fun m => by rw [h4],
    fun m => by rw [h5], fun m => by rw [h6]⟩
  unfold site_event
  rw [hsel]
  exact h1

/-- Witness for C12 (scenario S1): one isolated site with no reaction; the only event
is the null event. -/
theorem site_event_null_keeps_species_and_counters_witness :
    select_event appNull 100000 stS1 0 (1 / 2) = .ok 0 ∧
    (stS1.es.events 0).style = 5 ∧
    ∃ (st2 : State) (touched : List Int),
      site_event appNull 100000 stS1 0 (1 / 2) (1 / 2) = .ok (st2, touched) ∧
      (∀ x, st2.element x = stS1.element x) ∧
      (∀ m, st2.scount m = stS1.scount m) ∧ (∀ m, st2.dcount m = stS1.dcount m) ∧
      (∀ m, st2.vcount m = stS1.vcount m) ∧ (∀ m, st2.fcount m = stS1.fcount m) :=
  ⟨stS1_select, by decide!,
    site_event_null_keeps_species_and_counters appNull 100000 stS1 0 0 (1 / 2) (1 / 2)
      stS1_lists (le_refl _) (by decide) appNull_owned appNull_nonzero (by decide!)
      stS1_select (by decide!)⟩

/-- Counterexample to C11 as stated (scenario S1 with `T1 = T2 = T3 = T4 = 1`): before
the call `pressureOn = 1`; the call at time 1.5 executes the null event and leaves
`pressureOn = 3`. -/
theorem site_event_null_changes_pulse_phase :
    select_event appNull 100000 stS1 0 (1 / 2) = .ok 0 ∧
    (stS1.es.events 0).style = 5 ∧ stS1.pressureOn = 1 ∧
    pressureAfter (site_event appNull 100000 stS1 0 (1 / 2) (3 / 2)) = some 3 := by
  refine ⟨by decide!, by decide!, by decide!, by decide!⟩

/-- C11, amended. A `site_event` call that executes a NULL event re-evaluates the pulse
phase from the time `t` like every other event (`cycle` and `pressureOn` end as the
schedule of lines 740-744 gives them for the state before the call), calls no mask
function, and changes `coord` only through the `count_coord` of the refreshed sites:
the mask decade of `coord[x]` is unchanged for every site `x` with
`-50 <= coord[x] < 10` and fewer than ten neighbours. -/
theorem site_event_null_pulse_and_decade (app : App) (fuel : Nat) (st : State)
    (i ievent : Int) (uniform time : ℚ)
    (hwf : ∃ A, EventLists app.nlocal st.es A) (hi0 : 0 ≤ i) (hin : i < app.nlocal)
    (hown : OwnedInRange app) (hnz : NonzeroProps app)
    (hfuel : st.es.maxevent.toNat ≤ fuel)
    (hsel : select_event app fuel st i uniform = .ok ievent)
    (hstyle : (st.es.events ievent).style = 5) :
    ∃ (st2 : State) (touched : List Int),
      site_event app fuel st i uniform time = .ok (st2, touched) ∧
      st2.pressureOn = (pulse_update app st time).pressureOn ∧
      st2.cycle = (pulse_update app st time).cycle ∧
      mask_action (pulse_update app st time) i (st.es.events ievent).gpartner
        (st.es.events ievent).style (st.element i)
        (st.element (st.es.events ievent).gpartner) = MaskAction.noMask ∧
      ∀ x, -50 ≤ st.coord x → st.coord x < 10 → app.numneigh x < 10 →
        maskDecade (st2.coord x) = maskDecade (st.coord x) := by
  obtain ⟨A, hA⟩ := hwf
  have happly : apply_event app st i (st.es.events ievent).style (st.es.events ievent).which
      (st.es.events ievent).jpartner (st.es.events ievent).kpartner
      (st.es.events ievent).gpartner = .ok st := by
    simp [apply_event, hstyle]
  have hmask : mask_action (pulse_update app st time) i (st.es.events ievent).gpartner
        (st.es.events ievent).style (st.element i)
        (st.element (st.es.events ievent).gpartner) = MaskAction.noMask := by
    simp [mask_action, hstyle]
  have hpf := pulse_update_frame app st time
  have hpc : (pulse_update app st time).coord = st.coord := by
    unfold pulse_update
    split_ifs <;> rfl
  have hA3 : EventLists app.nlocal (pulse_update app st time).es A := by
    rw [hpf.2.1]
    exact hA
  have hlenall : ∀ m, 0 ≤ m → m < app.nlocal → (A m).length ≤ fuel := fun m hm0 hmn =>
    le_trans (lists_length_le hA hm0 hmn) hfuel
  have hkeep : ∀ (s : State) (y x : Int),
      (-50 ≤ s.coord x ∧ s.coord x < 10 ∧ maskDecade (s.coord x) = maskDecade (st.coord x)) →
      app.numneigh x < 10 →
      (-50 ≤ (count_coord app s y).coord x ∧ (count_coord app s y).coord x < 10 ∧
        maskDecade ((count_coord app s y).coord x) = maskDecade (st.coord x)) := by
    intro s y x hx hn
    rw [count_coord_coord]
    by_cases hxy : x = y
    · subst hxy
      rw [upd_same, coord_reset_floor _ hx.1]
      have hb := nocc_bounds app s x
      have h3 := hx.2.2
      unfold maskDecade at h3 ⊢
      split_ifs <;> omega
    · rw [upd_ne _ _ _ _ hxy]
      exact hx
  obtain ⟨a0, a1, h0, h1, hr1, hI1⟩ :=
    refresh_all_hoare app fuel (pulse_update app st time) hnz hown A hA3 hlenall i hi0 hin
      (fun a => ∀ x, -50 ≤ st.coord x → st.coord x < 10 → app.numneigh x < 10 →
        (-50 ≤ a.1.coord x ∧ a.1.coord x < 10 ∧
          maskDecade (a.1.coord x) = maskDecade (st.coord x)))
      (by
        intro a0 _ hc _ _ _ x hx1 hx2 hn
        rw [hc]
        exact hkeep _ i x ⟨by rw [hpc]; exact hx1, by rw [hpc]; exact hx2, by rw [hpc]⟩ hn)
      (by
        intro a a1 s hIa _ _ _ _ _ _ hc _ _ _ x hx1 hx2 hn
        rw [hc]
        exact hkeep _ s x (hIa x hx1 hx2 hn) hn)
  have hex := execute_event_eq app fuel st st i ievent time a0 a1 happly
    (by rw [hmask]; exact h0) h1
  refine ⟨clear_echeck a1.1 a1.2, (irange a1.2).map a1.1.esites, ?_, ?_, ?_, hmask, ?_⟩
  · unfold site_event
    rw [hsel]
    exact hex
  · rw [(clear_echeck_frame a1.1 a1.2).pressureOn, hr1.2.pressureOn]
  · rw [(clear_echeck_frame a1.1 a1.2).cycle, hr1.2.cycle]
  · intro x hx1 hx2 hn
    rw [clear_echeck_coord]
    exact (hI1 x hx1 hx2 hn).2.2

/-- Witness for the amended C11 (scenario S1 at time 1.5). -/
theorem site_event_null_pulse_and_decade_witness :
    select_event appNull 100000 stS1 0 (1 / 2) = .ok 0 ∧
    (stS1.es.events 0).style = 5 ∧
    ∃ (st2 : State) (touched : List Int),
      site_event appNull 100000 stS1 0 (1 / 2) (3 / 2) = .ok (st2, touched) ∧
      st2.pressureOn = (pulse_update appNull stS1 (3 / 2)).pressureOn ∧
      st2.cycle = (pulse_update appNull stS1 (3 / 2)).cycle ∧
      mask_action (pulse_update appNull stS1 (3 / 2)) 0 (stS1.es.events 0).gpartner
        (stS1.es.events 0).style (stS1.element 0)
        (stS1.element (stS1.es.events 0).gpartner) = MaskAction.noMask ∧
      ∀ x, -50 ≤ stS1.coord x → stS1.coord x < 10 → appNull.numneigh x < 10 →
        maskDecade (st2.coord x) = maskDecade (stS1.coord x) :=
  ⟨stS1_select, by decide!,
    site_event_null_pulse_and_decade appNull 100000 stS1 0 0 (1 / 2) (3 / 2)
      stS1_lists (le_refl _) (by decide) appNull_owned appNull_nonzero (by decide!)
      stS1_select (by decide!)⟩

/-! ## Reactions with propensity 0 -/

theorem foldlM_error_at {α ι : Type} (f : α → ι → Except Fault α) :
    ∀ (l : List ι) (x : ι), x ∈ l →
      (∀ a y err, y ∈ l → f a y = .error err → err = Fault.fatal) →
      (∀ a, f a x = .error Fault.fatal) →
      ∀ a, l.foldlM f a = .error Fault.fatal
  | [], x, hx, _, _, _ => absurd hx (List.not_mem_nil _)
  | y :: l, x, hx, honly, hat, a => by
    rw [List.foldlM_cons]
    cases hfy : f a y with
    | error err =>
      rw [honly a y err (List.mem_cons_self _ _) hfy]
      rfl
    | ok b =>
      rcases List.mem_cons.1 hx with h | h
      · subst h
        rw [hat a] at hfy
        cases hfy
      · exact foldlM_error_at f l x h
          (fun a y err hy he => honly a y err (List.mem_cons_of_mem _ hy) he) hat b

theorem foldlM_only_fatal {α ι : Type} (f : α → ι → Except Fault α) :
    ∀ (l : List ι), (∀ a y err, y ∈ l → f a y = .error err → err = Fault.fatal) →
      ∀ a err, l.foldlM f a = .error err → err = Fault.fatal
  | [], _, a, err, h => by
    simp [pure, Except.pure] at h
  | y :: l, honly, a, err, h => by
    rw [List.foldlM_cons] at h
    cases hfy : f a y with
    | error e2 =>
      rw [hfy] at h
      have : e2 = err := by simpa [bind, Except.bind] using h
      rw [← this]
      exact honly a y e2 (List.mem_cons_self _ _) hfy
    | ok b =>
      rw [hfy] at h
      exact foldlM_only_fatal f l
        (fun a y err hy he => honly a y err (List.mem_cons_of_mem _ hy) he) b err h

theorem list_add_only_fatal (l : List EvData) (i rs w : Int) (p : ℚ) (j k g : Int)
    (err : Fault) (h : list_add l i rs w p j k g = .error err) : err = Fault.fatal := by
  unfold list_add at h
  split_ifs at h
  cases h
  rfl

theorem type1_m_only_fatal (app : App) (st : State) (i : Int) (e : Enum (List EvData))
    (m : Int) (err : Fault) (h : type1_m list_add app st i e m = .error err) :
    err = Fault.fatal := by
  simp only [type1_m, list_add] at h
  split_ifs at h
  cases h
  rfl

theorem type2_m_only_fatal (app : App) (st : State) (i k : Int) (e : Enum (List EvData))
    (m : Int) (err : Fault) (h : type2_m list_add app st i k e m = .error err) :
    err = Fault.fatal := by
  simp only [type2_m, list_add] at h
  split_ifs at h
  cases h
  rfl

theorem type3_m_only_fatal (app : App) (st : State) (i j : Int) (e : Enum (List EvData))
    (m : Int) (err : Fault) (h : type3_m list_add app st i j e m = .error err) :
    err = Fault.fatal := by
  simp only [type3_m, list_add] at h
  split_ifs at h
  cases h
  rfl

theorem type4_m_only_fatal (app : App) (st : State) (i g : Int) (e : Enum (List EvData))
    (m : Int) (err : Fault) (h : type4_m list_add app st i g e m = .error err) :
    err = Fault.fatal := by
  simp only [type4_m, list_add] at h
  split_ifs at h
  cases h
  rfl

theorem type2_loop_only_fatal (app : App) (st : State) (i : Int) (e : Enum (List EvData))
    (err : Fault)
    (h : (irange (app.numneigh i)).foldlM (type2_jj list_add app st i) e = .error err) :
    err = Fault.fatal := by
  refine foldlM_only_fatal _ _ (fun a jj err _ he => ?_) e err h
  unfold type2_jj at he
  refine foldlM_only_fatal _ _ (fun a kk err _ he => ?_) a err he
  simp only [type2_kk] at he
  split_ifs at he
  exact foldlM_only_fatal _ _ (fun a m err _ he => type2_m_only_fatal app st i _ a m err he)
    a err he

theorem type3_loop_only_fatal (app : App) (st : State) (i : Int) (e : Enum (List EvData))
    (err : Fault)
    (h : (irange (app.numneigh i)).foldlM (type3_jj list_add app st i) e = .error err) :
    err = Fault.fatal := by
  refine foldlM_only_fatal _ _ (fun a jj err _ he => ?_) e err h
  unfold type3_jj at he
  exact foldlM_only_fatal _ _ (fun a m err _ he => type3_m_only_fatal app st i _ a m err he)
    a err he

theorem type4_loop_only_fatal (app : App) (st : State) (i : Int) (e : Enum (List EvData))
    (err : Fault)
    (h : (irange (app.num_same_z_neighbors i)).foldlM (type4_p list_add app st i) e =
      .error err) :
    err = Fault.fatal := by
  refine foldlM_only_fatal _ _ (fun a p err _ he => ?_) e err h
  unfold type4_p at he
  exact foldlM_only_fatal _ _ (fun a m err _ he => type4_m_only_fatal app st i _ a m err he)
    a err he

theorem added_events_zero_admitted (app : App) (st : State) (i : Int)
    (hz : ZeroAdmitted app st i) : added_events app st i = .error Fault.fatal := by
  unfold added_events enumerate
  simp only [bind, Except.bind]
  rcases hz with ⟨m, hm0, hmn, hadm, hp⟩ | ⟨jj, m, hj0, hjn, hm0, hmn, hadm, hp⟩ |
    ⟨p, m, hp0, hpn, hm0, hmn, hadm, hp⟩
  · rw [foldlM_error_at _ _ m ((mem_irange _ _).2 ⟨hm0, hmn⟩)
      (fun a y err _ he => type1_m_only_fatal app st i a y err he)
      (fun a => by
        unfold sAdmits at hadm
        simp only [type1_m, list_add, hp]
        rw [if_pos hadm]
        rfl)]
  · cases h1 : (irange app.none).foldlM (type1_m list_add app st i)
        { store := [], comneigh := st.comneigh, comevent := st.comevent, proball := 0,
          nextneib := 0 } with
    | error err =>
      rw [foldlM_only_fatal _ _ (fun a y err _ he => type1_m_only_fatal app st i a y err he)
        _ err h1]
    | ok e1 =>
      simp only []
      cases h2 : (irange (app.numneigh i)).foldlM (type2_jj list_add app st i)
          { e1 with nextneib := 1 } with
      | error err => rw [type2_loop_only_fatal app st i _ err h2]
      | ok e2 =>
        simp only []
        rw [foldlM_error_at _ _ jj ((mem_irange _ _).2 ⟨hj0, hjn⟩)
          (fun a y err _ he => by
            unfold type3_jj at he
            exact foldlM_only_fatal _ _
              (fun a m err _ he => type3_m_only_fatal app st i _ a m err he) a err he)
          (fun a => by
            unfold type3_jj
            exact foldlM_error_at _ _ m ((mem_irange _ _).2 ⟨hm0, hmn⟩)
              (fun a m err _ he => type3_m_only_fatal app st i _ a m err he)
              (fun a => by
                unfold vAdmits at hadm
                simp only [type3_m, list_add, hp]
                rw [if_pos hadm]
                rfl) a)]
  · cases h1 : (irange app.none).foldlM (type1_m list_add app st i)
        { store := [], comneigh := st.comneigh, comevent := st.comevent, proball := 0,
          nextneib := 0 } with
    | error err =>
      rw [foldlM_only_fatal _ _ (fun a y err _ he => type1_m_only_fatal app st i a y err he)
        _ err h1]
    | ok e1 =>
      simp only []
      cases h2 : (irange (app.numneigh i)).foldlM (type2_jj list_add app st i)
          { e1 with nextneib := 1 } with
      | error err => rw [type2_loop_only_fatal app st i _ err h2]
      | ok e2 =>
        simp only []
        cases h3 : (irange (app.numneigh i)).foldlM (type3_jj list_add app st i) e2 with
        | error err => rw [type3_loop_only_fatal app st i _ err h3]
        | ok e3 =>
          simp only []
          rw [foldlM_error_at _ _ p ((mem_irange _ _).2 ⟨hp0, hpn⟩)
            (fun a y err _ he => by
              unfold type4_p at he
              exact foldlM_only_fatal _ _
                (fun a m err _ he => type4_m_only_fatal app st i _ a m err he) a err he)
            (fun a => by
              unfold type4_p
              exact foldlM_error_at _ _ m ((mem_irange _ _).2 ⟨hm0, hmn⟩)
                (fun a m err _ he => type4_m_only_fatal app st i _ a m err he)
                (fun a => by
                  unfold fAdmits at hadm
                  simp only [type4_m, list_add, hp]
                  rw [if_pos hadm]
                  rfl) a)]

theorem nonzero_step (e : Enum (List EvData)) (i rs w : Int) (p : ℚ) (j k g : Int)
    (l1 : List EvData) (h : list_add e.store i rs w p j k g = .ok l1)
    (he : ∀ r ∈ e.store, r.propensity ≠ 0) : ∀ r ∈ l1, r.propensity ≠ 0 := by
  unfold list_add at h
  split_ifs at h with hp
  cases h
  intro r hr
  rcases List.mem_cons.1 hr with h | h
  · rw [h]
    exact hp
  · exact he r h

theorem added_events_nonzero (app : App) (st : State) (i : Int) (e : Enum (List EvData))
    (h : added_events app st i = .ok e) : ∀ r ∈ e.store, r.propensity ≠ 0 := by
  unfold added_events enumerate at h
  simp only [bind, Except.bind] at h
  have step1 : ∀ (a : Enum (List EvData)) (m : Int) (a1 : Enum (List EvData)),
      (∀ r ∈ a.store, r.propensity ≠ 0) → type1_m list_add app st i a m = .ok a1 →
      ∀ r ∈ a1.store, r.propensity ≠ 0 := by
    intro a m a1 ha h1
    simp only [type1_m] at h1
    split_ifs at h1
    · cases hadd : list_add a.store i 1 m (app.spropensity m) (-1) (-1) (-1) with
      | error err => rw [hadd] at h1; cases h1
      | ok l1 =>
        rw [hadd] at h1
        cases h1
        exact nonzero_step a _ _ _ _ _ _ _ _ hadd ha
    · cases h1
      exact ha
  have step2 : ∀ (k : Int) (a : Enum (List EvData)) (m : Int) (a1 : Enum (List EvData)),
      (∀ r ∈ a.store, r.propensity ≠ 0) → type2_m list_add app st i k a m = .ok a1 →
      ∀ r ∈ a1.store, r.propensity ≠ 0 := by
    intro k a m a1 ha h1
    simp only [type2_m] at h1
    split_ifs at h1
    · cases hadd : list_add a.store i 2 m (app.dpropensity m) (-1) k (-1) with
      | error err => rw [hadd] at h1; cases h1
      | ok l1 =>
        rw [hadd] at h1
        cases h1
        exact nonzero_step a _ _ _ _ _ _ _ _ hadd ha
    · cases h1
      exact ha
    · cases h1
      exact ha
  have step3 : ∀ (j : Int) (a : Enum (List EvData)) (m : Int) (a1 : Enum (List EvData)),
      (∀ r ∈ a.store, r.propensity ≠ 0) → type3_m list_add app st i j a m = .ok a1 →
      ∀ r ∈ a1.store, r.propensity ≠ 0 := by
    intro j a m a1 ha h1
    simp only [type3_m] at h1
    split_ifs at h1
    · cases hadd : list_add a.store i 3 m (app.vpropensity m) j (-1) (-1) with
      | error err => rw [hadd] at h1; cases h1
      | ok l1 =>
        rw [hadd] at h1
        cases h1
        exact nonzero_step a _ _ _ _ _ _ _ _ hadd ha
    · cases h1
      exact ha
  have step4 : ∀ (g : Int) (a : Enum (List EvData)) (m : Int) (a1 : Enum (List EvData)),
      (∀ r ∈ a.store, r.propensity ≠ 0) → type4_m list_add app st i g a m = .ok a1 →
      ∀ r ∈ a1.store, r.propensity ≠ 0 := by
    intro g a m a1 ha h1
    simp only [type4_m] at h1
    split_ifs at h1
    · cases hadd : list_add a.store i 4 m (app.fpropensity m) (-1) (-1) g with
      | error err => rw [hadd] at h1; cases h1
      | ok l1 =>
        rw [hadd] at h1
        cases h1
        exact nonzero_step a _ _ _ _ _ _ _ _ hadd ha
    · cases h1
      exact ha
  cases h1 : (irange app.none).foldlM (type1_m list_add app st i)
      { store := [], comneigh := st.comneigh, comevent := st.comevent, proball := 0,
        nextneib := 0 } with
  | error err => rw [h1] at h; cases h
  | ok e1 =>
    rw [h1] at h
    simp only [] at h
    have i1 : ∀ r ∈ e1.store, r.propensity ≠ 0 :=
      foldlM_ok_inv (fun a : Enum (List EvData) => ∀ r ∈ a.store, r.propensity ≠ 0) _ _
        (fun a m a1 _ ha hok => step1 a m a1 ha hok) _ e1 (by simp) h1
    cases h2 : (irange (app.numneigh i)).foldlM (type2_jj list_add app st i)
        { e1 with nextneib := 1 } with
    | error err => rw [h2] at h; cases h
    | ok e2 =>
      rw [h2] at h
      simp only [] at h
      have i2 : ∀ r ∈ e2.store, r.propensity ≠ 0 := by
        refine foldlM_ok_inv (fun a : Enum (List EvData) => ∀ r ∈ a.store, r.propensity ≠ 0)
          _ _ (fun a jj a1 _ ha hok => ?_) { e1 with nextneib := 1 } e2 i1 h2
        unfold type2_jj at hok
        refine foldlM_ok_inv (fun a : Enum (List EvData) => ∀ r ∈ a.store, r.propensity ≠ 0)
          _ _ (fun a kk a1 _ ha hok => ?_) _ a1 ha hok
        simp only [type2_kk] at hok
        split_ifs at hok
        · cases hok
          exact ha
        · exact foldlM_ok_inv
            (fun a : Enum (List EvData) => ∀ r ∈ a.store, r.propensity ≠ 0)
            _ _ (fun a m a1 _ ha hok => step2 _ a m a1 ha hok) _ a1 ha hok
      cases h3 : (irange (app.numneigh i)).foldlM (type3_jj list_add app st i) e2 with
      | error err => rw [h3] at h; cases h
      | ok e3 =>
        rw [h3] at h
        simp only [] at h
        have i3 : ∀ r ∈ e3.store, r.propensity ≠ 0 := by
          refine foldlM_ok_inv
            (fun a : Enum (List EvData) => ∀ r ∈ a.store, r.propensity ≠ 0)
            _ _ (fun a jj a1 _ ha hok => ?_) _ e3 i2 h3
          unfold type3_jj at hok
          exact foldlM_ok_inv
            (fun a : Enum (List EvData) => ∀ r ∈ a.store, r.propensity ≠ 0)
            _ _ (fun a m a1 _ ha hok => step3 _ a m a1 ha hok) _ a1 ha hok
        cases h4 : (irange (app.num_same_z_neighbors i)).foldlM (type4_p list_add app st i)
            e3 with
        | error err => rw [h4] at h; cases h
        | ok e4 =>
          rw [h4] at h
          simp only [] at h
          have i4 : ∀ r ∈ e4.store, r.propensity ≠ 0 := by
            refine foldlM_ok_inv
              (fun a : Enum (List EvData) => ∀ r ∈ a.store, r.propensity ≠ 0)
              _ _ (fun a p a1 _ ha hok => ?_) _ e4 i3 h4
            unfold type4_p at hok
            exact foldlM_ok_inv
              (fun a : Enum (List EvData) => ∀ r ∈ a.store, r.propensity ≠ 0)
              _ _ (fun a m a1 _ ha hok => step4 _ a m a1 ha hok) _ a1 ha hok
          unfold type5 at h
          cases hadd : list_add e4.store i 5 0 (1 / 10) (-1) (-1) (-1) with
          | error err => rw [hadd] at h; cases h
          | ok l1 =>
            rw [hadd] at h
            cases h
            exact nonzero_step e4 _ _ _ _ _ _ _ _ hadd i4

theorem site_propensity_zero_admitted_fatal (app : App) (st : State)
    (A : Int → List EvData) (i : Int) (fuel : Nat)
    (hA : EventLists app.nlocal st.es A) (hi0 : 0 ≤ i) (hin : i < app.nlocal)
    (hfuel : st.es.maxevent.toNat ≤ fuel) (hz : ZeroAdmitted app st i) :
    site_propensity app fuel st i = .error Fault.fatal := by
  have hlen := le_trans (lists_length_le hA hi0 hin) hfuel
  have hsim := site_propensity_sim app hA hi0 hin hlen
  rw [added_events_zero_admitted app st i hz] at hsim
  cases hres : site_propensity app fuel st i with
  | error err =>
    rw [hres] at hsim
    rw [show err = Fault.fatal from hsim]
  | ok r =>
    rw [hres] at hsim
    exact hsim.elim

/-- Counterexample to C20 as stated: on the one-site lattice whose only S reaction
`O -> OH` is declared with propensity 0, the reaction passes the admission test at
site 0 and `site_propensity(0)` stops in the fatal error of `add_event` (line 881). -/
theorem site_propensity_zero_propensity_is_fatal :
    sAdmits appZero stZero 0 0 ∧ appZero.spropensity 0 = 0 ∧
    site_propensity appZero 0 stZero 0 = .error Fault.fatal := by
  refine ⟨by decide, by decide!, ?_⟩
  exact site_propensity_zero_admitted_fatal appZero stZero (fun _ => []) 0 0
    (setup_app_lists appZero _ (le_refl _)) (le_refl _) (by decide) (by decide!)
    (Or.inl ⟨0, le_refl _, by decide, by decide, by decide!⟩)

/-- C20, amended. A declared reaction whose propensity is exactly 0 never produces an
event, but it does cause an error: whenever `site_propensity(i)` returns, every event
of the list of site `i` has a propensity other than 0; and at a site where an S, V or
F reaction with propensity 0 passes its admission test, `site_propensity(i)` stops in
the fatal error of `add_event`. -/
theorem site_propensity_zero_propensity (app : App) (st : State) (A : Int → List EvData)
    (i : Int) (fuel : Nat)
    (hA : EventLists app.nlocal st.es A) (hi0 : 0 ≤ i) (hin : i < app.nlocal)
    (hfuel : st.es.maxevent.toNat ≤ fuel) :
    (ZeroAdmitted app st i → site_propensity app fuel st i = .error Fault.fatal) ∧
    (∀ st1 p, site_propensity app fuel st i = .ok (st1, p) →
      ∃ l, EventLists app.nlocal st1.es (upd A i l) ∧ ∀ r ∈ l, r.propensity ≠ 0) := by
  have hlen := le_trans (lists_length_le hA hi0 hin) hfuel
  have hsim := site_propensity_sim app hA hi0 hin hlen
  constructor
  · exact site_propensity_zero_admitted_fatal app st A i fuel hA hi0 hin hfuel
  · intro st1 p hok
    rw [hok] at hsim
    cases hadd : added_events app st i with
    | error err =>
      rw [hadd] at hsim
      exact hsim.elim
    | ok e =>
      rw [hadd] at hsim
      exact ⟨e.store, hsim.1, added_events_nonzero app st i e hadd⟩

/-- Witness for the amended C20: the one-site lattice with the zero-propensity S
reaction, after `setup_app`. -/
theorem site_propensity_zero_propensity_witness :
    (ZeroAdmitted appZero stZero 0 →
      site_propensity appZero 0 stZero 0 = .error Fault.fatal) ∧
    (∀ st1 p, site_propensity appZero 0 stZero 0 = .ok (st1, p) →
      ∃ l, EventLists appZero.nlocal st1.es (upd (fun _ => []) 0 l) ∧
        ∀ r ∈ l, r.propensity ≠ 0) :=
  site_propensity_zero_propensity appZero stZero (fun _ => []) 0 0
    (setup_app_lists appZero _ (le_refl _)) (le_refl _) (by decide) (by decide!)

/-! ## Mask round trips -/

theorem irange_succ (k : Nat) : irange ((k : Int) + 1) = irange (k : Int) ++ [(k : Int)] := by
  unfold irange
  have h1 : ((k : Int) + 1).toNat = k + 1 := by omega
  have h2 : ((k : Int)).toNat = k := by omega
  rw [h1, h2, List.range_succ, List.map_append]
  rfl

theorem irange_toNat (n : Int) : irange n = irange ((n.toNat : Nat) : Int) := by
  unfold irange
  rw [Int.toNat_ofNat]

theorem foldl_irange_nat {α : Type} (I : Int → α → Prop) (f : α → Int → α) (a0 : α)
    (h0 : I 0 a0) :
    ∀ (k : Nat), (∀ m a, 0 ≤ m → m < (k : Int) → I m a → I (m + 1) (f a m)) →
      I (k : Int) ((irange (k : Int)).foldl f a0)
  | 0, _ => by simpa [irange] using h0
  | k + 1, hstep => by
    have hk : ((k + 1 : Nat) : Int) = (k : Int) + 1 := by push_cast; ring
    rw [hk, irange_succ, List.foldl_append]
    simp only [List.foldl_cons, List.foldl_nil]
    exact hstep k _ (by omega) (by omega)
      (foldl_irange_nat I f a0 h0 k (fun m a h0 h1 hI => hstep m a h0 (by omega) hI))

theorem foldl_irange_inv {α : Type} (I : Int → α → Prop) (f : α → Int → α) (n : Int)
    (a0 : α) (h0 : I 0 a0)
    (hstep : ∀ m a, 0 ≤ m → m < n → I m a → I (m + 1) (f a m)) :
    I (max n 0) ((irange n).foldl f a0) := by
  rw [irange_toNat, ← Int.toNat_eq_max]
  exact foldl_irange_nat I f a0 h0 n.toNat (fun m a h0 h1 hI => hstep m a h0 (by omega) hI)

theorem foldl_rel {α β ι : Type} (R : α → β → Prop) (f : α → ι → α) (g : β → ι → β) :
    ∀ (l : List ι), (∀ a b x, x ∈ l → R a b → R (f a x) (g b x)) →
      ∀ a b, R a b → R (l.foldl f a) (l.foldl g b)
  | [], _, _, _, h => h
  | x :: l, hstep, a, b, h =>
    foldl_rel R f g l (fun a b y hy hab => hstep a b y (List.mem_cons_of_mem _ hy) hab)
      (f a x) (g b x) (hstep a b x (List.mem_cons_self _ _) h)

theorem mask_mark_recorded (app : App) (d : Int) (acc : State × Int) (x : Int)
    (h : 0 ≤ acc.2 ∧ ∀ y, acc.1.echeck y ≠ 0 →
      ∃ m, 0 ≤ m ∧ m < acc.2 ∧ acc.1.esites m = y) :
    0 ≤ (mask_mark app d acc x).2 ∧ ∀ y, (mask_mark app d acc x).1.echeck y ≠ 0 →
      ∃ m, 0 ≤ m ∧ m < (mask_mark app d acc x).2 ∧ (mask_mark app d acc x).1.esites m = y := by
  obtain ⟨hn, hrec⟩ := h
  simp only [mask_mark]
  split_ifs with hc
  · refine ⟨by show 0 ≤ acc.2 + 1; omega, ?_⟩
    intro y hy
    by_cases hyi : y = app.i2site x
    · exact ⟨acc.2, hn, by show acc.2 < acc.2 + 1; omega, by rw [hyi]; exact upd_same _ _ _⟩
    · have hy2 : acc.1.echeck y ≠ 0 := by
        have : upd acc.1.echeck (app.i2site x) 1 y ≠ 0 := hy
        rwa [upd_ne _ _ _ _ hyi] at this
      obtain ⟨m, hm0, hm1, hm2⟩ := hrec y hy2
      refine ⟨m, hm0, by show m < acc.2 + 1; omega, ?_⟩
      show upd acc.1.esites acc.2 (app.i2site x) m = y
      rw [upd_ne _ _ _ _ (by omega)]
      exact hm2
  · exact ⟨hn, hrec⟩

theorem clear_echeck_zero (s : State) (n : Int)
    (h : 0 ≤ n ∧ ∀ y, s.echeck y ≠ 0 → ∃ m, 0 ≤ m ∧ m < n ∧ s.esites m = y) :
    ∀ y, (clear_echeck s n).echeck y = 0 := by
  have hinv := foldl_irange_inv
    (fun (m : Int) (s1 : State) => ∀ y, s1.echeck y ≠ 0 →
      ∃ m1, m ≤ m1 ∧ m1 < n ∧ s1.esites m1 = y)
    (fun s m => { s with echeck := upd s.echeck (s.esites m) 0, esites := upd s.esites m 0 })
    n s h.2
    (by
      intro m a hm0 hmn hI y hy
      have hy1 : upd a.echeck (a.esites m) 0 y ≠ 0 := hy
      by_cases hym : y = a.esites m
      · rw [hym, upd_same] at hy1
        exact absurd rfl hy1
      · rw [upd_ne _ _ _ _ hym] at hy1
        obtain ⟨m1, h1, h2, h3⟩ := hI y hy1
        have hne : m1 ≠ m := by
          intro hEq
          rw [hEq] at h3
          exact hym h3.symm
        refine ⟨m1, by omega, h2, ?_⟩
        show upd a.esites m 0 m1 = y
        rw [upd_ne _ _ _ _ hne]
        exact h3)
  intro y
  by_contra hy
  obtain ⟨m1, h1, h2, _⟩ := hinv y hy
  have : max n 0 = n := max_eq_left h.1
  omega

theorem mask_shells_echeck_zero (app : App) (d1 d2 : Int) (st : State) (i : Int)
    (hz : ∀ y, st.echeck y = 0) : ∀ y, (mask_shells app d1 d2 st i).echeck y = 0 := by
  unfold mask_shells
  apply clear_echeck_zero
  refine foldl_inv
    (fun acc : State × Int => 0 ≤ acc.2 ∧ ∀ y, acc.1.echeck y ≠ 0 →
      ∃ m, 0 ≤ m ∧ m < acc.2 ∧ acc.1.esites m = y) _ _ ?_ _ ?_
  · intro a s _ ha
    refine foldl_inv
      (fun acc : State × Int => 0 ≤ acc.2 ∧ ∀ y, acc.1.echeck y ≠ 0 →
        ∃ m, 0 ≤ m ∧ m < acc.2 ∧ acc.1.esites m = y) _ _ ?_ _ ?_
    · intro a2 ss _ ha2
      exact mask_mark_recorded app d2 a2 _ ha2
    · exact mask_mark_recorded app d1 a _ ha
  · refine ⟨(by decide : (0 : Int) ≤ 1), ?_⟩
    intro y hy
    have hy1 : upd st.echeck (app.i2site i) 1 y ≠ 0 := hy
    by_cases hyi : y = app.i2site i
    · exact ⟨0, le_refl _, (by decide : (0 : Int) < 1), by
        rw [hyi]
        exact upd_same st.esites 0 (app.i2site i)⟩
    · rw [upd_ne _ _ _ _ hyi] at hy1
      exact absurd (hz y) hy1

theorem mask_same_z_echeck_zero (app : App) (d : Int) (st : State) (i : Int)
    (hz : ∀ y, st.echeck y = 0) : ∀ y, (mask_same_z app d st i).echeck y = 0 := by
  unfold mask_same_z
  apply clear_echeck_zero
  refine foldl_inv
    (fun acc : State × Int => 0 ≤ acc.2 ∧ ∀ y, acc.1.echeck y ≠ 0 →
      ∃ m, 0 ≤ m ∧ m < acc.2 ∧ acc.1.esites m = y) _ _ ?_ _ ?_
  · intro a s _ ha
    exact mask_mark_recorded app d a _ ha
  · refine ⟨(by decide : (0 : Int) ≤ 1), ?_⟩
    intro y hy
    have hy1 : upd st.echeck (app.i2site i) 1 y ≠ 0 := hy
    by_cases hyi : y = app.i2site i
    · exact ⟨0, le_refl _, (by decide : (0 : Int) < 1), by
        rw [hyi]
        exact upd_same st.esites 0 (app.i2site i)⟩
    · rw [upd_ne _ _ _ _ hyi] at hy1
      exact absurd (hz y) hy1

theorem mask_mark_rel (app : App) (d : Int) (cA cB : Int → Int) (a b : State × Int) (x : Int)
    (h : a.1.echeck = b.1.echeck ∧ a.2 = b.2 ∧
      ∀ z, b.1.coord z - cB z = -(a.1.coord z - cA z)) :
    (mask_mark app d a x).1.echeck = (mask_mark app (-d) b x).1.echeck ∧
    (mask_mark app d a x).2 = (mask_mark app (-d) b x).2 ∧
    ∀ z, (mask_mark app (-d) b x).1.coord z - cB z =
      -((mask_mark app d a x).1.coord z - cA z) := by
  obtain ⟨h1, h2, h3⟩ := h
  simp only [mask_mark]
  rw [h1]
  split_ifs with hc
  · refine ⟨rfl, by show a.2 + 1 = b.2 + 1; omega, ?_⟩
    intro z
    show upd b.1.coord x (b.1.coord x + -d) z - cB z =
      -(upd a.1.coord x (a.1.coord x + d) z - cA z)
    by_cases hz : z = x
    · rw [hz, upd_same, upd_same]
      have := h3 x
      omega
    · rw [upd_ne _ _ _ _ hz, upd_ne _ _ _ _ hz]
      exact h3 z
  · exact ⟨h1, h2, h3⟩

theorem mask_shells_rel (app : App) (d1 d2 : Int) (sA sB : State) (i : Int)
    (hE : sA.echeck = sB.echeck) :
    ∀ z, (mask_shells app (-d1) (-d2) sB i).coord z - sB.coord z =
      -((mask_shells app d1 d2 sA i).coord z - sA.coord z) := by
  unfold mask_shells
  simp only [clear_echeck_coord]
  refine (foldl_rel
    (fun (a b : State × Int) => a.1.echeck = b.1.echeck ∧ a.2 = b.2 ∧
      ∀ z, b.1.coord z - sB.coord z = -(a.1.coord z - sA.coord z)) _ _ _ ?_ _ _ ?_).2.2
  · intro a b s _ hab
    refine foldl_rel
      (fun (a b : State × Int) => a.1.echeck = b.1.echeck ∧ a.2 = b.2 ∧
        ∀ z, b.1.coord z - sB.coord z = -(a.1.coord z - sA.coord z)) _ _ _ ?_ _ _ ?_
    · intro a2 b2 ss _ hab2
      exact mask_mark_rel app d2 _ _ a2 b2 _ hab2
    · exact mask_mark_rel app d1 _ _ a b _ hab
  · refine ⟨by show upd sA.echeck _ 1 = upd sB.echeck _ 1; rw [hE], rfl, ?_⟩
    intro z
    show sB.coord z - sB.coord z = -(sA.coord z - sA.coord z)
    omega

theorem mask_same_z_rel (app : App) (d : Int) (sA sB : State) (i : Int)
    (hE : sA.echeck = sB.echeck) :
    ∀ z, (mask_same_z app (-d) sB i).coord z - sB.coord z =
      -((mask_same_z app d sA i).coord z - sA.coord z) := by
  unfold mask_same_z
  simp only [clear_echeck_coord]
  refine (foldl_rel
    (fun (a b : State × Int) => a.1.echeck = b.1.echeck ∧ a.2 = b.2 ∧
      ∀ z, b.1.coord z - sB.coord z = -(a.1.coord z - sA.coord z)) _ _ _ ?_ _ _ ?_).2.2
  · intro a b s _ hab
    exact mask_mark_rel app d _ _ a b _ hab
  · refine ⟨by show upd sA.echeck _ 1 = upd sB.echeck _ 1; rw [hE], rfl, ?_⟩
    intro z
    show sB.coord z - sB.coord z = -(sA.coord z - sA.coord z)
    omega

theorem mask_same_z_coord (app : App) (d : Int) (st : State) (i : Int)
    (hz : ∀ y, st.echeck y = 0) (htab : SameZTable app i) (x : Int) :
    ((∃ p, 0 ≤ p ∧ p < app.num_same_z_neighbors i ∧ app.same_z_neighbors i p = x) →
      (mask_same_z app d st i).coord x = st.coord x + d) ∧
    ((¬ ∃ p, 0 ≤ p ∧ p < app.num_same_z_neighbors i ∧ app.same_z_neighbors i p = x) →
      (mask_same_z app d st i).coord x = st.coord x) := by
  unfold mask_same_z
  simp only [clear_echeck_coord]
  have hinv := foldl_irange_inv
    (fun (p : Int) (acc : State × Int) =>
      (∀ y, acc.1.echeck y ≠ 0 → y = app.i2site i ∨
        ∃ q, 0 ≤ q ∧ q < p ∧ app.i2site (app.same_z_neighbors i q) = y) ∧
      ∀ z, ((∃ q, 0 ≤ q ∧ q < p ∧ app.same_z_neighbors i q = z) →
          acc.1.coord z = st.coord z + d) ∧
        ((¬ ∃ q, 0 ≤ q ∧ q < p ∧ app.same_z_neighbors i q = z) →
          acc.1.coord z = st.coord z))
    (fun acc j => mask_mark app d acc (app.same_z_neighbors i j))
    (app.num_same_z_neighbors i)
    ({ st with echeck := upd st.echeck (app.i2site i) 1,
               esites := upd st.esites 0 (app.i2site i) }, 1)
    (by
      refine ⟨?_, ?_⟩
      · intro y hy
        have hy1 : upd st.echeck (app.i2site i) 1 y ≠ 0 := hy
        by_cases hyi : y = app.i2site i
        · exact Or.inl hyi
        · rw [upd_ne _ _ _ _ hyi] at hy1
          exact absurd (hz y) hy1
      · intro z
        refine ⟨?_, fun _ => rfl⟩
        rintro ⟨q, h0, h1, _⟩
        omega)
    (by
      intro p acc hp0 hpn hI
      obtain ⟨hE, hC⟩ := hI
      have hown := htab.1 p hp0 hpn
      have hfree : acc.1.echeck (app.i2site (app.same_z_neighbors i p)) = 0 := by
        by_contra hne
        rcases hE _ hne with h | ⟨q, hq0, hqp, hq⟩
        · exact hown.2 h
        · have := htab.2 q p hq0 (by omega) hp0 hpn hq
          omega
      have hnew : ∀ q, 0 ≤ q → q < p →
          app.same_z_neighbors i q ≠ app.same_z_neighbors i p := by
        intro q hq0 hqp hEq
        have := htab.2 q p hq0 (by omega) hp0 hpn (by rw [hEq])
        omega
      simp only [mask_mark]
      rw [if_pos ⟨hown.1, hfree⟩]
      refine ⟨?_, ?_⟩
      · intro y hy
        have hy1 : upd acc.1.echeck (app.i2site (app.same_z_neighbors i p)) 1 y ≠ 0 := hy
        by_cases hyp : y = app.i2site (app.same_z_neighbors i p)
        · exact Or.inr ⟨p, hp0, by omega, hyp.symm⟩
        · rw [upd_ne _ _ _ _ hyp] at hy1
          rcases hE y hy1 with h | ⟨q, hq0, hqp, hq⟩
          · exact Or.inl h
          · exact Or.inr ⟨q, hq0, by omega, hq⟩
      · intro z
        show ((∃ q, 0 ≤ q ∧ q < p + 1 ∧ app.same_z_neighbors i q = z) →
            upd acc.1.coord (app.same_z_neighbors i p)
              (acc.1.coord (app.same_z_neighbors i p) + d) z = st.coord z + d) ∧
          ((¬ ∃ q, 0 ≤ q ∧ q < p + 1 ∧ app.same_z_neighbors i q = z) →
            upd acc.1.coord (app.same_z_neighbors i p)
              (acc.1.coord (app.same_z_neighbors i p) + d) z = st.coord z)
        by_cases hzp : z = app.same_z_neighbors i p
        · refine ⟨fun _ => ?_, fun hno => absurd ⟨p, hp0, by omega, hzp.symm⟩ hno⟩
          rw [hzp, upd_same]
          rw [(hC (app.same_z_neighbors i p)).2
            (by
              rintro ⟨q, hq0, hqp, hq⟩
              exact hnew q hq0 hqp hq)]
        · rw [upd_ne _ _ _ _ hzp]
          refine ⟨?_, ?_⟩
          · rintro ⟨q, hq0, hqp, hq⟩
            have hqne : q ≠ p := by
              intro hEq
              rw [hEq] at hq
              exact hzp hq.symm
            exact (hC z).1 ⟨q, hq0, by omega, hq⟩
          · intro hno
            exact (hC z).2 (fun ⟨q, hq0, hqp, hq⟩ => hno ⟨q, hq0, by omega, hq⟩))
  constructor
  · rintro ⟨p, hp0, hpn, hp⟩
    exact (hinv.2 x).1 ⟨p, hp0, lt_of_lt_of_le hpn (le_max_left _ _), hp⟩
  · intro hno
    refine (hinv.2 x).2 ?_
    rintro ⟨q, hq0, hqp, hq⟩
    refine hno ⟨q, hq0, ?_, hq⟩
    rcases max_cases (app.num_same_z_neighbors i) 0 with h | h
    · rw [h.1] at hqp
      exact hqp
    · rw [h.1] at hqp
      omega

/-- C15. Mask round trip: for every neighbour graph, every site `i` and every `coord`
array, if the scratch marker `echeck` is all zero then `put_mask(i)` followed by
`remove_mask(i)` leaves `coord[x]` equal to its original value for every site `x`. -/
theorem put_mask_remove_mask_restores_coord (app : App) (st : State) (i : Int)
    (hz : ∀ y, st.echeck y = 0) :
    ∀ x, (remove_mask app (put_mask app st i) i).coord x = st.coord x := by
  intro x
  have hE : st.echeck = (put_mask app st i).echeck := by
    funext y
    rw [hz y]
    exact (mask_shells_echeck_zero app (-0) (-50) st i hz y).symm
  have h := mask_shells_rel app (-0) (-50) st (put_mask app st i) i hE x
  have h2 : remove_mask app (put_mask app st i) i =
      mask_shells app (-(-0)) (-(-50)) (put_mask app st i) i := rfl
  rw [h2]
  have h3 : put_mask app st i = mask_shells app (-0) (-50) st i := rfl
  rw [h3] at h ⊢
  omega

/-- Witness for C15 (scenario S4): the centre 0 with six first-shell neighbours, all
`coord` 0; `put_mask(0)` lowers the second-shell site 7 to -50, and after
`remove_mask(0)` every `coord` is 0 again. -/
theorem put_mask_remove_mask_restores_coord_witness :
    (∀ y, stS4.echeck y = 0) ∧ (put_mask appS4 stS4 0).coord 7 = -50 ∧
    ∀ x, (remove_mask appS4 (put_mask appS4 stS4 0) 0).coord x = stS4.coord x :=
  ⟨fun _ => rfl, by decide,
    put_mask_remove_mask_restores_coord appS4 stS4 0 (fun _ => rfl)⟩

theorem appSZ_table : SameZTable appSZ 0 := by
  have hnum : appSZ.num_same_z_neighbors 0 = 1 := by decide
  refine ⟨?_, ?_⟩
  · intro p hp0 hp1
    rw [hnum] at hp1
    have : p = 0 := by omega
    subst this
    decide
  · intro p q hp0 hp1 hq0 hq1 _
    rw [hnum] at hp1 hq1
    omega

/-- C16. Same-z mask round trip: if the scratch marker `echeck` is all zero, then
`put_mask_2(i)` followed by `remove_mask_2(i)` leaves `coord[x]` equal to its original
value for every site `x`; and, for a same-z table as `precompute_same_z_neighbors`
builds it (distinct owned sites other than `i`), `put_mask_2(i)` lowers `coord` by
exactly 10 on each site of `same_z_neighbors[i]` and changes it on no other site. -/
theorem put_mask_2_remove_mask_2_restores_coord (app : App) (st : State) (i : Int)
    (hz : ∀ y, st.echeck y = 0) (htab : SameZTable app i) :
    (∀ x, (remove_mask_2 app (put_mask_2 app st i) i).coord x = st.coord x) ∧
    ∀ x,
      ((∃ p, 0 ≤ p ∧ p < app.num_same_z_neighbors i ∧ app.same_z_neighbors i p = x) →
        (put_mask_2 app st i).coord x = st.coord x - 10) ∧
      ((¬ ∃ p, 0 ≤ p ∧ p < app.num_same_z_neighbors i ∧ app.same_z_neighbors i p = x) →
        (put_mask_2 app st i).coord x = st.coord x) := by
  constructor
  · intro x
    have hE : st.echeck = (put_mask_2 app st i).echeck := by
      funext y
      rw [hz y]
      exact (mask_same_z_echeck_zero app (-10) st i hz y).symm
    have h := mask_same_z_rel app (-10) st (put_mask_2 app st i) i hE x
    have h2 : remove_mask_2 app (put_mask_2 app st i) i =
        mask_same_z app (-(-10)) (put_mask_2 app st i) i := rfl
    rw [h2]
    have h3 : put_mask_2 app st i = mask_same_z app (-10) st i := rfl
    rw [h3] at h ⊢
    omega
  · intro x
    have h := mask_same_z_coord app (-10) st i hz htab x
    refine ⟨fun hp => ?_, fun hp => h.2 hp⟩
    have h1 := h.1 hp
    rw [show put_mask_2 app st i = mask_same_z app (-10) st i from rfl, h1]
    rfl

/-- Witness for C16: two owned sites in one z-plane, `same_z_neighbors[0] = {1}`. -/
theorem put_mask_2_remove_mask_2_restores_coord_witness :
    (∀ y, (stInit O).echeck y = 0) ∧ SameZTable appSZ 0 ∧
    (∀ x, (remove_mask_2 appSZ (put_mask_2 appSZ (stInit O) 0) 0).coord x =
      (stInit O).coord x) ∧
    ∀ x,
      ((∃ p, 0 ≤ p ∧ p < appSZ.num_same_z_neighbors 0 ∧ appSZ.same_z_neighbors 0 p = x) →
        (put_mask_2 appSZ (stInit O) 0).coord x = (stInit O).coord x - 10) ∧
      ((¬ ∃ p, 0 ≤ p ∧ p < appSZ.num_same_z_neighbors 0 ∧ appSZ.same_z_neighbors 0 p = x) →
        (put_mask_2 appSZ (stInit O) 0).coord x = (stInit O).coord x) :=
  ⟨fun _ => rfl, appSZ_table,
    put_mask_2_remove_mask_2_restores_coord appSZ (stInit O) 0 (fun _ => rfl) appSZ_table⟩

/-! ## The duplicate test of the Type II loop -/

theorem foldlM_irange_nat {α : Type} (I : Int → α → Prop) (f : α → Int → Except Fault α)
    (a0 : α) (h0 : I 0 a0) :
    ∀ (k : Nat), (∀ m a, 0 ≤ m → m < (k : Int) → I m a →
        ∃ a1, f a m = .ok a1 ∧ I (m + 1) a1) →
      ∃ a1, (irange (k : Int)).foldlM f a0 = .ok a1 ∧ I (k : Int) a1
  | 0, _ => ⟨a0, rfl, h0⟩
  | k + 1, hstep => by
    obtain ⟨a1, h1, hI1⟩ := foldlM_irange_nat I f a0 h0 k
      (fun m a h0 h1 hI => hstep m a h0 (by omega) hI)
    obtain ⟨a2, h2, hI2⟩ := hstep k a1 (by omega) (by omega) hI1
    have hk : ((k + 1 : Nat) : Int) = (k : Int) + 1 := by push_cast; ring
    refine ⟨a2, ?_, by rw [hk]; exact hI2⟩
    rw [hk, irange_succ, List.foldlM_append, h1]
    show List.foldlM f a1 [(k : Int)] = _
    rw [List.foldlM_cons, h2]
    rfl

theorem foldlM_irange_inv {α : Type} (I : Int → α → Prop) (f : α → Int → Except Fault α)
    (n : Int) (a0 : α) (h0 : I 0 a0)
    (hstep : ∀ m a, 0 ≤ m → m < n → I m a → ∃ a1, f a m = .ok a1 ∧ I (m + 1) a1) :
    ∃ a1, (irange n).foldlM f a0 = .ok a1 ∧ I (max n 0) a1 := by
  rw [irange_toNat, ← Int.toNat_eq_max]
  exact foldlM_irange_nat I f a0 h0 n.toNat (fun m a h0 h1 hI => hstep m a h0 (by omega) hI)

theorem foldl_flag (Q : Int → Prop) [DecidablePred Q] :
    ∀ (l : List Int) (c : Int),
      (l.foldl (fun ce ii => if Q ii then 0 else ce) c = 0 ↔ (c = 0 ∨ ∃ x ∈ l, Q x))
  | [], c => by simp
  | x :: l, c => by
    rw [List.foldl_cons, foldl_flag Q l]
    by_cases hq : Q x
    · simp [hq]
    · simp [hq]

theorem foldl_flag_keep (Q : Int → Prop) [DecidablePred Q] :
    ∀ (l : List Int) (c : Int), (¬ ∃ x ∈ l, Q x) →
      l.foldl (fun ce ii => if Q ii then 0 else ce) c = c
  | [], c, _ => rfl
  | x :: l, c, h => by
    rw [List.foldl_cons]
    have hq : ¬ Q x := fun hq => h ⟨x, List.mem_cons_self _ _, hq⟩
    rw [if_neg hq]
    exact foldl_flag_keep Q l c (fun ⟨y, hy, hqy⟩ => h ⟨y, List.mem_cons_of_mem _ hy, hqy⟩)

theorem type2_m_skip (app : App) (st : State) (i k : Int) (e : Enum (List EvData)) (m : Int)
    (h : ¬ dAdmits app st i k m) : type2_m list_add app st i k e m = .ok e := by
  unfold dAdmits at h
  simp only [type2_m]
  rw [if_neg h]

theorem type2_m_seen (app : App) (st : State) (i k : Int) (e : Enum (List EvData)) (m : Int)
    (h : dAdmits app st i k m) (hs : DSeen e k (app.dpropensity m)) :
    type2_m list_add app st i k e m = .ok { e with comevent := 0 } := by
  have hfold : (irange e.nextneib).foldl
      (fun ce ii =>
        if e.comneigh ii 0 = (k : ℚ) ∧ e.comneigh ii 1 = app.dpropensity m then 0 else ce)
      (1 : Int) = 0 := by
    obtain ⟨ii, h0, h1, h2, h3⟩ := hs
    exact (foldl_flag
      (fun ii => e.comneigh ii 0 = (k : ℚ) ∧ e.comneigh ii 1 = app.dpropensity m) _ 1).2
      (Or.inr ⟨ii, (mem_irange _ _).2 ⟨h0, h1⟩, h2, h3⟩)
  unfold dAdmits at h
  simp only [type2_m]
  rw [if_pos h, hfold]
  simp

theorem type2_m_add (app : App) (st : State) (i k : Int) (e : Enum (List EvData)) (m : Int)
    (h : dAdmits app st i k m) (hs : ¬ DSeen e k (app.dpropensity m))
    (hp : app.dpropensity m ≠ 0) :
    type2_m list_add app st i k e m =
      .ok { store := ⟨2, m, -1, k, -1, app.dpropensity m⟩ :: e.store
            comneigh := upd e.comneigh e.nextneib
              (upd (upd (e.comneigh e.nextneib) 0 (k : ℚ)) 1 (app.dpropensity m))
            comevent := 1
            proball := e.proball + app.dpropensity m
            nextneib := e.nextneib + 1 } := by
  have hfold : (irange e.nextneib).foldl
      (fun ce ii =>
        if e.comneigh ii 0 = (k : ℚ) ∧ e.comneigh ii 1 = app.dpropensity m then 0 else ce)
      (1 : Int) = 1 :=
    foldl_flag_keep
      (fun ii => e.comneigh ii 0 = (k : ℚ) ∧ e.comneigh ii 1 = app.dpropensity m) _ 1
      (fun ⟨x, hx, hq⟩ =>
        hs ⟨x, ((mem_irange _ _).1 hx).1, ((mem_irange _ _).1 hx).2, hq.1, hq.2⟩)
  unfold dAdmits at h
  simp only [type2_m]
  rw [if_pos h, hfold]
  simp [list_add, hp]

theorem dseen_congr {e e1 : Enum (List EvData)} (h1 : e1.comneigh = e.comneigh)
    (h2 : e1.nextneib = e.nextneib) (k : Int) (p : ℚ) (h : DSeen e k p) : DSeen e1 k p := by
  obtain ⟨ii, a, b, c, d⟩ := h
  exact ⟨ii, a, by rw [h2]; exact b, by rw [h1]; exact c, by rw [h1]; exact d⟩

theorem type2_m_dinv (app : App) (st : State) (i : Int) (S0 : List EvData) (k : Int)
    (hki : i ≠ k) (hreach : DReached app i k) (H : NonzeroActive app st.pressureOn)
    (e : Enum (List EvData)) (new : List EvData) (m : Int) (hm0 : 0 ≤ m) (hmn : m < app.ntwo)
    (hI : DInv app st i S0 e new)
    (hP : ∀ m1, 0 ≤ m1 → m1 < m → dAdmits app st i k m1 → DSeen e k (app.dpropensity m1)) :
    ∃ e1 new1, type2_m list_add app st i k e m = .ok e1 ∧ DInv app st i S0 e1 new1 ∧
      (∀ k1 p, DSeen e k1 p → DSeen e1 k1 p) ∧
      (dAdmits app st i k m → DSeen e1 k (app.dpropensity m)) := by
  by_cases hadm : dAdmits app st i k m
  · by_cases hs : DSeen e k (app.dpropensity m)
    · have hmono : ∀ k1 p, DSeen e k1 p →
          DSeen ({ e with comevent := 0 } : Enum (List EvData)) k1 p :=
        fun k1 p h => dseen_congr rfl rfl k1 p h
      refine ⟨_, new, type2_m_seen app st i k e m hadm hs, ?_, hmono, fun _ => hmono _ _ hs⟩
      exact ⟨hI.store, hI.next1, hI.row0, hI.rows, fun r hr => hmono _ _ (hI.recs r hr),
        hI.keys, hI.shape⟩
    · have hp : app.dpropensity m ≠ 0 := H.2.1 m hm0 hmn hadm.2.1
      have hn1 := hI.next1
      have hmono : ∀ k1 p, DSeen e k1 p →
          DSeen ({ store := ⟨2, m, -1, k, -1, app.dpropensity m⟩ :: e.store,
                   comneigh := upd e.comneigh e.nextneib
                     (upd (upd (e.comneigh e.nextneib) 0 (k : ℚ)) 1 (app.dpropensity m)),
                   comevent := 1,
                   proball := e.proball + app.dpropensity m,
                   nextneib := e.nextneib + 1 } : Enum (List EvData)) k1 p := by
        rintro k1 p ⟨ii, a, b, c, d⟩
        refine ⟨ii, a, by show ii < e.nextneib + 1; omega, ?_, ?_⟩
        · show upd e.comneigh e.nextneib _ ii 0 = _
          rw [upd_ne _ _ _ _ (by omega)]
          exact c
        · show upd e.comneigh e.nextneib _ ii 1 = _
          rw [upd_ne _ _ _ _ (by omega)]
          exact d
      have hnewrow :
          DSeen ({ store := ⟨2, m, -1, k, -1, app.dpropensity m⟩ :: e.store,
                   comneigh := upd e.comneigh e.nextneib
                     (upd (upd (e.comneigh e.nextneib) 0 (k : ℚ)) 1 (app.dpropensity m)),
                   comevent := 1,
                   proball := e.proball + app.dpropensity m,
                   nextneib := e.nextneib + 1 } : Enum (List EvData)) k
                 (app.dpropensity m) := by
        refine ⟨e.nextneib, by omega, by show e.nextneib < e.nextneib + 1; omega, ?_, ?_⟩
        · show upd e.comneigh e.nextneib _ e.nextneib 0 = _
          rw [upd_same, upd_ne _ _ _ _ (by decide), upd_same]
        · show upd e.comneigh e.nextneib _ e.nextneib 1 = _
          rw [upd_same, upd_same]
      refine ⟨_, ⟨2, m, -1, k, -1, app.dpropensity m⟩ :: new,
        type2_m_add app st i k e m hadm hs hp, ?_, hmono, fun _ => hnewrow⟩
      refine ⟨?_, ?_, ?_, ?_, ?_, ?_, ?_⟩
      · show _ :: e.store = _
        rw [hI.store]
        rfl
      · show 1 ≤ e.nextneib + 1
        omega
      · show upd e.comneigh e.nextneib _ 0 = _
        rw [upd_ne _ _ _ _ (by omega)]
        exact hI.row0
      · intro ii h1 h2
        have h2a : ii < e.nextneib + 1 := h2
        by_cases hii : ii = e.nextneib
        · refine ⟨_, List.mem_cons_self _ _, ?_, ?_⟩
          · show upd e.comneigh e.nextneib _ ii 0 = _
            rw [hii, upd_same, upd_ne _ _ _ _ (by decide), upd_same]
          · show upd e.comneigh e.nextneib _ ii 1 = _
            rw [hii, upd_same, upd_same]
        · obtain ⟨r, hr, c, d⟩ := hI.rows ii h1 (by omega)
          refine ⟨r, List.mem_cons_of_mem _ hr, ?_, ?_⟩
          · show upd e.comneigh e.nextneib _ ii 0 = _
            rw [upd_ne _ _ _ _ hii]
            exact c
          · show upd e.comneigh e.nextneib _ ii 1 = _
            rw [upd_ne _ _ _ _ hii]
            exact d
      · intro r hr
        rcases List.mem_cons.1 hr with h | h
        · rw [h]
          exact hnewrow
        · exact hmono _ _ (hI.recs r h)
      · refine List.pairwise_cons.2 ⟨?_, hI.keys⟩
        intro r hr hsame
        apply hs
        have := hI.recs r hr
        have hk1 : r.kpartner = k := hsame.1.symm
        have hp1 : r.propensity = app.dpropensity m := hsame.2.symm
        rw [hk1, hp1] at this
        exact this
      · intro r hr
        rcases List.mem_cons.1 hr with h | h
        · rw [h]
          refine ⟨⟨rfl, rfl, rfl, fun h => hki h.symm, hm0, hmn, rfl, hadm.2.1⟩,
            ⟨hadm, ?_⟩, hreach⟩
          intro m1 h0 hlt hadm1 heq
          apply hs
          have := hP m1 h0 hlt hadm1
          rw [heq] at this
          exact this
        · exact hI.shape r h
  · refine ⟨e, new, type2_m_skip app st i k e m hadm, hI, fun _ _ h => h,
      fun h => absurd h hadm⟩

theorem type2_kk_dinv (app : App) (st : State) (i : Int) (S0 : List EvData)
    (H : NonzeroActive app st.pressureOn) (j kk : Int)
    (hreach : DReached app i (app.neighbor j kk))
    (e : Enum (List EvData)) (new : List EvData) (hI : DInv app st i S0 e new) :
    ∃ e1 new1, type2_kk list_add app st i j e kk = .ok e1 ∧ DInv app st i S0 e1 new1 ∧
      (∀ k1 p, DSeen e k1 p → DSeen e1 k1 p) ∧
      (app.neighbor j kk ≠ i → DCovered app st i e1 (app.neighbor j kk)) := by
  simp only [type2_kk]
  split_ifs with hik
  · exact ⟨e, new, rfl, hI, fun _ _ h => h, fun h => absurd hik.symm h⟩
  · obtain ⟨e1, h1, new1, hI1, hmono1, hP1⟩ := foldlM_irange_inv
      (fun (m : Int) (a : Enum (List EvData)) =>
        ∃ new1, DInv app st i S0 a new1 ∧ (∀ k1 p, DSeen e k1 p → DSeen a k1 p) ∧
          ∀ m1, 0 ≤ m1 → m1 < m → dAdmits app st i (app.neighbor j kk) m1 →
            DSeen a (app.neighbor j kk) (app.dpropensity m1))
      (type2_m list_add app st i (app.neighbor j kk)) app.ntwo e
      ⟨new, hI, fun _ _ h => h, fun m1 h0 h1 => absurd h1 (by omega)⟩
      (by
        rintro m a hm0 hmn ⟨new1, hIa, hmono, hP⟩
        obtain ⟨a1, new2, hok, hI2, hmono2, hadd⟩ :=
          type2_m_dinv app st i S0 _ hik hreach H a new1 m hm0 hmn hIa hP
        refine ⟨a1, hok, new2, hI2, fun k1 p h => hmono2 _ _ (hmono _ _ h), ?_⟩
        intro m1 h0 h1 hadm
        by_cases hm1 : m1 = m
        · rw [hm1] at hadm ⊢
          exact hadd hadm
        · exact hmono2 _ _ (hP m1 h0 (by omega) hadm))
    refine ⟨e1, new1, h1, hI1, hmono1, fun _ m hm0 hmn hadm => ?_⟩
    exact hP1 m hm0 (lt_of_lt_of_le hmn (le_max_left _ _)) hadm

theorem type2_jj_dinv (app : App) (st : State) (i : Int) (S0 : List EvData)
    (H : NonzeroActive app st.pressureOn) (jj : Int) (hj0 : 0 ≤ jj)
    (hjn : jj < app.numneigh i)
    (e : Enum (List EvData)) (new : List EvData) (hI : DInv app st i S0 e new) :
    ∃ e1 new1, type2_jj list_add app st i e jj = .ok e1 ∧ DInv app st i S0 e1 new1 ∧
      (∀ k1 p, DSeen e k1 p → DSeen e1 k1 p) ∧
      ∀ kk, 0 ≤ kk → kk < app.numneigh (app.neighbor i jj) →
        app.neighbor (app.neighbor i jj) kk ≠ i →
        DCovered app st i e1 (app.neighbor (app.neighbor i jj) kk) := by
  unfold type2_jj
  obtain ⟨e1, h1, new1, hI1, hmono1, hP1⟩ := foldlM_irange_inv
    (fun (kk : Int) (a : Enum (List EvData)) =>
      ∃ new1, DInv app st i S0 a new1 ∧ (∀ k1 p, DSeen e k1 p → DSeen a k1 p) ∧
        ∀ k1, 0 ≤ k1 → k1 < kk → app.neighbor (app.neighbor i jj) k1 ≠ i →
          DCovered app st i a (app.neighbor (app.neighbor i jj) k1))
    (type2_kk list_add app st i (app.neighbor i jj)) (app.numneigh (app.neighbor i jj)) e
    ⟨new, hI, fun _ _ h => h, fun k1 h0 h1 => absurd h1 (by omega)⟩
    (by
      rintro kk a hk0 hkn ⟨new1, hIa, hmono, hP⟩
      obtain ⟨a1, new2, hok, hI2, hmono2, hcov⟩ :=
        type2_kk_dinv app st i S0 H (app.neighbor i jj) kk
          ⟨jj, kk, hj0, hjn, hk0, hkn, rfl⟩ a new1 hIa
      refine ⟨a1, hok, new2, hI2, fun k1 p h => hmono2 _ _ (hmono _ _ h), ?_⟩
      intro k1 h0 h1 hne
      by_cases hk1 : k1 = kk
      · rw [hk1] at hne ⊢
        exact hcov hne
      · exact fun m hm0 hmn hadm => hmono2 _ _ (hP k1 h0 (by omega) hne m hm0 hmn hadm))
  refine ⟨e1, new1, h1, hI1, hmono1, fun kk hk0 hkn hne => ?_⟩
  exact hP1 kk hk0 (lt_of_lt_of_le hkn (le_max_left _ _)) hne

theorem type2_loop_dinv (app : App) (st : State) (i : Int) (S0 : List EvData)
    (H : NonzeroActive app st.pressureOn)
    (e : Enum (List EvData)) (new : List EvData) (hI : DInv app st i S0 e new) :
    ∃ e1 new1, (irange (app.numneigh i)).foldlM (type2_jj list_add app st i) e = .ok e1 ∧
      DInv app st i S0 e1 new1 ∧
      ∀ k, DReached app i k → k ≠ i → DCovered app st i e1 k := by
  obtain ⟨e1, h1, new1, hI1, hP1⟩ := foldlM_irange_inv
    (fun (jj : Int) (a : Enum (List EvData)) =>
      ∃ new1, DInv app st i S0 a new1 ∧
        ∀ j1 kk, 0 ≤ j1 → j1 < jj → 0 ≤ kk → kk < app.numneigh (app.neighbor i j1) →
          app.neighbor (app.neighbor i j1) kk ≠ i →
          DCovered app st i a (app.neighbor (app.neighbor i j1) kk))
    (type2_jj list_add app st i) (app.numneigh i) e
    ⟨new, hI, fun j1 kk h0 h1 => absurd h1 (by omega)⟩
    (by
      rintro jj a hj0 hjn ⟨new1, hIa, hP⟩
      obtain ⟨a1, new2, hok, hI2, hmono2, hcov⟩ :=
        type2_jj_dinv app st i S0 H jj hj0 hjn a new1 hIa
      refine ⟨a1, hok, new2, hI2, ?_⟩
      intro j1 kk h0 h1 hk0 hkn hne
      by_cases hj1 : j1 = jj
      · rw [hj1] at hne hkn ⊢
        exact hcov kk hk0 hkn hne
      · exact fun m hm0 hmn hadm =>
          hmono2 _ _ (hP j1 kk h0 (by omega) hk0 hkn hne m hm0 hmn hadm))
  refine ⟨e1, new1, h1, hI1, ?_⟩
  rintro k ⟨jj, kk, hj0, hjn, hk0, hkn, rfl⟩ hne
  exact hP1 jj kk hj0 (lt_of_lt_of_le hjn (le_max_left _ _)) hk0 hkn hne

theorem added_events_D (app : App) (st : State) (i : Int)
    (H : NonzeroActive app st.pressureOn) :
    ∃ (e e2 : Enum (List EvData)) (fs vs ds : List EvData),
      added_events app st i = .ok e ∧
      e.store = nullEvent :: (fs ++ (vs ++ (ds ++
        (((irange app.none).filter (fun m => decide (sAdmits app st i m))).map
          (sEvent app)).reverse))) ∧
      (∀ r ∈ fs, IsFEvent app st r) ∧ (∀ r ∈ vs, IsVEvent app st r) ∧
      DInv app st i
        ((((irange app.none).filter (fun m => decide (sAdmits app st i m))).map
          (sEvent app)).reverse ++ []) e2 ds ∧
      (∀ k, DReached app i k → k ≠ i → DCovered app st i e2 k) := by
  have h1 := type1_loop_exact app st i (irange app.none)
    { store := [], comneigh := st.comneigh, comevent := st.comevent, proball := 0,
      nextneib := 0 }
    (fun m hm hadm => H.1 m ((mem_irange _ _).1 hm).1 ((mem_irange _ _).1 hm).2 hadm.2.2.1)
  obtain ⟨e2, ds, h2, hI, hcov⟩ := type2_loop_dinv app st i
    ((((irange app.none).filter (fun m => decide (sAdmits app st i m))).map
          (sEvent app)).reverse ++ []) H
    { store := ((((irange app.none).filter (fun m => decide (sAdmits app st i m))).map
          (sEvent app)).reverse ++ [])
      comneigh := st.comneigh, comevent := st.comevent
      proball := 0 + ((((irange app.none).filter
        (fun m => decide (sAdmits app st i m))).map (sEvent app)).map
          (fun r => r.propensity)).sum
      nextneib := 1 } []
    ⟨rfl, le_refl _, rfl, fun ii h1 h2 => absurd h2 (by
        show ¬ ii < 1
        omega),
      fun r hr => absurd hr (List.not_mem_nil _), List.Pairwise.nil,
      fun r hr => absurd hr (List.not_mem_nil _)⟩
  obtain ⟨e3, h3, vs, hv1, hv2, _⟩ := type3_loop_ext app st i H e2
  obtain ⟨e4, h4, fs, hf1, hf2, _⟩ := type4_loop_ext app st i H e3
  refine ⟨{ e4 with store := nullEvent :: e4.store, proball := e4.proball + 1 / 10 }, e2,
    fs, vs, ds, ?_, ?_, hf2, hv2, hI, hcov⟩
  · unfold added_events enumerate
    simp only [bind, Except.bind]
    rw [h1]
    simp only []
    rw [h2]
    simp only []
    rw [h3]
    simp only []
    rw [h4]
    simp [type5, list_add, nullEvent]
  · simp only [hf1, hv1, hI.store, List.append_nil]

theorem filter_key_le_one (p : EvData → Bool) (k0 : Int) (p0 : ℚ) :
    ∀ l : List EvData,
      l.Pairwise (fun r r1 => ¬ (r.kpartner = r1.kpartner ∧ r.propensity = r1.propensity)) →
      (∀ r ∈ l, p r = true → r.kpartner = k0 ∧ r.propensity = p0) →
      (l.filter p).length ≤ 1
  | [], _, _ => by simp
  | a :: l, hpw, hkey => by
    rw [List.pairwise_cons] at hpw
    by_cases hpa : p a = true
    · have ha := hkey a (List.mem_cons_self _ _) hpa
      have hnil : l.filter p = [] := by
        rw [List.filter_eq_nil_iff]
        intro b hb hpb
        have hb2 := hkey b (List.mem_cons_of_mem _ hb) hpb
        exact hpw.1 b hb ⟨ha.1.trans hb2.1.symm, ha.2.trans hb2.2.symm⟩
      rw [List.filter_cons_of_pos hpa, hnil]
      simp
    · rw [List.filter_cons_of_neg hpa]
      exact filter_key_le_one p k0 p0 l hpw.2
        (fun r hr => hkey r (List.mem_cons_of_mem _ hr))

theorem dinv_count (app : App) (st : State) (i : Int) (S0 : List EvData)
    (e : Enum (List EvData)) (ds : List EvData) (hI : DInv app st i S0 e ds)
    (k m : Int) (hm0 : 0 ≤ m) (hmn : m < app.ntwo) (hcov : DCovered app st i e k)
    (hrow0 : ¬ (st.comneigh 0 0 = (k : ℚ) ∧ st.comneigh 0 1 = app.dpropensity m)) :
    (dFirst app st i k m →
      (ds.filter (fun r => decide (r.style = 2 ∧ r.kpartner = k ∧ r.which = m))).length = 1) ∧
    (¬ dFirst app st i k m →
      (ds.filter (fun r => decide (r.style = 2 ∧ r.kpartner = k ∧ r.which = m))).length = 0) := by
  have hle := filter_key_le_one
    (fun r => decide (r.style = 2 ∧ r.kpartner = k ∧ r.which = m)) k (app.dpropensity m) ds
    hI.keys
    (fun r hr hp => by
      have hp2 : r.style = 2 ∧ r.kpartner = k ∧ r.which = m := by simpa using hp
      refine ⟨hp2.2.1, ?_⟩
      rw [(hI.shape r hr).1.2.2.2.2.2.2.1, hp2.2.2])
  constructor
  · intro hfirst
    obtain ⟨ii, h0, h1, c, d⟩ := hcov m hm0 hmn hfirst.1
    have hii : 1 ≤ ii := by
      by_contra hlt
      have hz : ii = 0 := by omega
      rw [hz, hI.row0] at c d
      exact hrow0 ⟨c, d⟩
    obtain ⟨r, hr, c1, d1⟩ := hI.rows ii hii h1
    have hk : r.kpartner = k := by
      have : (r.kpartner : ℚ) = (k : ℚ) := by rw [← c1, c]
      exact_mod_cast this
    have hp : r.propensity = app.dpropensity m := by rw [← d1, d]
    obtain ⟨hshape, hrfirst, _⟩ := hI.shape r hr
    have hpw : app.dpropensity r.which = app.dpropensity m := by
      rw [← hshape.2.2.2.2.2.2.1, hp]
    have hw : r.which = m := by
      rcases lt_trichotomy r.which m with hlt | heq | hgt
      · exact absurd hpw (hfirst.2 r.which hshape.2.2.2.2.1 hlt (by rw [← hk]; exact hrfirst.1))
      · exact heq
      · exact absurd hpw.symm (hrfirst.2 m hm0 hgt (by rw [hk]; exact hfirst.1))
    have hmem : r ∈ ds.filter (fun r => decide (r.style = 2 ∧ r.kpartner = k ∧ r.which = m)) :=
      List.mem_filter.2 ⟨hr, by simp [hshape.1, hk, hw]⟩
    have := List.length_pos_of_mem hmem
    omega
  · intro hnot
    rw [List.length_eq_zero, List.filter_eq_nil_iff]
    intro r hr hp
    have hp2 : r.style = 2 ∧ r.kpartner = k ∧ r.which = m := by simpa using hp
    have := (hI.shape r hr).2.1
    rw [hp2.2.1, hp2.2.2] at this
    exact hnot this

theorem site_propensity_of_added (app : App) {st : State} {A : Int → List EvData}
    (hA : EventLists app.nlocal st.es A) {i : Int} (hi0 : 0 ≤ i) (hin : i < app.nlocal)
    {fuel : Nat} (hfuel : (A i).length ≤ fuel) (e : Enum (List EvData))
    (h : added_events app st i = .ok e) :
    ∃ st1, site_propensity app fuel st i = .ok (st1, e.proball) ∧
      EventLists app.nlocal st1.es (upd A i e.store) := by
  have hsim := site_propensity_sim app hA hi0 hin hfuel
  rw [h] at hsim
  cases hres : site_propensity app fuel st i with
  | error err =>
    rw [hres] at hsim
    exact hsim.elim
  | ok r =>
    rw [hres] at hsim
    obtain ⟨r1, _, r3, _⟩ := hsim
    refine ⟨r.1, ?_, r1⟩
    rw [← r3]

theorem site_propensity_of_addedList (app : App) {st : State} {A : Int → List EvData}
    (hA : EventLists app.nlocal st.es A) {i : Int} (hi0 : 0 ≤ i) (hin : i < app.nlocal)
    {fuel : Nat} (hfuel : (A i).length ≤ fuel) (l : List EvData)
    (h : addedList app st i = some l) :
    ∃ st1 p, site_propensity app fuel st i = .ok (st1, p) ∧
      EventLists app.nlocal st1.es (upd A i l) := by
  unfold addedList at h
  cases hadd : added_events app st i with
  | error err =>
    rw [hadd] at h
    cases h
  | ok e =>
    rw [hadd] at h
    have hl : e.store = l := by simpa using h
    obtain ⟨st1, h1, h2⟩ := site_propensity_of_added app hA hi0 hin hfuel e hadd
    exact ⟨st1, e.proball, h1, hl ▸ h2⟩

/-- C18 at a failing input (scenario S5 with a stale scratch row). Site 3 is reached
from site 0 through the two intermediates 1 and 2 and the single declared D reaction
is admissible for the pair (0, 3), yet `site_propensity(0)` links the null event only:
the duplicate test of lines 519-521 starts at row `comneigh[0]`, which the call never
writes (`nextneib` starts at 1), and that row holds `(3, 1.0)`. With the row holding
`(0, 0.0)` the same call links exactly one D event for partner 3. -/
theorem site_propensity_stale_row_drops_D_event :
    (appD.neighbor 0 0 = 1 ∧ appD.neighbor 0 1 = 2 ∧ appD.neighbor 1 1 = 3 ∧
      appD.neighbor 2 1 = 3) ∧
    appD.ntwo = 1 ∧ dAdmits appD stDStale 0 3 0 ∧
    (∃ st1 p, site_propensity appD 0 stDStale 0 = .ok (st1, p) ∧
      EventLists appD.nlocal st1.es (upd (fun _ => []) 0 [nullEvent])) ∧
    (∃ st1 p, site_propensity appD 0 stD 0 = .ok (st1, p) ∧
      EventLists appD.nlocal st1.es
        (upd (fun _ => []) 0 [nullEvent, ⟨2, 0, -1, 3, -1, 1⟩])) := by
  refine ⟨by decide, by decide, by decide, ?_, ?_⟩
  · exact site_propensity_of_addedList appD
      (show EventLists appD.nlocal stDStale.es (fun _ => []) from
        setup_app_lists appD _ (le_refl _))
      (le_refl _) (by decide) (le_refl _) _ (by decide!)
  · exact site_propensity_of_addedList appD
      (show EventLists appD.nlocal stD.es (fun _ => []) from
        setup_app_lists appD _ (le_refl _))
      (le_refl _) (by decide) (le_refl _) _ (by decide!)

/-- Counterexample to C19 as stated: on the lattice of scenario S5 with two declared D
reactions of equal propensity, both admissible for the pair (0, 3), the list of site 0
after `site_propensity(0)` holds the null event and one D event with `which = 0`; no
event has `which = 1`. -/
theorem site_propensity_equal_propensity_one_D_event :
    dAdmits appD2 stD2 0 3 0 ∧ dAdmits appD2 stD2 0 3 1 ∧
    appD2.dpropensity 0 = appD2.dpropensity 1 ∧
    ∃ st1 p, site_propensity appD2 0 stD2 0 = .ok (st1, p) ∧
      EventLists appD2.nlocal st1.es
        (upd (fun _ => []) 0 [nullEvent, ⟨2, 0, -1, 3, -1, 1⟩]) := by
  refine ⟨by decide, by decide, by decide!, ?_⟩
  exact site_propensity_of_addedList appD2
    (show EventLists appD2.nlocal stD2.es (fun _ => []) from
      setup_app_lists appD2 _ (le_refl _))
    (le_refl _) (by decide) (le_refl _) _ (by decide!)

/-- C19, amended. Class-D events are deduplicated by (partner, propensity). For a
partner `k` other than `i` that the Type II loops visit, and a declared D reaction `m`
whose pair `(k, propensity of m)` is not what the never-written row `comneigh[0]`
holds, the list of site `i` after `site_propensity(i)` contains exactly one D event
with `which = m` and `kpartner = k` if `m` is admissible for `(i, k)` and no admissible
reaction of lower index has the same propensity, and none otherwise; every D event has
`jpartner = gpartner = -1`. So two admissible reactions get one event each when their
propensities differ, and only the lower-indexed one gets an event when they are
equal. -/
theorem site_propensity_D_events (app : App) (st : State) (A : Int → List EvData)
    (i : Int) (fuel : Nat)
    (hA : EventLists app.nlocal st.es A) (hi0 : 0 ≤ i) (hin : i < app.nlocal)
    (hfuel : st.es.maxevent.toNat ≤ fuel) (H : NonzeroActive app st.pressureOn)
    (k m : Int) (hk : k ≠ i) (hreach : DReached app i k) (hm0 : 0 ≤ m) (hmn : m < app.ntwo)
    (hrow0 : ¬ (st.comneigh 0 0 = (k : ℚ) ∧ st.comneigh 0 1 = app.dpropensity m)) :
    ∃ (st1 : State) (p : ℚ) (l : List EvData),
      site_propensity app fuel st i = .ok (st1, p) ∧
      EventLists app.nlocal st1.es (upd A i l) ∧
      (dFirst app st i k m →
        (l.filter (fun r => decide (r.style = 2 ∧ r.kpartner = k ∧ r.which = m))).length
          = 1) ∧
      (¬ dFirst app st i k m →
        (l.filter (fun r => decide (r.style = 2 ∧ r.kpartner = k ∧ r.which = m))).length
          = 0) ∧
      ∀ r ∈ l, r.style = 2 → r.jpartner = -1 ∧ r.gpartner = -1 := by
  have hlen := le_trans (lists_length_le hA hi0 hin) hfuel
  obtain ⟨e, e2, fs, vs, ds, h1, h2, hf, hv, hI, hcov⟩ := added_events_D app st i H
  obtain ⟨st1, h3, h4⟩ := site_propensity_of_added app hA hi0 hin hlen e h1
  have hcount := dinv_count app st i _ e2 ds hI k m hm0 hmn (hcov k hreach hk) hrow0
  have hnil : ∀ l : List EvData, (∀ r ∈ l, r.style ≠ 2) →
      l.filter (fun r => decide (r.style = 2 ∧ r.kpartner = k ∧ r.which = m)) = [] := by
    intro l hl
    rw [List.filter_eq_nil_iff]
    intro r hr hp
    have hp2 : r.style = 2 ∧ r.kpartner = k ∧ r.which = m := by simpa using hp
    exact hl r hr hp2.1
  have hfilter : e.store.filter
      (fun r => decide (r.style = 2 ∧ r.kpartner = k ∧ r.which = m)) =
      ds.filter (fun r => decide (r.style = 2 ∧ r.kpartner = k ∧ r.which = m)) := by
    rw [h2, List.filter_cons_of_neg (by simp [nullEvent]), List.filter_append,
      List.filter_append, List.filter_append,
      hnil fs (fun r hr => by rw [(hf r hr).1]; decide),
      hnil vs (fun r hr => by rw [(hv r hr).1]; decide),
      hnil ((((irange app.none).filter (fun m => decide (sAdmits app st i m))).map
          (sEvent app)).reverse) (fun r hr => by
        rw [List.mem_reverse, List.mem_map] at hr
        obtain ⟨m1, _, rfl⟩ := hr
        show (1 : Int) ≠ 2
        decide)]
    simp
  refine ⟨st1, e.proball, e.store, h3, h4, ?_, ?_, ?_⟩
  · rw [hfilter]
    exact hcount.1
  · rw [hfilter]
    exact hcount.2
  · intro r hr hs
    rw [h2] at hr
    rcases List.mem_cons.1 hr with h | h
    · rw [h] at hs
      exact absurd hs (by decide)
    rcases List.mem_append.1 h with h | h
    · rw [(hf r h).1] at hs
      exact absurd hs (by decide)
    rcases List.mem_append.1 h with h | h
    · rw [(hv r h).1] at hs
      exact absurd hs (by decide)
    rcases List.mem_append.1 h with h | h
    · exact ⟨(hI.shape r h).1.2.1, (hI.shape r h).1.2.2.1⟩
    · rw [List.mem_reverse, List.mem_map] at h
      obtain ⟨m1, _, rfl⟩ := h
      exact absurd hs (show (1 : Int) ≠ 2 by decide)

theorem appD2_nonzero : NonzeroProps appD2 := by
  refine ⟨?_, ?_, ?_, ?_⟩
  · intro m h0 h1
    simp [appD2, appD, appNull] at h1
    omega
  · intro m _ _
    simp [appD2, appD]
  · intro m h0 h1
    simp [appD2, appD, appNull] at h1
    omega
  · intro m h0 h1
    simp [appD2, appD, appNull] at h1
    omega

/-- Witness for the amended C19: the lattice of scenario S5 with two D reactions of
equal propensity; reaction 0 is the lowest-indexed admissible one for the pair (0, 3). -/
theorem site_propensity_D_events_witness :
    dFirst appD2 stD2 0 3 0 ∧ ¬ dFirst appD2 stD2 0 3 1 ∧
    ∃ (st1 : State) (p : ℚ) (l : List EvData),
      site_propensity appD2 0 stD2 0 = .ok (st1, p) ∧
      EventLists appD2.nlocal st1.es (upd (fun _ => []) 0 l) ∧
      (dFirst appD2 stD2 0 3 0 →
        (l.filter (fun r => decide (r.style = 2 ∧ r.kpartner = 3 ∧ r.which = 0))).length
          = 1) ∧
      (¬ dFirst appD2 stD2 0 3 0 →
        (l.filter (fun r => decide (r.style = 2 ∧ r.kpartner = 3 ∧ r.which = 0))).length
          = 0) ∧
      ∀ r ∈ l, r.style = 2 → r.jpartner = -1 ∧ r.gpartner = -1 :=
  ⟨⟨by decide, fun m1 h0 h1 => absurd h1 (by omega)⟩,
    fun h => h.2 0 (le_refl _) (by decide) (by decide) (by decide!),
    site_propensity_D_events appD2 stD2 (fun _ => []) 0 0
      (setup_app_lists appD2 _ (le_refl _)) (le_refl _) (by decide) (by decide!)
      (nonzeroActive_of_nonzeroProps appD2_nonzero _) 3 0 (by decide)
      ⟨0, 1, by decide, by decide, by decide, by decide, by decide⟩ (le_refl _) (by decide)
      (fun h => absurd h.1 (by decide!))⟩

/-! ## The neighbourhood refresh of `site_event` -/

theorem hops_zero (app : App) (t s : Int) : withinHops app 0 t s = true ↔ s = t := by
  simp [withinHops]

theorem hops_succ (app : App) (n : Nat) (t s : Int) :
    withinHops app (n + 1) t s = true ↔
      (s = t ∨ ∃ jj, 0 ≤ jj ∧ jj < app.numneigh t ∧
        withinHops app n (app.neighbor t jj) s = true) := by
  simp only [withinHops, Bool.or_eq_true, decide_eq_true_eq, List.any_eq_true]
  constructor
  · rintro (h | ⟨jj, hjj, h⟩)
    · exact Or.inl h
    · exact Or.inr ⟨jj, ((mem_irange _ _).1 hjj).1, ((mem_irange _ _).1 hjj).2, h⟩
  · rintro (h | ⟨jj, h0, h1, h⟩)
    · exact Or.inl h
    · exact Or.inr ⟨jj, (mem_irange _ _).2 ⟨h0, h1⟩, h⟩

theorem hops_self (app : App) (n : Nat) (t : Int) : withinHops app n t t = true := by
  cases n with
  | zero => exact (hops_zero app t t).2 rfl
  | succ n => exact (hops_succ app n t t).2 (Or.inl rfl)

theorem refresh_guarded_trace (app : App) (fuel : Nat) (st3 : State)
    (hnz : NonzeroProps app) (hG : ClosedOwnedGraph app)
    (acc : State × Int) (T : List Int) (s : Int) (hs0 : 0 ≤ s) (hsn : s < app.nlocal)
    (hT : RefreshTrace app fuel st3 acc T) :
    ∃ a1 T1, refresh_guarded app fuel acc s = .ok a1 ∧ RefreshTrace app fuel st3 a1 T1 ∧
      (T1 = T ∨ T1 = T ++ [s]) ∧ s ∈ T1 := by
  obtain ⟨hfold, hinv, hnd, hrange, hech, hes, hlen⟩ := hT
  unfold refresh_guarded
  split_ifs with hgd
  · obtain ⟨⟨B, hB, hb⟩, hcore⟩ := hinv
    obtain ⟨a1, e1, e2, _, d2, d3, d4⟩ := refresh_site_full app fuel st3 hnz acc.1 acc.2 B hB hb
      s hs0 hsn (hb s hs0 hsn hgd.2) hcore
    have hsT : s ∉ T := fun hmem => (hech (app.i2site s)).2 ⟨s, hmem, rfl⟩ hgd.2
    refine ⟨a1, T ++ [s], e1, ⟨?_, e2, ?_, ?_, ?_, ?_, ?_⟩, Or.inr rfl, by simp⟩
    · rw [List.foldlM_append, hfold]
      show List.foldlM (refresh_site app fuel) acc [s] = _
      rw [List.foldlM_cons]
      have e1b : refresh_site app fuel acc s = .ok a1 := e1
      rw [e1b]
      rfl
    · rw [List.nodup_append]
      refine ⟨hnd, List.nodup_singleton _, ?_⟩
      intro x hx hx2
      rw [List.mem_singleton] at hx2
      exact hsT (hx2 ▸ hx)
    · intro x hx
      rcases List.mem_append.1 hx with h | h
      · exact hrange x h
      · rw [List.mem_singleton] at h
        rw [h]
        exact ⟨hs0, hsn⟩
    · intro y
      rw [d2]
      by_cases hy : y = app.i2site s
      · rw [hy, upd_same]
        exact ⟨fun _ => ⟨s, by simp, rfl⟩, fun _ => by decide⟩
      · rw [upd_ne _ _ _ _ hy, hech y]
        constructor
        · rintro ⟨x, hx, hxy⟩
          exact ⟨x, List.mem_append_left _ hx, hxy⟩
        · rintro ⟨x, hx, hxy⟩
          rcases List.mem_append.1 hx with h | h
          · exact ⟨x, h, hxy⟩
          · rw [List.mem_singleton] at h
            rw [h] at hxy
            exact absurd hxy.symm hy
    · rw [d4, d3, hlen, irange_succ, List.map_append, List.map_append]
      have h1 : (irange (T.length : Int)).map
          (upd acc.1.esites (T.length : Int) (app.i2site s)) =
          (irange (T.length : Int)).map acc.1.esites := by
        apply List.map_congr_left
        intro m hm
        have := (mem_irange _ _).1 hm
        rw [upd_ne _ _ _ _ (by omega)]
      rw [h1, ← hlen, hes, hlen]
      simp [upd_same]
    · rw [d4, hlen, List.length_append]
      simp
  · have hmark : acc.1.echeck (app.i2site s) ≠ 0 := fun h0 => hgd ⟨hG.1 s hs0 hsn, h0⟩
    obtain ⟨x, hxT, heq⟩ := (hech _).1 hmark
    have hxs : x = s := hG.2.1 x s (hrange x hxT).1 (hrange x hxT).2 hs0 hsn heq
    exact ⟨acc, T, rfl, ⟨hfold, hinv, hnd, hrange, hech, hes, hlen⟩, Or.inl rfl, hxs ▸ hxT⟩

theorem refresh_nbr_loop (app : App) (fuel : Nat) (st3 : State) (i : Int) (k : Nat) (t : Int)
    (body : State × Int → Int → Except Fault (State × Int))
    (hbody : ∀ (a : State × Int) (T : List Int) (jj : Int), 0 ≤ jj → jj < app.numneigh t →
      RefreshTrace app fuel st3 a T → (∀ x ∈ T, withinHops app 4 i x = true) →
      ∃ a1 T1, body a jj = .ok a1 ∧ RefreshTrace app fuel st3 a1 T1 ∧ (∀ x ∈ T, x ∈ T1) ∧
        (∀ x ∈ T1, withinHops app 4 i x = true) ∧
        (∀ x, withinHops app k (app.neighbor t jj) x = true → x ∈ T1))
    (acc : State × Int) (T : List Int) (hT : RefreshTrace app fuel st3 acc T)
    (hS : ∀ x ∈ T, withinHops app 4 i x = true) (ht : t ∈ T) :
    ∃ a1 T1, (irange (app.numneigh t)).foldlM body acc = .ok a1 ∧
      RefreshTrace app fuel st3 a1 T1 ∧ (∀ x ∈ T, x ∈ T1) ∧
      (∀ x ∈ T1, withinHops app 4 i x = true) ∧
      (∀ x, withinHops app (k + 1) t x = true → x ∈ T1) := by
  obtain ⟨a1, h1, T1, hT1, hsub, hS1, hcov⟩ := foldlM_irange_inv
    (fun (jj : Int) (a : State × Int) =>
      ∃ T1, RefreshTrace app fuel st3 a T1 ∧ (∀ x ∈ T, x ∈ T1) ∧
        (∀ x ∈ T1, withinHops app 4 i x = true) ∧
        ∀ j1, 0 ≤ j1 → j1 < jj → ∀ x, withinHops app k (app.neighbor t j1) x = true → x ∈ T1)
    body (app.numneigh t) acc
    ⟨T, hT, fun x hx => hx, hS, fun j1 h0 h1 => absurd h1 (by omega)⟩
    (by
      rintro jj a hj0 hjn ⟨T1, hT1, hsub, hS1, hcov⟩
      obtain ⟨a2, T2, hok, hT2, hsub2, hS2, hcov2⟩ := hbody a T1 jj hj0 hjn hT1 hS1
      refine ⟨a2, hok, T2, hT2, fun x hx => hsub2 x (hsub x hx), hS2, ?_⟩
      intro j1 h0 h1 x hx
      by_cases hj1 : j1 = jj
      · rw [hj1] at hx
        exact hcov2 x hx
      · exact hsub2 x (hcov j1 h0 (by omega) x hx))
  refine ⟨a1, T1, h1, hT1, hsub, hS1, ?_⟩
  intro x hx
  rcases (hops_succ app k t x).1 hx with h | ⟨jj, h0, hn, h⟩
  · rw [h]
    exact hsub t ht
  · exact hcov jj h0 (lt_of_lt_of_le hn (le_max_left _ _)) x h

theorem refresh_l4_trace (app : App) (fuel : Nat) (st3 : State) (i : Int)
    (hnz : NonzeroProps app) (hG : ClosedOwnedGraph app) :
    TraceStep app fuel st3 i 1 (refresh_l4 app fuel) := by
  intro t acc T ht0 htn hT hS htT hR
  unfold refresh_l4
  refine refresh_nbr_loop app fuel st3 i 0 t _ ?_ acc T hT hS htT
  intro a T1 jj hj0 hjn hT1 hS1
  have hs := hG.2.2 t jj ht0 htn hj0 hjn
  obtain ⟨a2, T2, hok, hT2, hor, hmem⟩ :=
    refresh_guarded_trace app fuel st3 hnz hG a T1 _ hs.1 hs.2 hT1
  have hW : withinHops app 4 i (app.neighbor t jj) = true :=
    hR _ ((hops_succ app 0 t _).2 (Or.inr ⟨jj, hj0, hjn, hops_self app 0 _⟩))
  refine ⟨a2, T2, hok, hT2, ?_, ?_, ?_⟩
  · intro x hx
    rcases hor with h | h
    · rw [h]
      exact hx
    · rw [h]
      exact List.mem_append_left _ hx
  · intro x hx
    rcases hor with h | h
    · rw [h] at hx
      exact hS1 x hx
    · rw [h] at hx
      rcases List.mem_append.1 hx with h2 | h2
      · exact hS1 x h2
      · rw [List.mem_singleton] at h2
        rw [h2]
        exact hW
  · intro x hx
    rw [(hops_zero app _ x).1 hx]
    exact hmem

theorem refresh_level (app : App) (fuel : Nat) (st3 : State) (i : Int)
    (hnz : NonzeroProps app) (hG : ClosedOwnedGraph app) (k : Nat)
    (inner : Int → State × Int → Except Fault (State × Int))
    (hinner : TraceStep app fuel st3 i k inner) :
    TraceStep app fuel st3 i (k + 1)
      (fun t acc => (irange (app.numneigh t)).foldlM
        (fun a jj =>
          match refresh_guarded app fuel a (app.neighbor t jj) with
          | .ok a1 => inner (app.neighbor t jj) a1
          | .error err => .error err) acc) := by
  intro t acc T ht0 htn hT hS htT hR
  refine refresh_nbr_loop app fuel st3 i k t _ ?_ acc T hT hS htT
  intro a T1 jj hj0 hjn hT1 hS1
  have hs := hG.2.2 t jj ht0 htn hj0 hjn
  obtain ⟨a2, T2, hok, hT2, hor, hmem⟩ :=
    refresh_guarded_trace app fuel st3 hnz hG a T1 _ hs.1 hs.2 hT1
  have hW : withinHops app 4 i (app.neighbor t jj) = true :=
    hR _ ((hops_succ app k t _).2 (Or.inr ⟨jj, hj0, hjn, hops_self app k _⟩))
  have hsub2 : ∀ x ∈ T1, x ∈ T2 := by
    intro x hx
    rcases hor with h | h
    · rw [h]
      exact hx
    · rw [h]
      exact List.mem_append_left _ hx
  have hS2 : ∀ x ∈ T2, withinHops app 4 i x = true := by
    intro x hx
    rcases hor with h | h
    · rw [h] at hx
      exact hS1 x hx
    · rw [h] at hx
      rcases List.mem_append.1 hx with h2 | h2
      · exact hS1 x h2
      · rw [List.mem_singleton] at h2
        rw [h2]
        exact hW
  obtain ⟨a3, T3, hok3, hT3, hsub3, hS3, hcov3⟩ :=
    hinner (app.neighbor t jj) a2 T2 hs.1 hs.2 hT2 hS2 hmem
      (fun x hx => hR x ((hops_succ app k t x).2 (Or.inr ⟨jj, hj0, hjn, hx⟩)))
  refine ⟨a3, T3, ?_, hT3, fun x hx => hsub3 x (hsub2 x hx), hS3, hcov3⟩
  show (match refresh_guarded app fuel a (app.neighbor t jj) with
    | .ok a1 => inner (app.neighbor t jj) a1
    | .error err => .error err) = _
  rw [hok]
  exact hok3

theorem refresh_l1_trace (app : App) (fuel : Nat) (st3 : State) (i : Int)
    (hnz : NonzeroProps app) (hG : ClosedOwnedGraph app) :
    TraceStep app fuel st3 i 4 (refresh_l1 app fuel) :=
  refresh_level app fuel st3 i hnz hG 3 (refresh_l2 app fuel)
    (refresh_level app fuel st3 i hnz hG 2 (refresh_l3 app fuel)
      (refresh_level app fuel st3 i hnz hG 1 (refresh_l4 app fuel)
        (refresh_l4_trace app fuel st3 i hnz hG)))

theorem apply_event_echeck (app : App) (st st1 : State) (i rstyle which j k g : Int)
    (h : apply_event app st i rstyle which j k g = .ok st1) : st1.echeck = st.echeck := by
  unfold apply_event at h
  split_ifs at h <;> cases h <;> rfl

theorem pulse_update_echeck (app : App) (st : State) (time : ℚ) :
    (pulse_update app st time).echeck = st.echeck := by
  unfold pulse_update
  split_ifs <;> rfl

theorem run_mask_echeck_zero (app : App) (st : State) (a : MaskAction)
    (hz : ∀ y, st.echeck y = 0) : ∀ y, (run_mask app st a).echeck y = 0 := by
  cases a with
  | noMask => exact hz
  | removeAt x =>
    exact mask_same_z_echeck_zero app 10 _ x (mask_shells_echeck_zero app 0 50 st x hz)
  | putAt x =>
    exact mask_same_z_echeck_zero app (-10) _ x (mask_shells_echeck_zero app (-0) (-50) st x hz)

theorem site_propensity_echeck (app : App) (fuel : Nat) (st st1 : State) (i : Int) (p : ℚ)
    (h : site_propensity app fuel st i = .ok (st1, p)) : st1.echeck = st.echeck := by
  unfold site_propensity at h
  simp only [bind, Except.bind, pure, Except.pure] at h
  cases hc : clear_events fuel st.es i with
  | error err =>
    rw [hc] at h
    cases h
  | ok es0 =>
    rw [hc] at h
    simp only [] at h
    cases he : enumerate add_event app st i es0 with
    | error err =>
      rw [he] at h
      cases h
    | ok e =>
      rw [he] at h
      cases h
      rfl

/-- The refresh phase of a returning `site_event(i)` on a lattice all of whose sites are
owned, as a trace: the list `T` of refreshed sites holds every site within 4 hops of `i`
exactly once and no other site. -/
theorem site_event_trace (app : App) (fuel : Nat) (st st1 : State)
    (i ievent : Int) (uniform time : ℚ)
    (hwf : ∃ A, EventLists app.nlocal st.es A) (hi0 : 0 ≤ i) (hin : i < app.nlocal)
    (hG : ClosedOwnedGraph app) (hnz : NonzeroProps app)
    (hfuel : st.es.maxevent.toNat ≤ fuel) (hz : ∀ y, st.echeck y = 0)
    (hsel : select_event app fuel st i uniform = .ok ievent)
    (happly : apply_event app st i (st.es.events ievent).style (st.es.events ievent).which
      (st.es.events ievent).jpartner (st.es.events ievent).kpartner
      (st.es.events ievent).gpartner = .ok st1) :
    ∃ (T : List Int) (a1 : State × Int),
      site_event app fuel st i uniform time =
        .ok (clear_echeck a1.1 a1.2, T.map app.i2site) ∧
      T.foldlM (refresh_site app fuel)
        (run_mask app (pulse_update app st1 time)
          (mask_action (pulse_update app st1 time) i (st.es.events ievent).gpartner
            (st.es.events ievent).style (st.element i)
            (st.element (st.es.events ievent).gpartner)), 0) = .ok a1 ∧
      (∀ s, withinHops app 4 i s = true →
        T.count s = 1 ∧ (T.map app.i2site).count (app.i2site s) = 1) ∧
      (∀ s, withinHops app 4 i s = false →
        s ∉ T ∧ (0 ≤ s → s < app.nlocal → app.i2site s ∉ T.map app.i2site)) := by
  obtain ⟨A, hA⟩ := hwf
  obtain ⟨st3, hst3⟩ : ∃ st3, st3 = run_mask app (pulse_update app st1 time)
      (mask_action (pulse_update app st1 time) i (st.es.events ievent).gpartner
        (st.es.events ievent).style (st.element i)
        (st.element (st.es.events ievent).gpartner)) := ⟨_, rfl⟩
  have hm : MaskFrame (pulse_update app st1 time) st3 := by
    rw [hst3]
    exact run_mask_frame _ _ _
  have hA3 : EventLists app.nlocal st3.es A := by
    rw [hm.es, (pulse_update_frame app st1 time).2.1, apply_event_es app st st1 _ _ _ _ _ _ happly]
    exact hA
  have hlenall : ∀ m, 0 ≤ m → m < app.nlocal → (A m).length ≤ fuel := fun m hm0 hmn =>
    le_trans (lists_length_le hA hm0 hmn) hfuel
  have hz3 : ∀ y, st3.echeck y = 0 := by
    rw [hst3]
    apply run_mask_echeck_zero
    intro y
    rw [pulse_update_echeck, apply_event_echeck app st st1 _ _ _ _ _ _ happly]
    exact hz y
  obtain ⟨a0, h0, hr0, _, c2, c3, c4⟩ := refresh_site_full app fuel st3 hnz st3 0 A hA3
    (fun m hm0 hmn _ => hlenall m hm0 hmn) i hi0 hin (hlenall i hi0 hin) (coreFrame_refl _)
  have hir : irange (0 + 1) = [0] := by decide
  have hT0 : RefreshTrace app fuel st3 a0 [i] := by
    refine ⟨?_, hr0, List.nodup_singleton _, ?_, ?_, ?_, ?_⟩
    · rw [List.foldlM_cons, h0]
      rfl
    · intro s hs
      rw [List.mem_singleton] at hs
      rw [hs]
      exact ⟨hi0, hin⟩
    · intro y
      rw [c2]
      by_cases hy : y = app.i2site i
      · rw [hy, upd_same]
        exact ⟨fun _ => ⟨i, by simp, rfl⟩, fun _ => by decide⟩
      · rw [upd_ne _ _ _ _ hy]
        constructor
        · intro h
          exact absurd (hz3 y) h
        · rintro ⟨x, hx, hxy⟩
          rw [List.mem_singleton] at hx
          rw [hx] at hxy
          exact absurd hxy.symm hy
    · rw [c4, c3, hir]
      simp [upd_same]
    · rw [c4]
      simp
  obtain ⟨a1, T1, h1, hT1, _, hS1, hcov⟩ :=
    refresh_l1_trace app fuel st3 i hnz hG i a0 [i] hi0 hin hT0
      (fun x hx => by
        rw [List.mem_singleton] at hx
        rw [hx]
        exact hops_self app 4 i)
      (List.mem_singleton.2 rfl) (fun x hx => hx)
  have hex := execute_event_eq app fuel st st1 i ievent time a0 a1 happly
    (by rw [← hst3]; exact h0) h1
  obtain ⟨hfold, _, hnd, hrange, _, hes, _⟩ := hT1
  have hndmap : (T1.map app.i2site).Nodup :=
    List.Nodup.map_on
      (fun x hx y hy hxy => hG.2.1 x y (hrange x hx).1 (hrange x hx).2 (hrange y hy).1
        (hrange y hy).2 hxy) hnd
  refine ⟨T1, a1, ?_, ?_, ?_, ?_⟩
  · unfold site_event
    rw [hsel]
    show execute_event app fuel st i ievent time = _
    rw [hex, hes]
  · rw [← hst3]
    exact hfold
  · intro s hs
    have hmem := hcov s hs
    exact ⟨List.count_eq_one_of_mem hnd hmem,
      List.count_eq_one_of_mem hndmap (List.mem_map_of_mem _ hmem)⟩
  · intro s hs
    have hnot : s ∉ T1 := by
      intro hmem
      rw [hS1 s hmem] at hs
      cases hs
    refine ⟨hnot, fun hs0 hsn hmap => ?_⟩
    obtain ⟨x, hx, hxs⟩ := List.mem_map.1 hmap
    have := hG.2.1 x s (hrange x hx).1 (hrange x hx).2 hs0 hsn hxs
    exact hnot (this ▸ hx)

/-- C17. Refresh bound of `site_event(i)` on a lattice all of whose sites are owned
(with a well-formed event store, the scratch marker `echeck` all zero, no zero
propensity, enough fuel and an executable chosen event): the call returns; its refresh
phase is the block `count_coord(s); propensity[i2site[s]] = site_propensity(s)` run at
the sites of a list `T`, and the list handed to the solver's update is `T` mapped
through `i2site`; every site within 4 hops of `i` (including `i`) occurs exactly once
in `T` and its solver index exactly once in the update list; no site farther than 4
hops occurs in `T`, nor does its solver index occur in the update list. -/
theorem site_event_refreshes_within_four_hops (app : App) (fuel : Nat) (st st1 : State)
    (i ievent : Int) (uniform time : ℚ)
    (hwf : ∃ A, EventLists app.nlocal st.es A) (hi0 : 0 ≤ i) (hin : i < app.nlocal)
    (hG : ClosedOwnedGraph app) (hnz : NonzeroProps app)
    (hfuel : st.es.maxevent.toNat ≤ fuel) (hz : ∀ y, st.echeck y = 0)
    (hsel : select_event app fuel st i uniform = .ok ievent)
    (happly : apply_event app st i (st.es.events ievent).style (st.es.events ievent).which
      (st.es.events ievent).jpartner (st.es.events ievent).kpartner
      (st.es.events ievent).gpartner = .ok st1) :
    ∃ (T : List Int) (a1 : State × Int),
      site_event app fuel st i uniform time =
        .ok (clear_echeck a1.1 a1.2, T.map app.i2site) ∧
      T.foldlM (refresh_site app fuel)
        (run_mask app (pulse_update app st1 time)
          (mask_action (pulse_update app st1 time) i (st.es.events ievent).gpartner
            (st.es.events ievent).style (st.element i)
            (st.element (st.es.events ievent).gpartner)), 0) = .ok a1 ∧
      (∀ s, withinHops app 4 i s = true →
        T.count s = 1 ∧ (T.map app.i2site).count (app.i2site s) = 1) ∧
      (∀ s, withinHops app 4 i s = false →
        s ∉ T ∧ (0 ≤ s → s < app.nlocal → app.i2site s ∉ T.map app.i2site)) :=
  site_event_trace app fuel st st1 i ievent uniform time hwf hi0 hin hG hnz hfuel hz hsel
    happly

theorem appPath_nonzero : NonzeroProps appPath := by
  refine ⟨?_, ?_, ?_, ?_⟩ <;>
  · intro m h0 h1
    simp [appPath, appNull] at h1
    omega

theorem appPath_graph : ClosedOwnedGraph appPath := by
  refine ⟨?_, ?_, ?_⟩
  · intro s h0 h1
    have h1b : s < 6 := h1
    show 0 ≤ (if 0 ≤ s ∧ s < 6 then s else -1)
    rw [if_pos ⟨h0, h1b⟩]
    exact h0
  · intro s t hs0 hs1 ht0 ht1 h
    have hs1b : s < 6 := hs1
    have ht1b : t < 6 := ht1
    have h2 : (if 0 ≤ s ∧ s < 6 then s else -1) = (if 0 ≤ t ∧ t < 6 then t else -1) := h
    rw [if_pos ⟨hs0, hs1b⟩, if_pos ⟨ht0, ht1b⟩] at h2
    exact h2
  · intro t jj ht0 ht1 hj0 hj1
    have ht1b : t < 6 := ht1
    have hj1b : jj < (if t = 0 ∨ t = 5 then 1 else 2) := hj1
    show 0 ≤ (if t = 0 then 1 else if jj = 0 then t - 1 else t + 1) ∧
      (if t = 0 then 1 else if jj = 0 then t - 1 else t + 1) < 6
    split_ifs at hj1b ⊢ <;> omega

theorem stPath_ok : ∃ (s : State) (p : ℚ),
    site_propensity appPath 0 (setup_app appPath (stInit O)) 0 = .ok (s, p) ∧
    stPath = { s with propensity := upd s.propensity 0 p } ∧
    ∃ A, EventLists appPath.nlocal s.es A := by
  obtain ⟨s, p, h1, hA⟩ := lists_after_first_propensity appPath (stInit O) (le_refl _) 0
    (le_refl _) (by decide) appPath_nonzero
  refine ⟨s, p, h1, ?_, hA⟩
  unfold stPath
  rw [h1]

theorem stPath_lists : ∃ A, EventLists appPath.nlocal stPath.es A := by
  obtain ⟨s, p, _, h2, hA⟩ := stPath_ok
  rw [h2]
  exact hA

theorem stPath_echeck : ∀ y, stPath.echeck y = 0 := by
  obtain ⟨s, p, h1, h2, _⟩ := stPath_ok
  intro y
  rw [h2]
  show s.echeck y = 0
  rw [site_propensity_echeck appPath 0 _ s 0 p h1]
  simp [setup_app, stInit]

theorem stPath_chain : Chain (nextOf stPath.es) (stPath.es.firstevent 0) [0] (-1) :=
  ⟨by decide!, (by decide! : nextOf stPath.es 0 = -1)⟩

theorem stPath_select : select_event appPath 100000 stPath 0 (1 / 2) = .ok 0 :=
  select_event_first appPath 100000 stPath 0 (1 / 2) [0] (-1) 0 (by decide) stPath_chain
    (fun k hk => absurd hk (by omega)) (by decide!) (by decide)

/-- Witness for C17: the path lattice 0 - 1 - 2 - 3 - 4 - 5 with its null event at
site 0; site 4 is within 4 hops of site 0 and site 5 is not. -/
theorem site_event_refreshes_within_four_hops_witness :
    withinHops appPath 4 0 4 = true ∧ withinHops appPath 4 0 5 = false ∧
    ∃ (T : List Int) (a1 : State × Int),
      site_event appPath 100000 stPath 0 (1 / 2) (1 / 2) =
        .ok (clear_echeck a1.1 a1.2, T.map appPath.i2site) ∧
      T.foldlM (refresh_site appPath 100000)
        (run_mask appPath (pulse_update appPath stPath (1 / 2))
          (mask_action (pulse_update appPath stPath (1 / 2)) 0 (stPath.es.events 0).gpartner
            (stPath.es.events 0).style (stPath.element 0)
            (stPath.element (stPath.es.events 0).gpartner)), 0) = .ok a1 ∧
      (∀ s, withinHops appPath 4 0 s = true →
        T.count s = 1 ∧ (T.map appPath.i2site).count (appPath.i2site s) = 1) ∧
      (∀ s, withinHops appPath 4 0 s = false →
        s ∉ T ∧ (0 ≤ s → s < appPath.nlocal → appPath.i2site s ∉ T.map appPath.i2site)) :=
  ⟨by decide, by decide,
    site_event_refreshes_within_four_hops appPath 100000 stPath stPath 0 0 (1 / 2) (1 / 2)
      stPath_lists (le_refl _) (by decide) appPath_graph appPath_nonzero
      (by decide!) stPath_echeck stPath_select
      (by
        have hs : (stPath.es.events 0).style = 5 := by decide!
        simp [apply_event, hs])⟩

/-! ## Physical coordination arithmetic -/

theorem tmod_ten (c : Int) :
    Int.tmod c 10 = if 0 ≤ c then c % 10 else (if c % 10 = 0 then 0 else c % 10 - 10) := by
  cases c with
  | ofNat n =>
    have h0 : (0 : Int) ≤ Int.ofNat n := Int.ofNat_nonneg n
    rw [if_pos h0]
    exact Int.tmod_eq_emod h0 (by decide)
  | negSucc m =>
    have h0 : ¬ (0 : Int) ≤ Int.negSucc m := by
      intro h
      have := Int.negSucc_lt_zero m
      omega
    rw [if_neg h0]
    have h1 : Int.tmod (Int.negSucc m) 10 = -(((m + 1) % 10 : Nat) : Int) := rfl
    rw [h1]
    have h2 : Int.negSucc m = -((m : Int) + 1) := by
      rw [Int.negSucc_eq]
    rw [h2]
    split_ifs <;> omega

/-- Away from the negative multiples of ten the value the enumerator computes is the
positive remainder and lies in `[0, 10)`. -/
theorem coordmod_eq_cphys (c : Int) (h : ¬ (c < 0 ∧ c % 10 = 0)) :
    coordmod c = cphys c ∧ 0 ≤ coordmod c ∧ coordmod c < 10 := by
  unfold coordmod cphys
  rw [tmod_ten]
  split_ifs <;> omega

/-- C30 at a failing input. For `coord = -10` the enumerator computes
`coord % 10 + 10 = 0 + 10 = 10`, which is neither `((-10 mod 10) + 10) mod 10 = 0` nor a
value in `[0, 10)`; the same holds for every negative multiple of ten. -/
theorem coordmod_negative_multiple_of_ten :
    coordmod (-10) = 10 ∧ cphys (-10) = 0 ∧ ¬ (coordmod (-10) < 10) ∧
    coordmod (-20) = 10 ∧ coordmod (-50) = 10 := by
  decide

/-! ## Input commands -/

theorem nameIndex_spec : ∀ (names : List String) (s : String) (k : Int),
    nameIndex names s k = if s ∈ names then k + (names.indexOf s : Int) else -1
  | [], s, k => by simp [nameIndex]
  | n :: t, s, k => by
    simp only [nameIndex]
    by_cases h : s = n
    · subst h
      simp
    · rw [if_neg h, nameIndex_spec t s (k + 1)]
      have hne : n ≠ s := fun h2 => h h2.symm
      by_cases hm : s ∈ t
      · simp [hm, h, List.indexOf_cons_ne _ hne]
        omega
      · simp [hm, h]

theorem species_to_enum_eq_nameIndex (s : String) :
    species_to_enum s = nameIndex speciesNames s 0 := rfl

theorem species_to_enum_index (s : String) :
    species_to_enum s =
      (if s ∈ speciesNames then (speciesNames.indexOf s : Int) else -1) := by
  rw [species_to_enum_eq_nameIndex, nameIndex_spec]
  simp

theorem species_to_enum_range (s : String) (h : 0 ≤ species_to_enum s) :
    0 ≤ species_to_enum s ∧ species_to_enum s ≤ 25 := by
  refine ⟨h, ?_⟩
  rw [species_to_enum_index] at h ⊢
  split_ifs at h ⊢ with hm
  · have := List.indexOf_lt_length.2 hm
    have hl : speciesNames.length = 26 := by decide
    omega
  · omega

/-- Counterexample to C25 as stated: the enum label `VACANCY` is not an accepted
name; the name compared for species 0 is `VAC`. -/
theorem species_to_enum_rejects_VACANCY :
    species_to_enum "VACANCY" = -1 ∧ species_to_enum "VAC" = VACANCY := by
  decide

/-- C25, amended. `species_to_enum` accepts exactly the 26 names `VAC`, `O`, `OH`,
`Ala`, ..., `OAla`, `OAlb`, `H2O` (`speciesNames`: the enum labels, with `VAC` in place
of `VACANCY`): the names are pairwise distinct, a name maps to its position (0..25) in
that list, which is its value in the species enumeration, and every other string maps
to -1. -/
theorem species_to_enum_spec (s : String) :
    speciesNames.Nodup ∧ speciesNames.length = 26 ∧
    species_to_enum s =
      (if s ∈ speciesNames then (speciesNames.indexOf s : Int) else -1) ∧
    (species_to_enum s = -1 ∨ (0 ≤ species_to_enum s ∧ species_to_enum s ≤ 25)) := by
  refine ⟨by decide, by decide, species_to_enum_index s, ?_⟩
  by_cases h : 0 ≤ species_to_enum s
  · exact Or.inr (species_to_enum_range s h)
  · left
    have h3 := species_to_enum_index s
    split_ifs at h3 with hm
    · omega
    · exact h3

theorem digitChar_facts (m : Nat) (h : m < 10) :
    (Nat.digitChar m).isDigit = true ∧ ((Nat.digitChar m).toNat : Int) - 48 = m ∧
    isspace (Nat.digitChar m) = false ∧ Nat.digitChar m ≠ '-' ∧ Nat.digitChar m ≠ '+' := by
  interval_cases m <;> decide

theorem toDigitsCore_val : ∀ (fuel n : Nat) (ds : List Char), n < fuel →
    atoi_digits (Nat.toDigitsCore 10 fuel n ds) 0 = atoi_digits ds n
  | 0, n, ds, h => absurd h (Nat.not_lt_zero _)
  | fuel + 1, n, ds, h => by
    have hd := digitChar_facts (n % 10) (Nat.mod_lt _ (by decide))
    simp only [Nat.toDigitsCore]
    split_ifs with h0
    · have hn : n % 10 = n := Nat.mod_eq_of_lt (by omega)
      simp only [atoi_digits, hd.1, if_true, hd.2.1]
      rw [hn]
      simp
    · rw [toDigitsCore_val fuel (n / 10) _ (by omega)]
      simp only [atoi_digits, hd.1, if_true, hd.2.1]
      congr 1
      push_cast
      omega

theorem toDigitsCore_head : ∀ (fuel n : Nat) (ds : List Char), 0 < fuel →
    ∃ m rest, m < 10 ∧ Nat.toDigitsCore 10 fuel n ds = Nat.digitChar m :: rest
  | 0, n, ds, h => absurd h (Nat.lt_irrefl _)
  | fuel + 1, n, ds, _ => by
    simp only [Nat.toDigitsCore]
    split_ifs with h0
    · exact ⟨n % 10, ds, Nat.mod_lt _ (by decide), rfl⟩
    · cases fuel with
      | zero => exact ⟨n % 10, ds, Nat.mod_lt _ (by decide), rfl⟩
      | succ f => exact toDigitsCore_head (f + 1) (n / 10) _ (Nat.succ_pos _)

/-- The decimal literal of a natural number denotes that number. -/
theorem atoi_value_repr (n : Nat) : atoi_value (toString n) = n := by
  have h1 : (toString n).toList = Nat.toDigits 10 n := rfl
  obtain ⟨m, rest, hm, hr⟩ := toDigitsCore_head (n + 1) n [] (Nat.succ_pos _)
  have hd := digitChar_facts m hm
  unfold atoi_value
  rw [h1]
  have h2 : Nat.toDigits 10 n = Nat.digitChar m :: rest := hr
  rw [h2]
  simp only [List.dropWhile, hd.2.2.1]
  rw [if_neg hd.2.2.2.1, if_neg hd.2.2.2.2, ← h2]
  show atoi_digits (Nat.toDigitsCore 10 (n + 1) n []) 0 = n
  rw [toDigitsCore_val (n + 1) n [] (Nat.lt_succ_self _)]
  rfl

/-- On a literal whose value fits an `int`, `atoi` returns that value. -/
theorem atoi_of_fits (s : String) (h0 : -2147483648 ≤ atoi_value s)
    (h1 : atoi_value s ≤ 2147483647) : atoi s = atoi_value s := by
  unfold atoi
  have hmin : min (atoi_value s) 9223372036854775807 = atoi_value s :=
    min_eq_left (by omega)
  have hmax : max (-9223372036854775808) (atoi_value s) = atoi_value s :=
    max_eq_right (by omega)
  simp only [hmin, hmax]
  omega

/-- The decimal literal of a natural number that fits an `int` is read back by
`atoi`. -/
theorem atoi_repr (n : Nat) (hn : n ≤ 2147483647) : atoi (toString n) = n := by
  have hv := atoi_value_repr n
  rw [atoi_of_fits _ (by omega) (by omega), hv]

theorem repr_not_all (n : Nat) : toString n ≠ "all" ∧ toString n ≠ "ALL" := by
  obtain ⟨m, rest, hm, hr⟩ := toDigitsCore_head (n + 1) n [] (Nat.succ_pos _)
  have h1 : (toString n).toList = Nat.digitChar m :: rest := hr
  have hd := digitChar_facts m hm
  constructor
  · intro h
    rw [h] at h1
    have h2 : 'a' = Nat.digitChar m := by
      have := congrArg List.head? h1
      simpa using this
    rw [← h2] at hd
    exact absurd hd.1 (by decide)
  · intro h
    rw [h] at h1
    have h2 : 'A' = Nat.digitChar m := by
      have := congrArg List.head? h1
      simpa using this
    rw [← h2] at hd
    exact absurd hd.1 (by decide)

theorem input_app_event_S (atof : String → ℚ) (app : App)
    (a1 a2 a3 a4 a5 c a7 a8 : String)
    (h1 : 0 ≤ species_to_enum a1) (h2 : 0 ≤ species_to_enum a2) :
    input_app atof app "event" ["1", a1, a2, a3, a4, a5, c, a7, a8] =
      .ok { app with
        sinput := upd app.sinput app.none (species_to_enum a1)
        soutput := upd app.soutput app.none (species_to_enum a2)
        sA := upd app.sA app.none (atof a3)
        sexpon := upd app.sexpon app.none (atoi a4)
        srate := upd app.srate app.none (atof a5)
        scoord := upd app.scoord app.none (parse_coord_value c)
        spresson := upd app.spresson app.none (atoi a7)
        none := app.none + 1 } := by
  have hr : atoi "1" = 1 := by decide
  simp [input_app, hr, not_lt.2 h1, not_lt.2 h2]

/-- Counterexample to C26 as stated: the strings `abc` and the empty string are read
as `req_coord = 0`, and the command `event 1 O OH 1.0 0 0.0 abc 0 0` is accepted and
declares an S reaction with `req_coord = 0` (whatever `atof` returns for the rate
parameters). -/
theorem parse_coord_value_accepts_any_string :
    parse_coord_value "abc" = 0 ∧ parse_coord_value "" = 0 ∧ parse_coord_value "-3" = -3 ∧
    ∀ atof : String → ℚ,
      declaredS (input_app atof { appNull with scoord := fun _ => 7 } "event"
        ["1", "O", "OH", "1.0", "0", "0.0", "abc", "0", "0"]) = some (1, 0) := by
  refine ⟨by decide, by decide, by decide, ?_⟩
  intro atof
  rw [input_app_event_S atof _ "O" "OH" "1.0" "0" "0.0" "abc" "0" "0" (by decide)
    (by decide)]
  have hp : parse_coord_value "abc" = 0 := by decide
  simp [declaredS, appNull, upd, hp]

/-- C26, amended. No coord argument is rejected. The literals `all` and `ALL` give the
ALL sentinel -999, the decimal literal of a nonnegative integer that fits an `int`
(`n <= 2147483647`) gives that integer, and every other string is read by `atoi`
(leading white space, an optional sign, the longest run of digits; 0 when there is
none; a value outside the `int` range comes back reduced to 32 bits, `2147483648` as
`-2147483648`). A type I `event` command with nine arguments and two accepted species
names is accepted whatever its coord argument is, and declares a reaction whose
`req_coord` is that value. -/
theorem parse_coord_value_spec (atof : String → ℚ) (app : App)
    (a1 a2 a3 a4 a5 c a7 a8 : String) (n : Nat)
    (h1 : 0 ≤ species_to_enum a1) (h2 : 0 ≤ species_to_enum a2) (hn : n ≤ 2147483647) :
    parse_coord_value "all" = COORD_ALL ∧ parse_coord_value "ALL" = COORD_ALL ∧
    parse_coord_value (toString n) = n ∧
    parse_coord_value "2147483648" = -2147483648 ∧
    (c ≠ "all" → c ≠ "ALL" → parse_coord_value c = atoi c) ∧
    ∃ app1, input_app atof app "event" ["1", a1, a2, a3, a4, a5, c, a7, a8] = .ok app1 ∧
      app1.none = app.none + 1 ∧ app1.scoord app.none = parse_coord_value c := by
  refine ⟨by decide, by decide, ?_, by decide, ?_, ?_⟩
  · unfold parse_coord_value
    rw [if_neg (fun h => h.elim (repr_not_all n).1 (repr_not_all n).2)]
    exact atoi_repr n hn
  · intro ha hb
    unfold parse_coord_value
    rw [if_neg (fun h => h.elim ha hb)]
  · exact ⟨_, input_app_event_S atof app a1 a2 a3 a4 a5 c a7 a8 h1 h2, rfl, upd_same _ _ _⟩

/-- Witness for the amended C26: `event 1 O OH 1.0 0 0.0 abc 0 0` on an empty reaction
table, and the literal `2147483647`, the largest `int`. -/
theorem parse_coord_value_spec_witness :
    (2147483647 : Nat) ≤ 2147483647 ∧
    parse_coord_value "all" = COORD_ALL ∧ parse_coord_value "ALL" = COORD_ALL ∧
    parse_coord_value (toString 2147483647) = ((2147483647 : Nat) : Int) ∧
    parse_coord_value "2147483648" = -2147483648 ∧
    (("abc" : String) ≠ "all" → ("abc" : String) ≠ "ALL" →
      parse_coord_value "abc" = atoi "abc") ∧
    ∃ app1, input_app (fun _ => 1) appNull "event"
        ["1", "O", "OH", "1.0", "0", "0.0", "abc", "0", "0"] = .ok app1 ∧
      app1.none = appNull.none + 1 ∧ app1.scoord appNull.none = parse_coord_value "abc" :=
  ⟨le_refl _,
    parse_coord_value_spec (fun _ => 1) appNull "O" "OH" "1.0" "0" "0.0" "abc" "0" "0"
      2147483647 (by decide) (by decide) (le_refl _)⟩

/-! ## Periodicity of the pulse schedule -/

/-- Negative durations, which `pulse_time` and `purge_time` accept, break the schedule
even in exact arithmetic: with `T1 = 0.5`, `T2 = 5`, `T3 = -2.5`, `T4 = -2` the period is
`P = 1 > 0`; at `t = 0.2` (with `cycle = 0`) the phase update sets `pressureOn = 1`, but
at `t + P = 1.2` it sets `pressureOn = 3` without ever advancing `cycle`. -/
theorem pulse_not_periodic_with_negative_duration :
    appNegT.T1 + appNegT.T2 + appNegT.T3 + appNegT.T4 = 1 ∧
    (stInit O).cycle = 0 ∧
    (pulse_update appNegT (stInit O) (1 / 5)).pressureOn = 1 ∧
    (pulse_settle appNegT 2 (stInit O) (1 / 5 + 1)).map (fun r => (r.1.pressureOn, r.2)) =
      some (3, 0) := by
  refine ⟨by decide!, by decide!, by decide!, by decide!⟩

/-- Periodicity of the pulse schedule in exact arithmetic. With durations
`T2, T3, T4 >= 0` and `cycle <= t < cycle+P` for `P = T1+T2+T3+T4` (so `P > 0`): applying
the phase update at time `t+P` until it no longer takes the cycle-advancing branch takes
two updates, advances `cycle` exactly once, by `P`, and ends with the `pressureOn` that
the phase update sets at time `t`. -/
theorem pulse_schedule_periodic (app : App) (st : State) (t : ℚ) (fuel : Nat)
    (h2 : 0 ≤ app.T2) (h3 : 0 ≤ app.T3) (h4 : 0 ≤ app.T4)
    (ht0 : st.cycle ≤ t) (ht1 : t < st.cycle + (app.T1 + app.T2 + app.T3 + app.T4))
    (hfuel : 2 ≤ fuel) :
    ∃ s, pulse_settle app fuel st (t + (app.T1 + app.T2 + app.T3 + app.T4)) = some (s, 1) ∧
      s.pressureOn = (pulse_update app st t).pressureOn ∧
      s.cycle = st.cycle + (app.T1 + app.T2 + app.T3 + app.T4) ∧
      (pulse_update app st t).cycle = st.cycle := by
  obtain ⟨f, rfl⟩ : ∃ f, fuel = f + 2 := ⟨fuel - 2, by omega⟩
  have hw : pulse_wraps app st (t + (app.T1 + app.T2 + app.T3 + app.T4)) := by
    unfold pulse_wraps
    refine ⟨?_, ?_, ?_, ?_⟩
    · intro h
      linarith
    · intro h
      linarith [h.2]
    · intro h
      linarith [h.2]
    · intro h
      linarith [h.2]
  have hu : pulse_update app st (t + (app.T1 + app.T2 + app.T3 + app.T4)) =
      { st with cycle := st.cycle + (app.T1 + app.T2 + app.T3 + app.T4) } := by
    unfold pulse_wraps at hw
    unfold pulse_update
    rw [if_neg hw.1, if_neg hw.2.1, if_neg hw.2.2.1, if_neg hw.2.2.2]
  have hnw : ¬ pulse_wraps app
      { st with cycle := st.cycle + (app.T1 + app.T2 + app.T3 + app.T4) }
      (t + (app.T1 + app.T2 + app.T3 + app.T4)) := by
    unfold pulse_wraps
    simp only []
    intro h
    obtain ⟨a, b, c, d⟩ := h
    have a1 := not_lt.1 a
    have b1 : app.T1 + app.T2 ≤ t - st.cycle := by
      by_contra hb
      exact b ⟨by linarith, by linarith⟩
    have c1 : app.T1 + app.T2 + app.T3 ≤ t - st.cycle := by
      by_contra hc
      exact c ⟨by linarith, by linarith⟩
    exact d ⟨by linarith, by linarith⟩
  have hsame : (pulse_update app
      { st with cycle := st.cycle + (app.T1 + app.T2 + app.T3 + app.T4) }
      (t + (app.T1 + app.T2 + app.T3 + app.T4))).pressureOn =
        (pulse_update app st t).pressureOn ∧
      (pulse_update app
        { st with cycle := st.cycle + (app.T1 + app.T2 + app.T3 + app.T4) }
        (t + (app.T1 + app.T2 + app.T3 + app.T4))).cycle =
        st.cycle + (app.T1 + app.T2 + app.T3 + app.T4) ∧
      (pulse_update app st t).cycle = st.cycle := by
    have hnw2 := hnw
    unfold pulse_wraps at hnw2
    simp only [] at hnw2
    unfold pulse_update
    simp only []
    by_cases c1 : st.cycle + app.T1 > t
    · rw [if_pos c1, if_pos (by linarith)]
      exact ⟨rfl, rfl, rfl⟩
    by_cases c2 : st.cycle + app.T1 ≤ t ∧ t < st.cycle + app.T1 + app.T2
    · rw [if_neg c1, if_pos c2, if_neg (by linarith [c2.1]),
        if_pos ⟨by linarith [c2.1], by linarith [c2.2]⟩]
      exact ⟨rfl, rfl, rfl⟩
    by_cases c3 : st.cycle + app.T1 + app.T2 ≤ t ∧ t < st.cycle + app.T1 + app.T2 + app.T3
    · have n1 : ¬ (st.cycle + (app.T1 + app.T2 + app.T3 + app.T4) + app.T1 >
          t + (app.T1 + app.T2 + app.T3 + app.T4)) := by linarith [c3.1]
      have n2 : ¬ (st.cycle + (app.T1 + app.T2 + app.T3 + app.T4) + app.T1 ≤
          t + (app.T1 + app.T2 + app.T3 + app.T4) ∧
          t + (app.T1 + app.T2 + app.T3 + app.T4) <
            st.cycle + (app.T1 + app.T2 + app.T3 + app.T4) + app.T1 + app.T2) := by
        intro h
        linarith [h.2, c3.1]
      rw [if_neg c1, if_neg c2, if_pos c3, if_neg n1, if_neg n2,
        if_pos ⟨by linarith [c3.1], by linarith [c3.2]⟩]
      exact ⟨rfl, rfl, rfl⟩
    · have c1b := not_lt.1 c1
      have c2b : st.cycle + app.T1 + app.T2 ≤ t := by
        by_contra hc
        exact c2 ⟨c1b, by linarith⟩
      have c3b : st.cycle + app.T1 + app.T2 + app.T3 ≤ t := by
        by_contra hc
        exact c3 ⟨c2b, by linarith⟩
      have c4 : st.cycle + app.T1 + app.T2 + app.T3 ≤ t ∧
          t < st.cycle + app.T1 + app.T2 + app.T3 + app.T4 := ⟨c3b, by linarith⟩
      have n1 : ¬ (st.cycle + (app.T1 + app.T2 + app.T3 + app.T4) + app.T1 >
          t + (app.T1 + app.T2 + app.T3 + app.T4)) := by linarith
      have n2 : ¬ (st.cycle + (app.T1 + app.T2 + app.T3 + app.T4) + app.T1 ≤
          t + (app.T1 + app.T2 + app.T3 + app.T4) ∧
          t + (app.T1 + app.T2 + app.T3 + app.T4) <
            st.cycle + (app.T1 + app.T2 + app.T3 + app.T4) + app.T1 + app.T2) := by
        intro h
        linarith [h.2]
      have n3 : ¬ (st.cycle + (app.T1 + app.T2 + app.T3 + app.T4) + app.T1 + app.T2 ≤
          t + (app.T1 + app.T2 + app.T3 + app.T4) ∧
          t + (app.T1 + app.T2 + app.T3 + app.T4) <
            st.cycle + (app.T1 + app.T2 + app.T3 + app.T4) + app.T1 + app.T2 + app.T3) := by
        intro h
        linarith [h.2]
      rw [if_neg c1, if_neg c2, if_neg c3, if_pos c4, if_neg n1, if_neg n2, if_neg n3,
        if_pos ⟨by linarith, by linarith⟩]
      exact ⟨rfl, rfl, rfl⟩
  refine ⟨_, ?_, hsame.1, hsame.2.1, hsame.2.2⟩
  show pulse_settle app (f + 1 + 1) st _ = _
  simp only [pulse_settle]
  rw [if_pos hw, hu, if_neg hnw]
  rfl

/-- The exact periodicity at the durations `T1 = T2 = T3 = T4 = 1` of scenario S3, with
`cycle = 0` and `t = 1.5`. -/
theorem pulse_schedule_periodic_witness :
    ∃ s, pulse_settle appNull 2 (stInit O)
        (3 / 2 + (appNull.T1 + appNull.T2 + appNull.T3 + appNull.T4)) = some (s, 1) ∧
      s.pressureOn = (pulse_update appNull (stInit O) (3 / 2)).pressureOn ∧
      s.cycle = (stInit O).cycle + (appNull.T1 + appNull.T2 + appNull.T3 + appNull.T4) ∧
      (pulse_update appNull (stInit O) (3 / 2)).cycle = (stInit O).cycle :=
  pulse_schedule_periodic appNull (stInit O) (3 / 2) 2 (by decide!) (by decide!)
    (by decide!) (by decide!) (by decide!) (le_refl _)

/-! ## The species histogram of the diagnostic -/

/-- C27 at a failing input. One owned site holding `OAlaX` (species 8 of the
application): the number of owned sites whose element is `species_to_enum("OAlaX")` is
1, but the diagnostic reports 0 for the name `OAlaX`. `diag_ald_TMA.cpp` has its own
enumeration (line 28) with four extra species inserted, in which `OAlaX` is 9; `compute`
fills `sites[element[i]]` by the application's numbers and reads `sites[OAlaX]` by its
own, so it reports the count of `OAlaOH` sites (application number 9). For the name
`OH`, numbered 2 in both enumerations, the value is the count. -/
theorem diag_histogram_reads_other_species :
    appNull.nlocal = 1 ∧ (stInit OAlaX).element 0 = species_to_enum "OAlaX" ∧
    species_count appNull (stInit OAlaX) (species_to_enum "OAlaX") = 1 ∧
    (∀ garbage, diag_local_value appNull (stInit OAlaX) garbage "OAlaX" = some 0) ∧
    (∀ garbage, diag_local_value appNull (stInit OAlaOH) garbage "OAlaX" = some 1) ∧
    species_count appNull (stInit OAlaOH) (species_to_enum "OAlaX") = 0 ∧
    (∀ garbage, diag_local_value appNull (stInit OH) garbage "OH" = some 1) := by
  refine ⟨by decide, by decide, by decide, fun g => ?_, fun g => ?_, by decide, fun g => ?_⟩
  · rfl
  · rfl
  · rfl

/-! ## The second shell of `put_mask` -/

/-- C29. On the lattice `appTri` (three owned sites, each adjacent to the other two)
the first-shell neighbours of site 0 are `neighbor[0][0] = 1` and `neighbor[0][1] = 2`.
`put_mask(0)` leaves `coord[1]` unchanged but lowers `coord[2]` by 50, and
`remove_mask(0)` raises it by 50: site 2 is reached as a neighbour of site 1 before
the first-shell pass marks it, so a first-shell neighbour is treated as second
shell. -/
theorem put_mask_lowers_first_shell_neighbour :
    appTri.neighbor 0 0 = 1 ∧ appTri.neighbor 0 1 = 2 ∧
    (∀ x, 0 ≤ x → x < appTri.nlocal → 0 ≤ appTri.i2site x) ∧
    (put_mask appTri (stInit O) 0).coord 0 = (stInit O).coord 0 ∧
    (put_mask appTri (stInit O) 0).coord 1 = (stInit O).coord 1 ∧
    (put_mask appTri (stInit O) 0).coord 2 = (stInit O).coord 2 - 50 ∧
    (remove_mask appTri (stInit O) 0).coord 1 = (stInit O).coord 1 ∧
    (remove_mask appTri (stInit O) 0).coord 2 = (stInit O).coord 2 + 50 := by
  refine ⟨by decide, by decide, ?_, by decide, by decide, by decide, by decide, by decide⟩
  intro x h0 h1
  have h1 : x < 3 := h1
  simp [appTri, h0, h1]

/-! ## The event arena as a partition -/

theorem add_event_nevents {es es1 : EventStore} {i rstyle which : Int} {p : ℚ}
    {j k g : Int} (h : add_event es i rstyle which p j k g = .ok es1) :
    p ≠ 0 ∧ es1.nevents = es.nevents + 1 := by
  unfold add_event at h
  by_cases hp : p = 0
  · simp [hp] at h
  · simp only [hp, if_false] at h
    injection h with h
    subst h
    refine ⟨hp, ?_⟩
    show (grow_events es).nevents + 1 = es.nevents + 1
    unfold grow_events
    split_ifs <;> rfl

theorem sum_length_upd (L : Int → List Int) (i : Int) (l : List Int) :
    ∀ l0 : List Int, l0.Nodup → i ∈ l0 →
      (l0.map (fun j => (upd L i l j).length)).sum + (L i).length =
        (l0.map (fun j => (L j).length)).sum + l.length
  | [], _, hm => by simp at hm
  | a :: t, hnd, hm => by
    have hnd2 := List.nodup_cons.1 hnd
    by_cases hai : a = i
    · subst hai
      have hcongr : t.map (fun j => (upd L a l j).length) = t.map (fun j => (L j).length) := by
        apply List.map_congr_left
        intro j hj
        have : j ≠ a := fun h => hnd2.1 (h ▸ hj)
        simp [upd, this]
      simp only [List.map_cons, List.sum_cons, hcongr]
      simp [upd]
      omega
    · have hit : i ∈ t := by
        rcases List.mem_cons.1 hm with h | h
        · exact absurd h.symm hai
        · exact h
      have ih := sum_length_upd L i l t hnd2.2 hit
      simp only [List.map_cons, List.sum_cons]
      simp only [upd, hai, if_false] at ih ⊢
      omega

theorem nodeTotal_upd (n : Int) (L : Int → List Int) (i : Int) (l : List Int)
    (hi0 : 0 ≤ i) (hin : i < n) :
    nodeTotal n (upd L i l) + (L i).length = nodeTotal n L + l.length :=
  sum_length_upd L i l (irange n) (nodup_irange n) ((mem_irange n i).2 ⟨hi0, hin⟩)

/-- The arena invariant `Arena` together with the node count: `nevents` is the number
of nodes on the per-site chains. -/
theorem arenaReach_arena (app : App) (es : EventStore) (h : ArenaReach app es) :
    ∃ L F, Arena app.nlocal es L F ∧ (nodeTotal app.nlocal L : Int) = es.nevents := by
  induction h with
  | setup st hmax =>
    obtain ⟨L, F, hA, hL⟩ := setup_app_lists app st hmax
    refine ⟨L, F, hA, ?_⟩
    have hz : (irange app.nlocal).map (fun i => (L i).length) =
        (irange app.nlocal).map (fun _ => 0) := by
      apply List.map_congr_left
      intro i hi
      have hi2 := (mem_irange _ _).1 hi
      have := hL i hi2.1 hi2.2
      simp only [List.map_eq_nil_iff] at this
      simp [this]
    have hn : (setup_app app st).es.nevents = 0 := rfl
    rw [hn]
    simp [nodeTotal, hz]
  | add es es1 i rstyle which p j k g _ hi0 hin hadd ih =>
    obtain ⟨L, F, hA, hT⟩ := ih
    obtain ⟨hp, hn⟩ := add_event_nevents hadd
    obtain ⟨es2, f, F1, h1, h2, _, _, _⟩ := arena_add hA hi0 hin rstyle which hp j k g
    rw [hadd] at h1
    injection h1 with h1
    subst h1
    refine ⟨_, F1, h2, ?_⟩
    have := nodeTotal_upd app.nlocal L i (f :: L i) hi0 hin
    simp only [List.length_cons] at this
    omega
  | clear es es1 fuel i _ hi0 hin hclear ih =>
    obtain ⟨L, F, hA, hT⟩ := ih
    have hlen : (L i).length ≤ fuel := by
      unfold clear_events at hclear
      cases hc : clear_loop fuel es (es.firstevent i) with
      | error e => simp [hc] at hclear
      | ok es2 =>
        exact clear_loop_ok_length (L i) fuel es es2 _ (hA.site i hi0 hin)
          (fun x hx => (hA.rangeL i hi0 hin x hx).1) (hA.nodupL i hi0 hin) hc
    obtain ⟨es2, h1, h2, _, _, h5⟩ := arena_clear hA hi0 hin hlen
    rw [hclear] at h1
    injection h1 with h1
    subst h1
    refine ⟨_, _, h2, ?_⟩
    have hc1 := h2.count
    have hc0 := hA.count
    have := nodeTotal_upd app.nlocal L i [] hi0 hin
    simp only [List.length_append, List.length_reverse, List.length_nil] at hc1 this
    push_cast at hc1
    omega

/-- The chains of a well-formed arena whose `nevents` is the number of chained nodes
cover the indices `[0, maxevent)`. -/
theorem arena_cover {n : Int} {es : EventStore} {L : Int → List Int} {F : List Int}
    (hA : Arena n es L F) (hT : (nodeTotal n L : Int) = es.nevents) (x : Int) :
    (0 ≤ x ∧ x < es.maxevent) ↔ (x ∈ F ∨ ∃ i, 0 ≤ i ∧ i < n ∧ x ∈ L i) := by
  constructor
  swap
  · rintro (hx | ⟨i, hi0, hin, hx⟩)
    · exact hA.rangeF x hx
    · exact hA.rangeL i hi0 hin x hx
  intro hx
  have hnd : ((irange n).flatMap L ++ F).Nodup := by
    rw [List.nodup_append]
    refine ⟨?_, hA.nodupF, ?_⟩
    · rw [List.nodup_flatMap]
      refine ⟨fun i hi => hA.nodupL i ((mem_irange _ _).1 hi).1 ((mem_irange _ _).1 hi).2, ?_⟩
      refine List.Pairwise.imp_of_mem ?_ (nodup_irange n)
      intro a b ha hb hab
      have ha2 := (mem_irange _ _).1 ha
      have hb2 := (mem_irange _ _).1 hb
      intro y hya hyb
      exact hA.disjLL a b ha2.1 ha2.2 hb2.1 hb2.2 hab y hya hyb
    · intro y hy hyF
      obtain ⟨i, hi, hyi⟩ := List.mem_flatMap.1 hy
      have hi2 := (mem_irange _ _).1 hi
      exact hA.disjLF i hi2.1 hi2.2 y hyi hyF
  have hsub : (irange n).flatMap L ++ F ⊆ irange es.maxevent := by
    intro y hy
    rw [mem_irange]
    rcases List.mem_append.1 hy with hy | hy
    · obtain ⟨i, hi, hyi⟩ := List.mem_flatMap.1 hy
      have hi2 := (mem_irange _ _).1 hi
      exact hA.rangeL i hi2.1 hi2.2 y hyi
    · exact hA.rangeF y hy
  have hlen : (irange es.maxevent).length ≤ ((irange n).flatMap L ++ F).length := by
    have h1 : ((irange n).flatMap L).length = nodeTotal n L := by
      simp [nodeTotal, List.length_flatMap, Function.comp_def]
    have h2 := hA.count
    have h3 := hA.maxpos
    have h4 : (irange es.maxevent).length = es.maxevent.toNat := by simp [irange]
    rw [List.length_append, h1, h4]
    omega
  have hperm := (hnd.subperm hsub).perm_of_length_le hlen
  have hmem : x ∈ (irange n).flatMap L ++ F := hperm.mem_iff.2 ((mem_irange _ _).2 hx)
  rcases List.mem_append.1 hmem with hy | hy
  · obtain ⟨i, hi, hyi⟩ := List.mem_flatMap.1 hy
    have hi2 := (mem_irange _ _).1 hi
    exact Or.inr ⟨i, hi2.1, hi2.2, hyi⟩
  · exact Or.inl hy

/-- C28. Event arena invariant. In every event store reached from `setup_app` by
calls of `add_event` and `clear_events` at owned sites there are node lists `L i` (one
per owned site) and `F` such that: the chain from `firstevent[i]` runs through `L i`
and ends at -1; the chain from `freeevent` runs through `F` and ends at `maxevent`;
no list repeats a node, no node is on a site list and the free list, or on the lists
of two sites; an index is in `[0, maxevent)` exactly when it is on one of the lists;
every `firstevent[i]` is -1 or an index in `[0, maxevent)`; and `nevents` is the total
number of nodes on the per-site lists. -/
theorem event_arena_invariant (app : App) (es : EventStore) (h : ArenaReach app es) :
    ∃ (L : Int → List Int) (F : List Int),
      (∀ i, 0 ≤ i → i < app.nlocal → Chain (nextOf es) (es.firstevent i) (L i) (-1)) ∧
      Chain (nextOf es) es.freeevent F es.maxevent ∧
      F.Nodup ∧ (∀ i, 0 ≤ i → i < app.nlocal → (L i).Nodup) ∧
      (∀ i, 0 ≤ i → i < app.nlocal → ∀ x ∈ L i, x ∉ F) ∧
      (∀ i j, 0 ≤ i → i < app.nlocal → 0 ≤ j → j < app.nlocal → i ≠ j →
        ∀ x ∈ L i, x ∉ L j) ∧
      (∀ x, (0 ≤ x ∧ x < es.maxevent) ↔
        (x ∈ F ∨ ∃ i, 0 ≤ i ∧ i < app.nlocal ∧ x ∈ L i)) ∧
      (∀ i, 0 ≤ i → i < app.nlocal →
        es.firstevent i = -1 ∨ (0 ≤ es.firstevent i ∧ es.firstevent i < es.maxevent)) ∧
      es.nevents = (nodeTotal app.nlocal L : Int) := by
  obtain ⟨L, F, hA, hT⟩ := arenaReach_arena app es h
  refine ⟨L, F, hA.site, hA.free, hA.nodupF, hA.nodupL, hA.disjLF, hA.disjLL,
    arena_cover hA hT, ?_, hT.symm⟩
  intro i hi0 hin
  have hc := hA.site i hi0 hin
  cases hl : L i with
  | nil =>
    rw [hl] at hc
    exact Or.inl hc
  | cons a t =>
    rw [hl] at hc
    have ha := hA.rangeL i hi0 hin a (by rw [hl]; exact List.mem_cons_self _ _)
    have : es.firstevent i = a := hc.1
    rw [this]
    exact Or.inr ha

theorem event_arena_invariant_witness :
    ∃ es1, add_event (setup_app appNull (stInit O)).es 0 5 0 (1 / 10) (-1) (-1) (-1) =
        .ok es1 ∧
      ∃ (L : Int → List Int) (F : List Int),
        (∀ i, 0 ≤ i → i < appNull.nlocal →
          Chain (nextOf es1) (es1.firstevent i) (L i) (-1)) ∧
        Chain (nextOf es1) es1.freeevent F es1.maxevent ∧
        F.Nodup ∧ (∀ i, 0 ≤ i → i < appNull.nlocal → (L i).Nodup) ∧
        (∀ i, 0 ≤ i → i < appNull.nlocal → ∀ x ∈ L i, x ∉ F) ∧
        (∀ i j, 0 ≤ i → i < appNull.nlocal → 0 ≤ j → j < appNull.nlocal → i ≠ j →
          ∀ x ∈ L i, x ∉ L j) ∧
        (∀ x, (0 ≤ x ∧ x < es1.maxevent) ↔
          (x ∈ F ∨ ∃ i, 0 ≤ i ∧ i < appNull.nlocal ∧ x ∈ L i)) ∧
        (∀ i, 0 ≤ i → i < appNull.nlocal →
          es1.firstevent i = -1 ∨ (0 ≤ es1.firstevent i ∧ es1.firstevent i < es1.maxevent)) ∧
        es1.nevents = (nodeTotal appNull.nlocal L : Int) := by
  have hp : (1 / 10 : ℚ) ≠ 0 := by norm_num
  obtain ⟨es1, h1, _⟩ := lists_add (setup_app_lists appNull (stInit O) (le_refl _))
    (le_refl 0) (by decide : (0 : Int) < appNull.nlocal) 5 0 hp (-1) (-1) (-1)
  exact ⟨es1, h1, event_arena_invariant appNull es1
    (ArenaReach.add _ _ 0 5 0 (1 / 10) (-1) (-1) (-1)
      (ArenaReach.setup (stInit O) (le_refl _)) (le_refl _) (by decide) h1)⟩

/-! ## Well-formed events on the lists -/

theorem list_add_all (P : EvData → Prop) (e : Enum (List EvData)) (i rs w : Int) (p : ℚ)
    (j k g : Int) (l1 : List EvData) (h : list_add e.store i rs w p j k g = .ok l1)
    (hP : p ≠ 0 → P ⟨rs, w, j, k, g, p⟩)
    (he : ∀ r ∈ e.store, P r) : ∀ r ∈ l1, P r := by
  unfold list_add at h
  split_ifs at h with hp
  cases h
  intro r hr
  rcases List.mem_cons.1 hr with h | h
  · rw [h]
    exact hP hp
  · exact he r h

/-- A property that holds of every record `site_propensity(i)` can pass to `add_event`
holds of every event the call adds. -/
theorem added_events_all (app : App) (st : State) (i : Int) (P : EvData → Prop)
    (hS : ∀ m, 0 ≤ m → m < app.none → app.spropensity m ≠ 0 →
      P ⟨1, m, -1, -1, -1, app.spropensity m⟩)
    (hD : ∀ m jj kk, 0 ≤ m → m < app.ntwo → 0 ≤ jj → jj < app.numneigh i →
      0 ≤ kk → kk < app.numneigh (app.neighbor i jj) →
      app.neighbor (app.neighbor i jj) kk ≠ i → app.dpropensity m ≠ 0 →
      P ⟨2, m, -1, app.neighbor (app.neighbor i jj) kk, -1, app.dpropensity m⟩)
    (hV : ∀ m jj, 0 ≤ m → m < app.nthree → 0 ≤ jj → jj < app.numneigh i →
      app.vpropensity m ≠ 0 →
      P ⟨3, m, app.neighbor i jj, -1, -1, app.vpropensity m⟩)
    (hF : ∀ m p, 0 ≤ m → m < app.nfour → 0 ≤ p → p < app.num_same_z_neighbors i →
      app.fpropensity m ≠ 0 →
      P ⟨4, m, -1, -1, app.same_z_neighbors i p, app.fpropensity m⟩)
    (hN : P nullEvent)
    (e : Enum (List EvData)) (h : added_events app st i = .ok e) : ∀ r ∈ e.store, P r := by
  unfold added_events enumerate at h
  simp only [bind, Except.bind] at h
  have step1 : ∀ (a : Enum (List EvData)) (m : Int) (a1 : Enum (List EvData)),
      m ∈ irange app.none →
      (∀ r ∈ a.store, P r) → type1_m list_add app st i a m = .ok a1 →
      ∀ r ∈ a1.store, P r := by
    intro a m a1 hm ha h1
    have hm2 := (mem_irange _ _).1 hm
    simp only [type1_m] at h1
    split_ifs at h1
    · cases hadd : list_add a.store i 1 m (app.spropensity m) (-1) (-1) (-1) with
      | error err => rw [hadd] at h1; cases h1
      | ok l1 =>
        rw [hadd] at h1
        cases h1
        exact list_add_all P a _ _ _ _ _ _ _ _ hadd (hS m hm2.1 hm2.2) ha
    · cases h1
      exact ha
  have step2 : ∀ (k : Int),
      (∀ m, 0 ≤ m → m < app.ntwo → app.dpropensity m ≠ 0 →
        P ⟨2, m, -1, k, -1, app.dpropensity m⟩) →
      ∀ (a : Enum (List EvData)) (m : Int) (a1 : Enum (List EvData)),
      m ∈ irange app.ntwo →
      (∀ r ∈ a.store, P r) → type2_m list_add app st i k a m = .ok a1 →
      ∀ r ∈ a1.store, P r := by
    intro k hD a m a1 hm ha h1
    have hm2 := (mem_irange _ _).1 hm
    simp only [type2_m] at h1
    split_ifs at h1
    · cases hadd : list_add a.store i 2 m (app.dpropensity m) (-1) k (-1) with
      | error err => rw [hadd] at h1; cases h1
      | ok l1 =>
        rw [hadd] at h1
        cases h1
        exact list_add_all P a _ _ _ _ _ _ _ _ hadd (hD m hm2.1 hm2.2) ha
    · cases h1
      exact ha
    · cases h1
      exact ha
  have step3 : ∀ (j : Int),
      (∀ m, 0 ≤ m → m < app.nthree → app.vpropensity m ≠ 0 →
        P ⟨3, m, j, -1, -1, app.vpropensity m⟩) →
      ∀ (a : Enum (List EvData)) (m : Int) (a1 : Enum (List EvData)),
      m ∈ irange app.nthree →
      (∀ r ∈ a.store, P r) → type3_m list_add app st i j a m = .ok a1 →
      ∀ r ∈ a1.store, P r := by
    intro j hV a m a1 hm ha h1
    have hm2 := (mem_irange _ _).1 hm
    simp only [type3_m] at h1
    split_ifs at h1
    · cases hadd : list_add a.store i 3 m (app.vpropensity m) j (-1) (-1) with
      | error err => rw [hadd] at h1; cases h1
      | ok l1 =>
        rw [hadd] at h1
        cases h1
        exact list_add_all P a _ _ _ _ _ _ _ _ hadd (hV m hm2.1 hm2.2) ha
    · cases h1
      exact ha
  have step4 : ∀ (g : Int),
      (∀ m, 0 ≤ m → m < app.nfour → app.fpropensity m ≠ 0 →
        P ⟨4, m, -1, -1, g, app.fpropensity m⟩) →
      ∀ (a : Enum (List EvData)) (m : Int) (a1 : Enum (List EvData)),
      m ∈ irange app.nfour →
      (∀ r ∈ a.store, P r) → type4_m list_add app st i g a m = .ok a1 →
      ∀ r ∈ a1.store, P r := by
    intro g hF a m a1 hm ha h1
    have hm2 := (mem_irange _ _).1 hm
    simp only [type4_m] at h1
    split_ifs at h1
    · cases hadd : list_add a.store i 4 m (app.fpropensity m) (-1) (-1) g with
      | error err => rw [hadd] at h1; cases h1
      | ok l1 =>
        rw [hadd] at h1
        cases h1
        exact list_add_all P a _ _ _ _ _ _ _ _ hadd (hF m hm2.1 hm2.2) ha
    · cases h1
      exact ha
  cases h1 : (irange app.none).foldlM (type1_m list_add app st i)
      { store := [], comneigh := st.comneigh, comevent := st.comevent, proball := 0,
        nextneib := 0 } with
  | error err => rw [h1] at h; cases h
  | ok e1 =>
    rw [h1] at h
    simp only [] at h
    have i1 : ∀ r ∈ e1.store, P r :=
      foldlM_ok_inv (fun a : Enum (List EvData) => ∀ r ∈ a.store, P r) _ _
        (fun a m a1 hm ha hok => step1 a m a1 hm ha hok) _ e1 (by simp) h1
    cases h2 : (irange (app.numneigh i)).foldlM (type2_jj list_add app st i)
        { e1 with nextneib := 1 } with
    | error err => rw [h2] at h; cases h
    | ok e2 =>
      rw [h2] at h
      simp only [] at h
      have i2 : ∀ r ∈ e2.store, P r := by
        refine foldlM_ok_inv (fun a : Enum (List EvData) => ∀ r ∈ a.store, P r)
          _ _ (fun a jj a1 hjj ha hok => ?_) { e1 with nextneib := 1 } e2 i1 h2
        have hjj2 := (mem_irange _ _).1 hjj
        unfold type2_jj at hok
        refine foldlM_ok_inv (fun a : Enum (List EvData) => ∀ r ∈ a.store, P r)
          _ _ (fun a kk a1 hkk ha hok => ?_) _ a1 ha hok
        have hkk2 := (mem_irange _ _).1 hkk
        simp only [type2_kk] at hok
        split_ifs at hok with hik
        · cases hok
          exact ha
        · exact foldlM_ok_inv
            (fun a : Enum (List EvData) => ∀ r ∈ a.store, P r)
            _ _ (fun a m a1 hm ha hok => step2 _
              (fun m h0 h1 hp => hD m jj kk h0 h1 hjj2.1 hjj2.2 hkk2.1 hkk2.2
                (fun h => hik h.symm) hp) a m a1 hm ha hok) _ a1 ha hok
      cases h3 : (irange (app.numneigh i)).foldlM (type3_jj list_add app st i) e2 with
      | error err => rw [h3] at h; cases h
      | ok e3 =>
        rw [h3] at h
        simp only [] at h
        have i3 : ∀ r ∈ e3.store, P r := by
          refine foldlM_ok_inv
            (fun a : Enum (List EvData) => ∀ r ∈ a.store, P r)
            _ _ (fun a jj a1 hjj ha hok => ?_) _ e3 i2 h3
          have hjj2 := (mem_irange _ _).1 hjj
          unfold type3_jj at hok
          exact foldlM_ok_inv
            (fun a : Enum (List EvData) => ∀ r ∈ a.store, P r)
            _ _ (fun a m a1 hm ha hok => step3 _
              (fun m h0 h1 hp => hV m jj h0 h1 hjj2.1 hjj2.2 hp) a m a1 hm ha hok) _ a1 ha hok
        cases h4 : (irange (app.num_same_z_neighbors i)).foldlM (type4_p list_add app st i)
            e3 with
        | error err => rw [h4] at h; cases h
        | ok e4 =>
          rw [h4] at h
          simp only [] at h
          have i4 : ∀ r ∈ e4.store, P r := by
            refine foldlM_ok_inv
              (fun a : Enum (List EvData) => ∀ r ∈ a.store, P r)
              _ _ (fun a p a1 hp ha hok => ?_) _ e4 i3 h4
            have hp2 := (mem_irange _ _).1 hp
            unfold type4_p at hok
            exact foldlM_ok_inv
              (fun a : Enum (List EvData) => ∀ r ∈ a.store, P r)
              _ _ (fun a m a1 hm ha hok => step4 _
                (fun m h0 h1 hq => hF m p h0 h1 hp2.1 hp2.2 hq) a m a1 hm ha hok)
              _ a1 ha hok
          unfold type5 at h
          cases hadd : list_add e4.store i 5 0 (1 / 10) (-1) (-1) (-1) with
          | error err => rw [hadd] at h; cases h
          | ok l1 =>
            rw [hadd] at h
            cases h
            exact list_add_all P e4 _ _ _ _ _ _ _ _ hadd (fun _ => hN) i4

theorem nullEvent_wf (app : App) : WellFormedEvent app nullEvent :=
  ⟨by simp [nullEvent], Or.inr (Or.inr (Or.inr (Or.inr rfl)))⟩

theorem added_events_wf (app : App) (st : State) (i : Int) (e : Enum (List EvData))
    (h : added_events app st i = .ok e) : ∀ r ∈ e.store, WellFormedEvent app r :=
  added_events_all app st i (WellFormedEvent app)
    (fun _ h0 h1 hp => ⟨hp, Or.inl ⟨rfl, h0, h1, rfl, rfl, rfl, rfl⟩⟩)
    (fun _ _ _ h0 h1 _ _ _ _ _ hp => ⟨hp, Or.inr (Or.inl ⟨rfl, h0, h1, rfl, rfl, rfl⟩)⟩)
    (fun _ _ h0 h1 _ _ hp =>
      ⟨hp, Or.inr (Or.inr (Or.inl ⟨rfl, h0, h1, rfl, rfl, rfl⟩))⟩)
    (fun _ _ h0 h1 _ _ hp =>
      ⟨hp, Or.inr (Or.inr (Or.inr (Or.inl ⟨rfl, h0, h1, rfl, rfl, rfl⟩)))⟩)
    (nullEvent_wf app) e h

theorem added_events_partner (app : App) (st : State) (i : Int) (e : Enum (List EvData))
    (h : added_events app st i = .ok e) : ∀ r ∈ e.store, PartnerReached app i r := by
  refine added_events_all app st i (PartnerReached app i) ?_ ?_ ?_ ?_ ?_ e h
  · intro m _ _ _
    refine ⟨fun h => ?_, fun h => ?_, fun h => ?_⟩
    · have h2 : (1 : Int) = 2 := h
      omega
    · have h2 : (1 : Int) = 3 := h
      omega
    · have h2 : (1 : Int) = 4 := h
      omega
  · intro m jj kk _ _ j0 j1 k0 k1 hne _
    refine ⟨fun _ => ⟨⟨jj, kk, j0, j1, k0, k1, rfl⟩, hne⟩, fun h => ?_, fun h => ?_⟩
    · have h2 : (2 : Int) = 3 := h
      omega
    · have h2 : (2 : Int) = 4 := h
      omega
  · intro m jj _ _ j0 j1 _
    refine ⟨fun h => ?_, fun _ => ⟨jj, j0, j1, rfl⟩, fun h => ?_⟩
    · have h2 : (3 : Int) = 2 := h
      omega
    · have h2 : (3 : Int) = 4 := h
      omega
  · intro m p _ _ p0 p1 _
    refine ⟨fun h => ?_, fun h => ?_, fun _ => ⟨p, p0, p1, rfl⟩⟩
    · have h2 : (4 : Int) = 2 := h
      omega
    · have h2 : (4 : Int) = 3 := h
      omega
  · refine ⟨fun h => ?_, fun h => ?_, fun h => ?_⟩
    · have h2 : (5 : Int) = 2 := h
      omega
    · have h2 : (5 : Int) = 3 := h
      omega
    · have h2 : (5 : Int) = 4 := h
      omega

theorem site_propensity_ok_sim (app : App) {st st1 : State} {A : Int → List EvData}
    (hA : EventLists app.nlocal st.es A) {i : Int} (hi0 : 0 ≤ i) (hin : i < app.nlocal)
    {fuel : Nat} {p : ℚ} (hok : site_propensity app fuel st i = .ok (st1, p)) :
    ∃ e, added_events app st i = .ok e ∧ EventLists app.nlocal st1.es (upd A i e.store) ∧
      p = e.proball ∧
      st1 = { st with es := st1.es, comneigh := e.comneigh, comevent := e.comevent } := by
  have hlen : (A i).length ≤ fuel := by
    obtain ⟨L, F, hAr, hL⟩ := hA
    rw [← hL i hi0 hin, List.length_map]
    cases hcl : clear_loop fuel st.es (st.es.firstevent i) with
    | error err =>
      simp [site_propensity, clear_events, hcl, bind, Except.bind] at hok
    | ok es1 =>
      exact clear_loop_ok_length (L i) fuel st.es es1 _ (hAr.site i hi0 hin)
        (fun x hx => (hAr.rangeL i hi0 hin x hx).1) (hAr.nodupL i hi0 hin) hcl
  have hsim := site_propensity_sim app hA hi0 hin hlen
  rw [hok] at hsim
  cases hadd : added_events app st i with
  | error err =>
    rw [hadd] at hsim
    exact hsim.elim
  | ok e =>
    rw [hadd] at hsim
    exact ⟨e, rfl, hsim.1, hsim.2.2.1, hsim.2.2.2⟩

theorem site_propensity_ok_wf (app : App) {st st1 : State} (hW : WfLists app st.es)
    {i : Int} (hi0 : 0 ≤ i) (hin : i < app.nlocal) {fuel : Nat} {p : ℚ}
    (hok : site_propensity app fuel st i = .ok (st1, p)) : WfLists app st1.es := by
  obtain ⟨A, hA, hwf⟩ := hW
  obtain ⟨e, hadd, hA1, _, _⟩ := site_propensity_ok_sim app hA hi0 hin hok
  refine ⟨_, hA1, ?_⟩
  intro j hj0 hjn r hr
  by_cases hji : j = i
  · subst hji
    simp only [upd, if_true] at hr
    exact ⟨added_events_wf app st j e hadd r hr, added_events_partner app st j e hadd r hr⟩
  · simp only [upd, hji, if_false] at hr
    exact hwf j hj0 hjn r hr

/-! ## Properties kept by the refresh phase -/

theorem clear_echeck_closed (app : App) (J : State → Prop) (hJ : RefreshClosed app J)
    (st : State) (n : Int) (h : J st) : J (clear_echeck st n) := by
  unfold clear_echeck
  refine foldl_inv J _ _ ?_ st h
  intro a x _ ha
  exact hJ.2.2.1 a a.propensity _ _ ha

theorem refresh_site_closed (app : App) (fuel : Nat) (J : State → Prop)
    (hJ : RefreshClosed app J) (acc a1 : State × Int) (s : Int)
    (hs0 : 0 ≤ s) (hsn : s < app.nlocal) (hinv : J acc.1)
    (hok : refresh_site app fuel acc s = .ok a1) : J a1.1 := by
  unfold refresh_site at hok
  cases hsp : site_propensity app fuel (count_coord app acc.1 s) s with
  | error err =>
    rw [hsp] at hok
    simp at hok
  | ok r =>
    obtain ⟨st1, p⟩ := r
    rw [hsp] at hok
    have h1 := hJ.1 _ st1 fuel s p hs0 hsn (hJ.2.1 acc.1 s hinv) hsp
    simp only [Except.ok.injEq] at hok
    rw [← hok]
    exact hJ.2.2.1 st1 _ _ _ h1

theorem refresh_guarded_closed (app : App) (fuel : Nat) (hown : OwnedInRange app)
    (J : State → Prop) (hJ : RefreshClosed app J) (acc a1 : State × Int) (s : Int)
    (hinv : J acc.1) (hok : refresh_guarded app fuel acc s = .ok a1) : J a1.1 := by
  unfold refresh_guarded at hok
  split_ifs at hok with hg
  · have hs := hown s hg.1
    exact refresh_site_closed app fuel J hJ acc a1 s hs.1 hs.2 hinv hok
  · simp only [Except.ok.injEq] at hok
    rw [← hok]
    exact hinv

theorem refresh_l4_closed (app : App) (fuel : Nat) (hown : OwnedInRange app)
    (J : State → Prop) (hJ : RefreshClosed app J) (s : Int)
    (acc a1 : State × Int) (hinv : J acc.1)
    (hok : refresh_l4 app fuel s acc = .ok a1) : J a1.1 :=
  foldlM_ok_inv (fun a : State × Int => J a.1) _ _
    (fun a _ b _ ha hb => refresh_guarded_closed app fuel hown J hJ a b _ ha hb)
    acc a1 hinv hok

theorem refresh_step_closed (app : App) (fuel : Nat) (hown : OwnedInRange app)
    (J : State → Prop) (hJ : RefreshClosed app J)
    (inner : Int → State × Int → Except Fault (State × Int))
    (hinner : ∀ x a b, J a.1 → inner x a = .ok b → J b.1)
    (a b : State × Int) (x : Int) (ha : J a.1)
    (hok : (match refresh_guarded app fuel a x with
      | .ok a1 => inner x a1
      | .error err => .error err) = .ok b) : J b.1 := by
  cases hg : refresh_guarded app fuel a x with
  | error err =>
    rw [hg] at hok
    simp at hok
  | ok a1 =>
    rw [hg] at hok
    exact hinner x a1 b (refresh_guarded_closed app fuel hown J hJ a a1 x ha hg) hok

theorem refresh_l3_closed (app : App) (fuel : Nat) (hown : OwnedInRange app)
    (J : State → Prop) (hJ : RefreshClosed app J) (mm : Int)
    (acc a1 : State × Int) (hinv : J acc.1)
    (hok : refresh_l3 app fuel mm acc = .ok a1) : J a1.1 :=
  foldlM_ok_inv (fun a : State × Int => J a.1) _ _
    (fun a ss b _ ha hb => refresh_step_closed app fuel hown J hJ (refresh_l4 app fuel)
      (fun x c d hc hd => refresh_l4_closed app fuel hown J hJ x c d hc hd) a b
      (app.neighbor mm ss) ha hb) acc a1 hinv hok

theorem refresh_l2_closed (app : App) (fuel : Nat) (hown : OwnedInRange app)
    (J : State → Prop) (hJ : RefreshClosed app J) (m : Int)
    (acc a1 : State × Int) (hinv : J acc.1)
    (hok : refresh_l2 app fuel m acc = .ok a1) : J a1.1 :=
  foldlM_ok_inv (fun a : State × Int => J a.1) _ _
    (fun a jj b _ ha hb => refresh_step_closed app fuel hown J hJ (refresh_l3 app fuel)
      (fun x c d hc hd => refresh_l3_closed app fuel hown J hJ x c d hc hd) a b
      (app.neighbor m jj) ha hb) acc a1 hinv hok

theorem refresh_l1_closed (app : App) (fuel : Nat) (hown : OwnedInRange app)
    (J : State → Prop) (hJ : RefreshClosed app J) (i : Int)
    (acc a1 : State × Int) (hinv : J acc.1)
    (hok : refresh_l1 app fuel i acc = .ok a1) : J a1.1 :=
  foldlM_ok_inv (fun a : State × Int => J a.1) _ _
    (fun a n b _ ha hb => refresh_step_closed app fuel hown J hJ (refresh_l2 app fuel)
      (fun x c d hc hd => refresh_l2_closed app fuel hown J hJ x c d hc hd) a b
      (app.neighbor i n) ha hb) acc a1 hinv hok

/-- A returning `execute_event` is the mutation `apply_event` followed by steps that
keep every property closed under the refresh phase. -/
theorem execute_event_closed (app : App) (fuel : Nat) (hown : OwnedInRange app)
    (J : State → Prop) (hJ : RefreshClosed app J)
    (st st2 : State) (i ievent : Int) (time : ℚ) (touched : List Int)
    (hi0 : 0 ≤ i) (hin : i < app.nlocal)
    (hok : execute_event app fuel st i ievent time = .ok (st2, touched)) :
    ∃ st1, apply_event app st i (st.es.events ievent).style (st.es.events ievent).which
        (st.es.events ievent).jpartner (st.es.events ievent).kpartner
        (st.es.events ievent).gpartner = .ok st1 ∧ (J st1 → J st2) := by
  unfold execute_event at hok
  simp only [bind, Except.bind, pure, Except.pure] at hok
  cases hap : apply_event app st i (st.es.events ievent).style (st.es.events ievent).which
      (st.es.events ievent).jpartner (st.es.events ievent).kpartner
      (st.es.events ievent).gpartner with
  | error err =>
    rw [hap] at hok
    simp at hok
  | ok st1 =>
    rw [hap] at hok
    simp only [] at hok
    refine ⟨st1, rfl, fun hJ1 => ?_⟩
    have hJ3 : J (run_mask app (pulse_update app st1 time)
          (mask_action (pulse_update app st1 time) i (st.es.events ievent).gpartner
            (st.es.events ievent).style (st.element i)
            (st.element (st.es.events ievent).gpartner)), (0 : Int)).1 :=
      hJ.2.2.2.2 _ _ (hJ.2.2.2.1 st1 time hJ1)
    cases h0 : refresh_site app fuel
        (run_mask app (pulse_update app st1 time)
          (mask_action (pulse_update app st1 time) i (st.es.events ievent).gpartner
            (st.es.events ievent).style (st.element i)
            (st.element (st.es.events ievent).gpartner)), 0) i with
    | error err =>
      rw [h0] at hok
      simp at hok
    | ok a0 =>
      rw [h0] at hok
      simp only [] at hok
      have hinv0 := refresh_site_closed app fuel J hJ _ a0 i hi0 hin hJ3 h0
      cases h1 : refresh_l1 app fuel i a0 with
      | error err =>
        rw [h1] at hok
        simp at hok
      | ok a1 =>
        rw [h1] at hok
        simp only [Except.ok.injEq, Prod.mk.injEq] at hok
        have hJa := refresh_l1_closed app fuel hown J hJ i a0 a1 hinv0 h1
        rw [← hok.1]
        exact clear_echeck_closed app J hJ a1.1 a1.2 hJa

theorem wfLists_closed (app : App) : RefreshClosed app (fun s => WfLists app s.es) := by
  refine ⟨?_, ?_, ?_, ?_, ?_⟩
  · intro st st1 fuel s p hs0 hsn h hok
    exact site_propensity_ok_wf app h hs0 hsn hok
  · intro st s h
    show WfLists app (count_coord app st s).es
    rw [(count_coord_frame app st s).1.es]
    exact h
  · intro st p e c h
    exact h
  · intro st time h
    show WfLists app (pulse_update app st time).es
    rw [(pulse_update_frame app st time).2.1]
    exact h
  · intro st a h
    show WfLists app (run_mask app st a).es
    rw [(run_mask_frame app st a).es]
    exact h

theorem site_propensity_ok_core (app : App) (fuel : Nat) (st st1 : State) (i : Int) (p : ℚ)
    (h : site_propensity app fuel st i = .ok (st1, p)) :
    st1.element = st.element ∧ st1.scount = st.scount ∧ st1.dcount = st.dcount ∧
    st1.vcount = st.vcount ∧ st1.fcount = st.fcount := by
  unfold site_propensity at h
  simp only [bind, Except.bind, pure, Except.pure] at h
  cases hc : clear_events fuel st.es i with
  | error err =>
    rw [hc] at h
    cases h
  | ok es0 =>
    rw [hc] at h
    simp only [] at h
    cases he : enumerate add_event app st i es0 with
    | error err =>
      rw [he] at h
      cases h
    | ok e =>
      rw [he] at h
      cases h
      exact ⟨rfl, rfl, rfl, rfl, rfl⟩

/-- Any property of the species array and the four counters is kept by the refresh
phase. -/
theorem core_closed (app : App)
    (Q : (Int → Int) → (Int → Int) → (Int → Int) → (Int → Int) → (Int → Int) → Prop) :
    RefreshClosed app (fun s => Q s.element s.scount s.dcount s.vcount s.fcount) := by
  refine ⟨?_, ?_, ?_, ?_, ?_⟩
  · intro st st1 fuel s p _ _ h hok
    obtain ⟨h1, h2, h3, h4, h5⟩ := site_propensity_ok_core app fuel st st1 s p hok
    show Q st1.element st1.scount st1.dcount st1.vcount st1.fcount
    rw [h1, h2, h3, h4, h5]
    exact h
  · intro st s h
    have hf := (count_coord_frame app st s).1
    show Q (count_coord app st s).element (count_coord app st s).scount
      (count_coord app st s).dcount (count_coord app st s).vcount
      (count_coord app st s).fcount
    rw [hf.element, hf.scount, hf.dcount, hf.vcount, hf.fcount]
    exact h
  · intro st p e c h
    exact h
  · intro st time h
    obtain ⟨h1, _, h2, h3, h4, h5⟩ := pulse_update_frame app st time
    show Q (pulse_update app st time).element (pulse_update app st time).scount
      (pulse_update app st time).dcount (pulse_update app st time).vcount
      (pulse_update app st time).fcount
    rw [h1, h2, h3, h4, h5]
    exact h
  · intro st a h
    have hf := run_mask_frame app st a
    show Q (run_mask app st a).element (run_mask app st a).scount
      (run_mask app st a).dcount (run_mask app st a).vcount (run_mask app st a).fcount
    rw [hf.element, hf.scount, hf.dcount, hf.vcount, hf.fcount]
    exact h

theorem chain_unique (nx : Int → Int) :
    ∀ (l1 l2 : List Int) (a : Int), Chain nx a l1 (-1) → (∀ x ∈ l1, 0 ≤ x) →
      Chain nx a l2 (-1) → (∀ x ∈ l2, 0 ≤ x) → l1 = l2
  | [], [], _, _, _, _, _ => rfl
  | [], b :: l2, a, h1, _, h2, p2 => by
    have ha : a = -1 := h1
    have hb : a = b := h2.1
    have := p2 b (List.mem_cons_self _ _)
    omega
  | b :: l1, [], a, h1, p1, h2, _ => by
    have ha : a = -1 := h2
    have hb : a = b := h1.1
    have := p1 b (List.mem_cons_self _ _)
    omega
  | b :: l1, c :: l2, a, h1, p1, h2, p2 => by
    have hb : a = b := h1.1
    have hc : a = c := h2.1
    subst hb
    subst hc
    rw [chain_unique nx l1 l2 (nx a) h1.2 (fun x hx => p1 x (List.mem_cons_of_mem _ hx))
      h2.2 (fun x hx => p2 x (List.mem_cons_of_mem _ hx))]

/-- An event on the chain of an owned site is a well-formed event. -/
theorem onChain_wf (app : App) (es : EventStore) (hW : WfLists app es) (i ievent : Int)
    (hi0 : 0 ≤ i) (hin : i < app.nlocal) (hon : OnChain es i ievent) :
    WellFormedAt app i (dataOf (es.events ievent)) := by
  obtain ⟨A, ⟨L, F, hA, hL⟩, hwf⟩ := hW
  obtain ⟨L1, hc, hpos, hmem⟩ := hon
  have hLL : L1 = L i := chain_unique _ L1 (L i) _ hc hpos (hA.site i hi0 hin)
    (fun x hx => (hA.rangeL i hi0 hin x hx).1)
  rw [hLL] at hmem
  apply hwf i hi0 hin
  rw [← hL i hi0 hin]
  exact List.mem_map.2 ⟨ievent, hmem, rfl⟩

theorem reachable_wf (app : App) (hown : OwnedInRange app) (st : State)
    (h : Reachable app st) : WfLists app st.es := by
  induction h with
  | setup st0 hmax =>
    exact ⟨_, setup_app_lists app st0 hmax, fun i _ _ r hr => by simp at hr⟩
  | propensity st0 st1 fuel i p _ hi0 hin hok ih =>
    exact @site_propensity_ok_wf app st0 st1 ih i hi0 hin fuel p hok
  | event st0 st1 fuel i uniform time touched _ hi0 hin hok ih =>
    unfold site_event at hok
    cases hsel : select_event app fuel st0 i uniform with
    | error err =>
      rw [hsel] at hok
      simp [bind, Except.bind] at hok
    | ok ievent =>
      rw [hsel] at hok
      obtain ⟨s1, hap, himp⟩ := execute_event_closed app fuel hown
        (fun s => WfLists app s.es) (wfLists_closed app) st0 st1 i ievent time touched
        hi0 hin hok
      apply himp
      show WfLists app s1.es
      rw [apply_event_es app st0 s1 i _ _ _ _ _ hap]
      exact ih

theorem runFrom_reachable (app : App) (st0 st : State) (n : Int)
    (h : RunFrom app st0 st n) : Reachable app st := by
  induction h with
  | setup hmax => exact Reachable.setup st0 hmax
  | propensity st st1 n fuel i p _ hi0 hin hok ih =>
    exact Reachable.propensity st st1 fuel i p ih hi0 hin hok
  | event st st1 n fuel i uniform time touched ievent _ hi0 hin _ _ hok ih =>
    exact Reachable.event st st1 fuel i uniform time touched ih hi0 hin hok

/-! ## The sign of the linked propensities -/

theorem site_propensity_of_addedTotal (app : App) {st : State} {A : Int → List EvData}
    (hA : EventLists app.nlocal st.es A) {i : Int} (hi0 : 0 ≤ i) (hin : i < app.nlocal)
    {fuel : Nat} (hfuel : (A i).length ≤ fuel) (l : List EvData) (p : ℚ)
    (h : addedTotal app st i = some (l, p)) :
    ∃ st1, site_propensity app fuel st i = .ok (st1, p) ∧
      EventLists app.nlocal st1.es (upd A i l) := by
  unfold addedTotal at h
  cases hadd : added_events app st i with
  | error err =>
    rw [hadd] at h
    cases h
  | ok e =>
    rw [hadd] at h
    simp only [Option.some.injEq, Prod.mk.injEq] at h
    obtain ⟨st1, h1, h2⟩ := site_propensity_of_added app hA hi0 hin hfuel e hadd
    exact ⟨st1, h.2 ▸ h1, h.1 ▸ h2⟩

theorem setup_propensities_appNegA (lm : Libm) :
    (input_app atofSample appNull "event"
        ["1", "O", "OH", "-1.0", "0", "0.0", "all", "0", "0"] >>=
      setup_propensities lm 300) = .ok appNegA := by
  rw [input_app_event_S atofSample _ "O" "OH" "-1.0" "0" "0.0" "all" "0" "0" (by decide)
    (by decide)]
  have h1 : species_to_enum "O" = O := by decide
  have h2 : species_to_enum "OH" = OH := by decide
  have h3 : parse_coord_value "all" = COORD_ALL := by decide
  have h4 : atoi "0" = 0 := by decide
  have h5 : atofSample "-1.0" = -1 := by simp [atofSample]
  have h6 : atofSample "0.0" = 0 := by simp [atofSample]
  rw [h1, h2, h3, h4, h5, h6]
  simp only [bind, Except.bind, setup_propensities]
  rw [if_neg (by norm_num)]
  unfold appNegA
  congr 2
  · funext m
    by_cases hm : m = 0
    · subst hm
      simp [appNull, upd, rate_propensity, lm.pow_zero, lm.exp_zero]
    · have : ¬ (0 ≤ m ∧ m < 1) := by omega
      simp [appNull, this]
  · funext m
    have : ¬ (0 ≤ m ∧ m < 0) := by omega
    simp [appNull, this]
  · funext m
    have : ¬ (0 ≤ m ∧ m < 0) := by omega
    simp [appNull, this]
  · funext m
    have : ¬ (0 ≤ m ∧ m < 0) := by omega
    simp [appNull, this]

/-- Counterexample to C21 as stated. The command `event 1 O OH -1.0 0 0.0 all 0 0` is
accepted and `setup_app` (temperature 300) turns its prefactor `A = -1` into the
propensity -1 (`appNegA`). On the one-site lattice holding `O`, `site_propensity(0)`
after `setup_app` then links the null event and an S event with propensity -1, and
returns -0.9. -/
theorem negative_prefactor_links_negative_event :
    (∀ lm : Libm,
      (input_app atofSample appNull "event"
          ["1", "O", "OH", "-1.0", "0", "0.0", "all", "0", "0"] >>=
        setup_propensities lm 300) = .ok appNegA) ∧
    ∃ st1, site_propensity appNegA 0 (setup_app appNegA (stInit O)) 0 = .ok (st1, -9 / 10) ∧
      EventLists appNegA.nlocal st1.es
        (upd (fun _ => []) 0 [nullEvent, ⟨1, 0, -1, -1, -1, -1⟩]) ∧
      Reachable appNegA
        { st1 with propensity := upd st1.propensity (appNegA.i2site 0) (-9 / 10) } := by
  refine ⟨setup_propensities_appNegA, ?_⟩
  obtain ⟨st1, h1, h2⟩ := site_propensity_of_addedTotal appNegA
    (show EventLists appNegA.nlocal (setup_app appNegA (stInit O)).es (fun _ => []) from
      setup_app_lists appNegA _ (le_refl _))
    (le_refl 0) (by decide : (0 : Int) < appNegA.nlocal) (Nat.le_refl _)
    [nullEvent, ⟨1, 0, -1, -1, -1, -1⟩] (-9 / 10) (by decide!)
  exact ⟨st1, h1, h2,
    Reachable.propensity _ st1 0 0 (-9 / 10) (Reachable.setup (stInit O) (le_refl _))
      (le_refl 0) (by decide) h1⟩

theorem wellFormed_pos (app : App) (hpos : PositiveProps app) (r : EvData)
    (h : WellFormedEvent app r) : 0 < r.propensity := by
  rcases h.2 with h1 | h1 | h1 | h1 | h1
  · rw [h1.2.2.2.2.2.2]
    exact hpos.1 _ h1.2.1 h1.2.2.1
  · rw [h1.2.2.2.2.2]
    exact hpos.2.1 _ h1.2.1 h1.2.2.1
  · rw [h1.2.2.2.2.2]
    exact hpos.2.2.1 _ h1.2.1 h1.2.2.1
  · rw [h1.2.2.2.2.2]
    exact hpos.2.2.2 _ h1.2.1 h1.2.2.1
  · rw [h1]
    simp [nullEvent]

theorem nonzeroProps_of_positive {app : App} (h : PositiveProps app) : NonzeroProps app :=
  ⟨fun m h0 h1 => ne_of_gt (h.1 m h0 h1), fun m h0 h1 => ne_of_gt (h.2.1 m h0 h1),
    fun m h0 h1 => ne_of_gt (h.2.2.1 m h0 h1), fun m h0 h1 => ne_of_gt (h.2.2.2 m h0 h1)⟩

theorem appS_positive (press_on : Int) : PositiveProps (appS press_on) := by
  refine ⟨?_, ?_, ?_, ?_⟩
  · intro m _ _
    simp [appS]
  · intro m h0 h1
    simp [appS, appNull] at h1
    omega
  · intro m h0 h1
    simp [appS, appNull] at h1
    omega
  · intro m h0 h1
    simp [appS, appNull] at h1
    omega

/-- When `pow` and `exp` return positive values, reactions declared with positive
prefactors get positive propensities from `setup_app`. -/
theorem setup_propensities_positive (lm : Libm) (temperature : ℚ) (app app1 : App)
    (hpow : ∀ n, 0 < lm.pow temperature n) (hexp : ∀ x, 0 < lm.exp x)
    (hA : (∀ m, 0 ≤ m → m < app.none → 0 < app.sA m) ∧
      (∀ m, 0 ≤ m → m < app.ntwo → 0 < app.dA m) ∧
      (∀ m, 0 ≤ m → m < app.nthree → 0 < app.vA m) ∧
      (∀ m, 0 ≤ m → m < app.nfour → 0 < app.fA m))
    (h : setup_propensities lm temperature app = .ok app1) : PositiveProps app1 := by
  unfold setup_propensities at h
  split_ifs at h
  cases h
  refine ⟨?_, ?_, ?_, ?_⟩
  · intro m h0 h1
    have h1 : m < app.none := h1
    simp only [h0, h1, and_self, if_true, rate_propensity]
    exact mul_pos (mul_pos (hA.1 m h0 h1) (hpow _)) (hexp _)
  · intro m h0 h1
    have h1 : m < app.ntwo := h1
    simp only [h0, h1, and_self, if_true, rate_propensity]
    exact mul_pos (mul_pos (hA.2.1 m h0 h1) (hpow _)) (hexp _)
  · intro m h0 h1
    have h1 : m < app.nthree := h1
    simp only [h0, h1, and_self, if_true, rate_propensity]
    exact mul_pos (mul_pos (hA.2.2.1 m h0 h1) (hpow _)) (hexp _)
  · intro m h0 h1
    have h1 : m < app.nfour := h1
    simp only [h0, h1, and_self, if_true, rate_propensity]
    exact mul_pos (mul_pos (hA.2.2.2 m h0 h1) (hpow _)) (hexp _)

/-- C21, amended. In every state reachable after setup (owned sites only carry solver
indices) the event store is well formed and no event linked from a `firstevent[i]` has
propensity 0. If moreover every declared reaction has a strictly positive propensity
table entry (`PositiveProps`), then every linked event has strictly positive propensity
and, with fuel for `maxevent` loop iterations, `site_propensity(i)` returns at every
owned site with a value `>= 0.1`. -/
theorem linked_events_nonzero_and_null_floor (app : App) (hown : OwnedInRange app)
    (st : State) (h : Reachable app st) :
    ∃ A, EventLists app.nlocal st.es A ∧
      (∀ i, 0 ≤ i → i < app.nlocal → ∀ r ∈ A i, r.propensity ≠ 0) ∧
      (PositiveProps app →
        (∀ i, 0 ≤ i → i < app.nlocal → ∀ r ∈ A i, 0 < r.propensity) ∧
        ∀ (i : Int) (fuel : Nat), 0 ≤ i → i < app.nlocal → st.es.maxevent.toNat ≤ fuel →
          ∃ st1 p, site_propensity app fuel st i = .ok (st1, p) ∧ 1 / 10 ≤ p) := by
  obtain ⟨A, hA, hwf⟩ := reachable_wf app hown st h
  refine ⟨A, hA, fun i hi0 hin r hr => (hwf i hi0 hin r hr).1.1, fun hpos => ⟨?_, ?_⟩⟩
  · intro i hi0 hin r hr
    exact wellFormed_pos app hpos r (hwf i hi0 hin r hr).1
  · intro i fuel hi0 hin hfuel
    obtain ⟨st1, e, fs, vs, ds, h1, hadd, _, _, _, hstore, _, _, _, hsum⟩ :=
      site_propensity_spec app hA hi0 hin (le_trans (lists_length_le hA hi0 hin) hfuel)
        (nonzeroActive_of_nonzeroProps (nonzeroProps_of_positive hpos) _)
    refine ⟨st1, e.proball, h1, ?_⟩
    have hall := added_events_wf app st i e hadd
    rw [hsum]
    rw [hstore] at hall ⊢
    rw [List.map_cons, List.sum_cons]
    have hrest : 0 ≤ ((fs ++ (vs ++ (ds ++
        (((irange app.none).filter (fun m => decide (sAdmits app st i m))).map
          (sEvent app)).reverse))).map (fun r => r.propensity)).sum := by
      apply List.sum_nonneg
      intro x hx
      obtain ⟨r, hr, rfl⟩ := List.mem_map.1 hx
      exact le_of_lt (wellFormed_pos app hpos r (hall r (List.mem_cons_of_mem _ hr)))
    have hnull : nullEvent.propensity = 1 / 10 := rfl
    rw [hnull]
    linarith

theorem linked_events_nonzero_and_null_floor_witness :
    ∃ A, EventLists (appS 0).nlocal (setup_app (appS 0) (stInit O)).es A ∧
      (∀ i, 0 ≤ i → i < (appS 0).nlocal → ∀ r ∈ A i, r.propensity ≠ 0) ∧
      (∀ i, 0 ≤ i → i < (appS 0).nlocal → ∀ r ∈ A i, 0 < r.propensity) ∧
      ∀ (i : Int) (fuel : Nat), 0 ≤ i → i < (appS 0).nlocal →
        (setup_app (appS 0) (stInit O)).es.maxevent.toNat ≤ fuel →
        ∃ st1 p, site_propensity (appS 0) fuel (setup_app (appS 0) (stInit O)) i =
          .ok (st1, p) ∧ 1 / 10 ≤ p := by
  obtain ⟨A, h1, h2, h3⟩ := linked_events_nonzero_and_null_floor (appS 0) (appS_owned 0)
    (setup_app (appS 0) (stInit O)) (Reachable.setup (stInit O) (le_refl _))
  exact ⟨A, h1, h2, (h3 (appS_positive 0)).1, (h3 (appS_positive 0)).2⟩

/-! ## Counter accounting -/

theorem apply_event_wf (app : App) (st s1 : State) (i : Int) (ev : Event)
    (hwf : WellFormedEvent app (dataOf ev))
    (hap : apply_event app st i ev.style ev.which ev.jpartner ev.kpartner ev.gpartner =
      .ok s1) :
    ((ev.style = 5 ∧ CountersSame st s1) ∨
      (ev.style ≠ 5 ∧ CounterRaised app st s1 ev.style ev.which)) ∧
    (DeclaredOutputs app → SpeciesValid app st → SpeciesValid app s1) := by
  have hvalid : ∀ (el : Int → Int) (x v : Int), (0 ≤ v ∧ v ≤ 25) →
      (∀ y, 0 ≤ y → y < app.nlocal → 0 ≤ el y ∧ el y ≤ 25) →
      ∀ y, 0 ≤ y → y < app.nlocal → 0 ≤ upd el x v y ∧ upd el x v y ≤ 25 := by
    intro el x v hv hel y hy0 hyn
    by_cases hyx : y = x
    · simp only [upd, hyx, if_true]
      exact hv
    · simp only [upd, hyx, if_false]
      exact hel y hy0 hyn
  rcases hwf.2 with h | h | h | h | h
  · obtain ⟨hs, h0, h1, _, _, _, _⟩ := h
    have hs1 : ev.style = 1 := hs
    have h0 : 0 ≤ ev.which := h0
    have h1 : ev.which < app.none := h1
    simp only [apply_event, hs1, if_true, Except.ok.injEq] at hap
    subst hap
    refine ⟨Or.inr ⟨by omega, Or.inl ⟨hs1, h0, h1, rfl, rfl, rfl, rfl⟩⟩, ?_⟩
    intro hd hv
    exact hvalid _ _ _ (hd.1 _ h0 h1) hv
  · obtain ⟨hs, h0, h1, hj, _, _⟩ := h
    have hs1 : ev.style = 2 := hs
    have h0 : 0 ≤ ev.which := h0
    have h1 : ev.which < app.ntwo := h1
    have hj : ev.jpartner = -1 := hj
    have hne : ¬ ((2 : Int) = 1) := by decide
    simp only [apply_event, hs1, hj, hne, if_false, and_self, if_true,
      Except.ok.injEq] at hap
    subst hap
    refine ⟨Or.inr ⟨by omega, Or.inr (Or.inl ⟨hs1, h0, h1, rfl, rfl, rfl, rfl⟩)⟩, ?_⟩
    intro hd hv
    exact hvalid _ _ _ (hd.2.1 _ h0 h1).2 (hvalid _ _ _ (hd.2.1 _ h0 h1).1 hv)
  · obtain ⟨hs, h0, h1, hk, _, _⟩ := h
    have hs1 : ev.style = 3 := hs
    have h0 : 0 ≤ ev.which := h0
    have h1 : ev.which < app.nthree := h1
    have hk : ev.kpartner = -1 := hk
    have hne : ¬ ((3 : Int) = 1) := by decide
    have hne2 : ¬ ((3 : Int) = 2) := by decide
    simp only [apply_event, hs1, hk, hne, hne2, if_false, false_and, and_self, if_true,
      Except.ok.injEq] at hap
    subst hap
    refine ⟨Or.inr ⟨by omega, Or.inr (Or.inr (Or.inl ⟨hs1, h0, h1, rfl, rfl, rfl, rfl⟩))⟩,
      ?_⟩
    intro hd hv
    exact hvalid _ _ _ (hd.2.2.1 _ h0 h1).2 (hvalid _ _ _ (hd.2.2.1 _ h0 h1).1 hv)
  · obtain ⟨hs, h0, h1, _, _, _⟩ := h
    have hs1 : ev.style = 4 := hs
    have h0 : 0 ≤ ev.which := h0
    have h1 : ev.which < app.nfour := h1
    have hne : ¬ ((4 : Int) = 1) := by decide
    have hne2 : ¬ ((4 : Int) = 2) := by decide
    have hne3 : ¬ ((4 : Int) = 3) := by decide
    simp only [apply_event, hs1, hne, hne2, hne3, if_false, false_and, if_true,
      Except.ok.injEq] at hap
    subst hap
    refine ⟨Or.inr ⟨by omega, Or.inr (Or.inr (Or.inr ⟨hs1, h0, h1, rfl, rfl, rfl, rfl⟩))⟩,
      ?_⟩
    intro hd hv
    exact hvalid _ _ _ (hd.2.2.2 _ h0 h1).2 (hvalid _ _ _ (hd.2.2.2 _ h0 h1).1 hv)
  · have hs1 : ev.style = 5 := congrArg EvData.style h
    have hne : ¬ ((5 : Int) = 1) := by decide
    have hne2 : ¬ ((5 : Int) = 2) := by decide
    have hne3 : ¬ ((5 : Int) = 3) := by decide
    have hne4 : ¬ ((5 : Int) = 4) := by decide
    simp only [apply_event, hs1, hne, hne2, hne3, hne4, if_false, false_and, if_true,
      Except.ok.injEq] at hap
    subst hap
    exact ⟨Or.inl ⟨hs1, rfl, rfl, rfl, rfl⟩, fun _ hv => hv⟩

/-- One returning `site_event` call whose selected event is on the list of its site:
the counters and species of the result are those the mutation of a well-formed event
leaves. -/
theorem site_event_step (app : App) (hown : OwnedInRange app) (st st1 : State)
    (hW : WfLists app st.es) (fuel : Nat) (i : Int) (uniform time : ℚ)
    (touched : List Int) (ievent : Int) (hi0 : 0 ≤ i) (hin : i < app.nlocal)
    (hsel : select_event app fuel st i uniform = .ok ievent)
    (hon : OnChain st.es i ievent)
    (hok : site_event app fuel st i uniform time = .ok (st1, touched)) :
    (((st.es.events ievent).style = 5 ∧ CountersSame st st1) ∨
      ((st.es.events ievent).style ≠ 5 ∧
        CounterRaised app st st1 (st.es.events ievent).style (st.es.events ievent).which)) ∧
    (DeclaredOutputs app → SpeciesValid app st → SpeciesValid app st1) := by
  have hwf := (onChain_wf app st.es hW i ievent hi0 hin hon).1
  unfold site_event at hok
  rw [hsel] at hok
  obtain ⟨s1, hap, _⟩ := execute_event_closed app fuel hown (fun _ => True)
    (core_closed app (fun _ _ _ _ _ => True)) st st1 i ievent time touched hi0 hin hok
  obtain ⟨s2, hap2, himp⟩ := execute_event_closed app fuel hown
    (fun s => s.element = s1.element ∧ s.scount = s1.scount ∧ s.dcount = s1.dcount ∧
      s.vcount = s1.vcount ∧ s.fcount = s1.fcount)
    (core_closed app (fun el sc dc vc fc => el = s1.element ∧ sc = s1.scount ∧
      dc = s1.dcount ∧ vc = s1.vcount ∧ fc = s1.fcount))
    st st1 i ievent time touched hi0 hin hok
  rw [hap] at hap2
  injection hap2 with hEq
  subst hEq
  obtain ⟨e1, e2, e3, e4, e5⟩ := himp ⟨rfl, rfl, rfl, rfl, rfl⟩
  obtain ⟨hc, hsp⟩ := apply_event_wf app st s1 i (st.es.events ievent) hwf hap
  constructor
  · rcases hc with ⟨h5, hs⟩ | ⟨h5, hr⟩
    · left
      refine ⟨h5, ?_⟩
      unfold CountersSame at hs ⊢
      rw [e2, e3, e4, e5]
      exact hs
    · right
      refine ⟨h5, ?_⟩
      unfold CounterRaised at hr ⊢
      rw [e2, e3, e4, e5]
      exact hr
  · intro hd hv
    have := hsp hd hv
    unfold SpeciesValid at this ⊢
    rw [e1]
    exact this

theorem sum_map_upd (c : Int → Int) (m v : Int) :
    ∀ l : List Int, l.Nodup → m ∈ l → (l.map (upd c m v)).sum = (l.map c).sum - c m + v
  | [], _, hm => by simp at hm
  | a :: t, hnd, hm => by
    have hnd2 := List.nodup_cons.1 hnd
    by_cases ham : a = m
    · subst ham
      have hcongr : t.map (upd c a v) = t.map c := by
        apply List.map_congr_left
        intro j hj
        have : j ≠ a := fun h => hnd2.1 (h ▸ hj)
        simp [upd, this]
      simp only [List.map_cons, List.sum_cons, hcongr]
      simp [upd]
      omega
    · have hit : m ∈ t := by
        rcases List.mem_cons.1 hm with h | h
        · exact absurd h.symm ham
        · exact h
      have ih := sum_map_upd c m v t hnd2.2 hit
      simp only [List.map_cons, List.sum_cons, ih]
      simp only [upd, ham, if_false]
      omega

theorem sum_irange_raised (c : Int → Int) (n m : Int) (h0 : 0 ≤ m) (h1 : m < n) :
    ((irange n).map (upd c m (c m + 1))).sum = ((irange n).map c).sum + 1 := by
  rw [sum_map_upd c m (c m + 1) (irange n) (nodup_irange n) ((mem_irange n m).2 ⟨h0, h1⟩)]
  omega

theorem counter_total_raised (app : App) (st st1 : State) (style m : Int)
    (h : CounterRaised app st st1 style m) :
    counter_total app st1 = counter_total app st + 1 := by
  unfold counter_total
  rcases h with ⟨_, h0, h1, hs, hd, hv, hf⟩ | ⟨_, h0, h1, hd, hs, hv, hf⟩ |
    ⟨_, h0, h1, hv, hs, hd, hf⟩ | ⟨_, h0, h1, hf, hs, hd, hv⟩
  · rw [hs, hd, hv, hf, sum_irange_raised _ _ _ h0 h1]
    omega
  · rw [hs, hd, hv, hf, sum_irange_raised _ _ _ h0 h1]
    omega
  · rw [hs, hd, hv, hf, sum_irange_raised _ _ _ h0 h1]
    omega
  · rw [hs, hd, hv, hf, sum_irange_raised _ _ _ h0 h1]
    omega

theorem counters_raised_nonneg (app : App) (st st1 : State) (style m : Int)
    (h : CounterRaised app st st1 style m) (hn : CountersNonneg app st) :
    CountersNonneg app st1 := by
  have hupd : ∀ (c : Int → Int) (n : Int), (∀ x, 0 ≤ x → x < n → 0 ≤ c x) → 0 ≤ m → m < n →
      ∀ x, 0 ≤ x → x < n → 0 ≤ upd c m (c m + 1) x := by
    intro c n hc hm0 hmn x hx0 hxn
    by_cases hxm : x = m
    · simp only [upd, hxm, if_true]
      have := hc m hm0 hmn
      omega
    · simp only [upd, hxm, if_false]
      exact hc x hx0 hxn
  unfold CountersNonneg
  rcases h with ⟨_, h0, h1, hs, hd, hv, hf⟩ | ⟨_, h0, h1, hd, hs, hv, hf⟩ |
    ⟨_, h0, h1, hv, hs, hd, hf⟩ | ⟨_, h0, h1, hf, hs, hd, hv⟩
  · rw [hs, hd, hv, hf]
    exact ⟨hupd _ _ hn.1 h0 h1, hn.2.1, hn.2.2.1, hn.2.2.2⟩
  · rw [hs, hd, hv, hf]
    exact ⟨hn.1, hupd _ _ hn.2.1 h0 h1, hn.2.2.1, hn.2.2.2⟩
  · rw [hs, hd, hv, hf]
    exact ⟨hn.1, hn.2.1, hupd _ _ hn.2.2.1 h0 h1, hn.2.2.2⟩
  · rw [hs, hd, hv, hf]
    exact ⟨hn.1, hn.2.1, hn.2.2.1, hupd _ _ hn.2.2.2 h0 h1⟩

theorem counters_raised_mono (app : App) (st st1 : State) (style m : Int)
    (h : CounterRaised app st st1 style m) : CountersMono st st1 := by
  have hupd : ∀ (c : Int → Int) (x : Int), c x ≤ upd c m (c m + 1) x := by
    intro c x
    by_cases hxm : x = m
    · simp only [upd, hxm, if_true]
      omega
    · simp only [upd, hxm, if_false]
      exact le_refl _
  unfold CountersMono
  rcases h with ⟨_, _, _, hs, hd, hv, hf⟩ | ⟨_, _, _, hd, hs, hv, hf⟩ |
    ⟨_, _, _, hv, hs, hd, hf⟩ | ⟨_, _, _, hf, hs, hd, hv⟩
  · rw [hs, hd, hv, hf]
    exact ⟨hupd _, fun _ => le_refl _, fun _ => le_refl _, fun _ => le_refl _⟩
  · rw [hs, hd, hv, hf]
    exact ⟨fun _ => le_refl _, hupd _, fun _ => le_refl _, fun _ => le_refl _⟩
  · rw [hs, hd, hv, hf]
    exact ⟨fun _ => le_refl _, fun _ => le_refl _, hupd _, fun _ => le_refl _⟩
  · rw [hs, hd, hv, hf]
    exact ⟨fun _ => le_refl _, fun _ => le_refl _, fun _ => le_refl _, hupd _⟩

theorem sum_irange_reset (c : Int → Int) (n : Int) :
    ((irange n).map (fun m => if 0 ≤ m ∧ m < n then 0 else c m)).sum = 0 := by
  apply List.sum_eq_zero
  intro x hx
  obtain ⟨m, hm, rfl⟩ := List.mem_map.1 hx
  rw [if_pos ((mem_irange _ _).1 hm)]

/-- The counters along a run: their sum is the number of non-NULL events executed, and
every entry of a declared reaction is nonnegative. -/
theorem runFrom_counters (app : App) (hown : OwnedInRange app) (st0 st : State) (n : Int)
    (h : RunFrom app st0 st n) :
    counter_total app st = n ∧ 0 ≤ n ∧ CountersNonneg app st := by
  induction h with
  | setup hmax =>
    refine ⟨?_, le_refl _, ?_⟩
    · show ((irange app.none).map (fun m => if 0 ≤ m ∧ m < app.none then 0 else st0.scount m)).sum
        + ((irange app.ntwo).map
          (fun m => if 0 ≤ m ∧ m < app.ntwo then 0 else st0.dcount m)).sum
        + ((irange app.nthree).map
          (fun m => if 0 ≤ m ∧ m < app.nthree then 0 else st0.vcount m)).sum
        + ((irange app.nfour).map
          (fun m => if 0 ≤ m ∧ m < app.nfour then 0 else st0.fcount m)).sum = 0
      rw [sum_irange_reset, sum_irange_reset, sum_irange_reset, sum_irange_reset]
      rfl
    · refine ⟨?_, ?_, ?_, ?_⟩
      · intro m h0 h1
        show 0 ≤ (if 0 ≤ m ∧ m < app.none then 0 else st0.scount m)
        rw [if_pos ⟨h0, h1⟩]
      · intro m h0 h1
        show 0 ≤ (if 0 ≤ m ∧ m < app.ntwo then 0 else st0.dcount m)
        rw [if_pos ⟨h0, h1⟩]
      · intro m h0 h1
        show 0 ≤ (if 0 ≤ m ∧ m < app.nthree then 0 else st0.vcount m)
        rw [if_pos ⟨h0, h1⟩]
      · intro m h0 h1
        show 0 ≤ (if 0 ≤ m ∧ m < app.nfour then 0 else st0.fcount m)
        rw [if_pos ⟨h0, h1⟩]
  | propensity st st1 n fuel i p _ hi0 hin hok ih =>
    obtain ⟨_, h2, h3, h4, h5⟩ := site_propensity_ok_core app fuel st st1 i p hok
    obtain ⟨i1, i2, i3⟩ := ih
    refine ⟨?_, i2, ?_⟩
    · rw [← i1]
      show ((irange app.none).map st1.scount).sum + ((irange app.ntwo).map st1.dcount).sum +
        ((irange app.nthree).map st1.vcount).sum + ((irange app.nfour).map st1.fcount).sum =
        counter_total app st
      rw [h2, h3, h4, h5]
      rfl
    · show (∀ m, 0 ≤ m → m < app.none → 0 ≤ st1.scount m) ∧
        (∀ m, 0 ≤ m → m < app.ntwo → 0 ≤ st1.dcount m) ∧
        (∀ m, 0 ≤ m → m < app.nthree → 0 ≤ st1.vcount m) ∧
        (∀ m, 0 ≤ m → m < app.nfour → 0 ≤ st1.fcount m)
      rw [h2, h3, h4, h5]
      exact i3
  | event st st1 n fuel i uniform time touched ievent hrun hi0 hin hsel hon hok ih =>
    obtain ⟨i1, i2, i3⟩ := ih
    have hW := reachable_wf app hown st (runFrom_reachable app st0 st n hrun)
    obtain ⟨hc, _⟩ := site_event_step app hown st st1 hW fuel i uniform time touched ievent
      hi0 hin hsel hon hok
    rcases hc with ⟨h5, hs⟩ | ⟨h5, hr⟩
    · rw [if_pos h5]
      obtain ⟨e2, e3, e4, e5⟩ := hs
      refine ⟨?_, by omega, ?_⟩
      · unfold counter_total at i1 ⊢
        rw [e2, e3, e4, e5]
        omega
      · unfold CountersNonneg at i3 ⊢
        rw [e2, e3, e4, e5]
        exact i3
    · rw [if_neg h5]
      refine ⟨?_, by omega, counters_raised_nonneg app st st1 _ _ hr i3⟩
      rw [counter_total_raised app st st1 _ _ hr, i1]

/-- C22. Counter accounting. Along every run of the host from `setup_app` (calls of
`site_propensity` and `site_event` at owned sites that return, each `site_event`
selecting an event on the list of its site; owned sites only carry solver indices) the
sum of all entries of `scount`, `dcount`, `vcount` and `fcount` equals the number `n`
of calls that executed a non-NULL event, and the entries are nonnegative. One more such
`site_event` call lowers no counter entry; when its event is NULL it leaves all four
counters unchanged, and otherwise it raises exactly one entry by 1 (the entry `which`
of the table of the style of the event) and leaves every other entry unchanged. -/
theorem counter_accounting (app : App) (hown : OwnedInRange app) (st0 st : State) (n : Int)
    (h : RunFrom app st0 st n) :
    counter_total app st = n ∧ 0 ≤ n ∧ CountersNonneg app st ∧
    ∀ (st1 : State) (fuel : Nat) (i : Int) (uniform time : ℚ) (touched : List Int)
      (ievent : Int), 0 ≤ i → i < app.nlocal →
      select_event app fuel st i uniform = .ok ievent → OnChain st.es i ievent →
      site_event app fuel st i uniform time = .ok (st1, touched) →
      CountersMono st st1 ∧
      ((st.es.events ievent).style = 5 → CountersSame st st1) ∧
      ((st.es.events ievent).style ≠ 5 →
        CounterRaised app st st1 (st.es.events ievent).style (st.es.events ievent).which ∧
        counter_total app st1 = n + 1) := by
  obtain ⟨h1, h2, h3⟩ := runFrom_counters app hown st0 st n h
  refine ⟨h1, h2, h3, ?_⟩
  intro st1 fuel i uniform time touched ievent hi0 hin hsel hon hok
  have hW := reachable_wf app hown st (runFrom_reachable app st0 st n h)
  obtain ⟨hc, _⟩ := site_event_step app hown st st1 hW fuel i uniform time touched ievent
    hi0 hin hsel hon hok
  rcases hc with ⟨h5, hs⟩ | ⟨h5, hr⟩
  · refine ⟨?_, fun _ => hs, fun hne => absurd h5 hne⟩
    obtain ⟨e2, e3, e4, e5⟩ := hs
    unfold CountersMono
    rw [e2, e3, e4, e5]
    exact ⟨fun _ => le_refl _, fun _ => le_refl _, fun _ => le_refl _, fun _ => le_refl _⟩
  · refine ⟨counters_raised_mono app st st1 _ _ hr, fun h => absurd h h5, fun _ => ⟨hr, ?_⟩⟩
    rw [counter_total_raised app st st1 _ _ hr, h1]

theorem stS2_run : RunFrom (appS 0) (stInit O) stS2 0 := by
  obtain ⟨s, p, h1, _⟩ := lists_after_first_propensity (appS 0) (stInit O) (le_refl _) 0
    (le_refl _) (by decide) (appS_nonzero 0)
  have hrun := RunFrom.propensity (setup_app (appS 0) (stInit O)) s 0 0 0 p
    (RunFrom.setup (le_refl _)) (le_refl 0) (by decide) h1
  have hst : stS2 = { s with propensity := upd s.propensity ((appS 0).i2site 0) p } := by
    unfold stS2
    rw [h1]
    rfl
  rw [hst]
  exact hrun

theorem stS2_onChain : OnChain stS2.es 0 0 :=
  ⟨[1, 0], stS2_chain, by decide, by decide⟩

/-- Once the event walk has selected `ievent` and its mutation is executable,
`site_event` returns (well-formed store, owned sites only carry solver indices, no zero
propensity, enough fuel). -/
theorem site_event_returns (app : App) (fuel : Nat) (st st1 : State) (i ievent : Int)
    (uniform time : ℚ) (hwf : ∃ A, EventLists app.nlocal st.es A)
    (hi0 : 0 ≤ i) (hin : i < app.nlocal) (hown : OwnedInRange app) (hnz : NonzeroProps app)
    (hfuel : st.es.maxevent.toNat ≤ fuel)
    (hsel : select_event app fuel st i uniform = .ok ievent)
    (happly : apply_event app st i (st.es.events ievent).style (st.es.events ievent).which
      (st.es.events ievent).jpartner (st.es.events ievent).kpartner
      (st.es.events ievent).gpartner = .ok st1) :
    ∃ (st2 : State) (touched : List Int),
      site_event app fuel st i uniform time = .ok (st2, touched) := by
  obtain ⟨A, hA⟩ := hwf
  obtain ⟨st2, touched, h1, _⟩ := execute_event_spec app fuel st A i ievent time hA hi0 hin
    hown hnz hfuel st1 happly (apply_event_es app st st1 i _ _ _ _ _ happly)
  refine ⟨st2, touched, ?_⟩
  unfold site_event
  rw [hsel]
  exact h1

theorem stS2_event : ∃ (st2 : State) (touched : List Int),
    site_event (appS 0) 100000 stS2 0 (1 / 2) (1 / 2) = .ok (st2, touched) := by
  have hs : (stS2.es.events 0).style = 1 := by decide!
  exact site_event_returns (appS 0) 100000 stS2
    { stS2 with
      element := upd stS2.element 0 ((appS 0).soutput (stS2.es.events 0).which)
      scount := upd stS2.scount (stS2.es.events 0).which
        (stS2.scount (stS2.es.events 0).which + 1) }
    0 0 (1 / 2) (1 / 2) stS2_lists (le_refl _) (by decide) (appS_owned 0) (appS_nonzero 0)
    (by decide!) stS2_select (by simp [apply_event, hs])

/-- Witness for C22 (scenario S2): after `setup_app` and the first `site_propensity(0)`
no event has been executed; the call `site_event(0)` with `uniform = 0.5` executes the
S event `O -> OH`, raises `scount[0]` by 1 and brings the total to 1. -/
theorem counter_accounting_witness :
    RunFrom (appS 0) (stInit O) stS2 0 ∧ counter_total (appS 0) stS2 = 0 ∧
    ∃ (st1 : State) (touched : List Int),
      site_event (appS 0) 100000 stS2 0 (1 / 2) (1 / 2) = .ok (st1, touched) ∧
      CountersMono stS2 st1 ∧
      CounterRaised (appS 0) stS2 st1 (stS2.es.events 0).style (stS2.es.events 0).which ∧
      counter_total (appS 0) st1 = 0 + 1 := by
  obtain ⟨st1, touched, hok⟩ := stS2_event
  have hne : (stS2.es.events 0).style ≠ 5 := by decide!
  obtain ⟨h1, _, _, h4⟩ :=
    counter_accounting (appS 0) (appS_owned 0) (stInit O) stS2 0 stS2_run
  obtain ⟨h5, _, h7⟩ := h4 st1 100000 0 (1 / 2) (1 / 2) touched 0 (le_refl _) (by decide)
    stS2_select stS2_onChain hok
  exact ⟨stS2_run, h1, st1, touched, hok, h5, (h7 hne).1, (h7 hne).2⟩

/-! ## Species validity -/

theorem init_check_fold (st : State) :
    ∀ (l : List Int) (flag0 : Int),
      l.foldl (fun flag i =>
        let flag1 := if st.coord i < -1 ∨ st.coord i > 8 then 1 else flag
        if st.element i < VACANCY then 1 else flag1) flag0 = 0 →
      flag0 = 0 ∧ ∀ i ∈ l, (-1 ≤ st.coord i ∧ st.coord i ≤ 8) ∧ VACANCY ≤ st.element i
  | [], flag0, h => ⟨h, fun i hi => by simp at hi⟩
  | a :: t, flag0, h => by
    rw [List.foldl_cons] at h
    obtain ⟨h1, h2⟩ := init_check_fold st t _ h
    simp only [] at h1
    split_ifs at h1 with he hc
    · omega
    · omega
    · refine ⟨h1, ?_⟩
      intro i hi
      rcases List.mem_cons.1 hi with hia | hit
      · subst hia
        constructor
        · constructor <;> omega
        · omega
      · exact h2 i hit

/-- What the site validity check of `init_app` establishes: every owned site has
`-1 <= coord <= 8` and `element >= VACANCY`. -/
theorem init_app_check_ok (app : App) (st : State) (h : init_app_check app st = .ok ()) :
    ∀ i, 0 ≤ i → i < app.nlocal →
      (-1 ≤ st.coord i ∧ st.coord i ≤ 8) ∧ 0 ≤ st.element i := by
  unfold init_app_check at h
  simp only [] at h
  split_ifs at h with hf
  have hz := not_not.1 hf
  intro i hi0 hin
  exact (init_check_fold st _ 0 hz).2 i ((mem_irange _ _).2 ⟨hi0, hin⟩)

theorem noReactions_declared (app : App) (h : NoReactions app) : DeclaredOutputs app := by
  obtain ⟨h1, h2, h3, h4⟩ := h
  refine ⟨?_, ?_, ?_, ?_⟩ <;> intro m h0 hm <;> omega

theorem upd_pair_range (f : Int → Int → Int) (n v w : Int) (hv : 0 ≤ v ∧ v ≤ 25)
    (hw : 0 ≤ w ∧ w ≤ 25)
    (hf : ∀ m, 0 ≤ m → m < n → (0 ≤ f m 0 ∧ f m 0 ≤ 25) ∧ (0 ≤ f m 1 ∧ f m 1 ≤ 25)) :
    ∀ m, 0 ≤ m → m < n + 1 →
      (0 ≤ upd f n (upd (upd (f n) 0 v) 1 w) m 0 ∧ upd f n (upd (upd (f n) 0 v) 1 w) m 0 ≤ 25) ∧
      (0 ≤ upd f n (upd (upd (f n) 0 v) 1 w) m 1 ∧
        upd f n (upd (upd (f n) 0 v) 1 w) m 1 ≤ 25) := by
  intro m h0 h1
  by_cases hmn : m = n
  · subst hmn
    simp only [upd, if_true]
    have h01 : ¬ ((0 : Int) = 1) := by decide
    simp only [h01, if_false, if_true]
    exact ⟨hv, hw⟩
  · simp only [upd, hmn, if_false]
    exact hf m h0 (by omega)

theorem ite_ok {α : Type} {c : Prop} [Decidable c] {x y : Except Fault α} {r : α}
    (h : (if c then x else y) = .ok r) : (c ∧ x = .ok r) ∨ (¬ c ∧ y = .ok r) := by
  by_cases hc : c
  · rw [if_pos hc] at h
    exact Or.inl ⟨hc, h⟩
  · rw [if_neg hc] at h
    exact Or.inr ⟨hc, h⟩

/-- An accepted input command keeps the output species of the declared reactions within
the 26 species: those of a new reaction passed the `species_to_enum` check. -/
theorem input_app_declared (atof : String → ℚ) (app app1 : App) (command : String)
    (arg : List String) (hd : DeclaredOutputs app)
    (h : input_app atof app command arg = .ok app1) : DeclaredOutputs app1 := by
  obtain ⟨d1, d2, d3, d4⟩ := hd
  unfold input_app at h
  simp only [] at h
  rcases ite_ok h with ⟨_, h⟩ | ⟨_, h⟩
  · rcases ite_ok h with ⟨_, h⟩ | ⟨_, h⟩
    · cases h
    rcases ite_ok h with ⟨_, h⟩ | ⟨_, h⟩
    · rcases ite_ok h with ⟨_, h⟩ | ⟨_, h⟩
      · cases h
      rcases ite_ok h with ⟨_, h⟩ | ⟨_, h⟩
      · cases h
      rcases ite_ok h with ⟨_, h⟩ | ⟨s2, h⟩
      · cases h
      injection h with h
      subst h
      refine ⟨?_, d2, d3, d4⟩
      intro m h0 h1
      have h1 : m < app.none + 1 := h1
      by_cases hmn : m = app.none
      · subst hmn
        simp only [upd, if_true]
        exact species_to_enum_range _ (by omega)
      · simp only [upd, hmn, if_false]
        exact d1 m h0 (by omega)
    rcases ite_ok h with ⟨_, h⟩ | ⟨_, h⟩
    · rcases ite_ok h with ⟨_, h⟩ | ⟨_, h⟩
      · cases h
      rcases ite_ok h with ⟨_, h⟩ | ⟨_, h⟩
      · cases h
      rcases ite_ok h with ⟨_, h⟩ | ⟨s2, h⟩
      · cases h
      rcases ite_ok h with ⟨_, h⟩ | ⟨_, h⟩
      · cases h
      rcases ite_ok h with ⟨_, h⟩ | ⟨s4, h⟩
      · cases h
      injection h with h
      subst h
      exact ⟨d1, upd_pair_range _ _ _ _ (species_to_enum_range _ (by omega))
        (species_to_enum_range _ (by omega)) d2, d3, d4⟩
    rcases ite_ok h with ⟨_, h⟩ | ⟨_, h⟩
    · rcases ite_ok h with ⟨_, h⟩ | ⟨_, h⟩
      · cases h
      rcases ite_ok h with ⟨_, h⟩ | ⟨_, h⟩
      · cases h
      rcases ite_ok h with ⟨_, h⟩ | ⟨s2, h⟩
      · cases h
      rcases ite_ok h with ⟨_, h⟩ | ⟨_, h⟩
      · cases h
      rcases ite_ok h with ⟨_, h⟩ | ⟨s4, h⟩
      · cases h
      injection h with h
      subst h
      exact ⟨d1, d2, upd_pair_range _ _ _ _ (species_to_enum_range _ (by omega))
        (species_to_enum_range _ (by omega)) d3, d4⟩
    rcases ite_ok h with ⟨_, h⟩ | ⟨_, h⟩
    · rcases ite_ok h with ⟨_, h⟩ | ⟨_, h⟩
      · cases h
      rcases ite_ok h with ⟨_, h⟩ | ⟨_, h⟩
      · cases h
      rcases ite_ok h with ⟨_, h⟩ | ⟨s2, h⟩
      · cases h
      rcases ite_ok h with ⟨_, h⟩ | ⟨_, h⟩
      · cases h
      rcases ite_ok h with ⟨_, h⟩ | ⟨s4, h⟩
      · cases h
      injection h with h
      subst h
      exact ⟨d1, d2, d3, upd_pair_range _ _ _ _ (species_to_enum_range _ (by omega))
        (species_to_enum_range _ (by omega)) d4⟩
    injection h with h
    subst h
    exact ⟨d1, d2, d3, d4⟩
  rcases ite_ok h with ⟨_, h⟩ | ⟨_, h⟩
  · rcases ite_ok h with ⟨_, h⟩ | ⟨_, h⟩
    · cases h
    injection h with h
    subst h
    exact ⟨d1, d2, d3, d4⟩
  rcases ite_ok h with ⟨_, h⟩ | ⟨_, h⟩
  · rcases ite_ok h with ⟨_, h⟩ | ⟨_, h⟩
    · cases h
    injection h with h
    subst h
    exact ⟨d1, d2, d3, d4⟩
  cases h

theorem declare_declared (atof : String → ℚ) (app0 app1 : App)
    (cmds : List (String × List String)) (hd : DeclaredOutputs app0)
    (h : declare atof app0 cmds = .ok app1) : DeclaredOutputs app1 :=
  foldlM_ok_inv DeclaredOutputs _ cmds
    (fun a c a1 _ ha hok => input_app_declared atof a a1 c.1 c.2 ha hok) app0 app1 hd h

theorem setup_propensities_declared (lm : Libm) (temperature : ℚ) (app app1 : App)
    (hd : DeclaredOutputs app) (h : setup_propensities lm temperature app = .ok app1) :
    DeclaredOutputs app1 := by
  unfold setup_propensities at h
  split_ifs at h
  cases h
  exact hd

/-- Species validity along a run, for reaction tables whose outputs are species. -/
theorem runFrom_species (app : App) (hown : OwnedInRange app) (hd : DeclaredOutputs app)
    (st0 st : State) (n : Int) (hv : SpeciesValid app st0) (h : RunFrom app st0 st n) :
    SpeciesValid app st := by
  induction h with
  | setup hmax => exact hv
  | propensity st st1 n fuel i p _ hi0 hin hok ih =>
    obtain ⟨h1, _⟩ := site_propensity_ok_core app fuel st st1 i p hok
    show ∀ x, 0 ≤ x → x < app.nlocal → 0 ≤ st1.element x ∧ st1.element x ≤ 25
    rw [h1]
    exact ih
  | event st st1 n fuel i uniform time touched ievent hrun hi0 hin hsel hon hok ih =>
    have hW := reachable_wf app hown st (runFrom_reachable app st0 st n hrun)
    exact (site_event_step app hown st st1 hW fuel i uniform time touched ievent
      hi0 hin hsel hon hok).2 hd ih

/-- Counterexample to C24 as stated: the validity check of `init_app` accepts a site
holding 26 (one past `H2O = 25`) or 99, which is none of the 26 species; it rejects
only negative values. -/
theorem init_app_accepts_undeclared_species :
    init_app_check appNull (stInit 26) = .ok () ∧ (stInit 26).element 0 = 26 ∧
    init_app_check appNull (stInit 99) = .ok () ∧ (stInit 99).element 0 = 99 ∧
    init_app_check appNull (stInit (-1)) = .error Fault.fatal := by
  decide

theorem input_app_appDeclA :
    input_app atofSample appNull "event"
      ["1", "O", "OH", "-1.0", "0", "0.0", "all", "0", "0"] = .ok appDeclA := by
  rw [input_app_event_S atofSample _ "O" "OH" "-1.0" "0" "0.0" "all" "0" "0" (by decide)
    (by decide)]
  have h1 : species_to_enum "O" = O := by decide
  have h2 : species_to_enum "OH" = OH := by decide
  have h3 : parse_coord_value "all" = COORD_ALL := by decide
  have h4 : atoi "0" = 0 := by decide
  have h5 : atofSample "-1.0" = -1 := by simp [atofSample]
  have h6 : atofSample "0.0" = 0 := by simp [atofSample]
  rw [h1, h2, h3, h4, h5, h6]
  rfl

theorem setup_propensities_appDeclA (lm : Libm) :
    setup_propensities lm 300 appDeclA = .ok appNegA := by
  have h := setup_propensities_appNegA lm
  rw [input_app_appDeclA] at h
  exact h

/-- C24, amended. Let the reaction tables be those a sequence of accepted input
commands leaves, starting with no reaction, after the table setup of `setup_app`, and
let owned sites only carry solver indices. The site validity check of `init_app`
accepts a state only if every owned site has `element >= 0`. If moreover every owned
site of the accepted state holds a value `<= 25`, then in every state of a run from it
(`setup_app`, then returning calls of `site_propensity` and `site_event` at owned
sites, each `site_event` selecting an event on the list of its site) every owned site
holds one of the 26 species 0..25. -/
theorem species_stay_declared (atof : String → ℚ) (lm : Libm) (temperature : ℚ)
    (app0 app1 app : App) (cmds : List (String × List String)) (st0 st : State) (n : Int)
    (hown : OwnedInRange app) (hzero : NoReactions app0)
    (hcmds : declare atof app0 cmds = .ok app1)
    (hsetup : setup_propensities lm temperature app1 = .ok app)
    (hcheck : init_app_check app st0 = .ok ())
    (hupper : ∀ i, 0 ≤ i → i < app.nlocal → st0.element i ≤ 25)
    (hrun : RunFrom app st0 st n) :
    SpeciesValid app st0 ∧ SpeciesValid app st := by
  have hd : DeclaredOutputs app :=
    setup_propensities_declared lm temperature app1 app
      (declare_declared atof app0 app1 cmds (noReactions_declared app0 hzero) hcmds) hsetup
  have hv0 : SpeciesValid app st0 := fun i hi0 hin =>
    ⟨(init_app_check_ok app st0 hcheck i hi0 hin).2, hupper i hi0 hin⟩
  exact ⟨hv0, runFrom_species app hown hd st0 st n hv0 hrun⟩

theorem appNegA_owned : OwnedInRange appNegA := by
  intro m hm
  by_cases h : m = 0
  · subst h
    exact ⟨le_refl _, by decide⟩
  · simp [appNegA, appNull, h] at hm

theorem declare_appDeclA :
    declare atofSample appNull
      [("event", ["1", "O", "OH", "-1.0", "0", "0.0", "all", "0", "0"])] = .ok appDeclA := by
  unfold declare
  rw [List.foldlM_cons, input_app_appDeclA]
  rfl

/-- Witness for C24: the command `event 1 O OH -1.0 0 0.0 all 0 0` read on the one-site
lattice, the site holding `O`; the run is `setup_app` followed by the first
`site_propensity(0)`. -/
theorem species_stay_declared_witness :
    OwnedInRange appNegA ∧ NoReactions appNull ∧
    declare atofSample appNull
      [("event", ["1", "O", "OH", "-1.0", "0", "0.0", "all", "0", "0"])] = .ok appDeclA ∧
    setup_propensities libmSample 300 appDeclA = .ok appNegA ∧
    init_app_check appNegA (stInit O) = .ok () ∧
    (∀ i, 0 ≤ i → i < appNegA.nlocal → (stInit O).element i ≤ 25) ∧
    ∃ st1, site_propensity appNegA 0 (setup_app appNegA (stInit O)) 0 = .ok (st1, -9 / 10) ∧
      SpeciesValid appNegA (stInit O) ∧
      SpeciesValid appNegA
        { st1 with propensity := upd st1.propensity (appNegA.i2site 0) (-9 / 10) } := by
  have hup : ∀ i, 0 ≤ i → i < appNegA.nlocal → (stInit O).element i ≤ 25 := by
    intro i _ _
    show O ≤ 25
    decide
  have hno : NoReactions appNull := ⟨rfl, rfl, rfl, rfl⟩
  obtain ⟨st1, h1, _⟩ := site_propensity_of_addedTotal appNegA
    (show EventLists appNegA.nlocal (setup_app appNegA (stInit O)).es (fun _ => []) from
      setup_app_lists appNegA _ (le_refl _))
    (le_refl 0) (by decide : (0 : Int) < appNegA.nlocal) (Nat.le_refl _)
    [nullEvent, ⟨1, 0, -1, -1, -1, -1⟩] (-9 / 10) (by decide!)
  have hrun := RunFrom.propensity (setup_app appNegA (stInit O)) st1 0 0 0 (-9 / 10)
    (RunFrom.setup (le_refl _)) (le_refl 0) (by decide) h1
  have h := species_stay_declared atofSample libmSample 300 appNull appDeclA appNegA
    [("event", ["1", "O", "OH", "-1.0", "0", "0.0", "all", "0", "0"])] (stInit O) _ 0
    appNegA_owned hno declare_appDeclA (setup_propensities_appDeclA libmSample)
    (by decide) hup hrun
  exact ⟨appNegA_owned, hno, declare_appDeclA, setup_propensities_appDeclA libmSample,
    by decide, hup, st1, h1, h.1, h.2⟩

/-! ## What `put_mask` does on a general neighbour graph -/

theorem nbrBelow_succ (app : App) (t j y : Int) (hj : 0 ≤ j) :
    NbrBelow app t (j + 1) y ↔ NbrBelow app t j y ∨ app.neighbor t j = y := by
  constructor
  · rintro ⟨ss, h0, h1, h2⟩
    by_cases h : ss = j
    · subst h
      exact Or.inr h2
    · exact Or.inl ⟨ss, h0, by omega, h2⟩
  · rintro (⟨ss, h0, h1, h2⟩ | h)
    · exact ⟨ss, h0, by omega, h2⟩
    · exact ⟨j, hj, by omega, h⟩

theorem nbrBelow_max (app : App) (t n y : Int) :
    NbrBelow app t (max n 0) y ↔ NbrBelow app t n y := by
  constructor
  · rintro ⟨ss, h0, h1, h2⟩
    refine ⟨ss, h0, ?_, h2⟩
    rcases max_cases n 0 with h | h <;> omega
  · rintro ⟨ss, h0, h1, h2⟩
    exact ⟨ss, h0, lt_of_lt_of_le h1 (le_max_left _ _), h2⟩

theorem maskLowered_marked (app : App) (i k x : Int) (h : MaskLowered app i k x) :
    MaskMarked app i k x := by
  obtain ⟨_, s, h0, h1, h2, _⟩ := h
  exact Or.inr ⟨s, h0, h1, Or.inr h2⟩

theorem maskMarked_succ (app : App) (i k y : Int) (hk : 0 ≤ k) :
    MaskMarked app i (k + 1) y ↔
      (MaskMarked app i k y ∨ y = app.neighbor i k) ∨
        NbrBelow app (app.neighbor i k) (app.numneigh (app.neighbor i k)) y := by
  constructor
  · rintro (h | ⟨s, h0, h1, h2⟩)
    · exact Or.inl (Or.inl (Or.inl h))
    · by_cases hs : s = k
      · subst hs
        rcases h2 with h2 | h2
        · exact Or.inl (Or.inr h2.symm)
        · exact Or.inr h2
      · exact Or.inl (Or.inl (Or.inr ⟨s, h0, by omega, h2⟩))
  · rintro ((h | h) | h)
    · rcases h with h | ⟨s, h0, h1, h2⟩
      · exact Or.inl h
      · exact Or.inr ⟨s, h0, by omega, h2⟩
    · exact Or.inr ⟨k, hk, by omega, Or.inl h.symm⟩
    · exact Or.inr ⟨k, hk, by omega, Or.inr h⟩

theorem maskLowered_succ (app : App) (i k x : Int) (hk : 0 ≤ k) :
    MaskLowered app i (k + 1) x ↔
      MaskLowered app i k x ∨
        (¬ (MaskMarked app i k x ∨ x = app.neighbor i k) ∧
          NbrBelow app (app.neighbor i k) (app.numneigh (app.neighbor i k)) x) := by
  constructor
  · rintro ⟨hxi, s, h0, h1, h2, h3⟩
    by_cases hs : s = k
    · subst hs
      by_cases hlow : MaskLowered app i s x
      · exact Or.inl hlow
      · right
        refine ⟨?_, h2⟩
        rintro (hm | hm)
        · rcases hm with hm | ⟨s1, g0, g1, g2⟩
          · exact hxi hm
          · rcases g2 with g2 | g2
            · exact h3 s1 g0 (by omega) g2
            · exact hlow ⟨hxi, s1, g0, g1, g2, fun s2 e0 e1 => h3 s2 e0 (by omega)⟩
        · exact h3 s h0 (le_refl _) hm.symm
    · exact Or.inl ⟨hxi, s, h0, by omega, h2, h3⟩
  · rintro (⟨hxi, s, h0, h1, h2, h3⟩ | ⟨hn, hb⟩)
    · exact ⟨hxi, s, h0, by omega, h2, h3⟩
    · have hxi : x ≠ i := fun h => hn (Or.inl (Or.inl h))
      refine ⟨hxi, k, hk, by omega, hb, ?_⟩
      intro s1 g0 g1 hs1
      by_cases hs : s1 = k
      · subst hs
        exact hn (Or.inr hs1.symm)
      · exact hn (Or.inl (Or.inr ⟨s1, g0, by omega, Or.inl hs1⟩))

theorem maskInv_congr (app : App) (st : State) (d2 : Int) (M L M1 L1 : Int → Prop)
    (acc : State × Int) (hM : ∀ y, M1 y ↔ M y) (hL : ∀ x, L1 x ↔ L x)
    (h : MaskInv app st d2 M L acc) : MaskInv app st d2 M1 L1 acc := by
  refine ⟨fun y h0 h1 => ⟨fun hm => (h.1 y h0 h1).1 ((hM y).1 hm),
    fun hm => (h.1 y h0 h1).2 (fun hm2 => hm ((hM y).2 hm2))⟩,
    fun x => ⟨fun hl => (h.2 x).1 ((hL x).1 hl),
      fun hl => (h.2 x).2 (fun hl2 => hl ((hL x).2 hl2))⟩⟩

/-- One marking block of the mask functions at an owned site `z`: it marks `z`, and
changes `coord[z]` by `d` exactly when `z` was not marked before. -/
theorem mask_mark_inv (app : App) (hg : ClosedOwnedGraph app) (d : Int) (acc : State × Int)
    (z : Int) (hz0 : 0 ≤ z) (hzn : z < app.nlocal) (M : Int → Prop)
    (hM : ∀ y, 0 ≤ y → y < app.nlocal →
      (M y → acc.1.echeck (app.i2site y) = 1) ∧ (¬ M y → acc.1.echeck (app.i2site y) = 0)) :
    (∀ y, 0 ≤ y → y < app.nlocal →
      ((M y ∨ y = z) → (mask_mark app d acc z).1.echeck (app.i2site y) = 1) ∧
      (¬ (M y ∨ y = z) → (mask_mark app d acc z).1.echeck (app.i2site y) = 0)) ∧
    (M z → (mask_mark app d acc z).1.coord = acc.1.coord) ∧
    (¬ M z → (mask_mark app d acc z).1.coord = upd acc.1.coord z (acc.1.coord z + d)) := by
  obtain ⟨hown, hinj, _⟩ := hg
  by_cases hMz : M z
  · have he : acc.1.echeck (app.i2site z) = 1 := (hM z hz0 hzn).1 hMz
    have hres : mask_mark app d acc z = acc := by
      simp only [mask_mark]
      rw [if_neg]
      rintro ⟨_, h⟩
      rw [he] at h
      exact absurd h (by decide)
    rw [hres]
    refine ⟨?_, fun _ => rfl, fun h => absurd hMz h⟩
    intro y hy0 hyn
    constructor
    · rintro (h | h)
      · exact (hM y hy0 hyn).1 h
      · rw [h]
        exact he
    · intro h
      exact (hM y hy0 hyn).2 (fun hm => h (Or.inl hm))
  · have he : acc.1.echeck (app.i2site z) = 0 := (hM z hz0 hzn).2 hMz
    have hres : mask_mark app d acc z =
        ({ acc.1 with
            echeck := upd acc.1.echeck (app.i2site z) 1
            esites := upd acc.1.esites acc.2 (app.i2site z)
            coord := upd acc.1.coord z (acc.1.coord z + d) },
          acc.2 + 1) := by
      simp only [mask_mark]
      rw [if_pos ⟨hown z hz0 hzn, he⟩]
    rw [hres]
    refine ⟨?_, fun h => absurd h hMz, fun _ => rfl⟩
    intro y hy0 hyn
    by_cases hyz : y = z
    · subst hyz
      exact ⟨fun _ => upd_same _ _ _, fun h => absurd (Or.inr rfl) h⟩
    · have hne : app.i2site y ≠ app.i2site z := fun h => hyz (hinj y z hy0 hyn hz0 hzn h)
      constructor
      · rintro (h | h)
        · show upd acc.1.echeck (app.i2site z) 1 (app.i2site y) = 1
          rw [upd_ne _ _ _ _ hne]
          exact (hM y hy0 hyn).1 h
        · exact absurd h hyz
      · intro h
        show upd acc.1.echeck (app.i2site z) 1 (app.i2site y) = 0
        rw [upd_ne _ _ _ _ hne]
        exact (hM y hy0 hyn).2 (fun hm => h (Or.inl hm))

theorem maskInv_first (app : App) (hg : ClosedOwnedGraph app) (st : State) (d2 : Int)
    (M L : Int → Prop) (acc : State × Int) (z : Int) (hz0 : 0 ≤ z) (hzn : z < app.nlocal)
    (h : MaskInv app st d2 M L acc) :
    MaskInv app st d2 (fun y => M y ∨ y = z) L (mask_mark app 0 acc z) := by
  obtain ⟨h1, h2, h3⟩ := mask_mark_inv app hg 0 acc z hz0 hzn M h.1
  refine ⟨h1, ?_⟩
  have hc : (mask_mark app 0 acc z).1.coord = acc.1.coord := by
    by_cases hMz : M z
    · exact h2 hMz
    · rw [h3 hMz]
      funext x
      by_cases hx : x = z
      · subst hx
        simp [upd]
      · simp [upd, hx]
  rw [hc]
  exact h.2

theorem maskInv_second (app : App) (hg : ClosedOwnedGraph app) (st : State) (d2 : Int)
    (M L : Int → Prop) (acc : State × Int) (z : Int) (hz0 : 0 ≤ z) (hzn : z < app.nlocal)
    (hLM : ∀ x, L x → M x) (h : MaskInv app st d2 M L acc) :
    MaskInv app st d2 (fun y => M y ∨ y = z) (fun x => L x ∨ (x = z ∧ ¬ M z))
      (mask_mark app d2 acc z) := by
  obtain ⟨h1, h2, h3⟩ := mask_mark_inv app hg d2 acc z hz0 hzn M h.1
  refine ⟨h1, ?_⟩
  by_cases hMz : M z
  · rw [h2 hMz]
    intro x
    constructor
    · rintro (hl | ⟨_, hn⟩)
      · exact (h.2 x).1 hl
      · exact absurd hMz hn
    · intro hn
      exact (h.2 x).2 (fun hl => hn (Or.inl hl))
  · rw [h3 hMz]
    intro x
    by_cases hx : x = z
    · subst hx
      have hnl : ¬ L x := fun hl => hMz (hLM x hl)
      constructor
      · intro _
        rw [upd_same, (h.2 x).2 hnl]
      · intro hn
        exact absurd (Or.inr ⟨rfl, hMz⟩) hn
    · rw [upd_ne _ _ _ _ hx]
      constructor
      · rintro (hl | ⟨he, _⟩)
        · exact (h.2 x).1 hl
        · exact absurd he hx
      · intro hn
        exact (h.2 x).2 (fun hl => hn (Or.inl hl))

/-- The effect of `put_mask(i)` (`d2 = -50`) and `remove_mask(i)` (`d2 = 50`) on `coord`
for a graph with all sites owned and the scratch marker all zero: `coord[x]` changes by
`d2` exactly at the sites `x` other than `i` that are a neighbour of some
`neighbor[i][s]` and are none of `neighbor[i][0..s]`; every other `coord` is
unchanged. -/
theorem mask_shells_coord (app : App) (hg : ClosedOwnedGraph app) (d2 : Int) (st : State)
    (i : Int) (hi0 : 0 ≤ i) (hin : i < app.nlocal) (hz : ∀ y, st.echeck y = 0) (x : Int) :
    (MaskLowered app i (app.numneigh i) x →
      (mask_shells app 0 d2 st i).coord x = st.coord x + d2) ∧
    (¬ MaskLowered app i (app.numneigh i) x →
      (mask_shells app 0 d2 st i).coord x = st.coord x) := by
  have hnb := hg.2.2
  have hinj := hg.2.1
  unfold mask_shells
  simp only []
  rw [clear_echeck_coord]
  have hinv := foldl_irange_inv
    (fun (k : Int) (acc : State × Int) =>
      MaskInv app st d2 (MaskMarked app i k) (MaskLowered app i k) acc)
    (fun acc s =>
      (irange (app.numneigh (app.neighbor i s))).foldl
        (fun acc2 ss => mask_mark app d2 acc2 (app.neighbor (app.neighbor i s) ss))
        (mask_mark app 0 acc (app.neighbor i s)))
    (app.numneigh i)
    ({ st with echeck := upd st.echeck (app.i2site i) 1,
               esites := upd st.esites 0 (app.i2site i) }, 1)
    (by
      refine ⟨?_, ?_⟩
      · intro y hy0 hyn
        constructor
        · rintro (h | ⟨s, h0, h1, _⟩)
          · show upd st.echeck (app.i2site i) 1 (app.i2site y) = 1
            rw [h, upd_same]
          · omega
        · intro hn
          have hyi : y ≠ i := fun h => hn (Or.inl h)
          have hne : app.i2site y ≠ app.i2site i :=
            fun h => hyi (hinj y i hy0 hyn hi0 hin h)
          show upd st.echeck (app.i2site i) 1 (app.i2site y) = 0
          rw [upd_ne _ _ _ _ hne]
          exact hz _
      · intro x
        constructor
        · rintro ⟨_, s, h0, h1, _⟩
          omega
        · intro _
          rfl)
    (by
      intro k acc hk0 hkn hI
      have hnn := hnb i k hi0 hin hk0 hkn
      have h1 := maskInv_first app hg st d2 _ _ acc (app.neighbor i k) hnn.1 hnn.2 hI
      have hinner := foldl_irange_inv
        (fun (j : Int) (a : State × Int) =>
          MaskInv app st d2
            (fun y => (MaskMarked app i k y ∨ y = app.neighbor i k) ∨
              NbrBelow app (app.neighbor i k) j y)
            (fun x => MaskLowered app i k x ∨
              (¬ (MaskMarked app i k x ∨ x = app.neighbor i k) ∧
                NbrBelow app (app.neighbor i k) j x)) a)
        (fun acc2 ss => mask_mark app d2 acc2 (app.neighbor (app.neighbor i k) ss))
        (app.numneigh (app.neighbor i k))
        (mask_mark app 0 acc (app.neighbor i k))
        (by
          refine maskInv_congr app st d2 _ _ _ _ _ ?_ ?_ h1
          · intro y
            constructor
            · rintro (h | ⟨ss, g0, g1, _⟩)
              · exact h
              · omega
            · intro h
              exact Or.inl h
          · intro x
            constructor
            · rintro (h | ⟨_, ss, g0, g1, _⟩)
              · exact h
              · omega
            · intro h
              exact Or.inl h)
        (by
          intro j a hj0 hjn hIj
          have hz2 := hnb (app.neighbor i k) j hnn.1 hnn.2 hj0 hjn
          have h2 := maskInv_second app hg st d2 _ _ a
            (app.neighbor (app.neighbor i k) j) hz2.1 hz2.2
            (by
              rintro x (hl | ⟨_, hb⟩)
              · exact Or.inl (Or.inl (maskLowered_marked app i k x hl))
              · exact Or.inr hb)
            hIj
          refine maskInv_congr app st d2 _ _ _ _ _ ?_ ?_ h2
          · intro y
            rw [nbrBelow_succ app _ j y hj0]
            constructor
            · rintro (h | h | h)
              · exact Or.inl (Or.inl h)
              · exact Or.inl (Or.inr h)
              · exact Or.inr h.symm
            · rintro ((h | h) | h)
              · exact Or.inl h
              · exact Or.inr (Or.inl h)
              · exact Or.inr (Or.inr h.symm)
          · intro x
            rw [nbrBelow_succ app _ j x hj0]
            constructor
            · rintro (h | ⟨hn, hb | hb⟩)
              · exact Or.inl (Or.inl h)
              · exact Or.inl (Or.inr ⟨hn, hb⟩)
              · by_cases hprev : NbrBelow app (app.neighbor i k) j x
                · exact Or.inl (Or.inr ⟨hn, hprev⟩)
                · right
                  refine ⟨hb.symm, ?_⟩
                  rintro (hm | hm)
                  · exact hn (hb ▸ hm)
                  · exact hprev (hb ▸ hm)
            · rintro ((h | ⟨hn, hb⟩) | ⟨he, hn⟩)
              · exact Or.inl h
              · exact Or.inr ⟨hn, Or.inl hb⟩
              · right
                refine ⟨?_, Or.inr he.symm⟩
                intro hm
                exact hn (Or.inl (he ▸ hm)))
      refine maskInv_congr app st d2 _ _ _ _ _ ?_ ?_ hinner
      · intro y
        rw [nbrBelow_max]
        exact maskMarked_succ app i k y hk0
      · intro x
        rw [nbrBelow_max]
        exact maskLowered_succ app i k x hk0)
  have hfin := hinv.2 x
  have hmax : ∀ x, MaskLowered app i (max (app.numneigh i) 0) x ↔
      MaskLowered app i (app.numneigh i) x := by
    intro x
    constructor
    · rintro ⟨hxi, s, h0, h1, h2, h3⟩
      refine ⟨hxi, s, h0, ?_, h2, h3⟩
      rcases max_cases (app.numneigh i) 0 with h | h <;> omega
    · rintro ⟨hxi, s, h0, h1, h2, h3⟩
      exact ⟨hxi, s, h0, lt_of_lt_of_le h1 (le_max_left _ _), h2, h3⟩
  exact ⟨fun h => hfin.1 ((hmax x).2 h), fun h => hfin.2 (fun h2 => h ((hmax x).1 h2))⟩

/-- On a graph with all sites owned in which no first-shell neighbour of `i` is adjacent
to a first-shell neighbour of `i`, `put_mask(i)` does what C29 says: `coord[i]` and the
first shell are unchanged, every other neighbour of a first-shell neighbour is lowered by
50, and every remaining site is unchanged. -/
theorem put_mask_coord_separated_first_shell (app : App) (hg : ClosedOwnedGraph app)
    (st : State) (i : Int) (hi0 : 0 ≤ i) (hin : i < app.nlocal)
    (hz : ∀ y, st.echeck y = 0) (hsep : NoAdjacentFirstShell app i) (x : Int) :
    (x = i ∨ NbrBelow app i (app.numneigh i) x → (put_mask app st i).coord x = st.coord x) ∧
    (x ≠ i → ¬ NbrBelow app i (app.numneigh i) x →
      (∃ s, 0 ≤ s ∧ s < app.numneigh i ∧
        NbrBelow app (app.neighbor i s) (app.numneigh (app.neighbor i s)) x) →
      (put_mask app st i).coord x = st.coord x - 50) ∧
    (x ≠ i → ¬ NbrBelow app i (app.numneigh i) x →
      (¬ ∃ s, 0 ≤ s ∧ s < app.numneigh i ∧
        NbrBelow app (app.neighbor i s) (app.numneigh (app.neighbor i s)) x) →
      (put_mask app st i).coord x = st.coord x) := by
  have hp : put_mask app st i = mask_shells app 0 (-50) st i := rfl
  rw [hp]
  obtain ⟨h1, h2⟩ := mask_shells_coord app hg (-50) st i hi0 hin hz x
  refine ⟨?_, ?_, ?_⟩
  · intro hx
    apply h2
    rintro ⟨hxi, s, h0, hs, hb, _⟩
    rcases hx with hx | ⟨t, g0, g1, g2⟩
    · exact hxi hx
    · exact hsep s t h0 hs g0 g1 (g2 ▸ hb)
  · rintro hxi hnf ⟨s, h0, hs, hb⟩
    have := h1 ⟨hxi, s, h0, hs, hb, fun s1 g0 g1 hs1 => hnf ⟨s1, g0, by omega, hs1⟩⟩
    omega
  · intro _ _ hno
    apply h2
    rintro ⟨_, s, h0, hs, hb, _⟩
    exact hno ⟨s, h0, hs, hb⟩

/-! ## The dedup scratch, the frame of `site_propensity` and the event walk -/

/-- C37 at a failing input (scenario S5). The states `stD` and `stDStale` agree on
everything except the contents of `comneigh` (in `stDStale` the row `comneigh[0]` holds
`(3, 1.0)`), yet `site_propensity(0)` returns 1.1 and links the null event and a D event
on `stD`, and returns 0.1 and links the null event only on `stDStale`: the duplicate
test of lines 519-521 starts at row 0, which the call never writes (`nextneib` starts
at 1). -/
theorem site_propensity_depends_on_stale_comneigh :
    stDStale = { stD with comneigh := stDStale.comneigh } ∧
    (∃ st1, site_propensity appD 0 stD 0 = .ok (st1, 11 / 10) ∧
      EventLists appD.nlocal st1.es
        (upd (fun _ => []) 0 [nullEvent, ⟨2, 0, -1, 3, -1, 1⟩])) ∧
    (∃ st1, site_propensity appD 0 stDStale 0 = .ok (st1, 1 / 10) ∧
      EventLists appD.nlocal st1.es (upd (fun _ => []) 0 [nullEvent])) := by
  refine ⟨rfl, ?_, ?_⟩
  · exact site_propensity_of_addedTotal appD
      (show EventLists appD.nlocal stD.es (fun _ => []) from
        setup_app_lists appD _ (le_refl _))
      (le_refl _) (by decide) (le_refl _) _ _ (by decide!)
  · exact site_propensity_of_addedTotal appD
      (show EventLists appD.nlocal stDStale.es (fun _ => []) from
        setup_app_lists appD _ (le_refl _))
      (le_refl _) (by decide) (le_refl _) _ _ (by decide!)

/-- C39. Frame of `site_propensity(i)` at an owned site of a well-formed event store
with per-site record lists `A`: when the call returns, the new state is the old one
except for the event store and the dedup scratch `comneigh`, `comevent` (so `element`,
`coord`, the four counters, `cycle`, `pressureOn` and the other scratch members are
unchanged), the new store is well formed, and the record list of every site other than
`i` is the one it had before; only the list of site `i` is replaced. -/
theorem site_propensity_frame (app : App) (st st1 : State) (A : Int → List EvData)
    (i : Int) (fuel : Nat) (p : ℚ)
    (hA : EventLists app.nlocal st.es A) (hi0 : 0 ≤ i) (hin : i < app.nlocal)
    (hok : site_propensity app fuel st i = .ok (st1, p)) :
    st1 = { st with es := st1.es, comneigh := st1.comneigh, comevent := st1.comevent } ∧
    (st1.element = st.element ∧ st1.coord = st.coord ∧ st1.scount = st.scount ∧
      st1.dcount = st.dcount ∧ st1.vcount = st.vcount ∧ st1.fcount = st.fcount ∧
      st1.cycle = st.cycle ∧ st1.pressureOn = st.pressureOn) ∧
    ∃ A1, EventLists app.nlocal st1.es A1 ∧ ∀ j, j ≠ i → A1 j = A j := by
  obtain ⟨e, _, hA1, _, hst⟩ := site_propensity_ok_sim app hA hi0 hin hok
  refine ⟨?_, ?_, upd A i e.store, hA1, fun j hj => upd_ne _ _ _ _ hj⟩
  · have hc : st1.comneigh = e.comneigh := congrArg State.comneigh hst
    have hce : st1.comevent = e.comevent := congrArg State.comevent hst
    rw [hc, hce]
    exact hst
  · rw [hst]
    exact ⟨rfl, rfl, rfl, rfl, rfl, rfl, rfl, rfl⟩

/-- Witness for C39: on the two-site lattice of scenario S3, after the first
`site_propensity(0)`, the call `site_propensity(1)` returns and leaves the list of
site 0 as it was. -/
theorem site_propensity_frame_witness :
    ∃ (A : Int → List EvData) (st1 : State) (p : ℚ),
      EventLists appV.nlocal stV.es A ∧
      site_propensity appV 100000 stV 1 = .ok (st1, p) ∧
      st1 = { stV with es := st1.es, comneigh := st1.comneigh, comevent := st1.comevent } ∧
      (st1.element = stV.element ∧ st1.coord = stV.coord ∧ st1.scount = stV.scount ∧
        st1.dcount = stV.dcount ∧ st1.vcount = stV.vcount ∧ st1.fcount = stV.fcount ∧
        st1.cycle = stV.cycle ∧ st1.pressureOn = stV.pressureOn) ∧
      ∃ A1, EventLists appV.nlocal st1.es A1 ∧ ∀ j, j ≠ 1 → A1 j = A j := by
  obtain ⟨A, hA⟩ := stV_lists
  have h1 : (0 : Int) ≤ 1 := by decide
  have h2 : (1 : Int) < appV.nlocal := by decide
  obtain ⟨st1, e, _, _, _, hok, _⟩ :=
    @site_propensity_spec appV stV A hA 1 h1 h2 100000
      (le_trans (lists_length_le hA h1 h2) (by decide!))
      (nonzeroActive_of_nonzeroProps appV_nonzero _)
  obtain ⟨f1, f2, f3⟩ := site_propensity_frame appV stV st1 A 1 100000 e.proball hA h1 h2 hok
  exact ⟨A, st1, e.proball, hA, hok, f1, f2, f3⟩

theorem runningSum_length (events : Int → Event) (l : List Int) :
    runningSum events l l.length = (l.map (fun a => (events a).propensity)).sum := by
  unfold runningSum
  rw [List.take_length]

/-- The event walk in exact arithmetic. Let `l` be the non-empty chain of site `i`
(the nodes linked from `firstevent[i]` up to the terminator -1), let every event on it
have positive propensity, let `propensity[i2site[i]]` be the sum of these propensities,
and let the uniform draw be `< 1`. With fuel for `|l|` iterations the event walk
returns, and the event it selects is node number `n` of `l` for some `n < |l|`: the
first node whose inclusive running sum reaches the threshold. -/
theorem event_walk_stays_on_list (app : App) (fuel : Nat) (st : State) (i : Int)
    (uniform : ℚ) (l : List Int)
    (hchain : Chain (nextOf st.es) (st.es.firstevent i) l (-1)) (hne : l ≠ [])
    (hpos : ∀ a ∈ l, 0 < (st.es.events a).propensity)
    (hsum : st.propensity (app.i2site i) =
      (l.map (fun a => (st.es.events a).propensity)).sum)
    (hu : uniform < 1) (hfuel : l.length ≤ fuel) :
    ∃ (n : Nat) (hn : n < l.length),
      select_event app fuel st i uniform = .ok (l.get ⟨n, hn⟩) ∧
      l.get ⟨n, hn⟩ ∈ l ∧
      uniform * st.propensity (app.i2site i) ≤ runningSum st.es.events l (n + 1) ∧
      ∀ k, k < n →
        runningSum st.es.events l (k + 1) < uniform * st.propensity (app.i2site i) := by
  have hlen : 0 < l.length := List.length_pos.2 hne
  have htot : 0 < (l.map (fun a => (st.es.events a).propensity)).sum := by
    apply List.sum_pos
    · intro x hx
      obtain ⟨a, ha, rfl⟩ := List.mem_map.1 hx
      exact hpos a ha
    · intro h
      exact hne (List.map_eq_nil_iff.1 h)
  have hlast : uniform * st.propensity (app.i2site i) ≤
      runningSum st.es.events l ((l.length - 1) + 1) := by
    have h1 : l.length - 1 + 1 = l.length := by omega
    rw [h1, runningSum_length, hsum]
    exact mul_le_of_le_one_left (le_of_lt htot) (le_of_lt hu)
  have hex : ∃ n, uniform * st.propensity (app.i2site i) ≤
      runningSum st.es.events l (n + 1) := ⟨l.length - 1, hlast⟩
  have hn : Nat.find hex < l.length := by
    have := Nat.find_min' hex hlast
    omega
  have hmin : ∀ k, k < Nat.find hex →
      runningSum st.es.events l (k + 1) < uniform * st.propensity (app.i2site i) :=
    fun k hk => not_le.1 (Nat.find_min hex hk)
  refine ⟨Nat.find hex, hn, ?_, List.get_mem _ _ _, Nat.find_spec hex, hmin⟩
  exact select_event_first app fuel st i uniform l (-1) (Nat.find hex) hn hchain hmin
    (Nat.find_spec hex) (by omega)

/-- The exact event walk on scenario S2: the chain of site 0 is the null event (node 1)
and the S event (node 0), `propensity[0] = 1.1`, and `uniform = 0.5`. -/
theorem event_walk_stays_on_list_witness :
    ∃ (n : Nat) (hn : n < [(1 : Int), 0].length),
      select_event (appS 0) 100000 stS2 0 (1 / 2) = .ok ([(1 : Int), 0].get ⟨n, hn⟩) ∧
      [(1 : Int), 0].get ⟨n, hn⟩ ∈ [(1 : Int), 0] ∧
      (1 / 2 : ℚ) * stS2.propensity ((appS 0).i2site 0) ≤
        runningSum stS2.es.events [1, 0] (n + 1) ∧
      ∀ k, k < n →
        runningSum stS2.es.events [1, 0] (k + 1) <
          (1 / 2 : ℚ) * stS2.propensity ((appS 0).i2site 0) :=
  event_walk_stays_on_list (appS 0) 100000 stS2 0 (1 / 2) [1, 0] stS2_chain (by decide)
    (by
      intro a ha
      have h : a = 1 ∨ a = 0 := by simpa using ha
      rcases h with h | h <;> subst h <;> decide!)
    (by decide!) (by decide!) (by decide)

/-! ## The scratch marker `echeck` -/

theorem count_coord_scratch (app : App) (st : State) (i : Int) :
    (count_coord app st i).echeck = st.echeck ∧ (count_coord app st i).esites = st.esites := by
  unfold count_coord
  simp only []
  refine foldl_inv (fun s : State => s.echeck = st.echeck ∧ s.esites = st.esites) _ _ ?_ _
    ⟨rfl, rfl⟩
  intro a s _ ha
  split_ifs
  · exact ha
  · exact ha

theorem site_propensity_ok_scratch (app : App) (fuel : Nat) (st st1 : State) (i : Int)
    (p : ℚ) (h : site_propensity app fuel st i = .ok (st1, p)) :
    st1.echeck = st.echeck ∧ st1.esites = st.esites := by
  unfold site_propensity at h
  simp only [bind, Except.bind, pure, Except.pure] at h
  cases hc : clear_events fuel st.es i with
  | error err =>
    rw [hc] at h
    cases h
  | ok es0 =>
    rw [hc] at h
    simp only [] at h
    cases he : enumerate add_event app st i es0 with
    | error err =>
      rw [he] at h
      cases h
    | ok e =>
      rw [he] at h
      cases h
      exact ⟨rfl, rfl⟩

theorem refresh_site_recorded (app : App) (fuel : Nat) (acc a1 : State × Int) (s : Int)
    (h : MarksRecorded acc) (hok : refresh_site app fuel acc s = .ok a1) :
    MarksRecorded a1 := by
  obtain ⟨hn, hrec⟩ := h
  unfold refresh_site at hok
  cases hsp : site_propensity app fuel (count_coord app acc.1 s) s with
  | error err =>
    rw [hsp] at hok
    simp at hok
  | ok r =>
    obtain ⟨st1, p⟩ := r
    rw [hsp] at hok
    obtain ⟨e1, e2⟩ := site_propensity_ok_scratch app fuel _ st1 s p hsp
    obtain ⟨c1, c2⟩ := count_coord_scratch app acc.1 s
    simp only [Except.ok.injEq] at hok
    rw [← hok]
    refine ⟨by show 0 ≤ acc.2 + 1; omega, ?_⟩
    intro y hy
    have hy1 : upd st1.echeck (app.i2site s) 1 y ≠ 0 := hy
    by_cases hyi : y = app.i2site s
    · refine ⟨acc.2, hn, by show acc.2 < acc.2 + 1; omega, ?_⟩
      show upd st1.esites acc.2 (app.i2site s) acc.2 = y
      rw [upd_same, hyi]
    · rw [upd_ne _ _ _ _ hyi, e1, c1] at hy1
      obtain ⟨m, hm0, hm1, hm2⟩ := hrec y hy1
      refine ⟨m, hm0, by show m < acc.2 + 1; omega, ?_⟩
      show upd st1.esites acc.2 (app.i2site s) m = y
      rw [upd_ne _ _ _ _ (by omega), e2, c2]
      exact hm2

theorem refresh_guarded_recorded (app : App) (fuel : Nat) (acc a1 : State × Int) (s : Int)
    (h : MarksRecorded acc) (hok : refresh_guarded app fuel acc s = .ok a1) :
    MarksRecorded a1 := by
  unfold refresh_guarded at hok
  split_ifs at hok
  · exact refresh_site_recorded app fuel acc a1 s h hok
  · simp only [Except.ok.injEq] at hok
    rw [← hok]
    exact h

/-- A property of the refresh accumulator `(state, nsites)` kept by every guarded
refresh block is kept by the four nested refresh loops, whenever they return. -/
theorem refresh_l1_acc_closed (app : App) (fuel : Nat) (I : State × Int → Prop)
    (hg : ∀ a s b, I a → refresh_guarded app fuel a s = .ok b → I b) (i : Int)
    (acc a1 : State × Int) (hinv : I acc) (hok : refresh_l1 app fuel i acc = .ok a1) :
    I a1 := by
  have hstep : ∀ (inner : Int → State × Int → Except Fault (State × Int)),
      (∀ x a b, I a → inner x a = .ok b → I b) →
      ∀ (a b : State × Int) (x : Int), I a →
        (match refresh_guarded app fuel a x with
          | .ok a1 => inner x a1
          | .error err => .error err) = .ok b → I b := by
    intro inner hinner a b x ha hb
    cases hgx : refresh_guarded app fuel a x with
    | error err =>
      rw [hgx] at hb
      simp at hb
    | ok a2 =>
      rw [hgx] at hb
      exact hinner x a2 b (hg a x a2 ha hgx) hb
  have h4 : ∀ x a b, I a → refresh_l4 app fuel x a = .ok b → I b := fun x a b ha hb =>
    foldlM_ok_inv I _ _ (fun c _ d _ hc hd => hg c _ d hc hd) a b ha hb
  have h3 : ∀ x a b, I a → refresh_l3 app fuel x a = .ok b → I b := fun x a b ha hb =>
    foldlM_ok_inv I _ _
      (fun c ss d _ hc hd => hstep (refresh_l4 app fuel) h4 c d (app.neighbor x ss) hc hd)
      a b ha hb
  have h2 : ∀ x a b, I a → refresh_l2 app fuel x a = .ok b → I b := fun x a b ha hb =>
    foldlM_ok_inv I _ _
      (fun c jj d _ hc hd => hstep (refresh_l3 app fuel) h3 c d (app.neighbor x jj) hc hd)
      a b ha hb
  exact foldlM_ok_inv I _ _
    (fun c n d _ hc hd => hstep (refresh_l2 app fuel) h2 c d (app.neighbor i n) hc hd)
    acc a1 hinv hok

theorem execute_event_echeck_zero (app : App) (fuel : Nat) (st st2 : State) (i ievent : Int)
    (time : ℚ) (touched : List Int) (hz : ∀ y, st.echeck y = 0)
    (hok : execute_event app fuel st i ievent time = .ok (st2, touched)) :
    ∀ y, st2.echeck y = 0 := by
  unfold execute_event at hok
  simp only [bind, Except.bind, pure, Except.pure] at hok
  cases hap : apply_event app st i (st.es.events ievent).style (st.es.events ievent).which
      (st.es.events ievent).jpartner (st.es.events ievent).kpartner
      (st.es.events ievent).gpartner with
  | error err =>
    rw [hap] at hok
    simp at hok
  | ok st1 =>
    rw [hap] at hok
    simp only [] at hok
    have hz3 : ∀ y, (run_mask app (pulse_update app st1 time)
        (mask_action (pulse_update app st1 time) i (st.es.events ievent).gpartner
          (st.es.events ievent).style (st.element i)
          (st.element (st.es.events ievent).gpartner))).echeck y = 0 := by
      apply run_mask_echeck_zero
      intro y
      rw [pulse_update_echeck, apply_event_echeck app st st1 _ _ _ _ _ _ hap]
      exact hz y
    cases h0 : refresh_site app fuel
        (run_mask app (pulse_update app st1 time)
          (mask_action (pulse_update app st1 time) i (st.es.events ievent).gpartner
            (st.es.events ievent).style (st.element i)
            (st.element (st.es.events ievent).gpartner)), 0) i with
    | error err =>
      rw [h0] at hok
      simp at hok
    | ok a0 =>
      rw [h0] at hok
      simp only [] at hok
      have hr0 : MarksRecorded a0 :=
        refresh_site_recorded app fuel _ a0 i
          ⟨le_refl _, fun y hy => absurd (hz3 y) hy⟩ h0
      cases h1 : refresh_l1 app fuel i a0 with
      | error err =>
        rw [h1] at hok
        simp at hok
      | ok a1 =>
        rw [h1] at hok
        simp only [Except.ok.injEq, Prod.mk.injEq] at hok
        have hr1 := refresh_l1_acc_closed app fuel MarksRecorded
          (fun a s b ha hb => refresh_guarded_recorded app fuel a b s ha hb) i a0 a1 hr0 h1
        rw [← hok.1]
        exact clear_echeck_zero a1.1 a1.2 hr1

/-- C33. Scratch-marker invariant, for every neighbour graph, every site `i` and every
executed event: if every entry of `echeck` is 0 before the call, then every entry of
`echeck` is 0 after `put_mask(i)`, `remove_mask(i)`, `put_mask_2(i)` and
`remove_mask_2(i)`, and whenever `site_event(i)` returns every entry of `echeck` is 0 in
the state it leaves. -/
theorem scratch_marker_restored (app : App) (st : State) (i : Int)
    (hz : ∀ y, st.echeck y = 0) :
    (∀ y, (put_mask app st i).echeck y = 0) ∧ (∀ y, (remove_mask app st i).echeck y = 0) ∧
    (∀ y, (put_mask_2 app st i).echeck y = 0) ∧
    (∀ y, (remove_mask_2 app st i).echeck y = 0) ∧
    ∀ (fuel : Nat) (uniform time : ℚ) (st1 : State) (touched : List Int),
      site_event app fuel st i uniform time = .ok (st1, touched) →
      ∀ y, st1.echeck y = 0 := by
  refine ⟨mask_shells_echeck_zero app _ _ st i hz, mask_shells_echeck_zero app _ _ st i hz,
    mask_same_z_echeck_zero app _ st i hz, mask_same_z_echeck_zero app _ st i hz, ?_⟩
  intro fuel uniform time st1 touched hok
  unfold site_event at hok
  cases hsel : select_event app fuel st i uniform with
  | error err =>
    rw [hsel] at hok
    simp [bind, Except.bind] at hok
  | ok ievent =>
    rw [hsel] at hok
    exact execute_event_echeck_zero app fuel st st1 i ievent time touched hz hok

theorem stS2_echeck : ∀ y, stS2.echeck y = 0 := by
  obtain ⟨s, p, h1, _⟩ := lists_after_first_propensity (appS 0) (stInit O) (le_refl _) 0
    (le_refl _) (by decide) (appS_nonzero 0)
  intro y
  have hst : stS2 = { s with propensity := upd s.propensity 0 p } := by
    unfold stS2
    rw [h1]
  rw [hst]
  show s.echeck y = 0
  rw [site_propensity_echeck (appS 0) 0 _ s 0 p h1]
  simp [setup_app, stInit]

/-- Witness for C33 (scenario S2): `echeck` is all zero, `site_event(0)` with
`uniform = 0.5` returns, and `echeck` is all zero afterwards, as it is after each of the
four mask functions. -/
theorem scratch_marker_restored_witness :
    (∀ y, stS2.echeck y = 0) ∧
    (∀ y, (put_mask (appS 0) stS2 0).echeck y = 0) ∧
    (∀ y, (remove_mask (appS 0) stS2 0).echeck y = 0) ∧
    (∀ y, (put_mask_2 (appS 0) stS2 0).echeck y = 0) ∧
    (∀ y, (remove_mask_2 (appS 0) stS2 0).echeck y = 0) ∧
    ∃ (st1 : State) (touched : List Int),
      site_event (appS 0) 100000 stS2 0 (1 / 2) (1 / 2) = .ok (st1, touched) ∧
      ∀ y, st1.echeck y = 0 := by
  obtain ⟨st1, touched, hok⟩ := stS2_event
  obtain ⟨h1, h2, h3, h4, h5⟩ := scratch_marker_restored (appS 0) stS2 0 stS2_echeck
  exact ⟨stS2_echeck, h1, h2, h3, h4, st1, touched, hok,
    h5 100000 (1 / 2) (1 / 2) st1 touched hok⟩

/-! ## Well-formed events and the style dispatch -/

theorem wellFormed_style (app : App) (r : EvData) (h : WellFormedEvent app r) :
    1 ≤ r.style ∧ r.style ≤ 5 := by
  rcases h.2 with h1 | h1 | h1 | h1 | h1
  · rw [h1.1]
    decide
  · rw [h1.1]
    decide
  · rw [h1.1]
    decide
  · rw [h1.1]
    decide
  · rw [h1]
    decide

/-- The style dispatch of `site_event` (lines 713-734) on a well-formed event takes one
of the five mutation branches, never the fatal one. -/
theorem apply_event_ok_of_wf (app : App) (st : State) (i : Int) (ev : Event)
    (hwf : WellFormedEvent app (dataOf ev)) :
    ∃ s1, apply_event app st i ev.style ev.which ev.jpartner ev.kpartner ev.gpartner =
      .ok s1 := by
  rcases hwf.2 with h | h | h | h | h
  · have hs1 : ev.style = 1 := h.1
    simp only [apply_event, hs1, if_true]
    exact ⟨_, rfl⟩
  · have hs1 : ev.style = 2 := h.1
    have hj : ev.jpartner = -1 := h.2.2.2.1
    have hne : ¬ ((2 : Int) = 1) := by decide
    simp only [apply_event, hs1, hj, hne, if_false, and_self, if_true]
    exact ⟨_, rfl⟩
  · have hs1 : ev.style = 3 := h.1
    have hk : ev.kpartner = -1 := h.2.2.2.1
    have hne : ¬ ((3 : Int) = 1) := by decide
    have hne2 : ¬ ((3 : Int) = 2) := by decide
    simp only [apply_event, hs1, hk, hne, hne2, if_false, false_and, and_self, if_true]
    exact ⟨_, rfl⟩
  · have hs1 : ev.style = 4 := h.1
    have hne : ¬ ((4 : Int) = 1) := by decide
    have hne2 : ¬ ((4 : Int) = 2) := by decide
    have hne3 : ¬ ((4 : Int) = 3) := by decide
    simp only [apply_event, hs1, hne, hne2, hne3, if_false, false_and, if_true]
    exact ⟨_, rfl⟩
  · have hs1 : ev.style = 5 := congrArg EvData.style h
    have hne : ¬ ((5 : Int) = 1) := by decide
    have hne2 : ¬ ((5 : Int) = 2) := by decide
    have hne3 : ¬ ((5 : Int) = 3) := by decide
    have hne4 : ¬ ((5 : Int) = 4) := by decide
    simp only [apply_event, hs1, hne, hne2, hne3, hne4, if_false, false_and, if_true]
    exact ⟨_, rfl⟩

/-- C38. In every state reachable after setup (owned sites only carry solver indices)
the event store is well formed and every event on the list of an owned site `i`, all
of them created by `site_propensity`, is well formed: its propensity is not 0; its style
is in 1..5; S and NULL events have `j = k = g = -1`; a D event has `j = g = -1` and
`k = neighbor[neighbor[i][jj]][kk]`, `k != i`, for in-range `jj`, `kk`; a V event has
`k = g = -1` and `j = neighbor[i][jj]`; an F event has `j = k = -1` and
`g = same_z_neighbors[i][p]`; and `which` indexes a declared reaction of the class of
the event, whose propensity the event carries. Hence for every event on the list of an
owned site the style dispatch of `site_event` returns a mutated state: it never takes
the fatal branch. -/
theorem created_events_well_formed (app : App) (hown : OwnedInRange app) (st : State)
    (h : Reachable app st) :
    ∃ A, EventLists app.nlocal st.es A ∧
      (∀ i, 0 ≤ i → i < app.nlocal → ∀ r ∈ A i,
        WellFormedAt app i r ∧ 1 ≤ r.style ∧ r.style ≤ 5) ∧
      ∀ i ievent, 0 ≤ i → i < app.nlocal → OnChain st.es i ievent →
        WellFormedAt app i (dataOf (st.es.events ievent)) ∧
        ∃ st1, apply_event app st i (st.es.events ievent).style
          (st.es.events ievent).which (st.es.events ievent).jpartner
          (st.es.events ievent).kpartner (st.es.events ievent).gpartner = .ok st1 := by
  have hW := reachable_wf app hown st h
  obtain ⟨A, hA, hwf⟩ := hW
  refine ⟨A, hA, fun i hi0 hin r hr =>
    ⟨hwf i hi0 hin r hr, wellFormed_style app r (hwf i hi0 hin r hr).1⟩, ?_⟩
  intro i ievent hi0 hin hon
  have hw := onChain_wf app st.es ⟨A, hA, hwf⟩ i ievent hi0 hin hon
  exact ⟨hw, apply_event_ok_of_wf app st i (st.es.events ievent) hw.1⟩

/-- Witness for C38 (scenario S2): the state after `setup_app` and the first
`site_propensity(0)`; the S event `O -> OH` is node 0 of the list of site 0. -/
theorem created_events_well_formed_witness :
    OwnedInRange (appS 0) ∧ Reachable (appS 0) stS2 ∧ OnChain stS2.es 0 0 ∧
    ∃ A, EventLists (appS 0).nlocal stS2.es A ∧
      (∀ i, 0 ≤ i → i < (appS 0).nlocal → ∀ r ∈ A i,
        WellFormedAt (appS 0) i r ∧ 1 ≤ r.style ∧ r.style ≤ 5) ∧
      WellFormedAt (appS 0) 0 (dataOf (stS2.es.events 0)) ∧
      ∃ st1, apply_event (appS 0) stS2 0 (stS2.es.events 0).style
        (stS2.es.events 0).which (stS2.es.events 0).jpartner
        (stS2.es.events 0).kpartner (stS2.es.events 0).gpartner = .ok st1 := by
  have hr : Reachable (appS 0) stS2 := runFrom_reachable (appS 0) (stInit O) stS2 0 stS2_run
  obtain ⟨A, h1, h2, h3⟩ := created_events_well_formed (appS 0) (appS_owned 0) stS2 hr
  obtain ⟨h4, h5⟩ := h3 0 0 (le_refl _) (by decide) stS2_onChain
  exact ⟨appS_owned 0, hr, stS2_onChain, A, h1, h2, h4, h5⟩

/-! ## Freshness of the refreshed propensities -/

/-- C34 at a failing input. Sites 0 and 1 are each other's only neighbour; site 0 is
vacant, site 1 holds `O`, `coord = (1, 0)`. `site_event(0)` with `uniform = 0.5` executes
the S event `VACANCY -> O` and refreshes the sites 0 and 1, in this order. It leaves
`coord = (1, 1)` and `propensity[0] = 1.1`, the list of site 0 being the null event
followed by the V event with partner 1; but `site_propensity(0)` evaluated on the state
the call leaves admits no V event (`coord[1] = 1` is not below `numneigh[1] = 1`) and
returns 0.1: the refresh of site 0 read `coord[1]` before `count_coord(1)` updated it. -/
theorem site_event_leaves_stale_propensity :
    (stStale.element 0 = VACANCY ∧ stStale.element 1 = O ∧ stStale.coord 0 = 1 ∧
      stStale.coord 1 = 0) ∧
    select_event appStale 100000 stStale 0 (1 / 2) = .ok 0 ∧
    (stStale.es.events 0).style = 1 ∧
    (returned (site_event appStale 100000 stStale 0 (1 / 2) (1 / 2))).map
        (fun r => (r.1.element 0, r.1.element 1, r.1.coord 0, r.1.coord 1, r.2)) =
      some (O, O, 1, 1, [0, 1]) ∧
    (returned (site_event appStale 100000 stStale 0 (1 / 2) (1 / 2))).map
        (fun r => (r.1.propensity 0,
          dataOf (r.1.es.events (r.1.es.firstevent 0)),
          dataOf (r.1.es.events (r.1.es.events (r.1.es.firstevent 0)).next),
          (r.1.es.events (r.1.es.events (r.1.es.firstevent 0)).next).next)) =
      some (11 / 10, nullEvent, ⟨3, 0, 1, -1, -1, 1⟩, -1) ∧
    (returned (site_event appStale 100000 stStale 0 (1 / 2) (1 / 2))).bind
        (fun r => addedTotal appStale r.1 0) =
      some ([nullEvent], 1 / 10) := by
  refine ⟨⟨by decide!, by decide!, by decide!, by decide!⟩, by decide!, by decide!,
    by decide!, by decide!, by decide!⟩

/-! ## The capacity of `esites` -/

theorem appTree_nonzero : NonzeroProps appTree := by
  refine ⟨?_, ?_, ?_, ?_⟩ <;>
  · intro m h0 h1
    simp [appTree, appNull] at h1
    omega

theorem appTree_graph : ClosedOwnedGraph appTree := by
  refine ⟨?_, ?_, ?_⟩
  · intro s h0 h1
    have h1b : s < 46 := h1
    show 0 ≤ (if 0 ≤ s ∧ s < 46 then s else -1)
    rw [if_pos ⟨h0, h1b⟩]
    exact h0
  · intro s t hs0 hs1 ht0 ht1 h
    have hs1b : s < 46 := hs1
    have ht1b : t < 46 := ht1
    have h2 : (if 0 ≤ s ∧ s < 46 then s else -1) = (if 0 ≤ t ∧ t < 46 then t else -1) := h
    rw [if_pos ⟨hs0, hs1b⟩, if_pos ⟨ht0, ht1b⟩] at h2
    exact h2
  · intro t jj ht0 ht1 hj0 hj1
    have ht1b : t < 46 := ht1
    have hj1b : jj < (if 0 ≤ t ∧ t ≤ 21 then 3 else 1) := hj1
    show 0 ≤ (if t = 0 then jj + 1
        else if jj = 0 then (if t ≤ 3 then 0 else (t - 2) / 2) else 2 * t + 1 + jj) ∧
      (if t = 0 then jj + 1
        else if jj = 0 then (if t ≤ 3 then 0 else (t - 2) / 2) else 2 * t + 1 + jj) < 46
    split_ifs at hj1b ⊢ <;> constructor <;> omega

theorem appTree_degree (x : Int) : appTree.numneigh x ≤ 3 := by
  show (if 0 ≤ x ∧ x ≤ 21 then (3 : Int) else 1) ≤ 3
  split_ifs <;> omega

theorem appTree_hops : ∀ s ∈ irange 46, withinHops appTree 4 0 s = true := by
  decide

theorem stTree_ok : ∃ (s : State) (p : ℚ),
    site_propensity appTree 0 (setup_app appTree (stInit O)) 0 = .ok (s, p) ∧
    stTree = { s with propensity := upd s.propensity 0 p } ∧
    ∃ A, EventLists appTree.nlocal s.es A := by
  obtain ⟨s, p, h1, hA⟩ := lists_after_first_propensity appTree (stInit O) (le_refl _) 0
    (le_refl _) (by decide) appTree_nonzero
  refine ⟨s, p, h1, ?_, hA⟩
  unfold stTree
  rw [h1]

theorem stTree_lists : ∃ A, EventLists appTree.nlocal stTree.es A := by
  obtain ⟨s, p, _, h2, hA⟩ := stTree_ok
  rw [h2]
  exact hA

theorem stTree_echeck : ∀ y, stTree.echeck y = 0 := by
  obtain ⟨s, p, h1, h2, _⟩ := stTree_ok
  intro y
  rw [h2]
  show s.echeck y = 0
  rw [site_propensity_echeck appTree 0 _ s 0 p h1]
  simp [setup_app, stInit]

theorem stTree_chain : Chain (nextOf stTree.es) (stTree.es.firstevent 0) [0] (-1) :=
  ⟨by decide!, (by decide! : nextOf stTree.es 0 = -1)⟩

theorem stTree_select : select_event appTree 100000 stTree 0 (1 / 2) = .ok 0 :=
  select_event_first appTree 100000 stTree 0 (1 / 2) [0] (-1) 0 (by decide) stTree_chain
    (fun k hk => absurd hk (by omega)) (by decide!) (by decide)

/-- C35 at a failing input. On the tree lattice `appTree` every site has at most
`maxneigh = 3` neighbours, so `esites` is allocated with `12*maxneigh = 36` entries
(line 409). `site_event(0)` (the null event of the root, `uniform = 0.5`) returns and
records each of the 46 owned sites once, all of them within 4 hops of the root: the
list handed to the solver has more than 36 entries, so the writes `esites[nsites++]`
with `nsites = 36, ..., 45` lie past the end of the allocation. -/
theorem site_event_overruns_esites :
    (∀ x, appTree.numneigh x ≤ 3) ∧ appTree.numneigh 0 = 3 ∧
    ∃ (st2 : State) (touched : List Int),
      site_event appTree 100000 stTree 0 (1 / 2) (1 / 2) = .ok (st2, touched) ∧
      (∀ s, 0 ≤ s → s < 46 → touched.count (appTree.i2site s) = 1) ∧
      12 * 3 < touched.length := by
  refine ⟨appTree_degree, by decide, ?_⟩
  have hs : (stTree.es.events 0).style = 5 := by decide!
  obtain ⟨T, a1, h1, _, h3, _⟩ := site_event_trace appTree 100000 stTree stTree 0 0 (1 / 2)
    (1 / 2) stTree_lists (le_refl _) (by decide) appTree_graph appTree_nonzero (by decide!)
    stTree_echeck stTree_select (by simp [apply_event, hs])
  refine ⟨_, _, h1, ?_, ?_⟩
  · intro s h0 hn
    exact (h3 s (appTree_hops s ((mem_irange _ _).2 ⟨h0, hn⟩))).2
  · have hsub : irange 46 ⊆ T := by
      intro s hs
      have := (h3 s (appTree_hops s hs)).1
      exact List.count_pos_iff.1 (by omega)
    have hlen := ((nodup_irange 46).subperm hsub).length_le
    have h46 : (irange 46).length = 46 := by decide
    rw [List.length_map]
    omega

/-! ## The same-z table -/

theorem irange_map_upd_last {α : Type} (f : Int → α) (k : Nat) (v : α) :
    (irange ((k : Int) + 1)).map (upd f k v) = (irange k).map f ++ [v] := by
  rw [irange_succ, List.map_append]
  congr 1
  · apply List.map_congr_left
    intro x hx
    have := (mem_irange _ _).1 hx
    exact upd_ne _ _ _ _ (by omega)
  · simp [upd]

theorem irange_pairwise_lt (n : Int) : (irange n).Pairwise (fun a b => a < b) := by
  unfold irange
  exact (List.pairwise_lt_range n.toNat).map Int.ofNat (fun a b h => Int.ofNat_lt.2 h)

theorem pairwise_of_lt {R : Int → Int → Prop} :
    ∀ (l : List Int), l.Pairwise R → l.Pairwise (fun a b => a < b) →
      ∀ a b, a ∈ l → b ∈ l → a < b → R a b
  | [], _, _, a, _, ha, _, _ => by simp at ha
  | x :: t, hR, hlt, a, b, ha, hb, hab => by
    rw [List.pairwise_cons] at hR hlt
    rcases List.mem_cons.1 ha with ha | ha
    · rcases List.mem_cons.1 hb with hb | hb
      · omega
      · rw [ha]
        exact hR.1 b hb
    · rcases List.mem_cons.1 hb with hb | hb
      · have := hlt.1 a ha
        omega
      · exact pairwise_of_lt t hR.2 hlt.2 a b ha hb hab

theorem irange_take (n : Int) (k : Nat) : (irange n).take k = irange (min n k) := by
  unfold irange
  rw [← List.map_take, List.take_range]
  congr 2
  rcases le_total n (k : Int) with h | h
  · rw [min_eq_left h]
    omega
  · rw [min_eq_right h]
    omega

/-- The collecting loop appends the same-plane sites among `l`, in order, to
`temp_neighbors` and stores their horizontal distances in `temp_distances`. -/
theorem collect_fold (sqrt : ℚ → ℚ) (xyz : Int → Int → ℚ) (i : Int) :
    ∀ (l : List Int) (t : SameZTemp), 0 ≤ t.num_temp →
      (∀ m, 0 ≤ m → m < t.num_temp →
        t.temp_distances m = horizontal_distance sqrt xyz i (t.temp_neighbors m)) →
      0 ≤ (l.foldl (same_z_collect_step sqrt xyz i) t).num_temp ∧
      tempList (l.foldl (same_z_collect_step sqrt xyz i) t) =
        tempList t ++
          l.filter (fun j => decide (j ≠ i ∧ abs (xyz j 2 - xyz i 2) ≤ z_tolerance)) ∧
      ∀ m, 0 ≤ m → m < (l.foldl (same_z_collect_step sqrt xyz i) t).num_temp →
        (l.foldl (same_z_collect_step sqrt xyz i) t).temp_distances m =
          horizontal_distance sqrt xyz i
            ((l.foldl (same_z_collect_step sqrt xyz i) t).temp_neighbors m)
  | [], t, h0, hd => ⟨h0, by simp, hd⟩
  | a :: l, t, h0, hd => by
    rw [List.foldl_cons]
    by_cases hp : a ≠ i ∧ abs (xyz a 2 - xyz i 2) ≤ z_tolerance
    · have hia : ¬ i = a := fun h => hp.1 h.symm
      have hz : abs (xyz i 2 - xyz a 2) ≤ z_tolerance := by
        rw [abs_sub_comm]
        exact hp.2
      have hstep : same_z_collect_step sqrt xyz i t a =
          { temp_neighbors := upd t.temp_neighbors t.num_temp a
            temp_distances := upd t.temp_distances t.num_temp
              (horizontal_distance sqrt xyz i a)
            num_temp := t.num_temp + 1 } := by
        simp only [same_z_collect_step, hia, if_false, hz, if_true]
      obtain ⟨k, hk⟩ : ∃ k : Nat, t.num_temp = (k : Int) := ⟨t.num_temp.toNat, by omega⟩
      have hlist : tempList (same_z_collect_step sqrt xyz i t a) = tempList t ++ [a] := by
        rw [hstep]
        unfold tempList
        show (irange (t.num_temp + 1)).map (upd t.temp_neighbors t.num_temp a) = _
        rw [hk]
        exact irange_map_upd_last _ k a
      obtain ⟨r1, r2, r3⟩ := collect_fold sqrt xyz i l (same_z_collect_step sqrt xyz i t a)
        (by rw [hstep]; show 0 ≤ t.num_temp + 1; omega)
        (by
          rw [hstep]
          intro m hm0 hm1
          have hm1 : m < t.num_temp + 1 := hm1
          show upd t.temp_distances t.num_temp (horizontal_distance sqrt xyz i a) m =
            horizontal_distance sqrt xyz i (upd t.temp_neighbors t.num_temp a m)
          by_cases hmn : m = t.num_temp
          · rw [hmn, upd_same, upd_same]
          · rw [upd_ne _ _ _ _ hmn, upd_ne _ _ _ _ hmn]
            exact hd m hm0 (by omega))
      refine ⟨r1, ?_, r3⟩
      rw [r2, hlist, List.filter_cons_of_pos (by simpa using hp)]
      simp
    · have hstep : same_z_collect_step sqrt xyz i t a = t := by
        unfold same_z_collect_step
        by_cases hia : i = a
        · rw [if_pos hia]
        · rw [if_neg hia, if_neg]
          intro hz
          apply hp
          refine ⟨fun h => hia h.symm, ?_⟩
          rw [abs_sub_comm]
          exact hz
      rw [hstep]
      obtain ⟨r1, r2, r3⟩ := collect_fold sqrt xyz i l t h0 hd
      refine ⟨r1, ?_, r3⟩
      rw [r2, List.filter_cons_of_neg (by simpa using hp)]

theorem same_z_collect_spec (sqrt : ℚ → ℚ) (xyz : Int → Int → ℚ) (nlocal i : Int)
    (fresh : SameZTemp) :
    0 ≤ (same_z_collect sqrt xyz nlocal i fresh).num_temp ∧
    tempList (same_z_collect sqrt xyz nlocal i fresh) = samePlane xyz nlocal i ∧
    ∀ m, 0 ≤ m → m < (same_z_collect sqrt xyz nlocal i fresh).num_temp →
      (same_z_collect sqrt xyz nlocal i fresh).temp_distances m =
        horizontal_distance sqrt xyz i
          ((same_z_collect sqrt xyz nlocal i fresh).temp_neighbors m) := by
  obtain ⟨r1, r2, r3⟩ := collect_fold sqrt xyz i (irange nlocal) { fresh with num_temp := 0 }
    (le_refl _) (fun m h0 h1 => by
      have h1 : m < 0 := h1
      omega)
  refine ⟨r1, ?_, r3⟩
  unfold same_z_collect samePlane
  rw [r2]
  simp [tempList, irange]

theorem swap_mem_irange (n j k x : Int) (hj : j ∈ irange n) (hk : k ∈ irange n)
    (hx : x ∈ irange n) : Equiv.swap j k x ∈ irange n := by
  by_cases hxj : x = j
  · rw [hxj, Equiv.swap_apply_left]
    exact hk
  · by_cases hxk : x = k
    · rw [hxk, Equiv.swap_apply_right]
      exact hj
    · rw [Equiv.swap_apply_of_ne_of_ne hxj hxk]
      exact hx

/-- Exchanging two entries of an array rearranges the list of its first `n` entries. -/
theorem swap_perm {α : Type} (f : Int → α) (n j k : Int) (hj0 : 0 ≤ j) (hjk : j < k)
    (hkn : k < n) :
    List.Perm ((irange n).map (upd (upd f j (f k)) k (f j))) ((irange n).map f) := by
  have hj : j ∈ irange n := (mem_irange _ _).2 ⟨hj0, by omega⟩
  have hk : k ∈ irange n := (mem_irange _ _).2 ⟨by omega, hkn⟩
  have hfun : upd (upd f j (f k)) k (f j) = f ∘ (Equiv.swap j k) := by
    funext x
    simp only [Function.comp, upd]
    by_cases hxk : x = k
    · rw [if_pos hxk, hxk, Equiv.swap_apply_right]
    · rw [if_neg hxk]
      by_cases hxj : x = j
      · rw [if_pos hxj, hxj, Equiv.swap_apply_left]
      · rw [if_neg hxj, Equiv.swap_apply_of_ne_of_ne hxj hxk]
  rw [hfun, ← List.map_map]
  apply List.Perm.map
  rw [List.perm_ext_iff_of_nodup ((nodup_irange n).map (Equiv.injective _)) (nodup_irange n)]
  intro y
  constructor
  · intro hy
    obtain ⟨x, hx, rfl⟩ := List.mem_map.1 hy
    exact swap_mem_irange n j k x hj hk hx
  · intro hy
    exact List.mem_map.2 ⟨Equiv.swap j k y, swap_mem_irange n j k y hj hk hy,
      Equiv.swap_apply_self j k y⟩

theorem same_z_swap_dist (t : SameZTemp) (j k : Int) (hjk : j ≠ k) :
    (((same_z_swap t j k).temp_distances j = t.temp_distances j ∧
        (same_z_swap t j k).temp_distances k = t.temp_distances k) ∨
      ((same_z_swap t j k).temp_distances j = t.temp_distances k ∧
        (same_z_swap t j k).temp_distances k = t.temp_distances j)) ∧
    (same_z_swap t j k).temp_distances j ≤ (same_z_swap t j k).temp_distances k ∧
    (same_z_swap t j k).temp_distances j ≤ t.temp_distances j ∧
    ∀ m, m ≠ j → m ≠ k → (same_z_swap t j k).temp_distances m = t.temp_distances m := by
  unfold same_z_swap
  by_cases h : t.temp_distances j > t.temp_distances k
  · rw [if_pos h]
    have e1 : upd (upd t.temp_distances j (t.temp_distances k)) k (t.temp_distances j) j =
        t.temp_distances k := by
      rw [upd_ne _ _ _ _ hjk, upd_same]
    have e2 : upd (upd t.temp_distances j (t.temp_distances k)) k (t.temp_distances j) k =
        t.temp_distances j := upd_same _ _ _
    refine ⟨Or.inr ⟨e1, e2⟩, ?_, ?_, ?_⟩
    · show upd (upd t.temp_distances j (t.temp_distances k)) k (t.temp_distances j) j ≤
        upd (upd t.temp_distances j (t.temp_distances k)) k (t.temp_distances j) k
      rw [e1, e2]
      exact le_of_lt h
    · show upd (upd t.temp_distances j (t.temp_distances k)) k (t.temp_distances j) j ≤ _
      rw [e1]
      exact le_of_lt h
    · intro m hmj hmk
      show upd (upd t.temp_distances j (t.temp_distances k)) k (t.temp_distances j) m = _
      rw [upd_ne _ _ _ _ hmk, upd_ne _ _ _ _ hmj]
  · rw [if_neg h]
    exact ⟨Or.inl ⟨rfl, rfl⟩, not_lt.1 h, le_refl _, fun _ _ _ => rfl⟩

theorem same_z_swap_inv (D : Int → ℚ) (n : Int) (N : List Int) (t : SameZTemp) (j k : Int)
    (hj0 : 0 ≤ j) (hjk : j < k) (hkn : k < n) (h : SortInv D n N t) :
    SortInv D n N (same_z_swap t j k) := by
  obtain ⟨h1, h2, h3⟩ := h
  unfold same_z_swap
  split_ifs with hgt
  · refine ⟨h1, ?_, ?_⟩
    · refine List.Perm.trans ?_ h2
      unfold tempList
      show List.Perm ((irange t.num_temp).map
        (upd (upd t.temp_neighbors j (t.temp_neighbors k)) k (t.temp_neighbors j)))
        ((irange t.num_temp).map t.temp_neighbors)
      rw [h1]
      exact swap_perm t.temp_neighbors n j k hj0 hjk hkn
    · intro m hm0 hmn
      show upd (upd t.temp_distances j (t.temp_distances k)) k (t.temp_distances j) m =
        D (upd (upd t.temp_neighbors j (t.temp_neighbors k)) k (t.temp_neighbors j) m)
      by_cases hmk : m = k
      · rw [hmk, upd_same, upd_same]
        exact h3 j hj0 (by omega)
      · rw [upd_ne _ _ _ _ hmk, upd_ne _ _ _ _ hmk]
        by_cases hmj : m = j
        · rw [hmj, upd_same, upd_same]
          exact h3 k (by omega) hkn
        · rw [upd_ne _ _ _ _ hmj, upd_ne _ _ _ _ hmj]
          exact h3 m hm0 hmn
  · exact ⟨h1, h2, h3⟩

/-- The sorting loops rearrange `temp_neighbors[0..num_temp)` and leave the distances in
non-decreasing order. -/
theorem same_z_sort_spec (D : Int → ℚ) (n : Int) (N : List Int) (t : SameZTemp)
    (hn : 0 ≤ n) (h : SortInv D n N t) :
    SortInv D n N (same_z_sort t) ∧
    ∀ a b, 0 ≤ a → a < b → b < n →
      (same_z_sort t).temp_distances a ≤ (same_z_sort t).temp_distances b := by
  have hnum : t.num_temp = n := h.1
  unfold same_z_sort
  rw [hnum]
  have hout := foldl_irange_inv
    (fun (m : Int) (s : SameZTemp) => SortInv D n N s ∧
      ∀ a b, 0 ≤ a → a < m → a < b → b < n → s.temp_distances a ≤ s.temp_distances b)
    (fun t1 j =>
      (irange (n - (j + 1))).foldl (fun t2 d => same_z_swap t2 j (j + 1 + d)) t1)
    n t ⟨h, fun a b h0 h1 _ _ => by omega⟩
    (by
      intro j s hj0 hjn hI
      have hin := foldl_irange_inv
        (fun (d : Int) (s2 : SameZTemp) => SortInv D n N s2 ∧
          (∀ a b, 0 ≤ a → a < j → a < b → b < n →
            s2.temp_distances a ≤ s2.temp_distances b) ∧
          ∀ b, j < b → b < j + 1 + d → s2.temp_distances j ≤ s2.temp_distances b)
        (fun t2 d => same_z_swap t2 j (j + 1 + d))
        (n - (j + 1)) s ⟨hI.1, hI.2, fun b h1 h2 => by omega⟩
        (by
          intro d s2 hd0 hdn hJ
          obtain ⟨i1, i2, i3⟩ := hJ
          have hk : j + 1 + d < n := by omega
          have hjk : j < j + 1 + d := by omega
          obtain ⟨c1, c2, c3, c4⟩ := same_z_swap_dist s2 j (j + 1 + d) (by omega)
          refine ⟨same_z_swap_inv D n N s2 j (j + 1 + d) hj0 hjk hk i1, ?_, ?_⟩
          · intro a b ha0 haj hab hbn
            rw [c4 a (by omega) (by omega)]
            by_cases hbj : b = j
            · rw [hbj]
              rcases c1 with ⟨e, _⟩ | ⟨e, _⟩
              · rw [e]
                exact i2 a j ha0 haj haj (by omega)
              · rw [e]
                exact i2 a (j + 1 + d) ha0 haj (by omega) hk
            · by_cases hbk : b = j + 1 + d
              · rw [hbk]
                rcases c1 with ⟨_, e⟩ | ⟨_, e⟩
                · rw [e]
                  exact i2 a (j + 1 + d) ha0 haj (by omega) hk
                · rw [e]
                  exact i2 a j ha0 haj haj (by omega)
              · rw [c4 b hbj hbk]
                exact i2 a b ha0 haj hab hbn
          · intro b hb1 hb2
            by_cases hbk : b = j + 1 + d
            · rw [hbk]
              exact c2
            · rw [c4 b (by omega) hbk]
              exact le_trans c3 (i3 b hb1 (by omega)))
      obtain ⟨i1, i2, i3⟩ := hin
      refine ⟨i1, ?_⟩
      intro a b ha0 ha1 hab hbn
      by_cases haj : a = j
      · rw [haj]
        apply i3 b (by omega)
        rcases max_cases (n - (j + 1)) 0 with hm | hm <;> omega
      · exact i2 a b ha0 (by omega) hab hbn)
  obtain ⟨o1, o2⟩ := hout
  refine ⟨o1, ?_⟩
  intro a b ha0 hab hbn
  apply o2 a b ha0 _ hab hbn
  rw [max_eq_left hn]
  omega

theorem same_z_select_spec (t : SameZTemp) (row : Int → Int) (hn : 0 ≤ t.num_temp) :
    (same_z_select t row).1 = min t.num_temp max_same_z_neighbors ∧
    ∀ m, 0 ≤ m → m < min t.num_temp max_same_z_neighbors →
      (same_z_select t row).2 m = t.temp_neighbors m := by
  unfold same_z_select
  have hinv := foldl_irange_inv
    (fun (m : Int) (r : Int × (Int → Int)) => r.1 = m ∧
      ∀ x, 0 ≤ x → x < m → r.2 x = t.temp_neighbors x)
    (fun r j => (r.1 + 1, upd r.2 j (t.temp_neighbors j)))
    (min t.num_temp max_same_z_neighbors) (0, row)
    ⟨rfl, fun x h0 h1 => by omega⟩
    (by
      intro m r hm0 _ hI
      refine ⟨by show r.1 + 1 = m + 1; rw [hI.1], ?_⟩
      intro x hx0 hx1
      show upd r.2 m (t.temp_neighbors m) x = t.temp_neighbors x
      by_cases hxm : x = m
      · rw [hxm, upd_same]
      · rw [upd_ne _ _ _ _ hxm]
        exact hI.2 x hx0 (by omega))
  have h6 : (0 : Int) ≤ max_same_z_neighbors := by decide
  have hmax : max (min t.num_temp max_same_z_neighbors) 0 =
      min t.num_temp max_same_z_neighbors := max_eq_left (le_min hn h6)
  rw [hmax] at hinv
  exact hinv

/-- The row stored for site `i`: the same-plane sites of `i`, rearranged into
non-decreasing horizontal distance by the sorting loops, cut after 6 entries. -/
theorem same_z_row_spec (sqrt : ℚ → ℚ) (xyz : Int → Int → ℚ) (nlocal i : Int)
    (fresh : SameZTemp) (row : Int → Int) :
    ∃ S : List Int, List.Perm S (samePlane xyz nlocal i) ∧
      S.Pairwise (fun a b =>
        horizontal_distance sqrt xyz i a ≤ horizontal_distance sqrt xyz i b) ∧
      (same_z_row sqrt xyz nlocal i fresh row).1 = ((S.take 6).length : Int) ∧
      (irange (same_z_row sqrt xyz nlocal i fresh row).1).map
        (same_z_row sqrt xyz nlocal i fresh row).2 = S.take 6 := by
  obtain ⟨c1, c2, c3⟩ := same_z_collect_spec sqrt xyz nlocal i fresh
  have hinv0 : SortInv (horizontal_distance sqrt xyz i)
      (same_z_collect sqrt xyz nlocal i fresh).num_temp (samePlane xyz nlocal i)
      (same_z_collect sqrt xyz nlocal i fresh) := ⟨rfl, by rw [c2], c3⟩
  obtain ⟨⟨s1, s2, s3⟩, s4⟩ := same_z_sort_spec _ _ _ _ c1 hinv0
  have hn : 0 ≤ (same_z_sort (same_z_collect sqrt xyz nlocal i fresh)).num_temp := by
    rw [s1]
    exact c1
  obtain ⟨e1, e2⟩ := same_z_select_spec
    (same_z_sort (same_z_collect sqrt xyz nlocal i fresh)) row hn
  have hsorted : (tempList (same_z_sort (same_z_collect sqrt xyz nlocal i fresh))).Pairwise
      (fun a b => horizontal_distance sqrt xyz i a ≤ horizontal_distance sqrt xyz i b) := by
    unfold tempList
    rw [List.pairwise_map]
    refine List.Pairwise.imp_of_mem ?_ (irange_pairwise_lt _)
    intro a b ha hb hab
    have ha2 := (mem_irange _ _).1 ha
    have hb2 := (mem_irange _ _).1 hb
    rw [s1] at ha2 hb2
    rw [← s3 a ha2.1 ha2.2, ← s3 b hb2.1 hb2.2]
    exact s4 a b ha2.1 hab hb2.2
  have hlist : (irange (same_z_row sqrt xyz nlocal i fresh row).1).map
      (same_z_row sqrt xyz nlocal i fresh row).2 =
      (tempList (same_z_sort (same_z_collect sqrt xyz nlocal i fresh))).take 6 := by
    unfold same_z_row
    rw [e1]
    unfold tempList
    rw [← List.map_take, irange_take]
    apply List.map_congr_left
    intro x hx
    have hx2 := (mem_irange _ _).1 hx
    exact e2 x hx2.1 hx2.2
  refine ⟨_, s2, hsorted, ?_, hlist⟩
  rw [← hlist, List.length_map]
  have h0 : 0 ≤ (same_z_row sqrt xyz nlocal i fresh row).1 := by
    unfold same_z_row
    rw [e1]
    exact le_min hn (by decide)
  simp only [irange, List.length_map, List.length_range]
  omega

theorem precompute_at (sqrt : ℚ → ℚ) (xyz : Int → Int → ℚ) (fresh : Int → SameZTemp)
    (rows : Int → Int → Int) (app : App) (i : Int) (hi0 : 0 ≤ i) (hin : i < app.nlocal) :
    (precompute_same_z_neighbors sqrt xyz fresh rows app).num_same_z_neighbors i =
      (same_z_row sqrt xyz app.nlocal i (fresh i) (rows i)).1 ∧
    (precompute_same_z_neighbors sqrt xyz fresh rows app).same_z_neighbors i =
      (same_z_row sqrt xyz app.nlocal i (fresh i) (rows i)).2 := by
  unfold precompute_same_z_neighbors
  have hinv := foldl_irange_inv
    (fun (m : Int) (a : App) => ∀ x, 0 ≤ x → x < m →
      a.num_same_z_neighbors x = (same_z_row sqrt xyz app.nlocal x (fresh x) (rows x)).1 ∧
      a.same_z_neighbors x = (same_z_row sqrt xyz app.nlocal x (fresh x) (rows x)).2)
    (fun a i =>
      { a with
        num_same_z_neighbors := upd a.num_same_z_neighbors i
          (same_z_row sqrt xyz app.nlocal i (fresh i) (rows i)).1
        same_z_neighbors := upd a.same_z_neighbors i
          (same_z_row sqrt xyz app.nlocal i (fresh i) (rows i)).2 })
    app.nlocal app (fun x h0 h1 => by omega)
    (by
      intro m a hm0 _ hI x hx0 hx1
      by_cases hxm : x = m
      · subst hxm
        exact ⟨upd_same _ _ _, upd_same _ _ _⟩
      · obtain ⟨g1, g2⟩ := hI x hx0 (by omega)
        exact ⟨by
          show upd a.num_same_z_neighbors m _ x = _
          rw [upd_ne _ _ _ _ hxm]
          exact g1, by
          show upd a.same_z_neighbors m _ x = _
          rw [upd_ne _ _ _ _ hxm]
          exact g2⟩)
  exact hinv i hi0 (lt_of_lt_of_le hin (le_max_left _ _))

/-- The table row of an owned site after `precompute_same_z_neighbors`. -/
theorem sameZList_spec (sqrt : ℚ → ℚ) (xyz : Int → Int → ℚ) (fresh : Int → SameZTemp)
    (rows : Int → Int → Int) (app : App) (i : Int) (hi0 : 0 ≤ i) (hin : i < app.nlocal) :
    ∃ S : List Int, List.Perm S (samePlane xyz app.nlocal i) ∧
      S.Pairwise (fun a b =>
        horizontal_distance sqrt xyz i a ≤ horizontal_distance sqrt xyz i b) ∧
      (precompute_same_z_neighbors sqrt xyz fresh rows app).num_same_z_neighbors i =
        ((S.take 6).length : Int) ∧
      sameZList (precompute_same_z_neighbors sqrt xyz fresh rows app) i = S.take 6 := by
  obtain ⟨p1, p2⟩ := precompute_at sqrt xyz fresh rows app i hi0 hin
  obtain ⟨S, h1, h2, h3, h4⟩ := same_z_row_spec sqrt xyz app.nlocal i (fresh i) (rows i)
  refine ⟨S, h1, h2, ?_, ?_⟩
  · rw [p1, h3]
  · unfold sameZList
    rw [p1, p2]
    exact h4

theorem foldl_fixed {α β : Type} (f : α → β → α) (a : α) :
    ∀ (l : List β), (∀ x ∈ l, f a x = a) → l.foldl f a = a
  | [], _ => rfl
  | x :: l, h => by
    rw [List.foldl_cons, h x (List.mem_cons_self _ _)]
    exact foldl_fixed f a l (fun y hy => h y (List.mem_cons_of_mem _ hy))

theorem same_z_select_list (t : SameZTemp) (row : Int → Int) (hn : 0 ≤ t.num_temp) :
    (irange (same_z_select t row).1).map (same_z_select t row).2 = (tempList t).take 6 := by
  obtain ⟨e1, e2⟩ := same_z_select_spec t row hn
  rw [e1]
  unfold tempList
  rw [← List.map_take, irange_take]
  apply List.map_congr_left
  intro x hx
  have hx2 := (mem_irange _ _).1 hx
  exact e2 x hx2.1 hx2.2

/-- When the distances already stand in non-decreasing order, the sorting loops make no
exchange. -/
theorem same_z_sort_sorted (t : SameZTemp)
    (h : ∀ a b, 0 ≤ a → a < b → b < t.num_temp →
      t.temp_distances a ≤ t.temp_distances b) :
    same_z_sort t = t := by
  unfold same_z_sort
  apply foldl_fixed
  intro j hj
  have hj2 := (mem_irange _ _).1 hj
  apply foldl_fixed
  intro d hd
  have hd2 := (mem_irange _ _).1 hd
  unfold same_z_swap
  rw [if_neg]
  exact not_lt.2 (h j (j + 1 + d) hj2.1 (by omega) (by omega))

/-- C31. After `precompute_same_z_neighbors`, for every owned site `i`, with `P` the
sites `j != i` of the lattice with `|z_j - z_i| <= z_tol`: the count
`num_same_z_neighbors[i]` and the length of the list `same_z_neighbors[i]` are
`min(6, |P|)`; the list has no duplicates and does not contain `i`; each of its
entries is a site of `P`; it is ordered by non-decreasing horizontal distance to `i`;
and every site of `P` left out is at a horizontal distance at least that of every
site kept. -/
theorem same_z_table_content (sqrt : ℚ → ℚ) (xyz : Int → Int → ℚ)
    (fresh : Int → SameZTemp) (rows : Int → Int → Int) (app : App) (i : Int)
    (hi0 : 0 ≤ i) (hin : i < app.nlocal) :
    (precompute_same_z_neighbors sqrt xyz fresh rows app).num_same_z_neighbors i =
      min 6 ((samePlane xyz app.nlocal i).length : Int) ∧
    (sameZList (precompute_same_z_neighbors sqrt xyz fresh rows app) i).length =
      min 6 (samePlane xyz app.nlocal i).length ∧
    (sameZList (precompute_same_z_neighbors sqrt xyz fresh rows app) i).Nodup ∧
    i ∉ sameZList (precompute_same_z_neighbors sqrt xyz fresh rows app) i ∧
    (∀ j ∈ sameZList (precompute_same_z_neighbors sqrt xyz fresh rows app) i,
      0 ≤ j ∧ j < app.nlocal ∧ j ≠ i ∧ abs (xyz j 2 - xyz i 2) ≤ z_tolerance) ∧
    (sameZList (precompute_same_z_neighbors sqrt xyz fresh rows app) i).Pairwise
      (fun a b => horizontal_distance sqrt xyz i a ≤ horizontal_distance sqrt xyz i b) ∧
    ∀ j, 0 ≤ j → j < app.nlocal → j ≠ i → abs (xyz j 2 - xyz i 2) ≤ z_tolerance →
      j ∉ sameZList (precompute_same_z_neighbors sqrt xyz fresh rows app) i →
      ∀ k ∈ sameZList (precompute_same_z_neighbors sqrt xyz fresh rows app) i,
        horizontal_distance sqrt xyz i k ≤ horizontal_distance sqrt xyz i j := by
  obtain ⟨S, hperm, hsorted, hnum, hlist⟩ :=
    sameZList_spec sqrt xyz fresh rows app i hi0 hin
  have hmemP : ∀ j, j ∈ samePlane xyz app.nlocal i ↔
      (0 ≤ j ∧ j < app.nlocal) ∧ j ≠ i ∧ abs (xyz j 2 - xyz i 2) ≤ z_tolerance := by
    intro j
    unfold samePlane
    rw [List.mem_filter, mem_irange, decide_eq_true_iff]
  have hnodupP : (samePlane xyz app.nlocal i).Nodup := by
    unfold samePlane
    exact (nodup_irange _).filter _
  have hnodupS : S.Nodup := hperm.nodup_iff.2 hnodupP
  have hlen : (S.take 6).length = min 6 (samePlane xyz app.nlocal i).length := by
    rw [List.length_take, hperm.length_eq]
  rw [hnum, hlist]
  refine ⟨?_, hlen, hnodupS.sublist (List.take_sublist _ _), ?_, ?_,
    hsorted.sublist (List.take_sublist _ _), ?_⟩
  · rw [hlen]
    omega
  · intro hi
    have := (hmemP i).1 (hperm.subset (List.mem_of_mem_take hi))
    exact this.2.1 rfl
  · intro j hj
    have := (hmemP j).1 (hperm.subset (List.mem_of_mem_take hj))
    exact ⟨this.1.1, this.1.2, this.2.1, this.2.2⟩
  · intro j hj0 hjn hji hz hnot k hk
    have hjS : j ∈ S := hperm.symm.subset ((hmemP j).2 ⟨⟨hj0, hjn⟩, hji, hz⟩)
    rw [← List.take_append_drop 6 S] at hjS hsorted
    rcases List.mem_append.1 hjS with h | h
    · exact absurd h hnot
    · exact (List.pairwise_append.1 hsorted).2.2 k hk j h

/-- Witness for C31: three sites on a line in one plane; the table of site 0 is
`[1, 2]`. -/
theorem same_z_table_content_witness :
    (0 : Int) ≤ 0 ∧ (0 : Int) < (appPlane 3).nlocal ∧
    sameZList (precompute_same_z_neighbors sqrtSample xyzLine (fun _ => freshZero)
      (fun _ _ => 0) (appPlane 3)) 0 = [1, 2] ∧
    (precompute_same_z_neighbors sqrtSample xyzLine (fun _ => freshZero)
      (fun _ _ => 0) (appPlane 3)).num_same_z_neighbors 0 =
      min 6 ((samePlane xyzLine (appPlane 3).nlocal 0).length : Int) ∧
    (sameZList (precompute_same_z_neighbors sqrtSample xyzLine (fun _ => freshZero)
      (fun _ _ => 0) (appPlane 3)) 0).Nodup :=
  ⟨by decide, by decide, by decide!,
    (same_z_table_content sqrtSample xyzLine (fun _ => freshZero) (fun _ _ => 0)
      (appPlane 3) 0 (by decide) (by decide)).1,
    (same_z_table_content sqrtSample xyzLine (fun _ => freshZero) (fun _ _ => 0)
      (appPlane 3) 0 (by decide) (by decide)).2.2.1⟩

/-- C32, as the code behaves. The exchange sort of lines 357-371 is not stable. With
sites 1 and 2 at the same horizontal distance 2 from site 0 and site 3 at distance 1,
the table of site 0 is `[3, 2, 1]`: site 2 precedes the equally distant site 1 of
lower index. With sites 1 and 2 at distance 3, sites 3..6 at distance 1 and site 7 at
distance 2, the table of site 0 is `[3, 4, 5, 6, 7, 2]`: of the two equally distant
sites 1 and 2 the one of higher index is kept and the one of lower index is cut. -/
theorem same_z_sort_not_stable :
    samePlane xyzTie 4 0 = [1, 2, 3] ∧
    horizontal_distance sqrtSample xyzTie 0 1 = 2 ∧
    horizontal_distance sqrtSample xyzTie 0 2 = 2 ∧
    horizontal_distance sqrtSample xyzTie 0 3 = 1 ∧
    sameZList (precompute_same_z_neighbors sqrtSample xyzTie (fun _ => freshZero)
      (fun _ _ => 0) (appPlane 4)) 0 = [3, 2, 1] ∧
    samePlane xyzTie7 8 0 = [1, 2, 3, 4, 5, 6, 7] ∧
    horizontal_distance sqrtSample xyzTie7 0 1 = 3 ∧
    horizontal_distance sqrtSample xyzTie7 0 2 = 3 ∧
    (samePlane xyzTie7 8 0).map (horizontal_distance sqrtSample xyzTie7 0) =
      [3, 3, 1, 1, 1, 1, 2] ∧
    sameZList (precompute_same_z_neighbors sqrtSample xyzTie7 (fun _ => freshZero)
      (fun _ _ => 0) (appPlane 8)) 0 = [3, 4, 5, 6, 7, 2] := by
  decide!

/-- When the same-plane sites of `i`, taken in index order, already stand in
non-decreasing horizontal distance to `i`, the sorting loops make no exchange and the
table of `i` is the first 6 of them in index order. -/
theorem same_z_table_index_order_when_sorted (sqrt : ℚ → ℚ) (xyz : Int → Int → ℚ)
    (fresh : Int → SameZTemp) (rows : Int → Int → Int) (app : App) (i : Int)
    (hi0 : 0 ≤ i) (hin : i < app.nlocal)
    (hs : (samePlane xyz app.nlocal i).Pairwise
      (fun a b => horizontal_distance sqrt xyz i a ≤ horizontal_distance sqrt xyz i b)) :
    same_z_sort (same_z_collect sqrt xyz app.nlocal i (fresh i)) =
      same_z_collect sqrt xyz app.nlocal i (fresh i) ∧
    sameZList (precompute_same_z_neighbors sqrt xyz fresh rows app) i =
      (samePlane xyz app.nlocal i).take 6 := by
  obtain ⟨c1, c2, c3⟩ := same_z_collect_spec sqrt xyz app.nlocal i (fresh i)
  have hsort : same_z_sort (same_z_collect sqrt xyz app.nlocal i (fresh i)) =
      same_z_collect sqrt xyz app.nlocal i (fresh i) := by
    apply same_z_sort_sorted
    intro a b ha0 hab hbn
    rw [c3 a ha0 (by omega), c3 b (by omega) hbn]
    rw [← c2] at hs
    unfold tempList at hs
    rw [List.pairwise_map] at hs
    exact pairwise_of_lt _ hs (irange_pairwise_lt _) a b
      ((mem_irange _ _).2 ⟨ha0, by omega⟩) ((mem_irange _ _).2 ⟨by omega, hbn⟩) hab
  refine ⟨hsort, ?_⟩
  obtain ⟨p1, p2⟩ := precompute_at sqrt xyz fresh rows app i hi0 hin
  unfold sameZList
  rw [p1, p2]
  unfold same_z_row
  rw [hsort, same_z_select_list _ _ c1, c2]

/-! ## The mask put by `site_event` -/

/-- Once the mutation of the chosen event succeeded, `execute_event` is the refresh tail
run on the state the mask block leaves. -/
theorem execute_event_eq_refresh (app : App) (fuel : Nat) (st st1 : State)
    (i ievent : Int) (time : ℚ)
    (happly : apply_event app st i (st.es.events ievent).style (st.es.events ievent).which
      (st.es.events ievent).jpartner (st.es.events ievent).kpartner
      (st.es.events ievent).gpartner = .ok st1) :
    execute_event app fuel st i ievent time =
      site_event_refresh app fuel i
        (run_mask app (pulse_update app st1 time)
          (mask_action (pulse_update app st1 time) i (st.es.events ievent).gpartner
            (st.es.events ievent).style (st.element i)
            (st.element (st.es.events ievent).gpartner))) := by
  unfold execute_event site_event_refresh
  simp only [bind, Except.bind, happly]

/-- C8. Let `site_event(i)` execute the event `ievent` (the one its walk selects) and
let `st1` be the state after the species mutation. If the event is of class V
(style 3), the species of `i` before the event is `OH` and its new species is `OHAlaX3`
or `OHAlbX3`, the call continues from the state with `put_mask(i); put_mask_2(i)`
applied after the pulse update. In every other case (an S, D, F or NULL event, or
another V transition) no mask is put: the call continues from the state after the
pulse update itself, or from that state with `remove_mask(x); remove_mask_2(x)`
applied. -/
theorem site_event_puts_mask_iff (app : App) (fuel : Nat) (st st1 : State)
    (i ievent : Int) (uniform time : ℚ)
    (hsel : select_event app fuel st i uniform = .ok ievent)
    (happly : apply_event app st i (st.es.events ievent).style (st.es.events ievent).which
      (st.es.events ievent).jpartner (st.es.events ievent).kpartner
      (st.es.events ievent).gpartner = .ok st1) :
    ((st.es.events ievent).style = 3 ∧ st.element i = OH ∧
        (st1.element i = OHAlaX3 ∨ st1.element i = OHAlbX3) →
      site_event app fuel st i uniform time =
        site_event_refresh app fuel i
          (put_mask_2 app (put_mask app (pulse_update app st1 time) i) i)) ∧
    (¬ ((st.es.events ievent).style = 3 ∧ st.element i = OH ∧
        (st1.element i = OHAlaX3 ∨ st1.element i = OHAlbX3)) →
      site_event app fuel st i uniform time =
          site_event_refresh app fuel i (pulse_update app st1 time) ∨
      ∃ x, site_event app fuel st i uniform time =
          site_event_refresh app fuel i
            (remove_mask_2 app (remove_mask app (pulse_update app st1 time) x) x)) := by
  have hse : site_event app fuel st i uniform time =
      execute_event app fuel st i ievent time := by
    unfold site_event
    simp only [bind, Except.bind, hsel]
  have hel : (pulse_update app st1 time).element i = st1.element i := by
    rw [(pulse_update_frame app st1 time).1]
  rw [hse, execute_event_eq_refresh app fuel st st1 i ievent time happly]
  constructor
  · rintro ⟨h1, h2, h3⟩
    rw [(mask_put_iff (pulse_update app st1 time) i (st.es.events ievent).gpartner
      (st.es.events ievent).style (st.element i)
      (st.element (st.es.events ievent).gpartner) i).2 ⟨h1, h2, by rw [hel]; exact h3, rfl⟩]
    rfl
  · intro hno
    cases ha : mask_action (pulse_update app st1 time) i (st.es.events ievent).gpartner
        (st.es.events ievent).style (st.element i)
        (st.element (st.es.events ievent).gpartner) with
    | noMask => exact Or.inl rfl
    | removeAt x => exact Or.inr ⟨x, rfl⟩
    | putAt x =>
      obtain ⟨h1, h2, h3, _⟩ := (mask_put_iff _ _ _ _ _ _ _).1 ha
      rw [hel] at h3
      exact absurd ⟨h1, h2, h3⟩ hno

theorem stPut_select : select_event appPut 100000 stPut 0 (1 / 2) = .ok 0 := by
  decide!

theorem stPut_apply :
    apply_event appPut stPut 0 (stPut.es.events 0).style (stPut.es.events 0).which
      (stPut.es.events 0).jpartner (stPut.es.events 0).kpartner
      (stPut.es.events 0).gpartner = .ok stPut1 := by
  have hs : (stPut.es.events 0).style = 3 := by decide!
  have hk : (stPut.es.events 0).kpartner = -1 := by decide!
  have hw : (stPut.es.events 0).which = 0 := by decide!
  have hj : (stPut.es.events 0).jpartner = 1 := by decide!
  have h1 : ¬ ((3 : Int) = 1) := by decide
  have h2 : ¬ ((3 : Int) = 2 ∧ (1 : Int) = -1) := by decide
  simp only [apply_event, hs, hk, hw, hj, h1, h2, if_false, and_self, if_true]
  rfl

/-- Witness for C8: on the lattice of `appPut` the V event `(OH, O) -> (OHAlaX3, O)` of
site 0 is executed; the call puts the masks of site 0, which leaves `coord[2] = -49`
(lowered by 50 by `put_mask(0)`, then raised by the one occupied neighbour counted by
`count_coord(2)`) and `coord[3] = -10` (lowered by `put_mask_2(0)`). -/
theorem site_event_puts_mask_iff_witness :
    select_event appPut 100000 stPut 0 (1 / 2) = .ok 0 ∧
    ((stPut.es.events 0).style = 3 ∧ stPut.element 0 = OH ∧
      (stPut1.element 0 = OHAlaX3 ∨ stPut1.element 0 = OHAlbX3)) ∧
    site_event appPut 100000 stPut 0 (1 / 2) (1 / 2) =
      site_event_refresh appPut 100000 0
        (put_mask_2 appPut (put_mask appPut (pulse_update appPut stPut1 (1 / 2)) 0) 0) ∧
    stPut.coord 2 = 0 ∧ stPut.coord 3 = 0 ∧
    coordAfter (site_event appPut 100000 stPut 0 (1 / 2) (1 / 2)) 2 = some (-49) ∧
    coordAfter (site_event appPut 100000 stPut 0 (1 / 2) (1 / 2)) 3 = some (-10) :=
  have hc : (stPut.es.events 0).style = 3 ∧ stPut.element 0 = OH ∧
      (stPut1.element 0 = OHAlaX3 ∨ stPut1.element 0 = OHAlbX3) :=
    ⟨by decide!, by decide!, Or.inl (by decide!)⟩
  ⟨stPut_select, hc,
    (site_event_puts_mask_iff appPut 100000 stPut stPut1 0 0 (1 / 2) (1 / 2) stPut_select
      stPut_apply).1 hc,
    by decide!, by decide!, by decide!, by decide!⟩

/-! ## Ties in the same-z table -/

/-- An exchange of the sorting loops keeps the nearest entries in index order: the entry
moved forward passes no nearest entry, and the entry moved back is not a nearest one. -/
theorem same_z_swap_nearest (D : Int → ℚ) (n : Int) (N : List Int) (t : SameZTemp)
    (j k : Int) (hj0 : 0 ≤ j) (hjk : j < k) (hkn : k < n) (h : SortInv D n N t)
    (hbetween : ∀ b, j < b → b < k → t.temp_distances j ≤ t.temp_distances b)
    (hq : NearestOrdered D n N t) : NearestOrdered D n N (same_z_swap t j k) := by
  obtain ⟨h1, h2, h3⟩ := h
  unfold same_z_swap
  split_ifs with hgt
  · have hkN : t.temp_neighbors k ∈ N := by
      apply h2.subset
      unfold tempList
      exact List.mem_map.2 ⟨k, (mem_irange _ _).2 ⟨by omega, by omega⟩, rfl⟩
    have hdj := h3 j hj0 (by omega)
    have hdk := h3 k (by omega) hkn
    have hnotj : ¬ Nearest D N (t.temp_neighbors j) := by
      intro hN
      have := hN _ hkN
      rw [← hdj, ← hdk] at this
      exact absurd this (not_le.2 hgt)
    have ej : upd (upd t.temp_neighbors j (t.temp_neighbors k)) k (t.temp_neighbors j) j =
        t.temp_neighbors k := by
      rw [upd_ne _ _ _ _ (ne_of_lt hjk), upd_same]
    have ek : upd (upd t.temp_neighbors j (t.temp_neighbors k)) k (t.temp_neighbors j) k =
        t.temp_neighbors j := upd_same _ _ _
    have eo : ∀ m, m ≠ j → m ≠ k →
        upd (upd t.temp_neighbors j (t.temp_neighbors k)) k (t.temp_neighbors j) m =
          t.temp_neighbors m := by
      intro m hmj hmk
      rw [upd_ne _ _ _ _ hmk, upd_ne _ _ _ _ hmj]
    intro a b ha0 hab hbn hNa hNb
    have hNa1 : Nearest D N
        (upd (upd t.temp_neighbors j (t.temp_neighbors k)) k (t.temp_neighbors j) a) := hNa
    have hNb1 : Nearest D N
        (upd (upd t.temp_neighbors j (t.temp_neighbors k)) k (t.temp_neighbors j) b) := hNb
    show upd (upd t.temp_neighbors j (t.temp_neighbors k)) k (t.temp_neighbors j) a <
      upd (upd t.temp_neighbors j (t.temp_neighbors k)) k (t.temp_neighbors j) b
    by_cases hak : a = k
    · rw [hak, ek] at hNa1
      exact absurd hNa1 hnotj
    by_cases hbk : b = k
    · rw [hbk, ek] at hNb1
      exact absurd hNb1 hnotj
    by_cases haj : a = j
    · have hbj : b ≠ j := by omega
      rw [haj, ej] at hNa1 ⊢
      rw [eo b hbj hbk] at hNb1 ⊢
      by_cases hlt : b < k
      · have hb1 := hbetween b (by omega) hlt
        have hb2 := hNb1 _ hkN
        rw [← h3 b (by omega) hbn, ← hdk] at hb2
        exact absurd (le_trans hb1 hb2) (not_le.2 hgt)
      · exact hq k b (by omega) (by omega) hbn hNa1 hNb1
    by_cases hbj : b = j
    · rw [hbj, ej] at hNb1 ⊢
      rw [eo a haj hak] at hNa1 ⊢
      exact hq a k ha0 (by omega) hkn hNa1 hNb1
    · rw [eo a haj hak] at hNa1 ⊢
      rw [eo b hbj hbk] at hNb1 ⊢
      exact hq a b ha0 hab hbn hNa1 hNb1
  · exact hq

/-- The sorting loops keep the nearest entries in index order. -/
theorem same_z_sort_nearest (D : Int → ℚ) (n : Int) (N : List Int) (t : SameZTemp)
    (h : SortInv D n N t) (hq : NearestOrdered D n N t) :
    NearestOrdered D n N (same_z_sort t) := by
  have hnum : t.num_temp = n := h.1
  unfold same_z_sort
  rw [hnum]
  have hout := foldl_irange_inv
    (fun (_ : Int) (s : SameZTemp) => SortInv D n N s ∧ NearestOrdered D n N s)
    (fun t1 j =>
      (irange (n - (j + 1))).foldl (fun t2 d => same_z_swap t2 j (j + 1 + d)) t1)
    n t ⟨h, hq⟩
    (by
      intro j s hj0 hjn hI
      have hin := foldl_irange_inv
        (fun (d : Int) (s2 : SameZTemp) => SortInv D n N s2 ∧
          (∀ b, j < b → b < j + 1 + d → s2.temp_distances j ≤ s2.temp_distances b) ∧
          NearestOrdered D n N s2)
        (fun t2 d => same_z_swap t2 j (j + 1 + d))
        (n - (j + 1)) s ⟨hI.1, fun b h1 h2 => by omega, hI.2⟩
        (by
          intro d s2 hd0 hdn hJ
          obtain ⟨i1, i3, i4⟩ := hJ
          have hk : j + 1 + d < n := by omega
          have hjk : j < j + 1 + d := by omega
          obtain ⟨_, c2, c3, c4⟩ := same_z_swap_dist s2 j (j + 1 + d) (by omega)
          refine ⟨same_z_swap_inv D n N s2 j (j + 1 + d) hj0 hjk hk i1, ?_,
            same_z_swap_nearest D n N s2 j (j + 1 + d) hj0 hjk hk i1 i3 i4⟩
          intro b hb1 hb2
          by_cases hbk : b = j + 1 + d
          · rw [hbk]
            exact c2
          · rw [c4 b (by omega) hbk]
            exact le_trans c3 (i3 b hb1 (by omega)))
      exact ⟨hin.1, hin.2.2⟩)
  exact hout.2

/-- The row of an owned site is made of the first 6 entries the sorting loops leave. -/
theorem sameZList_eq (sqrt : ℚ → ℚ) (xyz : Int → Int → ℚ) (fresh : Int → SameZTemp)
    (rows : Int → Int → Int) (app : App) (i : Int) (hi0 : 0 ≤ i) (hin : i < app.nlocal) :
    sameZList (precompute_same_z_neighbors sqrt xyz fresh rows app) i =
      (tempList (same_z_sort (same_z_collect sqrt xyz app.nlocal i (fresh i)))).take 6 := by
  obtain ⟨c1, c2, c3⟩ := same_z_collect_spec sqrt xyz app.nlocal i (fresh i)
  have hinv0 : SortInv (horizontal_distance sqrt xyz i)
      (same_z_collect sqrt xyz app.nlocal i (fresh i)).num_temp (samePlane xyz app.nlocal i)
      (same_z_collect sqrt xyz app.nlocal i (fresh i)) := ⟨rfl, by rw [c2], c3⟩
  obtain ⟨⟨s1, _, _⟩, _⟩ := same_z_sort_spec _ _ _ _ c1 hinv0
  obtain ⟨p1, p2⟩ := precompute_at sqrt xyz fresh rows app i hi0 hin
  unfold sameZList
  rw [p1, p2]
  unfold same_z_row
  exact same_z_select_list _ _ (by rw [s1]; exact c1)

/-- The entries the sorting loops leave for site `i`: a rearrangement of its same-plane
sites in non-decreasing distance in which the nearest sites stand in index order. -/
theorem same_z_sorted_list (sqrt : ℚ → ℚ) (xyz : Int → Int → ℚ) (nlocal i : Int)
    (fresh : SameZTemp) :
    List.Perm (tempList (same_z_sort (same_z_collect sqrt xyz nlocal i fresh)))
      (samePlane xyz nlocal i) ∧
    (tempList (same_z_sort (same_z_collect sqrt xyz nlocal i fresh))).Pairwise
      (fun a b => horizontal_distance sqrt xyz i a ≤ horizontal_distance sqrt xyz i b) ∧
    (tempList (same_z_sort (same_z_collect sqrt xyz nlocal i fresh))).Pairwise
      (fun a b => Nearest (horizontal_distance sqrt xyz i) (samePlane xyz nlocal i) a →
        Nearest (horizontal_distance sqrt xyz i) (samePlane xyz nlocal i) b → a < b) := by
  obtain ⟨c1, c2, c3⟩ := same_z_collect_spec sqrt xyz nlocal i fresh
  have hinv0 : SortInv (horizontal_distance sqrt xyz i)
      (same_z_collect sqrt xyz nlocal i fresh).num_temp (samePlane xyz nlocal i)
      (same_z_collect sqrt xyz nlocal i fresh) := ⟨rfl, by rw [c2], c3⟩
  have hq0 : NearestOrdered (horizontal_distance sqrt xyz i)
      (same_z_collect sqrt xyz nlocal i fresh).num_temp (samePlane xyz nlocal i)
      (same_z_collect sqrt xyz nlocal i fresh) := by
    intro a b ha0 hab hbn _ _
    have hlt : (tempList (same_z_collect sqrt xyz nlocal i fresh)).Pairwise
        (fun x y => x < y) := by
      rw [c2]
      unfold samePlane
      exact (irange_pairwise_lt _).sublist (List.filter_sublist _)
    unfold tempList at hlt
    rw [List.pairwise_map] at hlt
    exact pairwise_of_lt _ hlt (irange_pairwise_lt _) a b
      ((mem_irange _ _).2 ⟨ha0, by omega⟩) ((mem_irange _ _).2 ⟨by omega, hbn⟩) hab
  obtain ⟨⟨s1, s2, s3⟩, s4⟩ := same_z_sort_spec _ _ _ _ c1 hinv0
  have hq := same_z_sort_nearest _ _ _ _ hinv0 hq0
  refine ⟨s2, ?_, ?_⟩
  · unfold tempList
    rw [List.pairwise_map]
    refine List.Pairwise.imp_of_mem ?_ (irange_pairwise_lt _)
    intro a b ha hb hab
    have ha2 := (mem_irange _ _).1 ha
    have hb2 := (mem_irange _ _).1 hb
    rw [s1] at ha2 hb2
    rw [← s3 a ha2.1 ha2.2, ← s3 b hb2.1 hb2.2]
    exact s4 a b ha2.1 hab hb2.2
  · unfold tempList
    rw [List.pairwise_map]
    refine List.Pairwise.imp_of_mem ?_ (irange_pairwise_lt _)
    intro a b ha hb hab hNa hNb
    have ha2 := (mem_irange _ _).1 ha
    have hb2 := (mem_irange _ _).1 hb
    rw [s1] at ha2 hb2
    exact hq a b ha2.1 hab hb2.2 hNa hNb

/-- C32, amended. The exchange sort is not stable, but ties at the smallest distance
are broken by index. For every owned site `i`, with `P` its same-plane sites and a
nearest site being one of `P` at the smallest horizontal distance to `i`: the nearest
sites listed in `same_z_neighbors[i]` stand in increasing index order; when a nearest
site `j` is cut by the truncation to 6, every site kept is a nearest site of lower
index than `j`; and when the sites of `P`, taken in index order, already stand in
non-decreasing distance, the table is the first 6 of them in index order. (Sites tied
at a larger distance may appear in either order.) -/
theorem same_z_table_ties (sqrt : ℚ → ℚ) (xyz : Int → Int → ℚ)
    (fresh : Int → SameZTemp) (rows : Int → Int → Int) (app : App) (i : Int)
    (hi0 : 0 ≤ i) (hin : i < app.nlocal) :
    (sameZList (precompute_same_z_neighbors sqrt xyz fresh rows app) i).Pairwise
      (fun x y => Nearest (horizontal_distance sqrt xyz i) (samePlane xyz app.nlocal i) x →
        Nearest (horizontal_distance sqrt xyz i) (samePlane xyz app.nlocal i) y → x < y) ∧
    (∀ j ∈ samePlane xyz app.nlocal i,
      Nearest (horizontal_distance sqrt xyz i) (samePlane xyz app.nlocal i) j →
      j ∉ sameZList (precompute_same_z_neighbors sqrt xyz fresh rows app) i →
      ∀ k ∈ sameZList (precompute_same_z_neighbors sqrt xyz fresh rows app) i,
        Nearest (horizontal_distance sqrt xyz i) (samePlane xyz app.nlocal i) k ∧ k < j) ∧
    ((samePlane xyz app.nlocal i).Pairwise
        (fun a b => horizontal_distance sqrt xyz i a ≤ horizontal_distance sqrt xyz i b) →
      sameZList (precompute_same_z_neighbors sqrt xyz fresh rows app) i =
        (samePlane xyz app.nlocal i).take 6) := by
  obtain ⟨hperm, hsorted, hnear⟩ := same_z_sorted_list sqrt xyz app.nlocal i (fresh i)
  have hlist := sameZList_eq sqrt xyz fresh rows app i hi0 hin
  rw [hlist]
  refine ⟨hnear.sublist (List.take_sublist _ _), ?_, ?_⟩
  · intro j hj hNj hnot k hk
    have hjS : j ∈ tempList (same_z_sort (same_z_collect sqrt xyz app.nlocal i (fresh i))) :=
      hperm.symm.subset hj
    rw [← List.take_append_drop 6
      (tempList (same_z_sort (same_z_collect sqrt xyz app.nlocal i (fresh i))))]
      at hjS hsorted hnear
    rcases List.mem_append.1 hjS with h | h
    · exact absurd h hnot
    · have hkj := (List.pairwise_append.1 hsorted).2.2 k hk j h
      have hNk : Nearest (horizontal_distance sqrt xyz i) (samePlane xyz app.nlocal i) k :=
        fun z hz => le_trans hkj (hNj z hz)
      exact ⟨hNk, (List.pairwise_append.1 hnear).2.2 k hk j h hNk hNj⟩
  · intro hs
    rw [← hlist]
    exact (same_z_table_index_order_when_sorted sqrt xyz fresh rows app i hi0 hin hs).2

/-- Witness for the amended C32: site 0 at the origin and the seven sites 1..7 on the
circle of radius 5 around it, all in one plane. The seven candidates are tied at the
smallest distance; the table of site 0 is `[1, 2, 3, 4, 5, 6]`, in index order, and the
site cut by the truncation is the one of highest index, 7. -/
theorem same_z_table_ties_witness :
    (0 : Int) ≤ 0 ∧ (0 : Int) < (appPlane 8).nlocal ∧
    samePlane xyzRing (appPlane 8).nlocal 0 = [1, 2, 3, 4, 5, 6, 7] ∧
    (samePlane xyzRing (appPlane 8).nlocal 0).map (horizontal_distance sqrtSample xyzRing 0) =
      [5, 5, 5, 5, 5, 5, 5] ∧
    sameZList (precompute_same_z_neighbors sqrtSample xyzRing (fun _ => freshZero)
      (fun _ _ => 0) (appPlane 8)) 0 = [1, 2, 3, 4, 5, 6] ∧
    Nearest (horizontal_distance sqrtSample xyzRing 0)
      (samePlane xyzRing (appPlane 8).nlocal 0) 7 ∧
    (∀ k ∈ sameZList (precompute_same_z_neighbors sqrtSample xyzRing (fun _ => freshZero)
        (fun _ _ => 0) (appPlane 8)) 0,
      Nearest (horizontal_distance sqrtSample xyzRing 0)
        (samePlane xyzRing (appPlane 8).nlocal 0) k ∧ k < 7) ∧
    sameZList (precompute_same_z_neighbors sqrtSample xyzRing (fun _ => freshZero)
      (fun _ _ => 0) (appPlane 8)) 0 = (samePlane xyzRing (appPlane 8).nlocal 0).take 6 :=
  have hP : samePlane xyzRing (appPlane 8).nlocal 0 = [1, 2, 3, 4, 5, 6, 7] := by decide!
  have hD : (samePlane xyzRing (appPlane 8).nlocal 0).map
      (horizontal_distance sqrtSample xyzRing 0) = [5, 5, 5, 5, 5, 5, 5] := by decide!
  have hL : sameZList (precompute_same_z_neighbors sqrtSample xyzRing (fun _ => freshZero)
      (fun _ _ => 0) (appPlane 8)) 0 = [1, 2, 3, 4, 5, 6] := by decide!
  have hD5 : ∀ z ∈ samePlane xyzRing (appPlane 8).nlocal 0,
      horizontal_distance sqrtSample xyzRing 0 z = 5 := by
    intro z hz
    have := List.mem_map_of_mem (horizontal_distance sqrtSample xyzRing 0) hz
    rw [hD] at this
    simpa using this
  have h7 : (7 : Int) ∈ samePlane xyzRing (appPlane 8).nlocal 0 := by
    rw [hP]
    decide
  have hN7 : Nearest (horizontal_distance sqrtSample xyzRing 0)
      (samePlane xyzRing (appPlane 8).nlocal 0) 7 := by
    intro z hz
    rw [hD5 7 h7, hD5 z hz]
  have hs : (samePlane xyzRing (appPlane 8).nlocal 0).Pairwise
      (fun a b => horizontal_distance sqrtSample xyzRing 0 a ≤
        horizontal_distance sqrtSample xyzRing 0 b) := by
    apply List.Pairwise.imp_of_mem _ (List.pairwise_of_forall (fun _ _ => trivial))
    intro a b ha hb _
    rw [hD5 a ha, hD5 b hb]
  have hnot : (7 : Int) ∉ sameZList (precompute_same_z_neighbors sqrtSample xyzRing
      (fun _ => freshZero) (fun _ _ => 0) (appPlane 8)) 0 := by
    rw [hL]
    decide
  ⟨by decide, by decide, hP, hD, hL, hN7,
    (same_z_table_ties sqrtSample xyzRing (fun _ => freshZero) (fun _ _ => 0) (appPlane 8) 0
      (by decide) (by decide)).2.1 7 h7 hN7 hnot,
    (same_z_table_ties sqrtSample xyzRing (fun _ => freshZero) (fun _ _ => 0) (appPlane 8) 0
      (by decide) (by decide)).2.2 hs⟩

/-! ## Rounding error of `double` sums and products -/

theorem pow2_pos (e : Int) : 0 < pow2 e := by
  unfold pow2
  split_ifs <;> positivity

theorem roundHalfEven_error (s : ℚ) : abs ((roundHalfEven s : ℚ) - s) ≤ 1 / 2 := by
  have h1 := Int.floor_le s
  have h2 := Int.lt_floor_add_one s
  unfold roundHalfEven
  simp only []
  rw [abs_le]
  split_ifs with a b c
  · constructor <;> linarith
  · push_cast
    constructor <;> linarith
  · have := not_lt.1 b
    have := not_lt.1 a
    constructor <;> linarith
  · push_cast
    constructor <;> linarith

/-- Rounding to `double` changes a number by at most the fraction `2^-53` of it. -/
theorem roundDouble_error (q : ℚ) : abs (roundDouble q - q) ≤ unitRoundoff * abs q := by
  unfold roundDouble unitRoundoff
  by_cases h0 : q = 0
  · simp [h0]
  rw [if_neg h0]
  simp only []
  split_ifs with h
  · have hcpos : 0 < pow2 (double_exponent 2200 (abs q) 0) := pow2_pos _
    generalize pow2 (double_exponent 2200 (abs q) 0) = c at h hcpos
    have he := roundHalfEven_error (q / c)
    have h1 : (roundHalfEven (q / c) : ℚ) * c - q =
        ((roundHalfEven (q / c) : ℚ) - q / c) * c := by
      field_simp
    have h2 : abs q = abs (q / c) * c := by
      rw [abs_div, abs_of_pos hcpos]
      field_simp
    rw [h1, abs_mul, abs_of_pos hcpos, h2]
    have h3 : abs ((roundHalfEven (q / c) : ℚ) - q / c) * c ≤ 1 / 2 * c :=
      mul_le_mul_of_nonneg_right he hcpos.le
    have h4 : (4503599627370496 : ℚ) * c ≤ abs (q / c) * c :=
      mul_le_mul_of_nonneg_right h.1 hcpos.le
    linarith
  · simp

theorem dadd_bounds (a b : ℚ) (ha : 0 ≤ a) (hb : 0 ≤ b) :
    (1 - unitRoundoff) * (a + b) ≤ dadd a b ∧ dadd a b ≤ (1 + unitRoundoff) * (a + b) := by
  have h := roundDouble_error (a + b)
  rw [abs_of_nonneg (add_nonneg ha hb), abs_le] at h
  unfold dadd
  constructor <;> linarith [h.1, h.2]

theorem dmul_bounds (a b : ℚ) (ha : 0 ≤ a) (hb : 0 ≤ b) :
    dmul a b ≤ (1 + unitRoundoff) * (a * b) := by
  have h := roundDouble_error (a * b)
  rw [abs_of_nonneg (mul_nonneg ha hb), abs_le] at h
  unfold dmul
  linarith [h.2]

/-- A sum of `n` nonnegative terms accumulated with an addition of relative error at
most `δ` lies within the factors `(1 - δ)^n` and `(1 + δ)^n` of the exact sum. -/
theorem rounded_sum_bounds (fadd : ℚ → ℚ → ℚ) (δ : ℚ) (hδ0 : 0 ≤ δ) (hδ1 : δ ≤ 1)
    (hadd : ∀ a b, 0 ≤ a → 0 ≤ b →
      (1 - δ) * (a + b) ≤ fadd a b ∧ fadd a b ≤ (1 + δ) * (a + b)) :
    ∀ (ps : List ℚ) (acc : ℚ), 0 ≤ acc → (∀ p ∈ ps, 0 ≤ p) →
      (1 - δ) ^ ps.length * (acc + ps.sum) ≤ ps.foldl fadd acc ∧
      ps.foldl fadd acc ≤ (1 + δ) ^ ps.length * (acc + ps.sum)
  | [], acc, _, _ => by simp
  | p :: ps, acc, hacc, hps => by
    have hp : 0 ≤ p := hps p (List.mem_cons_self _ _)
    have hrest : ∀ x ∈ ps, 0 ≤ x := fun x hx => hps x (List.mem_cons_of_mem _ hx)
    obtain ⟨b1, b2⟩ := hadd acc p hacc hp
    have hd : 0 ≤ 1 - δ := by linarith
    have hf : 0 ≤ fadd acc p := le_trans (mul_nonneg hd (add_nonneg hacc hp)) b1
    obtain ⟨i1, i2⟩ := rounded_sum_bounds fadd δ hδ0 hδ1 hadd ps (fadd acc p) hf hrest
    have hs : 0 ≤ ps.sum := List.sum_nonneg hrest
    have hpl : 0 ≤ (1 - δ) ^ ps.length := pow_nonneg hd _
    have hpu : 0 ≤ (1 + δ) ^ ps.length := pow_nonneg (by linarith) _
    simp only [List.foldl_cons, List.length_cons, List.sum_cons, pow_succ]
    constructor
    · refine le_trans ?_ i1
      have : (1 - δ) * (acc + (p + ps.sum)) ≤ fadd acc p + ps.sum := by nlinarith
      calc (1 - δ) ^ ps.length * (1 - δ) * (acc + (p + ps.sum))
          = (1 - δ) ^ ps.length * ((1 - δ) * (acc + (p + ps.sum))) := by ring
        _ ≤ (1 - δ) ^ ps.length * (fadd acc p + ps.sum) :=
            mul_le_mul_of_nonneg_left this hpl
    · refine le_trans i2 ?_
      have : fadd acc p + ps.sum ≤ (1 + δ) * (acc + (p + ps.sum)) := by nlinarith
      calc (1 + δ) ^ ps.length * (fadd acc p + ps.sum)
          ≤ (1 + δ) ^ ps.length * ((1 + δ) * (acc + (p + ps.sum))) :=
            mul_le_mul_of_nonneg_left this hpu
        _ = (1 + δ) ^ ps.length * (1 + δ) * (acc + (p + ps.sum)) := by ring

/-! ## The event walk in rounded arithmetic -/

theorem event_walk_rounded_exact (events : Int → Event) (thr : ℚ) :
    ∀ (fuel : Nat) (acc : ℚ) (s : Int),
      event_walk_rounded (fun a b => a + b) events thr fuel acc s =
        event_walk events thr fuel acc s
  | 0, _, _ => rfl
  | fuel + 1, acc, s => by
    simp only [event_walk_rounded, event_walk]
    rw [event_walk_rounded_exact events thr fuel]

theorem event_walk_rounded_step (fadd : ℚ → ℚ → ℚ) (events : Int → Event) (thr : ℚ)
    (fuel : Nat) (acc : ℚ) (a : Int) (h : fadd acc (events a).propensity < thr) :
    event_walk_rounded fadd events thr (fuel + 1) acc a =
      event_walk_rounded fadd events thr fuel (fadd acc (events a).propensity)
        (events a).next := by
  simp only [event_walk_rounded, ge_iff_le, not_le.2 h, if_false]

/-- When the rounded sum over the whole chain reaches the threshold, the rounded walk
returns the first node of the chain whose rounded running sum reaches it. -/
theorem event_walk_rounded_returns (fadd : ℚ → ℚ → ℚ) (events : Int → Event) (thr : ℚ)
    (t : Int) :
    ∀ (l : List Int) (s : Int) (acc : ℚ) (fuel : Nat), l ≠ [] →
      Chain (fun a => (events a).next) s l t →
      thr ≤ (l.map (fun a => (events a).propensity)).foldl fadd acc →
      l.length ≤ fuel →
      ∃ (n : Nat) (hn : n < l.length),
        event_walk_rounded fadd events thr fuel acc s = .ok (l.get ⟨n, hn⟩) ∧
        thr ≤ ((l.take (n + 1)).map (fun a => (events a).propensity)).foldl fadd acc ∧
        ∀ k, k < n →
          ((l.take (k + 1)).map (fun a => (events a).propensity)).foldl fadd acc < thr
  | [], _, _, _, hne, _, _, _ => absurd rfl hne
  | a :: l, s, acc, fuel, _, hc, hge, hfuel => by
    obtain ⟨hs, hrest⟩ := hc
    subst hs
    cases fuel with
    | zero => simp at hfuel
    | succ fuel =>
      by_cases h : thr ≤ fadd acc (events s).propensity
      · refine ⟨0, by simp, ?_, ?_, ?_⟩
        · simp [event_walk_rounded, h]
        · simpa using h
        · intro k hk
          omega
      · have hlt := not_le.1 h
        have hne : l ≠ [] := by
          intro hl
          subst hl
          simp at hge
          exact h hge
        obtain ⟨n, hn, h1, h2, h3⟩ := event_walk_rounded_returns fadd events thr t l
          (events s).next (fadd acc (events s).propensity) fuel hne hrest
          (by simpa using hge) (by simpa using hfuel)
        refine ⟨n + 1, by simpa using hn, ?_, ?_, ?_⟩
        · rw [event_walk_rounded_step fadd events thr fuel acc s hlt, h1]
          rfl
        · simpa using h2
        · intro k hk
          cases k with
          | zero => simpa using hlt
          | succ k => simpa using h3 k (by omega)

/-- The rounded walk stays on the list when the draw leaves room for the rounding
errors of the stored total, of the threshold and of the running sums. -/
theorem select_event_rounded_returns (fadd fmul : ℚ → ℚ → ℚ) (δ : ℚ) (hδ0 : 0 ≤ δ)
    (hδ1 : δ ≤ 1)
    (hadd : ∀ a b, 0 ≤ a → 0 ≤ b →
      (1 - δ) * (a + b) ≤ fadd a b ∧ fadd a b ≤ (1 + δ) * (a + b))
    (hmul : ∀ a b, 0 ≤ a → 0 ≤ b → fmul a b ≤ (1 + δ) * (a * b))
    (app : App) (fuel : Nat) (st : State) (i : Int) (uniform : ℚ) (l : List Int)
    (hchain : Chain (nextOf st.es) (st.es.firstevent i) l (-1)) (hne : l ≠ [])
    (hpos : ∀ a ∈ l, 0 < (st.es.events a).propensity)
    (hsum : st.propensity (app.i2site i) = insertionSum fadd st.es.events l)
    (hu0 : 0 ≤ uniform)
    (hu : uniform * (1 + δ) ^ (l.length + 1) ≤ (1 - δ) ^ l.length)
    (hfuel : l.length ≤ fuel) :
    ∃ (n : Nat) (hn : n < l.length),
      select_event_rounded fadd fmul app fuel st i uniform = .ok (l.get ⟨n, hn⟩) ∧
      fmul uniform (st.propensity (app.i2site i)) ≤
        roundedRunningSum fadd st.es.events l (n + 1) ∧
      ∀ k, k < n →
        roundedRunningSum fadd st.es.events l (k + 1) <
          fmul uniform (st.propensity (app.i2site i)) := by
  have hnn : ∀ p ∈ l.map (fun a => (st.es.events a).propensity), (0 : ℚ) ≤ p := by
    intro p hp
    obtain ⟨a, ha, rfl⟩ := List.mem_map.1 hp
    exact (hpos a ha).le
  have hnr : ∀ p ∈ l.reverse.map (fun a => (st.es.events a).propensity), (0 : ℚ) ≤ p := by
    intro p hp
    obtain ⟨a, ha, rfl⟩ := List.mem_map.1 hp
    exact (hpos a (List.mem_reverse.1 ha)).le
  obtain ⟨w1, _⟩ := rounded_sum_bounds fadd δ hδ0 hδ1 hadd _ 0 (le_refl _) hnn
  obtain ⟨r1, r2⟩ := rounded_sum_bounds fadd δ hδ0 hδ1 hadd _ 0 (le_refl _) hnr
  have hS : 0 ≤ (l.map (fun a => (st.es.events a).propensity)).sum := List.sum_nonneg hnn
  have hrev : (l.reverse.map (fun a => (st.es.events a).propensity)).sum =
      (l.map (fun a => (st.es.events a).propensity)).sum := by
    rw [List.map_reverse, List.sum_reverse]
  simp only [List.length_map, List.length_reverse, zero_add] at w1 r1 r2
  rw [hrev] at r1 r2
  have hd : 0 ≤ 1 - δ := by linarith
  have hP0 : 0 ≤ st.propensity (app.i2site i) := by
    rw [hsum]
    exact le_trans (mul_nonneg (pow_nonneg hd _) hS) r1
  have hthr : fmul uniform (st.propensity (app.i2site i)) ≤
      (l.map (fun a => (st.es.events a).propensity)).foldl fadd 0 := by
    refine le_trans (hmul _ _ hu0 hP0) (le_trans ?_ w1)
    have h1 : uniform * st.propensity (app.i2site i) ≤
        uniform * ((1 + δ) ^ l.length *
          (l.map (fun a => (st.es.events a).propensity)).sum) := by
      rw [hsum]
      exact mul_le_mul_of_nonneg_left r2 hu0
    have h2 : uniform * (1 + δ) ^ (l.length + 1) *
        (l.map (fun a => (st.es.events a).propensity)).sum ≤
        (1 - δ) ^ l.length * (l.map (fun a => (st.es.events a).propensity)).sum :=
      mul_le_mul_of_nonneg_right hu hS
    have h3 : (1 + δ) * (uniform * st.propensity (app.i2site i)) ≤
        (1 + δ) * (uniform * ((1 + δ) ^ l.length *
          (l.map (fun a => (st.es.events a).propensity)).sum)) :=
      mul_le_mul_of_nonneg_left h1 (by linarith)
    refine le_trans h3 (le_trans (le_of_eq ?_) h2)
    rw [pow_succ]
    ring
  obtain ⟨n, hn, h1, h2, h3⟩ := event_walk_rounded_returns fadd st.es.events _ (-1) l
    (st.es.firstevent i) 0 fuel hne hchain hthr hfuel
  exact ⟨n, hn, h1, h2, h3⟩

/-! ## The event walk in `double` arithmetic -/

theorem select_event_rounded_exact (app : App) (fuel : Nat) (st : State) (i : Int)
    (uniform : ℚ) :
    select_event_rounded (fun a b => a + b) (fun a b => a * b) app fuel st i uniform =
      select_event app fuel st i uniform := by
  unfold select_event_rounded select_event
  exact event_walk_rounded_exact _ _ _ _ _

theorem foldl_add_sum : ∀ (ps : List ℚ) (acc : ℚ),
    ps.foldl (fun a b => a + b) acc = acc + ps.sum
  | [], acc => by simp
  | p :: ps, acc => by
    rw [List.foldl_cons, foldl_add_sum ps, List.sum_cons]
    ring

/-- With exact additions the sum in insertion order is the sum of the list. -/
theorem insertionSum_exact (events : Int → Event) (l : List Int) :
    insertionSum (fun a b => a + b) events l =
      (l.map (fun a => (events a).propensity)).sum := by
  unfold insertionSum
  rw [foldl_add_sum, List.map_reverse, List.sum_reverse, zero_add]

theorem stRound_chain :
    Chain (nextOf stRound.es) (stRound.es.firstevent 0) [3, 2, 1, 0] (-1) :=
  ⟨by decide!, by decide!, by decide!, by decide!, (by decide! : nextOf stRound.es 0 = -1)⟩

theorem stRound_sum :
    stRound.propensity (appRound.i2site 0) =
      insertionSum dadd stRound.es.events [3, 2, 1, 0] := by
  decide!

theorem pulse_update_rounded_plus (app : App) (st : State) (time : ℚ) :
    pulse_update_rounded (fun a b => a + b) app st time = pulse_update app st time := by
  unfold pulse_update_rounded pulse_update
  simp only [add_assoc]

theorem pulse_wraps_rounded_exact (fadd : ℚ → ℚ → ℚ) (app : App) (st : State) (time : ℚ)
    (hex : PulseSumsExact fadd app st.cycle) :
    pulse_wraps_rounded fadd app st time ↔ pulse_wraps app st time := by
  obtain ⟨e1, e2, e3, e4⟩ := hex
  unfold pulse_wraps_rounded pulse_wraps
  rw [e1, e2, e3, e4]

theorem pulse_update_rounded_exact (fadd : ℚ → ℚ → ℚ) (app : App) (st : State) (time : ℚ)
    (hex : PulseSumsExact fadd app st.cycle) (hper : PeriodExact fadd app st.cycle) :
    pulse_update_rounded fadd app st time = pulse_update app st time := by
  obtain ⟨e1, e2, e3, e4⟩ := hex
  obtain ⟨p1, p2, p3, p4⟩ := hper
  unfold pulse_update_rounded pulse_update
  rw [e1, e2, e3, e4, p1, p2, p3, p4]

theorem pulse_update_rounded_inside (fadd : ℚ → ℚ → ℚ) (app : App) (st : State) (time : ℚ)
    (hex : PulseSumsExact fadd app st.cycle) (hnw : ¬ pulse_wraps app st time) :
    pulse_update_rounded fadd app st time = pulse_update app st time := by
  obtain ⟨e1, e2, e3, e4⟩ := hex
  unfold pulse_wraps at hnw
  unfold pulse_update_rounded pulse_update
  rw [e1, e2, e3, e4]
  split_ifs with a b c d
  · rfl
  · rfl
  · rfl
  · rfl
  · exact absurd ⟨a, b, c, d⟩ hnw

/-- With exact boundary sums at the cycle start and at the next one, a settling that
advances the cycle once is the same in rounded and in exact arithmetic. -/
theorem pulse_settle_rounded_once (fadd : ℚ → ℚ → ℚ) (app : App) (st s : State) (time : ℚ)
    (f : Nat) (hex0 : PulseSumsExact fadd app st.cycle) (hper : PeriodExact fadd app st.cycle)
    (hex1 : PulseSumsExact fadd app (st.cycle + (app.T1 + app.T2 + app.T3 + app.T4)))
    (h : pulse_settle app 2 st time = some (s, 1)) :
    pulse_settle_rounded fadd app (f + 2) st time = some (s, 1) := by
  have hw : pulse_wraps app st time := by
    by_contra hnw
    simp [pulse_settle, hnw] at h
  have hu : pulse_update app st time =
      { st with cycle := st.cycle + (app.T1 + app.T2 + app.T3 + app.T4) } := by
    have hw2 := hw
    unfold pulse_wraps at hw2
    unfold pulse_update
    rw [if_neg hw2.1, if_neg hw2.2.1, if_neg hw2.2.2.1, if_neg hw2.2.2.2]
  have hnw : ¬ pulse_wraps app (pulse_update app st time) time := by
    intro hw1
    simp [pulse_settle, hw, hw1] at h
  have hs : s = pulse_update app (pulse_update app st time) time := by
    simp [pulse_settle, hw, hnw] at h
    exact h.symm
  have hc : (pulse_update app st time).cycle =
      st.cycle + (app.T1 + app.T2 + app.T3 + app.T4) := by
    rw [hu]
  have hur : pulse_update_rounded fadd app st time = pulse_update app st time :=
    pulse_update_rounded_exact fadd app st time hex0 hper
  have hwr : pulse_wraps_rounded fadd app st time :=
    (pulse_wraps_rounded_exact fadd app st time hex0).2 hw
  have hex1b : PulseSumsExact fadd app (pulse_update app st time).cycle := by
    rw [hc]
    exact hex1
  have hnwr : ¬ pulse_wraps_rounded fadd app (pulse_update app st time) time :=
    fun hh => hnw ((pulse_wraps_rounded_exact fadd app _ time hex1b).1 hh)
  show pulse_settle_rounded fadd app (f + 1 + 1) st time = some (s, 1)
  simp only [pulse_settle_rounded]
  rw [if_pos hwr, hur, if_neg hnwr,
    pulse_update_rounded_inside fadd app _ time hex1b hnw, hs]
  rfl

end AppAldTMA
